import Mathlib

/-!
DFIR-Orc: the FileFind rule engine (`src/OrcLib/FileFind.cpp`)

A shallow embedding of the search-term bookkeeping and of the per-record term
evaluation of `Orc::FileFind`, followed by the properties proved about it.

Conventions of the embedding

* `std::wstring` / `WCHAR*` are lists of characters (`WString`).
* `SearchTerm::Criteria` is a bit mask; it is a natural number here and the C++
  operators `&` and `|` are `&&&` and `|||`; `r & ~x` is `Criteria.clear r x`.  A mask used as a
  C++ condition (`if (Required & X)`) is `Criteria.test Required X`.
* `std::shared_ptr<SearchTerm>` is a value.  The containers of `FileFind` hold
  shared pointers, so what they show of a term is the term as `AddTerm` left it;
  the embedding therefore stores the term as it is when `AddTerm` returns.
* Windows and library primitives (`PathMatchSpec`, `std::regex_match` on a user
  supplied expression, the walker's in-location and full-name callables, stream
  reads, hashing, Yara) are fields of an environment record `Env`.
-/

namespace Orc

/-- `std::wstring`: a sequence of wide characters. -/
abbrev WString := List Char

/-- `HRESULT`. -/
abbrev HRESULT := Int

def S_OK : HRESULT := 0
def S_FALSE : HRESULT := 1
def E_INVALIDARG : HRESULT := -2147024809

/-- `FAILED(hr)`. -/
def FAILED (hr : HRESULT) : Bool := decide (hr < 0)

/-! ## `SearchTerm::Criteria` -/

namespace Criteria

/-- Modelled from the spec: the enumerators of `SearchTerm::Criteria` are declared
in `FileFind.h`, which is not part of the sources at hand.  The code uses every
enumerator as a flag of its own (`Required & X`, `Required |= X`,
`Required & ~X`), so each one is a single bit; `flag k` is `1 << k`. -/
def flag (k : Nat) : Nat := 1 <<< k

abbrev NONE : Nat := 0
abbrev NAME : Nat := flag 0
abbrev NAME_EXACT : Nat := flag 1
abbrev NAME_MATCH : Nat := flag 2
abbrev NAME_REGEX : Nat := flag 3
abbrev PATH_EXACT : Nat := flag 4
abbrev PATH_MATCH : Nat := flag 5
abbrev PATH_REGEX : Nat := flag 6
abbrev ADS : Nat := flag 7
abbrev ADS_EXACT : Nat := flag 8
abbrev ADS_MATCH : Nat := flag 9
abbrev ADS_REGEX : Nat := flag 10
abbrev EA : Nat := flag 11
abbrev EA_EXACT : Nat := flag 12
abbrev EA_MATCH : Nat := flag 13
abbrev EA_REGEX : Nat := flag 14
abbrev ATTR_TYPE : Nat := flag 15
abbrev ATTR_NAME_EXACT : Nat := flag 16
abbrev ATTR_NAME_MATCH : Nat := flag 17
abbrev ATTR_NAME_REGEX : Nat := flag 18
abbrev SIZE_EQ : Nat := flag 19
abbrev SIZE_GT : Nat := flag 20
abbrev SIZE_GE : Nat := flag 21
abbrev SIZE_LT : Nat := flag 22
abbrev SIZE_LE : Nat := flag 23
abbrev DATA_MD5 : Nat := flag 24
abbrev DATA_SHA1 : Nat := flag 25
abbrev DATA_SHA256 : Nat := flag 26
abbrev HEADER : Nat := flag 27
abbrev HEADER_REGEX : Nat := flag 28
abbrev HEADER_HEX : Nat := flag 29
abbrev CONTAINS : Nat := flag 30
abbrev YARA : Nat := flag 31

/-- A mask used as a C++ condition: `if (r & x)`. -/
def test (r x : Nat) : Bool := (r &&& x) != 0

/-- `r & ~x`. -/
def clear (r x : Nat) : Nat := r ^^^ (r &&& x)

end Criteria

/-! ## The name classifiers -/

/-- A `std::wregex` that is an alternation of escaped literal characters, such
as `\*|\?`. -/
structure LiteralAlternation where
  alts : List Char

/-- `std::regex_search(s, m, p)` for an alternation of literal characters: some
position of `s` carries one of the alternatives. -/
def regex_search (s : WString) (p : LiteralAlternation) : Bool :=
  s.any (fun c => p.alts.contains c)

/-- `FileFind::DOSPattern()`: `\*|\?`. -/
def DOSPattern : LiteralAlternation := ⟨['*', '?']⟩

/-- `FileFind::RegexPattern()`: `\*|\?|\:|\+|\{|\}|\[|\]|\(|\)`. -/
def RegexPattern : LiteralAlternation :=
  ⟨['*', '?', ':', '+', '\x7b', '\x7d', '[', ']', '(', ')']⟩

/-- `FileFind::RegexOnlyPattern()`: `\:|\+|\{|\}|\[|\]|\(|\)`. -/
def RegexOnlyPattern : LiteralAlternation :=
  ⟨[':', '+', '\x7b', '\x7d', '[', ']', '(', ')']⟩

/-- `FileFind::DiscriminateName`. -/
def DiscriminateName (strName : WString) : Nat :=
  if strName.isEmpty then Criteria.NONE
  else if regex_search strName RegexOnlyPattern then Criteria.NAME_REGEX
  else if regex_search strName DOSPattern then Criteria.NAME_MATCH
  else if regex_search strName RegexPattern then Criteria.NAME_REGEX
  else Criteria.NAME_EXACT

/-- `FileFind::DiscriminateADS`. -/
def DiscriminateADS (strADS : WString) : Nat :=
  if strADS.isEmpty then Criteria.NONE
  else if regex_search strADS RegexOnlyPattern then Criteria.ADS_REGEX
  else if regex_search strADS DOSPattern then Criteria.ADS_MATCH
  else if regex_search strADS RegexPattern then Criteria.ADS_REGEX
  else Criteria.ADS_EXACT

/-- `FileFind::DiscriminateEA`. -/
def DiscriminateEA (strEA : WString) : Nat :=
  if strEA.isEmpty then Criteria.NONE
  else if regex_search strEA RegexOnlyPattern then Criteria.EA_REGEX
  else if regex_search strEA DOSPattern then Criteria.EA_MATCH
  else if regex_search strEA RegexPattern then Criteria.EA_REGEX
  else Criteria.EA_EXACT

/-- The characters the specification lists as turning a free-form name into a
regular expression: `: + { } [ ] ( )`. -/
def regexChars : List Char := [':', '+', '\x7b', '\x7d', '[', ']', '(', ')']

/-- The glob characters `*` and `?`. -/
def globChars : List Char := ['*', '?']

/-- `s` contains one of the characters of `cs`. -/
def containsAnyOf (s : WString) (cs : List Char) : Prop := ∃ c, c ∈ s ∧ c ∈ cs

instance (s : WString) (cs : List Char) : Decidable (containsAnyOf s cs) :=
  decidable_of_iff (∃ c ∈ s, c ∈ cs) (by simp [containsAnyOf])

/-! ## Search terms -/

/-- `std::wregex` built from a user supplied expression: the expression and the
`icase` flag it was compiled with.  A default constructed object has an empty
expression. -/
structure wregex where
  pattern : WString := []
  icase : Bool := false
deriving DecidableEq, Repr

/-- `FileFind::SearchTerm` (the data members the engine reads and writes). -/
structure SearchTerm where
  Required : Nat := Criteria.NONE
  Name : WString := []
  FileName : WString := []
  FileNameRegEx : wregex := {}
  Path : WString := []
  PathRegEx : wregex := {}
  ADSName : WString := []
  ADSNameRegEx : wregex := {}
  EAName : WString := []
  EANameRegEx : wregex := {}
  AttrName : WString := []
  AttrNameRegEx : wregex := {}
  dwAttrType : Nat := 0
  SizeEQ : Nat := 0
  SizeG : Nat := 0
  SizeL : Nat := 0
  MD5 : List Nat := []
  SHA1 : List Nat := []
  SHA256 : List Nat := []
  Contains : List Nat := []
  bContainsIsHex : Bool := false
  Header : List Nat := []
  HeaderLen : Nat := 0
  HeaderRegEx : wregex := {}
  strHeaderRegEx : WString := []
  YaraRulesSpec : WString := []
  YaraRules : List WString := []
deriving DecidableEq, Repr

namespace SearchTerm
open Criteria

/-- Modelled from the spec: `SearchTerm::NameMask()` is declared in `FileFind.h`
(absent); the name group of the criteria table: exact, glob, regex. -/
def NameMask : Nat := NAME_EXACT ||| NAME_MATCH ||| NAME_REGEX

/-- Modelled from the spec: `SearchTerm::PathMask()` (declared in `FileFind.h`,
absent); the path group: exact, glob, regex. -/
def PathMask : Nat := PATH_EXACT ||| PATH_MATCH ||| PATH_REGEX

/-- Modelled from the spec: `SearchTerm::DataNameOrSizeMask()` (declared in
`FileFind.h`, absent); the data-attribute name and size predicates, which are
the criteria `AddMatchingDataNameAndSize` evaluates. -/
def DataNameOrSizeMask : Nat :=
  ADS_EXACT ||| ADS_MATCH ||| ADS_REGEX |||
    SIZE_EQ ||| SIZE_GT ||| SIZE_GE ||| SIZE_LT ||| SIZE_LE

/-- Modelled from the spec: `SearchTerm::AttributeMask()` (declared in
`FileFind.h`, absent); the attribute-type, attribute-name and EA predicates,
which are the criteria `MatchAttributes` evaluates. -/
def AttributeMask : Nat :=
  EA_EXACT ||| EA_MATCH ||| EA_REGEX |||
    ATTR_NAME_EXACT ||| ATTR_NAME_MATCH ||| ATTR_NAME_REGEX ||| ATTR_TYPE

/-- Modelled from the spec: `SearchTerm::DataMask()` (declared in `FileFind.h`,
absent); the data content predicates: hashes, substring, header, scan rules. -/
def DataMask : Nat :=
  DATA_MD5 ||| DATA_SHA1 ||| DATA_SHA256 |||
    HEADER ||| HEADER_REGEX ||| HEADER_HEX ||| CONTAINS ||| YARA

/-- Modelled from the spec: `SearchTerm::DependsOnName()` (declared in
`FileFind.h`, absent): some name criterion is required. -/
def DependsOnName (t : SearchTerm) : Bool := test t.Required NameMask

/-- Modelled from the spec: `SearchTerm::DependsOnPath()` (`FileFind.h`, absent). -/
def DependsOnPath (t : SearchTerm) : Bool := test t.Required PathMask

/-- Modelled from the spec: `SearchTerm::DependsOnDataNameOrSize()`
(`FileFind.h`, absent). -/
def DependsOnDataNameOrSize (t : SearchTerm) : Bool := test t.Required DataNameOrSizeMask

/-- Modelled from the spec: `SearchTerm::DependsOnAttribute()` (`FileFind.h`,
absent). -/
def DependsOnAttribute (t : SearchTerm) : Bool := test t.Required AttributeMask

/-- Modelled from the spec: `SearchTerm::DependsOnData()` (`FileFind.h`, absent). -/
def DependsOnData (t : SearchTerm) : Bool := test t.Required DataMask

/-- Modelled from the spec: `SearchTerm::DependsOnlyOnNameOrPath()` (declared in
`FileFind.h`, absent): "terms that depend only on name or path", that is, the
term depends on a name or a path and on no other group. -/
def DependsOnlyOnNameOrPath (t : SearchTerm) : Bool :=
  (t.DependsOnName || t.DependsOnPath) &&
    !(t.DependsOnDataNameOrSize || t.DependsOnAttribute || t.DependsOnData)

/-- `SearchTerm::IsValidTerm` (the flag of the returned pair). -/
def IsValidTerm (t : SearchTerm) : Bool :=
  if test t.Required SIZE_EQ
      && (test t.Required SIZE_LE || test t.Required SIZE_LT || test t.Required SIZE_GE
          || test t.Required SIZE_GT) then
    false
  else if test t.Required SIZE_GE && test t.Required SIZE_GT then
    false
  else if test t.Required SIZE_LE && test t.Required SIZE_LT then
    false
  else
    true

end SearchTerm

/-! ## Splitting a free-form name: `FileSpecPattern` -/

/-- What `.` of an ECMAScript `std::wregex` does not match: the line
terminators. -/
def isLineTerminator (c : Char) : Bool :=
  c == '\n' || c == '\r' || c == Char.ofNat 0x2028 || c == Char.ofNat 0x2029

/-- The class `[^:#]`. -/
def notSpecSeparator (c : Char) : Bool := c != ':' && c != '#'

/-- The sub-matches `m1[FILESPEC_FILENAME_INDEX]` (1), `m1[FILESPEC_SPEC_INDEX]`
(3) and `m1[FILESPEC_SUBNAME_INDEX]` (4) of a `std::wsmatch`; `none` is a
sub-match whose `matched` is false, `some s` one whose `str()` is `s`. -/
structure FileSpecMatch where
  filename : Option WString
  spec : Option WString
  subname : Option WString
deriving DecidableEq, Repr

/-- `std::regex_match(name, m1, FileSpecPattern())` for the expression
`([^:#]*)((#|:)(.*))?`.  The whole of `name` has to match.  Group 1 can only
stop where the name ends or at the first `:` or `#`, since it cannot step over
one and group 2 has to start with one.  When the name ends there, group 2 takes
no part.  Otherwise group 3 is that separator and group 4 is the rest, which
`.*` matches only if it holds no line terminator; if it holds one, nothing
matches and every sub-match is unmatched. -/
def FileSpecPattern_match (name : WString) : FileSpecMatch :=
  match name.dropWhile notSpecSeparator with
  | [] => ⟨some (name.takeWhile notSpecSeparator), none, none⟩
  | sep :: sub =>
    if sub.all (fun c => !isLineTerminator c) then
      ⟨some (name.takeWhile notSpecSeparator), some [sep], some sub⟩
    else ⟨none, none, none⟩

/-! ## Records, matches and the environment of an evaluation -/

/-- `$DATA`. -/
def ATTR_DATA : Nat := 0x80

/-- `$EA`. -/
def ATTR_EA : Nat := 0xE0

/-- `FILE_NAME`: the value of a `$FILE_NAME` attribute, as far as the engine
reads it.  `FileNameLength` is the length of `FileName`. -/
structure FILE_NAME where
  ParentDirectory : Nat := 0
  FileName : WString := []
deriving DecidableEq, Repr

/-- `MftRecordAttribute` / `DataAttribute`: one attribute of a record with what
the volume reader gives for it.  `DataSize` is `none` when
`DataSize(m_pVolReader, ...)` fails, `Stream` is `none` when `GetDataStream`
returns a null pointer and else the bytes of the stream, `EAItems` is `none`
when `ExtendedAttribute::Parse` fails, `Hashes` is `none` when
`GetHashInformation` fails and else the MD5, SHA-1 and SHA-256 of the
attribute, `StreamsOk` says whether `GetStreams` succeeds. -/
structure MftRecordAttribute where
  TypeCode : Nat := 0x80
  Instance : Nat := 0
  Name : WString := []
  HasHeader : Bool := true
  DataSize : Option Nat := some 0
  Stream : Option (List Nat) := some []
  EAItems : Option (List (WString × List Nat)) := some []
  Hashes : Option (List Nat × List Nat × List Nat) := some ([], [], [])
  StreamsOk : Bool := true
deriving DecidableEq, Repr

/-- `MFTRecord`, as far as the engine reads it.  An entry of `AttributeList`
is `none` when `Attribute()` of the entry is a null pointer. -/
structure MFTRecord where
  FileReferenceNumber : Nat := 0
  IsRecordInUse : Bool := true
  FileNames : List FILE_NAME := []
  DefaultFileName : Option FILE_NAME := none
  DataAttributes : List MftRecordAttribute := []
  AttributeList : List (Option MftRecordAttribute) := []
  HasNamedDataAttr : Bool := false
  HasExtendedAttr : Bool := false
  HasStandardInformation : Bool := true
deriving DecidableEq, Repr

/-- `FileFind::Match::NameMatch`. -/
structure NameMatch where
  FILENAME : FILE_NAME
  FullPathName : WString := []
deriving DecidableEq, Repr

/-- `FileFind::Match::AttributeMatch`.  `DataAttr` is what `DataAttr.lock()`
gives: the data attribute, or `none` for an attribute that is not a data
attribute or is gone. -/
structure AttributeMatch where
  /-- the member `Type` -/
  AttrType : Nat
  InstanceID : Nat
  AttrName : WString
  DataSize : Nat := 0
  YaraRules : Option (List WString) := none
  DataAttr : Option MftRecordAttribute := none
deriving DecidableEq, Repr

/-- `FileFind::Match`. -/
structure Match where
  Term : SearchTerm
  FRN : Nat := 0
  DeletedRecord : Bool := false
  MatchingNames : List NameMatch := []
  MatchingAttributes : List AttributeMatch := []
  HasStandardInformation : Bool := false
deriving DecidableEq, Repr

/-- What an evaluation reads besides the term and the record: the callables
that `Find` takes from the walker, the stream option of the engine, and the
Windows and library primitives. -/
structure Env where
  /-- `m_InLocationBuilder` -/
  m_InLocationBuilder : FILE_NAME → Bool
  /-- `m_FullNameBuilder`: `none` for an empty callable, a null result is
  `none` -/
  m_FullNameBuilder : Option (FILE_NAME → Option WString)
  /-- `m_bProvideStream` -/
  m_bProvideStream : Bool
  /-- `m_MatchHash` is not `Undefined` -/
  m_MatchHashDefined : Bool
  /-- `PathMatchSpec(pszFile, pszSpec)` -/
  PathMatchSpec : WString → WString → Bool
  /-- `std::regex_match` of a whole wide string against a compiled expression -/
  regex_match : wregex → WString → Bool
  /-- `std::regex_match` of a byte buffer against `HeaderRegEx` -/
  regex_match_bytes : wregex → List Nat → Bool
  /-- `m_YaraScan` is set -/
  hasYaraScan : Bool
  /-- `m_YaraScan->Scan(stream)`: `none` when it fails, else the matching rules -/
  YaraScan : List Nat → Option (List WString)
  /-- `PathMatchSpecA(rule, spec)` -/
  PathMatchSpecA : WString → WString → Bool

/-- `towlower` in the "C" locale: the letters `A` to `Z` are folded. -/
def towlower (c : Char) : Char :=
  if 'A' ≤ c ∧ c ≤ 'Z' then Char.ofNat (c.toNat + 32) else c

/-- `_wcsicmp(a, b) == 0`, `_wcsnicmp(a, b, n) == 0` for strings of length `n`
and `Orc::equalCaseInsensitive(a, b)`, on strings without an embedded
terminator. -/
def equalCaseInsensitive (a b : WString) : Bool :=
  a.map towlower == b.map towlower

namespace Match

/-- The constructor `Match(volReader, term, frn, deleted)`. -/
def make (aTerm : SearchTerm) (frn : Nat) (deleted : Bool) : Match :=
  { Term := aTerm, FRN := frn, DeletedRecord := deleted }

/-- Modelled from the spec: `Match::AddFileNameMatch` is defined in
`FileFind.h` (absent); the match gains the `(file_name, full_path)` pair. -/
def AddFileNameMatch (m : Match) (n : NameMatch) : Match :=
  { m with MatchingNames := m.MatchingNames ++ [n] }

/-- The test by which both `AddAttributeMatch` overloads find an attribute
already in `MatchingAttributes`: same type, instance and name. -/
def sameAttribute (a : AttributeMatch) (pAttribute : MftRecordAttribute) : Bool :=
  a.AttrType == pAttribute.TypeCode && a.InstanceID == pAttribute.Instance
    && a.AttrName.length == pAttribute.Name.length && a.AttrName == pAttribute.Name

/-- The update both overloads make to an attribute already in the list: the
matched rules are appended to, or become, its `YaraRules`. -/
def mergeRules (a : AttributeMatch) (matchedRules : Option (List WString)) : AttributeMatch :=
  match matchedRules with
  | none => a
  | some rs =>
    match a.YaraRules with
    | some old => { a with YaraRules := some (old ++ rs) }
    | none => { a with YaraRules := some rs }

/-- The loop both overloads start with: the first attribute of the list that is
the same attribute gets the rules; `none` when there is no such attribute. -/
def mergeIntoExisting (l : List AttributeMatch) (pAttribute : MftRecordAttribute)
    (matchedRules : Option (List WString)) : Option (List AttributeMatch) :=
  match l with
  | [] => none
  | a :: rest =>
    if sameAttribute a pAttribute then some (mergeRules a matchedRules :: rest)
    else (mergeIntoExisting rest pAttribute matchedRules).map (fun r => a :: r)

/-- The constructor `AttributeMatch(pAttr)`; the weak pointer `DataAttr` is
set by a dynamic cast, which succeeds for `$DATA` attributes. -/
def attributeMatchOf (pAttr : MftRecordAttribute) : AttributeMatch :=
  { AttrType := pAttr.TypeCode, InstanceID := pAttr.Instance, AttrName := pAttr.Name,
    DataSize := 0,
    DataAttr := if pAttr.TypeCode == ATTR_DATA then some pAttr else none }

/-- `Match::AddAttributeMatch(pLog, pVolReader, pAttribute, matchedRules)`, the
overload used when streams are provided. -/
def AddAttributeMatchWithStreams (m : Match) (pAttribute : MftRecordAttribute)
    (matchedRules : Option (List WString)) : Match :=
  match mergeIntoExisting m.MatchingAttributes pAttribute matchedRules with
  | some l => { m with MatchingAttributes := l }
  | none =>
    if !pAttribute.StreamsOk then m
    else
      let aMatch := attributeMatchOf pAttribute
      let aMatch := { aMatch with DataSize := pAttribute.DataSize.getD aMatch.DataSize,
                                  YaraRules := matchedRules }
      { m with MatchingAttributes := m.MatchingAttributes ++ [aMatch] }

/-- `Match::AddAttributeMatch(pAttribute, matchedRules)`. -/
def AddAttributeMatch (m : Match) (pAttribute : MftRecordAttribute)
    (matchedRules : Option (List WString)) : Match :=
  match mergeIntoExisting m.MatchingAttributes pAttribute matchedRules with
  | some l => { m with MatchingAttributes := l }
  | none =>
    let aMatch := { attributeMatchOf pAttribute with YaraRules := matchedRules }
    { m with MatchingAttributes := m.MatchingAttributes ++ [aMatch] }

end Match

/-! ## The term containers of `FileFind` -/

/-- Modelled from the spec: `TermMapOfNames` / `TermMapOfSizes` are declared in
`FileFind.h` (absent); the spec calls them multimaps.  A multimap is the list of
its `(key, term)` entries in insertion order. -/
abbrev TermMap (κ : Type) := List (κ × SearchTerm)

/-- `multimap::emplace(key, term)`. -/
def TermMap.emplace {κ : Type} (m : TermMap κ) (k : κ) (t : SearchTerm) : TermMap κ :=
  m ++ [(k, t)]

/-- `multimap::equal_range(key)`: the terms stored under a key equivalent to
`k`, where `keyEq` is the key equivalence of the container. -/
def TermMap.equal_range {κ : Type} (keyEq : κ → κ → Bool) (m : TermMap κ) (k : κ) :
    List SearchTerm :=
  (m.filter (fun e => keyEq e.1 k)).map Prod.snd

/-- The term containers of `FileFind`. -/
structure FileFind where
  m_AllTerms : List SearchTerm := []
  m_ExactNameTerms : TermMap WString := []
  m_ExactPathTerms : TermMap WString := []
  m_SizeTerms : TermMap Nat := []
  m_Terms : List SearchTerm := []
  m_I30ExactNameTerms : TermMap WString := []
  m_I30ExactPathTerms : TermMap WString := []
  m_I30Terms : List SearchTerm := []
  m_ExcludeNameTerms : TermMap WString := []
  m_ExcludePathTerms : TermMap WString := []
  m_ExcludeSizeTerms : TermMap Nat := []
  m_ExcludeTerms : List SearchTerm := []
  m_Matches : List Match := []
deriving DecidableEq, Repr

/-- Where `AddTerm` / `AddExcludeTerm` puts a term: one of the four containers,
with the key it is filed under. -/
inductive Slot where
  | exactName (key : WString)
  | exactPath (key : WString)
  | size (key : Nat)
  | general
deriving DecidableEq, Repr

/-- Where `AddTerm` puts a term for the `$I30` search, if anywhere. -/
inductive I30Slot where
  | none
  | exactName (key : WString)
  | exactPath (key : WString)
  | general
deriving DecidableEq, Repr

namespace FileFind
open Criteria

/-- The first rejection test of `AddTerm`: the free-form `NAME` together with a
specific name, path, EA or ADS criterion. -/
def nameWithSpecific (r : Nat) : Bool :=
  test r NAME
    && (test r NAME_EXACT || test r NAME_MATCH || test r NAME_REGEX
        || test r PATH_EXACT || test r PATH_MATCH || test r PATH_REGEX
        || test r EA_EXACT || test r EA_MATCH || test r EA_REGEX
        || test r ADS_EXACT || test r ADS_MATCH || test r ADS_REGEX)

/-- The second rejection test of `AddTerm`: an EA name together with an ADS
name. -/
def eaWithAds (r : Nat) : Bool :=
  (test r EA_EXACT || test r EA_MATCH || test r EA_REGEX)
    && (test r ADS_EXACT || test r ADS_MATCH || test r ADS_REGEX)

/-- The third rejection test of `AddTerm`: `attr_*` together with an EA or ADS
name. -/
def attrWithEaOrAds (r : Nat) : Bool :=
  (test r ATTR_NAME_EXACT || test r ATTR_NAME_MATCH || test r ATTR_NAME_REGEX
      || test r ATTR_TYPE)
    && (test r ADS_EXACT || test r ADS_MATCH || test r ADS_REGEX
        || test r EA_EXACT || test r EA_MATCH || test r EA_REGEX)

/-- The `m_ExactNameTerms` / `m_SizeTerms` / `m_Terms` choice that `AddTerm`
makes in the free-form branch once the file name part is classified. -/
def nameSlot (namespec : Nat) (t : SearchTerm) : Slot :=
  if test namespec NAME_EXACT then Slot.exactName t.FileName
  else if test t.Required SIZE_EQ then Slot.size t.SizeEQ
  else Slot.general

/-- The `$I30` choice of the free-form branch (`DependsOnlyOnNameOrPath` is
asked of the term as it is at that point). -/
def nameI30Slot (namespec : Nat) (t : SearchTerm) : I30Slot :=
  if t.DependsOnlyOnNameOrPath then
    if test namespec NAME_EXACT then I30Slot.exactName t.FileName else I30Slot.general
  else I30Slot.none

/-- The container choice of the branch for specific criteria. -/
def specificSlot (t : SearchTerm) : Slot :=
  if test t.Required NAME_EXACT then Slot.exactName t.FileName
  else if test t.Required PATH_EXACT then Slot.exactPath t.Path
  else if test t.Required SIZE_EQ then Slot.size t.SizeEQ
  else Slot.general

/-- The `$I30` choice of the branch for specific criteria. -/
def specificI30Slot (t : SearchTerm) : I30Slot :=
  if test t.Required NAME_EXACT then
    if t.DependsOnlyOnNameOrPath then I30Slot.exactName t.FileName else I30Slot.none
  else if test t.Required PATH_EXACT then
    if t.DependsOnlyOnNameOrPath then I30Slot.exactPath t.Path else I30Slot.none
  else if test t.Required SIZE_EQ then I30Slot.none
  else if t.DependsOnlyOnNameOrPath then I30Slot.general else I30Slot.none

/-- The writes of one `AddTerm` call: `m_AllTerms.push_back`, the inclusion
container and the `$I30` container.  `t` is the term as the call leaves it. -/
def store (ff : FileFind) (s : Slot) (i : I30Slot) (t : SearchTerm) : FileFind :=
  let ff := { ff with m_AllTerms := ff.m_AllTerms ++ [t] }
  let ff :=
    match s with
    | .exactName k => { ff with m_ExactNameTerms := ff.m_ExactNameTerms.emplace k t }
    | .exactPath k => { ff with m_ExactPathTerms := ff.m_ExactPathTerms.emplace k t }
    | .size k => { ff with m_SizeTerms := ff.m_SizeTerms.emplace k t }
    | .general => { ff with m_Terms := ff.m_Terms ++ [t] }
  match i with
  | .none => ff
  | .exactName k => { ff with m_I30ExactNameTerms := ff.m_I30ExactNameTerms.emplace k t }
  | .exactPath k => { ff with m_I30ExactPathTerms := ff.m_I30ExactPathTerms.emplace k t }
  | .general => { ff with m_I30Terms := ff.m_I30Terms ++ [t] }

/-- The writes of one `AddExcludeTerm` call. -/
def storeExclude (ff : FileFind) (s : Slot) (t : SearchTerm) : FileFind :=
  let ff := { ff with m_AllTerms := ff.m_AllTerms ++ [t] }
  match s with
  | .exactName k => { ff with m_ExcludeNameTerms := ff.m_ExcludeNameTerms.emplace k t }
  | .exactPath k => { ff with m_ExcludePathTerms := ff.m_ExcludePathTerms.emplace k t }
  | .size k => { ff with m_ExcludeSizeTerms := ff.m_ExcludeSizeTerms.emplace k t }
  | .general => { ff with m_ExcludeTerms := ff.m_ExcludeTerms ++ [t] }

/-- What `AddTerm` and `AddExcludeTerm` compute before they touch a container:
the result code, the term as the call leaves it, and where it is filed (`none`
when the call returns before `m_AllTerms.push_back`). -/
structure Placement where
  hr : HRESULT
  term : SearchTerm
  slots : Option (Slot × I30Slot)
deriving DecidableEq, Repr

/-- The body of `AddTerm` up to the container writes. -/
def place (pMatch : SearchTerm) : Placement :=
  if pMatch.Required == NONE then ⟨E_INVALIDARG, pMatch, none⟩
  else if nameWithSpecific pMatch.Required then ⟨E_INVALIDARG, pMatch, none⟩
  else if eaWithAds pMatch.Required then ⟨E_INVALIDARG, pMatch, none⟩
  else if attrWithEaOrAds pMatch.Required then ⟨E_INVALIDARG, pMatch, none⟩
  else if test pMatch.Required NAME then
    -- We received a "generic name", doing something more specific
    let t1 := { pMatch with Required := clear pMatch.Required NAME }
    let m1 := FileSpecPattern_match t1.Name
    if m1.filename.isSome && !m1.subname.isSome then
      -- only a file name was passed, no "sub" name
      let strFileName := m1.filename.getD []
      let namespec := DiscriminateName strFileName
      let t2 := { t1 with Required := t1.Required ||| namespec, FileName := strFileName }
      ⟨S_OK, t2, some (nameSlot namespec t2, nameI30Slot namespec t2)⟩
    else
      -- we have both a file name and a sub name
      let (t2, s, i) :=
        match m1.filename with
        | some f =>
          let ta := { t1 with FileName := f }
          let namespec := DiscriminateName ta.FileName
          let tb := { ta with Required := ta.Required ||| namespec }
          (tb, nameSlot namespec tb, nameI30Slot namespec tb)
        | none =>
          (t1, (if test t1.Required SIZE_EQ then Slot.size t1.SizeEQ else Slot.general),
            I30Slot.none)
      match m1.spec, m1.subname with
      | some spec, some sub =>
        if spec == [':'] then
          let t3 := { t2 with ADSName := sub }
          ⟨S_OK, { t3 with Required := t3.Required ||| DiscriminateADS t3.ADSName }, some (s, i)⟩
        else if spec == ['#'] then
          let t3 := { t2 with EAName := sub }
          ⟨S_OK, { t3 with Required := t3.Required ||| DiscriminateEA t3.EAName }, some (s, i)⟩
        else ⟨E_INVALIDARG, t2, some (s, i)⟩
      | _, _ => ⟨S_OK, t2, some (s, i)⟩
  else
    -- specific name spec used, no need to split hair
    let t1 :=
      if test pMatch.Required ADS then
        let t := { pMatch with Required := clear pMatch.Required ADS }
        { t with Required := t.Required ||| DiscriminateADS t.ADSName }
      else pMatch
    let t2 :=
      if test t1.Required EA then
        let t := { t1 with Required := clear t1.Required EA }
        { t with Required := t.Required ||| DiscriminateEA t.EAName }
      else t1
    ⟨S_OK, t2, some (specificSlot t2, specificI30Slot t2)⟩

/-- `FileFind::AddTerm`: the result code, the containers after the call and the
term as the call leaves it. -/
def AddTerm (ff : FileFind) (pMatch : SearchTerm) : HRESULT × FileFind × SearchTerm :=
  let p := place pMatch
  match p.slots with
  | none => (p.hr, ff, p.term)
  | some (s, i) => (p.hr, store ff s i p.term, p.term)

/-- `FileFind::AddExcludeTerm`: the same tests and the same choice of container
as `AddTerm`, among the exclusion containers, and no `$I30` container. -/
def AddExcludeTerm (ff : FileFind) (pMatch : SearchTerm) : HRESULT × FileFind × SearchTerm :=
  let p := place pMatch
  match p.slots with
  | none => (p.hr, ff, p.term)
  | some (s, _) => (p.hr, storeExclude ff s p.term, p.term)

/-- A sequence of `AddTerm` calls, together with the accepted terms: the terms
of the calls that returned `S_OK`, each as its call left it, in call order. -/
def AddTermsAccepted (ff : FileFind) (terms : List SearchTerm) :
    FileFind × List SearchTerm :=
  terms.foldl
    (fun acc t =>
      let r := AddTerm acc.1 t
      (r.2.1, if r.1 = S_OK then acc.2 ++ [r.2.2] else acc.2))
    (ff, [])

/-- A sequence of `AddExcludeTerm` calls. -/
def AddExcludeTerms (ff : FileFind) (terms : List SearchTerm) : FileFind :=
  terms.foldl (fun acc t => (AddExcludeTerm acc t).2.1) ff

/-- A sequence of `AddTerm` calls. -/
def AddTerms (ff : FileFind) (terms : List SearchTerm) : FileFind :=
  (AddTermsAccepted ff terms).1

end FileFind

/-! ## Terms read from the configuration -/

/-- NTFS attribute type codes (`$STANDARD_INFORMATION` ... ); the published
values of the on-disk format. -/
def attributeTypeCodes : List (WString × Nat) :=
  [("$STANDARD_INFORMATION".toList, 0x10), ("$ATTRIBUTE_LIST".toList, 0x20),
   ("$FILE_NAME".toList, 0x30), ("$OBJECT_ID".toList, 0x40),
   ("$SECURITY_DESCRIPTOR".toList, 0x50), ("$VOLUME_NAME".toList, 0x60),
   ("$VOLUME_INFORMATION".toList, 0x70), ("$DATA".toList, 0x80),
   ("$INDEX_ROOT".toList, 0x90), ("$INDEX_ALLOCATION".toList, 0xA0),
   ("$BITMAP".toList, 0xB0), ("$REPARSE_POINT".toList, 0xC0),
   ("$EA_INFORMATION".toList, 0xD0), ("$EA".toList, 0xE0),
   ("$LOGGED_UTILITY_STREAM".toList, 0x100),
   ("$FIRST_USER_DEFINED_ATTRIBUTE".toList, 0x1000)]

/-- One `ntfs_find` node of the configuration: for each sub item, `none` when
the item is absent (`if (item[X])` is false) and `some s` when it is present
with text `s`. -/
structure ConfigItem where
  CONFIG_FILEFIND_NAME : Option WString := none
  CONFIG_FILEFIND_NAME_MATCH : Option WString := none
  CONFIG_FILEFIND_NAME_REGEX : Option WString := none
  CONFIG_FILEFIND_PATH : Option WString := none
  CONFIG_FILEFIND_PATH_MATCH : Option WString := none
  CONFIG_FILEFIND_PATH_REGEX : Option WString := none
  CONFIG_FILEFIND_EA : Option WString := none
  CONFIG_FILEFIND_EA_MATCH : Option WString := none
  CONFIG_FILEFIND_EA_REGEX : Option WString := none
  CONFIG_FILEFIND_ADS : Option WString := none
  CONFIG_FILEFIND_ADS_MATCH : Option WString := none
  CONFIG_FILEFIND_ADS_REGEX : Option WString := none
  CONFIG_FILEFIND_ATTR_NAME : Option WString := none
  CONFIG_FILEFIND_ATTR_MATCH : Option WString := none
  CONFIG_FILEFIND_ATTR_REGEX : Option WString := none
  CONFIG_FILEFIND_ATTR_TYPE : Option WString := none
  CONFIG_FILEFIND_SIZE : Option WString := none
  CONFIG_FILEFIND_SIZE_GT : Option WString := none
  CONFIG_FILEFIND_SIZE_GE : Option WString := none
  CONFIG_FILEFIND_SIZE_LT : Option WString := none
  CONFIG_FILEFIND_SIZE_LE : Option WString := none
  CONFIG_FILEFIND_MD5 : Option WString := none
  CONFIG_FILEFIND_SHA1 : Option WString := none
  CONFIG_FILEFIND_SHA256 : Option WString := none
  CONFIG_FILEFIND_CONTAINS : Option WString := none
  CONFIG_FILEFIND_CONTAINS_HEX : Option WString := none
  CONFIG_FILEFIND_HEADER : Option WString := none
  CONFIG_FILEFIND_HEADER_HEX : Option WString := none
  CONFIG_FILEFIND_HEADER_REGEX : Option WString := none
  CONFIG_FILEFIND_HEADER_LENGTH : Option WString := none
  CONFIG_FILEFIND_YARA_RULE : Option WString := none
deriving DecidableEq, Repr

/-- The text conversions `GetSearchTermFromConfig` calls; they live in files
that are not part of the sources at hand and are parameters here.  `none` is a
failed conversion (a thrown `Orc::Exception` or a failed `HRESULT`). -/
structure Conversions where
  /-- `(DWORD64) item` -/
  toDWORD64 : WString → Option Nat
  /-- `GetBytesFromHexaString` into a buffer of a given size -/
  GetBytesFromHexaStringN : WString → Nat → Option (List Nat)
  /-- `GetBytesFromHexaString` into a `CBinaryBuffer` -/
  GetBytesFromHexaString : WString → Option (List Nat)
  /-- `WideToAnsi` -/
  WideToAnsi : WString → Option (List Nat)
  /-- `GetIntegerFromArg`, the `LowPart` of the result -/
  GetIntegerFromArg : WString → Option Nat
  /-- `_wtoi` -/
  wtoi : WString → Nat
  /-- `YaraScanner::GetRulesSpec` -/
  GetRulesSpec : WString → List WString

def BYTES_IN_MD5_HASH : Nat := 16
def BYTES_IN_SHA1_HASH : Nat := 20
def BYTES_IN_SHA256_HASH : Nat := 32

/-- `CBinaryBuffer::SetCount(n)` on a buffer holding `b`. -/
def SetCount (b : List Nat) (n : Nat) : List Nat :=
  b.take n ++ List.replicate (n - b.length) 0

namespace FileFind
open Criteria

/-- The `CONFIG_FILEFIND_ATTR_TYPE` block of `GetSearchTermFromConfig`. -/
def attrTypeFromConfig (cv : Conversions) (fs : SearchTerm) (s : WString) : SearchTerm :=
  let fs := { fs with Required := fs.Required ||| ATTR_TYPE }
  match attributeTypeCodes.lookup s with
  | some code => { fs with dwAttrType := code }
  | none =>
    let fs := { fs with dwAttrType := cv.wtoi s }
    if fs.dwAttrType == 0 then { fs with Required := clear fs.Required ATTR_TYPE } else fs

/-- One `if (item[X]) { ... }` block: `f` is run on the text of a present
item. -/
def whenPresent (i : Option WString) (f : SearchTerm → WString → SearchTerm)
    (fs : SearchTerm) : SearchTerm :=
  match i with
  | some s => f fs s
  | none => fs

/-- `FileFind::GetSearchTermFromConfig`: the blocks of the function in their
order. -/
def GetSearchTermFromConfig (cv : Conversions) (item : ConfigItem) : SearchTerm :=
  let fs : SearchTerm := {}
  let fs := whenPresent item.CONFIG_FILEFIND_NAME
    (fun fs s => { fs with FileName := s, Required := fs.Required ||| NAME_EXACT }) fs
  let fs := whenPresent item.CONFIG_FILEFIND_NAME_MATCH
    (fun fs s => { fs with FileName := s, Required := fs.Required ||| NAME_MATCH }) fs
  let fs := whenPresent item.CONFIG_FILEFIND_NAME_REGEX
    (fun fs s => { fs with FileName := s, FileNameRegEx := ⟨s, true⟩,
                           Required := fs.Required ||| NAME_REGEX }) fs
  let fs := whenPresent item.CONFIG_FILEFIND_PATH
    (fun fs s => { fs with Path := s, Required := fs.Required ||| PATH_EXACT }) fs
  let fs := whenPresent item.CONFIG_FILEFIND_PATH_MATCH
    (fun fs s => { fs with Path := s, Required := fs.Required ||| PATH_MATCH }) fs
  let fs := whenPresent item.CONFIG_FILEFIND_PATH_REGEX
    (fun fs s => { fs with Path := s, PathRegEx := ⟨s, true⟩,
                           Required := fs.Required ||| PATH_REGEX }) fs
  let fs := whenPresent item.CONFIG_FILEFIND_EA
    (fun fs s => { fs with EAName := s, Required := fs.Required ||| EA_EXACT }) fs
  let fs := whenPresent item.CONFIG_FILEFIND_EA_MATCH
    (fun fs s => { fs with EAName := s, Required := fs.Required ||| EA_MATCH }) fs
  let fs := whenPresent item.CONFIG_FILEFIND_EA_REGEX
    (fun fs s => { fs with EAName := s, EANameRegEx := ⟨s, true⟩,
                           Required := fs.Required ||| EA_REGEX }) fs
  let fs := whenPresent item.CONFIG_FILEFIND_ADS
    (fun fs s => { fs with ADSName := s, Required := fs.Required ||| ADS_EXACT }) fs
  let fs := whenPresent item.CONFIG_FILEFIND_ADS_MATCH
    (fun fs s => { fs with ADSName := s, Required := fs.Required ||| ADS_MATCH }) fs
  let fs := whenPresent item.CONFIG_FILEFIND_ADS_REGEX
    (fun fs s => { fs with ADSName := s, ADSNameRegEx := ⟨s, true⟩,
                           Required := fs.Required ||| ADS_REGEX }) fs
  -- the EA items are read a second time
  let fs := whenPresent item.CONFIG_FILEFIND_EA
    (fun fs s => { fs with EAName := s, Required := fs.Required ||| EA }) fs
  let fs := whenPresent item.CONFIG_FILEFIND_EA_MATCH
    (fun fs s => { fs with EAName := s, Required := fs.Required ||| EA_MATCH }) fs
  let fs := whenPresent item.CONFIG_FILEFIND_EA_REGEX
    (fun fs s => { fs with EAName := s, EANameRegEx := ⟨s, true⟩,
                           Required := fs.Required ||| EA_REGEX }) fs
  let fs := whenPresent item.CONFIG_FILEFIND_ATTR_NAME
    (fun fs s => { fs with AttrName := s, Required := fs.Required ||| ATTR_NAME_EXACT }) fs
  let fs := whenPresent item.CONFIG_FILEFIND_ATTR_MATCH
    (fun fs s => { fs with AttrName := s, Required := fs.Required ||| ATTR_NAME_MATCH }) fs
  let fs := whenPresent item.CONFIG_FILEFIND_ATTR_REGEX
    (fun fs s => { fs with AttrName := s, AttrNameRegEx := ⟨s, true⟩,
                           Required := fs.Required ||| ATTR_NAME_REGEX }) fs
  let fs := whenPresent item.CONFIG_FILEFIND_ATTR_TYPE (attrTypeFromConfig cv) fs
  let fs := whenPresent item.CONFIG_FILEFIND_SIZE
    (fun fs s => match cv.toDWORD64 s with
      | some n => { fs with SizeEQ := n, Required := fs.Required ||| SIZE_EQ }
      | none => fs) fs
  let fs := whenPresent item.CONFIG_FILEFIND_SIZE_GT
    (fun fs s => match cv.toDWORD64 s with
      | some n => { fs with SizeG := n, Required := fs.Required ||| SIZE_GT }
      | none => fs) fs
  let fs := whenPresent item.CONFIG_FILEFIND_SIZE_GE
    (fun fs s => match cv.toDWORD64 s with
      | some n => { fs with SizeG := n, Required := fs.Required ||| SIZE_GE }
      | none => fs) fs
  let fs := whenPresent item.CONFIG_FILEFIND_SIZE_LT
    (fun fs s => match cv.toDWORD64 s with
      | some n => { fs with SizeL := n, Required := fs.Required ||| SIZE_LT }
      | none => fs) fs
  let fs := whenPresent item.CONFIG_FILEFIND_SIZE_LE
    (fun fs s => match cv.toDWORD64 s with
      | some n => { fs with SizeL := n, Required := fs.Required ||| SIZE_LE }
      | none => fs) fs
  let fs := whenPresent item.CONFIG_FILEFIND_MD5
    (fun fs s => match cv.GetBytesFromHexaStringN s BYTES_IN_MD5_HASH with
      | some b => { fs with MD5 := b, Required := fs.Required ||| DATA_MD5 }
      | none => { fs with MD5 := SetCount fs.MD5 BYTES_IN_MD5_HASH }) fs
  let fs := whenPresent item.CONFIG_FILEFIND_SHA1
    (fun fs s => match cv.GetBytesFromHexaStringN s BYTES_IN_SHA1_HASH with
      | some b => { fs with SHA1 := b, Required := fs.Required ||| DATA_SHA1 }
      | none => { fs with SHA1 := SetCount fs.SHA1 BYTES_IN_SHA1_HASH }) fs
  let fs := whenPresent item.CONFIG_FILEFIND_SHA256
    (fun fs s => match cv.GetBytesFromHexaStringN s BYTES_IN_SHA256_HASH with
      | some b => { fs with SHA256 := b, Required := fs.Required ||| DATA_SHA256 }
      | none => { fs with SHA256 := SetCount fs.SHA256 BYTES_IN_SHA256_HASH }) fs
  let fs := whenPresent item.CONFIG_FILEFIND_CONTAINS
    (fun fs s => match cv.WideToAnsi s with
      | some b => { fs with Contains := b, Required := fs.Required ||| CONTAINS }
      | none => fs) fs
  let fs := whenPresent item.CONFIG_FILEFIND_CONTAINS_HEX
    (fun fs s => match cv.GetBytesFromHexaString s with
      | some b => { fs with Contains := b, Required := fs.Required ||| CONTAINS,
                            bContainsIsHex := true }
      | none => fs) fs
  let fs := whenPresent item.CONFIG_FILEFIND_HEADER
    (fun fs s => match cv.WideToAnsi s with
      | some b => { fs with Header := b, HeaderLen := b.length,
                            Required := fs.Required ||| HEADER }
      | none => fs) fs
  let fs := whenPresent item.CONFIG_FILEFIND_HEADER_HEX
    (fun fs s => match cv.GetBytesFromHexaString s with
      | some b => { fs with Header := b, HeaderLen := b.length,
                            Required := fs.Required ||| HEADER_HEX }
      | none => fs) fs
  let fs := whenPresent item.CONFIG_FILEFIND_HEADER_REGEX
    (fun fs s => match cv.WideToAnsi s with
      | some _ => { fs with HeaderRegEx := ⟨s, true⟩, strHeaderRegEx := s,
                            Required := fs.Required ||| HEADER_REGEX }
      | none => fs) fs
  let fs := whenPresent item.CONFIG_FILEFIND_HEADER_LENGTH
    (fun fs s => match cv.GetIntegerFromArg s with
      | some n => { fs with Header := SetCount fs.Header n, HeaderLen := n }
      | none => fs) fs
  let fs := whenPresent item.CONFIG_FILEFIND_YARA_RULE
    (fun fs s => { fs with YaraRulesSpec := s, YaraRules := cv.GetRulesSpec s,
                           Required := fs.Required ||| YARA }) fs
  fs

/-- `FileFind::AddTermsFromConfig`: every node is read and handed to `AddTerm`,
whose result is not looked at; the call returns `S_OK`. -/
def AddTermsFromConfig (cv : Conversions) (ff : FileFind) (items : List ConfigItem) :
    HRESULT × FileFind :=
  (S_OK, items.foldl (fun acc item => (AddTerm acc (GetSearchTermFromConfig cv item)).2.1) ff)

/-- `FileFind::AddExcludeTermsFromConfig`. -/
def AddExcludeTermsFromConfig (cv : Conversions) (ff : FileFind) (items : List ConfigItem) :
    HRESULT × FileFind :=
  (S_OK,
    items.foldl (fun acc item => (AddExcludeTerm acc (GetSearchTermFromConfig cv item)).2.1) ff)

end FileFind

/-- Decimal digits of a text, most significant first; `none` when a character
is not a digit or the text is empty. -/
def decimalValue (s : WString) : Option Nat :=
  if s.isEmpty then none
  else s.foldl (fun acc c => acc.bind (fun n => if c.isDigit then some (10 * n + (c.toNat - 48)) else none))
    (some 0)

/-- A sample of conversions for evaluating the configuration reader on concrete
items: sizes and lengths are decimal numbers, nothing else converts. -/
def decimalConversions : Conversions where
  toDWORD64 := decimalValue
  GetBytesFromHexaStringN := fun _ _ => none
  GetBytesFromHexaString := fun _ => none
  WideToAnsi := fun _ => none
  GetIntegerFromArg := decimalValue
  wtoi := fun s => (decimalValue s).getD 0
  GetRulesSpec := fun _ => []

/-! ## Evaluating one criterion -/

namespace FileFind
open Criteria

/-- One step of the shape
`if (cond) { aSpec = ...; if (aSpec == NONE) continue; matched = upd(matched, aSpec); }`
inside a loop over attributes or names.  The running value is `none` once the
body has been left by `continue` (or by `return NONE`, `return false`). -/
def step (cond : Bool) (aSpec : Nat) (upd : Nat → Nat → Nat) (matched : Option Nat) :
    Option Nat :=
  matched.bind fun m =>
    if cond then (if aSpec == NONE then none else some (upd m aSpec)) else some m

/-- `matched |= aSpec`. -/
def orInto (matched aSpec : Nat) : Nat := matched ||| aSpec

/-- `FileFind::ExactName(aTerm, pFileName)`. -/
def ExactName (aTerm : SearchTerm) (pFileName : FILE_NAME) : Nat :=
  if test aTerm.Required NAME_EXACT then
    if aTerm.FileName.length != pFileName.FileName.length then NONE
    else if equalCaseInsensitive aTerm.FileName pFileName.FileName then NAME_EXACT
    else NONE
  else NONE

/-- `FileFind::MatchName(aTerm, pFileName)`, the glob test. -/
def MatchName (env : Env) (aTerm : SearchTerm) (pFileName : FILE_NAME) : Nat :=
  if test aTerm.Required NAME_MATCH then
    if aTerm.FileName.isEmpty then NONE
    else if env.PathMatchSpec pFileName.FileName aTerm.FileName then NAME_MATCH
    else NONE
  else NONE

/-- `FileFind::RegexName(aTerm, pFileName)`. -/
def RegexName (env : Env) (aTerm : SearchTerm) (pFileName : FILE_NAME) : Nat :=
  if test aTerm.Required NAME_REGEX then
    if env.regex_match aTerm.FileNameRegEx pFileName.FileName then NONE ||| NAME_REGEX
    else NONE
  else NONE

/-- `FileFind::MatchName(aTerm, requiredSpec, aFileMatch, pFileName)` and
`FileFind::MatchName(aTerm, requiredSpec, aNameMatch)`, which runs the same
body on `aNameMatch.FILENAME()`. -/
def MatchNameInLocation (env : Env) (aTerm : SearchTerm) (pFileName : FILE_NAME) : Nat :=
  if !env.m_InLocationBuilder pFileName then NONE
  else
    ((some NONE
      |> step (test aTerm.Required NAME_EXACT) (ExactName aTerm pFileName) orInto
      |> step (test aTerm.Required NAME_MATCH) (MatchName env aTerm pFileName) orInto
      |> step (test aTerm.Required NAME_REGEX) (RegexName env aTerm pFileName) orInto).getD NONE)

/-- The test `wcslen(szFullName) < sizeof("x:\\")` followed by the skip of a
drive prefix, shared by `ExactPath`, `MatchPath` and `RegexPath`: `none` when
the function returns `NONE` there, else the path that is compared. -/
def skipDrive (szFullName : WString) : Option WString :=
  if szFullName.length < 4 then none
  else
    let c0 := szFullName.getD 0 ' '
    let s :=
      if szFullName.getD 1 ' ' == ':'
          && (('A' < c0 && c0 < 'Z') || ('a' < c0 && c0 < 'z')) then
        szFullName.drop 2
      else szFullName
    if s.head? != some '\\' then none else some s

/-- `FileFind::ExactPath(aTerm, szFullName)`. -/
def ExactPath (aTerm : SearchTerm) (szFullName : WString) : Nat :=
  if test aTerm.Required PATH_EXACT then
    match skipDrive szFullName with
    | none => NONE
    | some s => if equalCaseInsensitive aTerm.Path s then PATH_EXACT else NONE
  else NONE

/-- `FileFind::MatchPath(aTerm, szFullName)`, the glob test. -/
def MatchPath (env : Env) (aTerm : SearchTerm) (szFullName : WString) : Nat :=
  if test aTerm.Required PATH_MATCH then
    match skipDrive szFullName with
    | none => NONE
    | some s =>
      if aTerm.Path.isEmpty then NONE
      else if env.PathMatchSpec s aTerm.Path then PATH_MATCH
      else NONE
  else NONE

/-- `FileFind::RegexPath(aTerm, szFullName)`. -/
def RegexPath (env : Env) (aTerm : SearchTerm) (szFullName : WString) : Nat :=
  if test aTerm.Required PATH_REGEX then
    match skipDrive szFullName with
    | none => NONE
    | some s => if env.regex_match aTerm.PathRegEx s then NONE ||| PATH_REGEX else NONE
  else NONE

/-- The three path tests in the order both `MatchPath` overloads run them. -/
def pathTests (env : Env) (aTerm : SearchTerm) (szFullName : WString) : Nat :=
  (some NONE
    |> step (test aTerm.Required PATH_EXACT) (ExactPath aTerm szFullName) orInto
    |> step (test aTerm.Required PATH_MATCH) (MatchPath env aTerm szFullName) orInto
    |> step (test aTerm.Required PATH_REGEX) (RegexPath env aTerm szFullName) orInto).getD NONE

/-- `m_FullNameBuilder(pFileName, nullptr)` behind the test
`if (m_FullNameBuilder)`: `none` for an empty callable or a null result. -/
def fullName (env : Env) (pFileName : FILE_NAME) : Option WString :=
  match env.m_FullNameBuilder with
  | some f => f pFileName
  | none => none

/-- `FileFind::MatchPath(aTerm, requiredSpec, aFileMatch, pFileName)`. -/
def MatchPathOfFileName (env : Env) (aTerm : SearchTerm) (pFileName : FILE_NAME) : Nat :=
  if !env.m_InLocationBuilder pFileName then NONE
  else
    match fullName env pFileName with
    | some szFullName => pathTests env aTerm szFullName
    | none => NONE

/-- `FileFind::MatchPath(aTerm, requiredSpec, aNameMatch)`. -/
def MatchPathOfNameMatch (env : Env) (aTerm : SearchTerm) (aFileMatch : NameMatch) : Nat :=
  if !aFileMatch.FullPathName.isEmpty then pathTests env aTerm aFileMatch.FullPathName
  else NONE

/-- The body of `ExactEA`, `MatchEA` and `RegexEA` behind the test of the
criterion: some item of a parsed `$EA` attribute passes `p`. -/
def eaTest (pElt : MFTRecord) (pAttr : MftRecordAttribute) (p : WString → Bool)
    (crit : Nat) : Nat :=
  if !pElt.HasExtendedAttr then NONE
  else if pAttr.TypeCode == ATTR_EA then
    match pAttr.EAItems with
    | none => NONE
    | some items => if items.any (fun item => p item.1) then crit else NONE
  else NONE

/-- `FileFind::ExactEA`. -/
def ExactEA (aTerm : SearchTerm) (pElt : MFTRecord) (pAttr : MftRecordAttribute) : Nat :=
  if test aTerm.Required EA_EXACT then
    eaTest pElt pAttr (fun n => equalCaseInsensitive n aTerm.EAName) EA_EXACT
  else NONE

/-- `FileFind::MatchEA`. -/
def MatchEA (env : Env) (aTerm : SearchTerm) (pElt : MFTRecord) (pAttr : MftRecordAttribute) :
    Nat :=
  if test aTerm.Required EA_MATCH then
    eaTest pElt pAttr (fun n => env.PathMatchSpec n aTerm.EAName) EA_MATCH
  else NONE

/-- `FileFind::RegexEA`. -/
def RegexEA (env : Env) (aTerm : SearchTerm) (pElt : MFTRecord) (pAttr : MftRecordAttribute) :
    Nat :=
  if test aTerm.Required EA_REGEX then
    eaTest pElt pAttr (fun n => env.regex_match aTerm.EANameRegEx n) EA_REGEX
  else NONE

/-- `FileFind::ExactAttr`. -/
def ExactAttr (aTerm : SearchTerm) (szAttrName : WString) : Nat :=
  if equalCaseInsensitive aTerm.AttrName szAttrName then NONE ||| ATTR_NAME_EXACT else NONE

/-- `FileFind::MatchAttr`. -/
def MatchAttr (env : Env) (aTerm : SearchTerm) (szAttrName : WString) : Nat :=
  if env.PathMatchSpec szAttrName aTerm.AttrName then NONE ||| ATTR_NAME_MATCH else NONE

/-- `FileFind::RegExAttr`. -/
def RegExAttr (env : Env) (aTerm : SearchTerm) (szAttrName : WString) : Nat :=
  if env.regex_match aTerm.AttrNameRegEx szAttrName then NONE ||| ATTR_NAME_REGEX else NONE

/-- `FileFind::AttrType`. -/
def AttrType (aTerm : SearchTerm) (attrType : Nat) : Nat :=
  if attrType == aTerm.dwAttrType then NONE ||| ATTR_TYPE else NONE

/-- `FileFind::ExactADS`. -/
def ExactADS (aTerm : SearchTerm) (szAttrName : WString) : Nat :=
  if test aTerm.Required ADS_EXACT then
    if equalCaseInsensitive aTerm.ADSName szAttrName then ADS_EXACT else NONE
  else NONE

/-- `FileFind::MatchADS`. -/
def MatchADS (env : Env) (aTerm : SearchTerm) (szAttrName : WString) : Nat :=
  if test aTerm.Required ADS_MATCH then
    if env.PathMatchSpec szAttrName aTerm.ADSName then ADS_MATCH else NONE
  else NONE

/-- `FileFind::RegexADS`. -/
def RegexADS (env : Env) (aTerm : SearchTerm) (szAttrName : WString) : Nat :=
  if test aTerm.Required ADS_REGEX then
    if env.regex_match aTerm.ADSNameRegEx szAttrName then NONE ||| ADS_REGEX else NONE
  else NONE

/-- `FileFind::SizeMatch`. -/
def SizeMatch (aTerm : SearchTerm) (ullDataSize : Nat) : Nat :=
  if test aTerm.Required SIZE_EQ then
    if ullDataSize == aTerm.SizeEQ then NONE ||| SIZE_EQ else NONE
  else
    let matchedSpec :=
      if test aTerm.Required SIZE_GT then
        if ullDataSize > aTerm.SizeG then NONE ||| SIZE_GT else NONE
      else if test aTerm.Required SIZE_GE then
        if ullDataSize ≥ aTerm.SizeG then NONE ||| SIZE_GE else NONE
      else NONE
    if test aTerm.Required SIZE_LT then
      if ullDataSize < aTerm.SizeL then matchedSpec ||| SIZE_LT else matchedSpec
    else if test aTerm.Required SIZE_LE then
      if ullDataSize ≤ aTerm.SizeL then matchedSpec ||| SIZE_LE else matchedSpec
    else matchedSpec

end FileFind

/-! ## Evaluating the content of a data stream -/

namespace FileFind
open Criteria

/-- `FileFind::MatchHash`. -/
def MatchHash (aTerm : SearchTerm) (pDataAttr : MftRecordAttribute) : Nat :=
  if test aTerm.Required DATA_MD5 || test aTerm.Required DATA_SHA1
      || test aTerm.Required DATA_SHA256 then
    match pDataAttr.Hashes with
    | none => NONE
    | some (md5, sha1, sha256) =>
      ((some NONE
        |> step (test aTerm.Required DATA_MD5)
            (if md5 == aTerm.MD5 then DATA_MD5 else NONE) orInto
        |> step (test aTerm.Required DATA_SHA1)
            (if sha1 == aTerm.SHA1 then DATA_SHA1 else NONE) orInto
        |> step (test aTerm.Required DATA_SHA256)
            (if sha256 == aTerm.SHA256 then DATA_SHA256 else NONE) orInto).getD NONE)
  else NONE

/-- `boost::algorithm::boyer_moore` built on `needle` and run over `corpus`,
compared with `nothing_found`: an empty corpus holds nothing, and otherwise the
needle is found when it occurs as a contiguous run of the corpus. -/
def boyer_moore_found (needle corpus : List Nat) : Bool :=
  !corpus.isEmpty && decide (needle <:+: corpus)

/-- The `do { ... } while (ullAccumulatedBytes < ullBytesToRead)` loop of
`MatchContains` over a stream whose reads return all requested bytes until its
end.  `rest` is what the stream still holds behind the file pointer, `carried`
the bytes kept at the start of the buffer (`carry` is its length), `chunk` the
size of the buffer without the room for the needle.  The result is whether the
needle was found. -/
def MatchContainsLoop (chunk : Nat) (needle : List Nat) :
    Nat → List Nat → List Nat → Bool
  | 0, _, _ => false
  | fuel + 1, rest, carried =>
    let count := chunk + needle.length
    let readContent := rest.take (count - carried.length)
    let rest' := rest.drop (count - carried.length)
    let searchContent := carried ++ readContent
    if boyer_moore_found needle searchContent then true
    else
      let carried' :=
        if !rest'.isEmpty && readContent.length > needle.length then
          readContent.drop (readContent.length - needle.length)
        else carried
      if !rest'.isEmpty then MatchContainsLoop chunk needle fuel rest' carried' else false

/-- `FileFind::MatchContains`; the buffer is `4 * 1024 * 1024` bytes plus the
length of the needle. -/
def MatchContains (aTerm : SearchTerm) (pDataAttr : MftRecordAttribute) : Nat :=
  if test aTerm.Required CONTAINS then
    match pDataAttr.Stream with
    | none => NONE
    | some content =>
      if MatchContainsLoop (4 * 1024 * 1024) aTerm.Contains (content.length + 1) content [] then
        NONE ||| (CONTAINS &&& aTerm.Required)
      else NONE
  else NONE

/-- `FileFind::MatchYara`. -/
def MatchYara (env : Env) (aTerm : SearchTerm) (pDataAttr : MftRecordAttribute) :
    Nat × Option (List WString) :=
  if !env.hasYaraScan then (NONE, none)
  else if test aTerm.Required YARA then
    match pDataAttr.Stream with
    | none => (NONE, none)
    | some content =>
      match env.YaraScan content with
      | none => (NONE, none)
      | some matchingRules =>
        if !matchingRules.isEmpty then
          if !aTerm.YaraRules.isEmpty then
            if aTerm.YaraRules.any (fun termRule =>
                matchingRules.any (fun matchingRule =>
                  env.PathMatchSpecA matchingRule termRule)) then
              (YARA, some matchingRules)
            else (NONE, none)
          else (YARA, none)
        else (NONE, none)
  else (NONE, none)

/-- The read of `HeaderLen` bytes from the start of the stream that the header
tests share: `none` when the stream is missing, else the bytes read. -/
def readHeader (aTerm : SearchTerm) (pDataAttr : MftRecordAttribute) : Option (List Nat) :=
  pDataAttr.Stream.map (fun content => content.take aTerm.HeaderLen)

/-- `FileFind::MatchHeader`. -/
def MatchHeader (aTerm : SearchTerm) (pDataAttr : MftRecordAttribute) : Nat :=
  if test aTerm.Required HEADER then
    match readHeader aTerm pDataAttr with
    | none => NONE
    | some buffer =>
      if buffer.length < aTerm.HeaderLen then NONE
      else if buffer == SetCount aTerm.Header aTerm.HeaderLen then NONE ||| HEADER
      else NONE
  else NONE

/-- `FileFind::HexHeader`. -/
def HexHeader (aTerm : SearchTerm) (pDataAttr : MftRecordAttribute) : Nat :=
  if test aTerm.Required HEADER_HEX then
    match readHeader aTerm pDataAttr with
    | none => NONE
    | some buffer =>
      if buffer.length < aTerm.HeaderLen then NONE
      else if buffer == SetCount aTerm.Header aTerm.HeaderLen then NONE ||| HEADER_HEX
      else NONE
  else NONE

/-- `FileFind::RegExHeader`: the expression is run over the whole buffer of
`HeaderLen` bytes, whatever the number of bytes read. -/
def RegExHeader (env : Env) (aTerm : SearchTerm) (pDataAttr : MftRecordAttribute) : Nat :=
  if test aTerm.Required HEADER_REGEX then
    match readHeader aTerm pDataAttr with
    | none => NONE
    | some buffer =>
      if env.regex_match_bytes aTerm.HeaderRegEx (SetCount buffer aTerm.HeaderLen) then
        NONE ||| HEADER_REGEX
      else NONE
  else NONE

/-! ## Evaluating a group of criteria over a record -/

/-- The `make_shared<Match>(...)` that every loop runs when `aFileMatch` is
still null. -/
def ensureMatch (aTerm : SearchTerm) (pElt : MFTRecord) (aFileMatch : Option Match) : Match :=
  match aFileMatch with
  | some m => m
  | none => Match.make aTerm pElt.FileReferenceNumber (!pElt.IsRecordInUse)

/-- The `if (m_bProvideStream) AddAttributeMatch(_L_, m_pVolReader, a, r) else
AddAttributeMatch(a, r)` of the loops. -/
def addAttribute (env : Env) (m : Match) (a : MftRecordAttribute)
    (matchedRules : Option (List WString)) : Match :=
  if env.m_bProvideStream then m.AddAttributeMatchWithStreams a matchedRules
  else m.AddAttributeMatch a matchedRules

/-- The loop shape of the five group evaluations:
`for (x : xs) { if (hit x) { aFileMatch = upd aFileMatch x; retval = val; } }`,
started with `retval` and `aFileMatch`.  Whether an element is a hit never
depends on `aFileMatch`. -/
def scan {α : Type} (hit : α → Bool) (upd : Option Match → α → Option Match) (val : Nat) :
    List α → Nat → Option Match → Nat × Option Match
  | [], retval, aFileMatch => (retval, aFileMatch)
  | x :: xs, retval, aFileMatch =>
    if hit x then scan hit upd val xs val (upd aFileMatch x)
    else scan hit upd val xs retval aFileMatch

/-- `FileFind::AddMatchingName`. -/
def AddMatchingName (env : Env) (aTerm : SearchTerm) (requiredSpec : Nat)
    (aFileMatch : Option Match) (pElt : MFTRecord) : Nat × Option Match :=
  scan (fun name => requiredSpec == MatchNameInLocation env aTerm name)
    (fun fm name =>
      some ((ensureMatch aTerm pElt fm).AddFileNameMatch
        ⟨name, match env.m_FullNameBuilder with
               | some f => (f name).getD []
               | none => []⟩))
    requiredSpec pElt.FileNames NONE aFileMatch

/-- `FileFind::AddMatchingPath`. -/
def AddMatchingPath (env : Env) (aTerm : SearchTerm) (requiredSpec : Nat)
    (aFileMatch : Option Match) (pElt : MFTRecord) : Nat × Option Match :=
  scan (fun name => MatchPathOfFileName env aTerm name == requiredSpec)
    (fun fm name =>
      some ((ensureMatch aTerm pElt fm).AddFileNameMatch
        ⟨name, match env.m_FullNameBuilder with
               | some f => (f name).getD []
               | none => []⟩))
    requiredSpec pElt.FileNames NONE aFileMatch

/-- Some size criterion is in `requiredSpec`. -/
def anySize (requiredSpec : Nat) : Bool :=
  test requiredSpec SIZE_EQ || test requiredSpec SIZE_GT || test requiredSpec SIZE_GE
    || test requiredSpec SIZE_LE || test requiredSpec SIZE_LT

/-- The body of the loop of `AddMatchingDataNameAndSize` for one data
attribute, up to the comparison with `requiredSpec`: the value of
`matchedDataNameOrSizeSpecs`, or `none` when the body is left by `continue`. -/
def dataNameAndSizeOf (env : Env) (aTerm : SearchTerm) (requiredSpec : Nat) (pElt : MFTRecord)
    (data : MftRecordAttribute) : Option Nat :=
  let afterSize : Option Nat :=
    if anySize requiredSpec then
      match data.DataSize with
      | none => none
      | some ullDataSize => step true (SizeMatch aTerm ullDataSize) orInto (some NONE)
    else some NONE
  afterSize
    |> step (test requiredSpec ADS_EXACT && pElt.HasNamedDataAttr)
        (ExactADS aTerm data.Name) orInto
    |> step (test requiredSpec ADS_MATCH && pElt.HasNamedDataAttr)
        (MatchADS env aTerm data.Name) orInto
    |> step (test requiredSpec ADS_REGEX && pElt.HasNamedDataAttr)
        (RegexADS env aTerm data.Name) orInto

/-- `FileFind::AddMatchingDataNameAndSize`. -/
def AddMatchingDataNameAndSize (env : Env) (aTerm : SearchTerm) (requiredSpec : Nat)
    (aFileMatch : Option Match) (pElt : MFTRecord) : Nat × Option Match :=
  scan (fun data => dataNameAndSizeOf env aTerm requiredSpec pElt data == some requiredSpec)
    (fun fm data => some (addAttribute env (ensureMatch aTerm pElt fm) data none))
    requiredSpec pElt.DataAttributes NONE aFileMatch

/-- `matchedAttributesSpecs = requiredSpec | aSpec`. -/
def requiredOr (requiredSpec : Nat) (_matched aSpec : Nat) : Nat := requiredSpec ||| aSpec

/-- The body of the loop of `MatchAttributes` for one entry of the attribute
list, up to the comparison with `requiredSpec`. -/
def attributesOf (env : Env) (aTerm : SearchTerm) (requiredSpec : Nat) (pElt : MFTRecord)
    (entry : Option MftRecordAttribute) : Option Nat :=
  match entry with
  | none => none
  | some pAttr =>
    let afterType : Option Nat :=
      if test requiredSpec ATTR_TYPE then
        if pAttr.HasHeader then
          step true (AttrType aTerm pAttr.TypeCode) (requiredOr requiredSpec) (some NONE)
        else none
      else some NONE
    afterType
      |> step (test requiredSpec EA_EXACT) (ExactEA aTerm pElt pAttr) (requiredOr requiredSpec)
      |> step (test requiredSpec EA_MATCH) (MatchEA env aTerm pElt pAttr)
          (requiredOr requiredSpec)
      |> step (test requiredSpec EA_REGEX) (RegexEA env aTerm pElt pAttr)
          (requiredOr requiredSpec)
      |> step (test requiredSpec ATTR_NAME_EXACT) (ExactAttr aTerm pAttr.Name)
          (requiredOr requiredSpec)
      |> step (test requiredSpec ATTR_NAME_MATCH) (MatchAttr env aTerm pAttr.Name)
          (requiredOr requiredSpec)
      |> step (test requiredSpec ATTR_NAME_REGEX) (RegExAttr env aTerm pAttr.Name)
          (requiredOr requiredSpec)

/-- `FileFind::MatchAttributes`. -/
def MatchAttributes (env : Env) (aTerm : SearchTerm) (requiredSpec : Nat)
    (aFileMatch : Option Match) (pElt : MFTRecord) : Nat × Option Match :=
  scan (fun entry => attributesOf env aTerm requiredSpec pElt entry == some requiredSpec)
    (fun fm entry =>
      match entry with
      | some pAttr => some (addAttribute env (ensureMatch aTerm pElt fm) pAttr none)
      | none => fm)
    requiredSpec pElt.AttributeList NONE aFileMatch

/-- The tests of the loops of `AddMatchingData` and `ExcludeMatchingData` that
come before the Yara test, for one data attribute whose stream is there: the
value of `matchedDataSpecs`, or `none` when the body is left. -/
def dataContentOf (env : Env) (aTerm : SearchTerm) (requiredDataSpecs : Nat)
    (data_attr : MftRecordAttribute) : Option Nat :=
  some NONE
    |> step (test requiredDataSpecs HEADER) (MatchHeader aTerm data_attr) orInto
    |> step (test requiredDataSpecs HEADER_HEX) (HexHeader aTerm data_attr) orInto
    |> step (test requiredDataSpecs HEADER_REGEX) (RegExHeader env aTerm data_attr) orInto
    |> step (test requiredDataSpecs DATA_MD5 || test requiredDataSpecs DATA_SHA1
              || test requiredDataSpecs DATA_SHA256) (MatchHash aTerm data_attr) orInto
    |> step (test requiredDataSpecs CONTAINS) (MatchContains aTerm data_attr) orInto

/-- The body of the loop of `AddMatchingData` for one data attribute, up to the
comparison with `requiredSpec`. -/
def dataOf (env : Env) (aTerm : SearchTerm) (data_attr : MftRecordAttribute) : Option Nat :=
  let requiredDataSpecs := aTerm.Required &&& SearchTerm.DataMask
  match data_attr.Stream with
  | none => none
  | some _ =>
    dataContentOf env aTerm requiredDataSpecs data_attr
      |> step (test requiredDataSpecs YARA) (MatchYara env aTerm data_attr).1 orInto

/-- `matchedRules` at the end of the body of the loop of `AddMatchingData`. -/
def matchedRulesOf (env : Env) (aTerm : SearchTerm) (data_attr : MftRecordAttribute) :
    List WString :=
  if test (aTerm.Required &&& SearchTerm.DataMask) YARA then
    ((MatchYara env aTerm data_attr).2).getD []
  else []

/-- `FileFind::AddMatchingData`. -/
def AddMatchingData (env : Env) (aTerm : SearchTerm) (requiredSpec : Nat)
    (aFileMatch : Option Match) (pElt : MFTRecord) : Nat × Option Match :=
  scan (fun data_attr => dataOf env aTerm data_attr == some requiredSpec)
    (fun fm data_attr =>
      some (addAttribute env (ensureMatch aTerm pElt fm) data_attr
        (some (matchedRulesOf env aTerm data_attr))))
    requiredSpec pElt.DataAttributes NONE aFileMatch

end FileFind

/-! ## Evaluating a term over a record -/

/-- Modelled from the spec: the macro `NtfsFullSegmentNumber` is defined in a
header that is absent; the spec calls its value the safe segment number, "64-bit
record id combining 48-bit index and 16-bit sequence".  A file reference is
kept as that number, which the macro gives whole. -/
def NtfsFullSegmentNumber (frn : Nat) : Nat := frn

namespace FileFind
open Criteria

/-- The part of the fill-in block of `LookupTermInRecordAddMatching` behind
`if (aFileMatch->MatchingNames.empty())`: "No file name matched --> Easy! use
default name".  The flag is `false` when the block returns `NONE` because no
name in location was found. -/
def useDefaultName (env : Env) (m : Match) (pElt : MFTRecord) : Bool × Match :=
  match pElt.DefaultFileName with
  | none => (true, m)
  | some pFileName =>
    let chosen : Option FILE_NAME :=
      if !env.m_InLocationBuilder pFileName then
        -- the selected file name is not in location, try to find another one
        pElt.FileNames.find? env.m_InLocationBuilder
      else some pFileName
    match chosen with
    | none => (false, m)
    | some pFileName =>
      (true, m.AddFileNameMatch
        ⟨pFileName, match env.m_FullNameBuilder with
                    | some f => (f pFileName).getD []
                    | none => []⟩)

/-- The end of the fill-in block of `LookupTermInRecordAddMatching`: the
standard information is copied, a match without attributes gets the unnamed
`$DATA` stream ("No data associated? Easy! assume default $data stream"), and a
match without a segment number gets the file reference of the record. -/
def completeMatch (env : Env) (m : Match) (pElt : MFTRecord) : Match :=
  let m := if pElt.HasStandardInformation then { m with HasStandardInformation := true } else m
  let m :=
    if m.MatchingAttributes.isEmpty then
      match pElt.DataAttributes.find? (fun pDataAttr => pDataAttr.Name.length == 0) with
      | some first => addAttribute env m first none
      | none => m
    else m
  if NtfsFullSegmentNumber m.FRN == 0 then { m with FRN := pElt.FileReferenceNumber } else m

/-- The block of `LookupTermInRecordAddMatching` behind
`if (matchedSpecs == aTerm->Required)`, "We do have a positive match. Fill in
the blanks".  The flag is `false` when the block returns `NONE`; the match is
`aFileMatch` as the block leaves it. -/
def fillInTheBlanks (env : Env) (aTerm : SearchTerm) (aFileMatch : Option Match)
    (pElt : MFTRecord) : Bool × Match :=
  let m := ensureMatch aTerm pElt aFileMatch
  let m := { m with Term := aTerm, DeletedRecord := !pElt.IsRecordInUse }
  let named : Bool × Match :=
    if m.MatchingNames.isEmpty then useDefaultName env m pElt else (true, m)
  if named.1 then (true, completeMatch env named.2 pElt) else named

/-- The state of `LookupTermInRecordAddMatching` between two groups: whether
the function is still running (`false` once it has returned `NONE`),
`matchedSpecs`, and `aFileMatch`. -/
structure LookupState where
  running : Bool
  matchedSpecs : Nat
  aFileMatch : Option Match

/-- One group of `LookupTermInRecordAddMatching`:
`if (dependsOn) { m = eval(aFileMatch); if (required == m) matchedSpecs |= m; else return NONE; }`. -/
def includeGroup (dependsOn : Bool) (required : Nat)
    (eval : Option Match → Nat × Option Match) (s : LookupState) : LookupState :=
  if !s.running then s
  else if dependsOn then
    let r := eval s.aFileMatch
    if required == r.1 then ⟨true, s.matchedSpecs ||| r.1, r.2⟩
    else ⟨false, s.matchedSpecs, r.2⟩
  else s

/-- The location test of `LookupTermInRecordAddMatching`: "before evaluating if
more expensive attributes match, we check we are in location"; `NONE` is
returned when no file name of the record is in location. -/
def locationGate (env : Env) (pElt : MFTRecord) (s : LookupState) : LookupState :=
  if !s.running then s
  else if !pElt.FileNames.any env.m_InLocationBuilder then { s with running := false }
  else s

/-- The groups of `LookupTermInRecordAddMatching` in their order, from the
start of the function to the test `if (matchedSpecs == aTerm->Required)`. -/
def lookupGroups (env : Env) (aTerm : SearchTerm) (matched : Nat)
    (aFileMatch : Option Match) (pElt : MFTRecord) : LookupState :=
  (⟨true, matched, aFileMatch⟩ : LookupState)
    |> includeGroup aTerm.DependsOnName (aTerm.Required &&& SearchTerm.NameMask)
        (fun fm => AddMatchingName env aTerm (aTerm.Required &&& SearchTerm.NameMask) fm pElt)
    |> includeGroup aTerm.DependsOnPath (aTerm.Required &&& SearchTerm.PathMask)
        (fun fm => AddMatchingPath env aTerm (aTerm.Required &&& SearchTerm.PathMask) fm pElt)
    |> includeGroup aTerm.DependsOnDataNameOrSize
        (aTerm.Required &&& SearchTerm.DataNameOrSizeMask)
        (fun fm => AddMatchingDataNameAndSize env aTerm
          (aTerm.Required &&& SearchTerm.DataNameOrSizeMask) fm pElt)
    |> locationGate env pElt
    |> includeGroup aTerm.DependsOnAttribute (aTerm.Required &&& SearchTerm.AttributeMask)
        (fun fm => MatchAttributes env aTerm
          (aTerm.Required &&& SearchTerm.AttributeMask) fm pElt)
    |> includeGroup aTerm.DependsOnData (aTerm.Required &&& SearchTerm.DataMask)
        (fun fm => AddMatchingData env aTerm (aTerm.Required &&& SearchTerm.DataMask) fm pElt)

/-- `FileFind::LookupTermInRecordAddMatching`: the returned criteria and
`aFileMatch` after the call. -/
def LookupTermInRecordAddMatching (env : Env) (aTerm : SearchTerm) (matched : Nat)
    (aFileMatch : Option Match) (pElt : MFTRecord) : Nat × Option Match :=
  let requiredSpecs := aTerm.Required
  let s := lookupGroups env aTerm matched aFileMatch pElt
  if !s.running then (NONE, s.aFileMatch)
  else if s.matchedSpecs == aTerm.Required then
    -- We do have a positive match. Fill in the blanks
    let filled := fillInTheBlanks env aTerm s.aFileMatch pElt
    if !filled.1 then (NONE, some filled.2)
    else (if s.matchedSpecs == requiredSpecs then s.matchedSpecs else NONE, some filled.2)
  else (if s.matchedSpecs == requiredSpecs then s.matchedSpecs else NONE, s.aFileMatch)

/-! ## Exclusion -/

/-- `FileFind::ExcludeMatchingName`. -/
def ExcludeMatchingName (env : Env) (aTerm : SearchTerm) (requiredSpec : Nat)
    (aMatch : Match) : Nat :=
  if aMatch.MatchingNames.isEmpty then NONE
  else if aMatch.MatchingNames.any (fun aNameMatch =>
      requiredSpec == MatchNameInLocation env aTerm aNameMatch.FILENAME) then requiredSpec
  else NONE

/-- `FileFind::ExcludeMatchingPath`. -/
def ExcludeMatchingPath (env : Env) (aTerm : SearchTerm) (requiredSpec : Nat)
    (aMatch : Match) : Nat :=
  if aMatch.MatchingNames.any (fun aNameMatch =>
      requiredSpec == MatchPathOfNameMatch env aTerm aNameMatch) then requiredSpec
  else NONE

/-- The predicate of `ExcludeMatchingDataNameAndSize` on one attribute of the
match, up to the comparison with `requiredSpec`. -/
def excludeDataNameAndSizeOf (env : Env) (aTerm : SearchTerm) (requiredSpec : Nat)
    (aMatch : AttributeMatch) : Option Nat :=
  if aMatch.AttrType != ATTR_DATA then none
  else
    some NONE
      |> step (anySize requiredSpec) (SizeMatch aTerm aMatch.DataSize) orInto
      |> step (test requiredSpec ADS_EXACT) (ExactADS aTerm aMatch.AttrName) orInto
      |> step (test requiredSpec ADS_MATCH) (MatchADS env aTerm aMatch.AttrName) orInto
      |> step (test requiredSpec ADS_REGEX) (RegexADS env aTerm aMatch.AttrName) orInto

/-- `FileFind::ExcludeMatchingDataNameAndSize`. -/
def ExcludeMatchingDataNameAndSize (env : Env) (aTerm : SearchTerm) (requiredSpec : Nat)
    (aFileMatch : Match) : Nat :=
  if aFileMatch.MatchingAttributes.any (fun aMatch =>
      excludeDataNameAndSizeOf env aTerm requiredSpec aMatch == some requiredSpec) then
    requiredSpec
  else NONE

/-- The predicate of `ExcludeMatchingAttributes` on one attribute of the match,
up to the comparison with `requiredSpec` ("EA content exclusion is not
supported!"). -/
def excludeAttributesOf (env : Env) (aTerm : SearchTerm) (requiredSpec : Nat)
    (attrMatch : AttributeMatch) : Option Nat :=
  some NONE
    |> step (test requiredSpec ATTR_TYPE) (AttrType aTerm attrMatch.AttrType)
        (requiredOr requiredSpec)
    |> step (test requiredSpec ATTR_NAME_EXACT) (ExactAttr aTerm attrMatch.AttrName)
        (requiredOr requiredSpec)
    |> step (test requiredSpec ATTR_NAME_MATCH) (MatchAttr env aTerm attrMatch.AttrName)
        (requiredOr requiredSpec)
    |> step (test requiredSpec ATTR_NAME_REGEX) (RegExAttr env aTerm attrMatch.AttrName)
        (requiredOr requiredSpec)

/-- `FileFind::ExcludeMatchingAttributes`. -/
def ExcludeMatchingAttributes (env : Env) (aTerm : SearchTerm) (requiredSpec : Nat)
    (aFileMatch : Match) : Nat :=
  if aFileMatch.MatchingAttributes.any (fun attrMatch =>
      excludeAttributesOf env aTerm requiredSpec attrMatch == some requiredSpec) then
    requiredSpec
  else NONE

/-- The predicate of `ExcludeMatchingData` on one attribute of the match, up to
the comparison with `requiredDataSpecs`.  The loop has no Yara test. -/
def excludeDataOf (env : Env) (aTerm : SearchTerm) (attrMatch : AttributeMatch) : Option Nat :=
  if attrMatch.AttrType != ATTR_DATA then none
  else
    match attrMatch.DataAttr with
    | none => none
    | some data_attr =>
      dataContentOf env aTerm (aTerm.Required &&& SearchTerm.DataMask) data_attr

/-- `FileFind::ExcludeMatchingData`. -/
def ExcludeMatchingData (env : Env) (aTerm : SearchTerm) (requiredSpec : Nat)
    (aFileMatch : Match) : Nat :=
  if aFileMatch.MatchingAttributes.any (fun attrMatch =>
      excludeDataOf env aTerm attrMatch == some (aTerm.Required &&& SearchTerm.DataMask)) then
    requiredSpec
  else NONE

/-- One group of `LookupTermInMatchExcludeMatching`:
`if (dependsOn) { m = eval; if (required == m) matchedSpecs |= m; else return NONE; }`
on the running `matchedSpecs` (`none` once `NONE` has been returned). -/
def excludeGroup (dependsOn : Bool) (required evaluated : Nat) (matchedSpecs : Option Nat) :
    Option Nat :=
  matchedSpecs.bind fun m =>
    if dependsOn then (if required == evaluated then some (m ||| evaluated) else none)
    else some m

/-- `FileFind::LookupTermInMatchExcludeMatching`. -/
def LookupTermInMatchExcludeMatching (env : Env) (aTerm : SearchTerm) (matched : Nat)
    (aFileMatch : Match) : Nat :=
  let requiredSpecs := aTerm.Required
  let r :=
    some matched
      |> excludeGroup aTerm.DependsOnName (aTerm.Required &&& SearchTerm.NameMask)
          (ExcludeMatchingName env aTerm (aTerm.Required &&& SearchTerm.NameMask) aFileMatch)
      |> excludeGroup aTerm.DependsOnPath (aTerm.Required &&& SearchTerm.PathMask)
          (ExcludeMatchingPath env aTerm (aTerm.Required &&& SearchTerm.PathMask) aFileMatch)
      |> excludeGroup aTerm.DependsOnDataNameOrSize
          (aTerm.Required &&& SearchTerm.DataNameOrSizeMask)
          (ExcludeMatchingDataNameAndSize env aTerm
            (aTerm.Required &&& SearchTerm.DataNameOrSizeMask) aFileMatch)
      |> excludeGroup aTerm.DependsOnAttribute (aTerm.Required &&& SearchTerm.AttributeMask)
          (ExcludeMatchingAttributes env aTerm
            (aTerm.Required &&& SearchTerm.AttributeMask) aFileMatch)
      |> excludeGroup aTerm.DependsOnData (aTerm.Required &&& SearchTerm.DataMask)
          (ExcludeMatchingData env aTerm (aTerm.Required &&& SearchTerm.DataMask) aFileMatch)
  match r with
  | none => NONE
  | some matchedSpecs => if matchedSpecs == requiredSpecs then matchedSpecs else NONE

/-- Modelled from the spec: the key equivalence of the name and path multimaps
(`TermMapOfNames`, declared in `FileFind.h`, absent).  Names and paths are
compared without regard to case throughout the engine. -/
def nameKeyEq (a b : WString) : Bool := equalCaseInsensitive a b

/-- The first block of `ExcludeMatch`: the `find_if` over the names of the
match, which asks the exclusion terms filed under the file name, then those
filed under the full path. -/
def excludedByNameOrPath (env : Env) (ff : FileFind) (aMatch : Match) : Bool :=
  if !ff.m_ExcludeNameTerms.isEmpty || !ff.m_ExcludePathTerms.isEmpty then
    aMatch.MatchingNames.any fun nameMatch =>
      (!ff.m_ExcludeNameTerms.isEmpty
        && (TermMap.equal_range nameKeyEq ff.m_ExcludeNameTerms nameMatch.FILENAME.FileName).any
            (fun t => LookupTermInMatchExcludeMatching env t NAME_EXACT aMatch != NONE))
      || (!ff.m_ExcludePathTerms.isEmpty
        && (TermMap.equal_range nameKeyEq ff.m_ExcludePathTerms nameMatch.FullPathName).any
            (fun t => LookupTermInMatchExcludeMatching env t PATH_EXACT aMatch != NONE))
  else false

/-- The second block of `ExcludeMatch`: for every attribute of the match, the
exclusion terms filed under its size. -/
def excludedBySize (env : Env) (ff : FileFind) (aMatch : Match) : Bool :=
  !ff.m_ExcludeSizeTerms.isEmpty
    && aMatch.MatchingAttributes.any (fun match_attr =>
        (TermMap.equal_range (fun a b => a == b) ff.m_ExcludeSizeTerms match_attr.DataSize).any
          (fun t => LookupTermInMatchExcludeMatching env t SIZE_EQ aMatch != NONE))

/-- The last loop of `ExcludeMatch`, over `m_ExcludeTerms`. -/
def excludedByTerms (env : Env) (ff : FileFind) (aMatch : Match) : Bool :=
  ff.m_ExcludeTerms.any (fun t => LookupTermInMatchExcludeMatching env t NONE aMatch != NONE)

/-- `FileFind::ExcludeMatch`: `S_OK` when an exclusion term matches the match,
`S_FALSE` when none does. -/
def ExcludeMatch (env : Env) (ff : FileFind) (aMatch : Match) : HRESULT :=
  if excludedByNameOrPath env ff aMatch then S_OK
  else if excludedBySize env ff aMatch then S_OK
  else if excludedByTerms env ff aMatch then S_OK
  else S_FALSE

/-- `FileFind::FoundMatchCallback`: called with the match and `bStop`, it gives
the new value of `bStop`. -/
abbrev FoundMatchCallback := Match → Bool → Bool

/-- What `EvaluateMatchCallCallback` leaves behind: the result code, the engine
(`m_Matches`), the matches the callback was called with during the call, in
call order, and `bStop`. -/
structure Evaluated where
  hr : HRESULT
  ff : FileFind
  called : List Match
  bStop : Bool

/-- `FileFind::EvaluateMatchCallCallback`.  `ComputeMatchHashes` fills hash
members of the attribute matches, which the embedding does not carry, and its
failure is only logged. -/
def EvaluateMatchCallCallback (env : Env) (ff : FileFind) (aCallback : Option FoundMatchCallback)
    (bStop : Bool) (aMatch : Match) : Evaluated :=
  let hr := ExcludeMatch env ff aMatch
  if FAILED hr then ⟨hr, ff, [], bStop⟩
  else if hr == S_FALSE then
    -- the match has not matched a excluding term
    let ff := { ff with m_Matches := ff.m_Matches ++ [aMatch] }
    match aCallback with
    | some cb => ⟨S_OK, ff, [aMatch], cb aMatch bStop⟩
    | none => ⟨S_OK, ff, [], bStop⟩
  else ⟨S_OK, ff, [], bStop⟩

end FileFind

/-- A sample environment for evaluating the engine on concrete records: every
file name is in location, the full name is a backslash followed by the file
name, streams are not provided, an expression or a pattern without special
characters matches the string equal to it, and there is no Yara scanner. -/
def sampleEnv : Env where
  m_InLocationBuilder := fun _ => true
  m_FullNameBuilder := some (fun n => some ('\\' :: n.FileName))
  m_bProvideStream := false
  m_MatchHashDefined := false
  PathMatchSpec := fun file spec => file == spec
  regex_match := fun r s => s == r.pattern
  regex_match_bytes := fun _ _ => false
  hasYaraScan := false
  YaraScan := fun _ => none
  PathMatchSpecA := fun rule spec => rule == spec

/-! ## Vocabulary of the specification -/

section SpecVocabulary
open Criteria

/-- The term requires criterion `c` (a flag of the bit mask). -/
def SearchTerm.requires (t : SearchTerm) (c : Nat) : Prop := Criteria.test t.Required c = true

instance (t : SearchTerm) (c : Nat) : Decidable (t.requires c) :=
  inferInstanceAs (Decidable (Criteria.test t.Required c = true))

/-- The specific name and path criteria. -/
def specificNameOrPath : List Nat :=
  [NAME_EXACT, NAME_MATCH, NAME_REGEX, PATH_EXACT, PATH_MATCH, PATH_REGEX]

/-- The EA criteria of the criteria table: exact, glob, regex. -/
def eaCriteria : List Nat := [EA_EXACT, EA_MATCH, EA_REGEX]

/-- The ADS criteria of the criteria table: exact, glob, regex. -/
def adsCriteria : List Nat := [ADS_EXACT, ADS_MATCH, ADS_REGEX]

/-- The attribute-name and attribute-type criteria. -/
def attrCriteria : List Nat := [ATTR_NAME_EXACT, ATTR_NAME_MATCH, ATTR_NAME_REGEX, ATTR_TYPE]

/-- The combinations of criteria the specification lists as rejected by
`AddTerm` (those on sizes are the business of `IsValidTerm`). -/
def rejectedCombination (t : SearchTerm) : Prop :=
  t.Required = NONE
  ∨ (t.requires NAME ∧ ∃ c ∈ specificNameOrPath ++ eaCriteria ++ adsCriteria, t.requires c)
  ∨ ((∃ c ∈ eaCriteria, t.requires c) ∧ ∃ c ∈ adsCriteria, t.requires c)
  ∨ ((∃ c ∈ attrCriteria, t.requires c) ∧ ∃ c ∈ eaCriteria ++ adsCriteria, t.requires c)

/-- The container the claim assigns to a term, read off the term as `AddTerm`
left it: the exact-name index under `FileName` if `Required` has `NAME_EXACT`,
otherwise the exact-path index under `Path` if it has `PATH_EXACT`, otherwise
the exact-size index under `SizeEQ` if it has `SIZE_EQ`, otherwise the general
list. -/
def Slot.agrees : Slot → SearchTerm → Prop
  | .exactName k, t => t.requires NAME_EXACT ∧ k = t.FileName
  | .exactPath k, t => ¬ t.requires NAME_EXACT ∧ t.requires PATH_EXACT ∧ k = t.Path
  | .size k, t =>
    ¬ t.requires NAME_EXACT ∧ ¬ t.requires PATH_EXACT ∧ t.requires SIZE_EQ ∧ k = t.SizeEQ
  | .general, t =>
    ¬ t.requires NAME_EXACT ∧ ¬ t.requires PATH_EXACT ∧ ¬ t.requires SIZE_EQ

/-- The term belongs in the exact-name index. -/
def inExactName (t : SearchTerm) : Bool := test t.Required NAME_EXACT

/-- The term belongs in the exact-path index. -/
def inExactPath (t : SearchTerm) : Bool :=
  !test t.Required NAME_EXACT && test t.Required PATH_EXACT

/-- The term belongs in the exact-size index. -/
def inExactSize (t : SearchTerm) : Bool :=
  !test t.Required NAME_EXACT && !test t.Required PATH_EXACT && test t.Required SIZE_EQ

/-- The term belongs in the general list. -/
def inGeneral (t : SearchTerm) : Bool :=
  !test t.Required NAME_EXACT && !test t.Required PATH_EXACT && !test t.Required SIZE_EQ

/-- The four inclusion containers hold the accepted terms `acc` as the claim
says: each container is the sub-list of the accepted terms that belong in it,
every term filed under its key. -/
structure FiledAsClaimed (ff : FileFind) (acc : List SearchTerm) : Prop where
  all : ff.m_AllTerms = acc
  names : ff.m_ExactNameTerms = (acc.filter inExactName).map (fun t => (t.FileName, t))
  paths : ff.m_ExactPathTerms = (acc.filter inExactPath).map (fun t => (t.Path, t))
  sizes : ff.m_SizeTerms = (acc.filter inExactSize).map (fun t => (t.SizeEQ, t))
  general : ff.m_Terms = acc.filter inGeneral

/-- The size criteria. -/
def sizeMask : Nat := SIZE_EQ ||| SIZE_GT ||| SIZE_GE ||| SIZE_LT ||| SIZE_LE

/-- The size criteria a term requires. -/
def SearchTerm.requiredSize (t : SearchTerm) : Nat := t.Required &&& sizeMask

/-- The allowed combinations of size criteria: `size==` alone, or at most one of
`size>`, `size>=` with at most one of `size<`, `size<=`. -/
def allowedSizeCombination (t : SearchTerm) : Prop :=
  (t.requires SIZE_EQ →
      ¬ t.requires SIZE_GT ∧ ¬ t.requires SIZE_GE ∧ ¬ t.requires SIZE_LT ∧ ¬ t.requires SIZE_LE)
  ∧ ¬ (t.requires SIZE_GT ∧ t.requires SIZE_GE)
  ∧ ¬ (t.requires SIZE_LT ∧ t.requires SIZE_LE)

instance (t : SearchTerm) : Decidable (allowedSizeCombination t) := by
  unfold allowedSizeCombination
  infer_instance

/-- The data size `s` satisfies each size criterion the term requires. -/
def satisfiesSizes (t : SearchTerm) (s : Nat) : Prop :=
  (t.requires SIZE_EQ → s = t.SizeEQ)
  ∧ (t.requires SIZE_GT → s > t.SizeG)
  ∧ (t.requires SIZE_GE → s ≥ t.SizeG)
  ∧ (t.requires SIZE_LT → s < t.SizeL)
  ∧ (t.requires SIZE_LE → s ≤ t.SizeL)

instance (t : SearchTerm) (s : Nat) : Decidable (satisfiesSizes t s) := by
  unfold satisfiesSizes
  infer_instance

/-- Some file name of the record carries all the name criteria of the term:
the name group matched. -/
def nameGroupMatched (env : Env) (t : SearchTerm) (pElt : MFTRecord) : Bool :=
  pElt.FileNames.any fun name =>
    t.Required &&& SearchTerm.NameMask == FileFind.MatchNameInLocation env t name

/-- Some file name of the record carries all the path criteria of the term. -/
def pathGroupMatched (env : Env) (t : SearchTerm) (pElt : MFTRecord) : Bool :=
  pElt.FileNames.any fun name =>
    FileFind.MatchPathOfFileName env t name == t.Required &&& SearchTerm.PathMask

/-- Some data attribute of the record carries all the data name and size
criteria of the term. -/
def dataNameOrSizeGroupMatched (env : Env) (t : SearchTerm) (pElt : MFTRecord) : Bool :=
  pElt.DataAttributes.any fun data =>
    FileFind.dataNameAndSizeOf env t (t.Required &&& SearchTerm.DataNameOrSizeMask) pElt data
      == some (t.Required &&& SearchTerm.DataNameOrSizeMask)

/-- Some attribute of the record carries all the attribute criteria of the
term. -/
def attributeGroupMatched (env : Env) (t : SearchTerm) (pElt : MFTRecord) : Bool :=
  pElt.AttributeList.any fun entry =>
    FileFind.attributesOf env t (t.Required &&& SearchTerm.AttributeMask) pElt entry
      == some (t.Required &&& SearchTerm.AttributeMask)

/-- Some data attribute of the record carries all the data content criteria of
the term. -/
def dataGroupMatched (env : Env) (t : SearchTerm) (pElt : MFTRecord) : Bool :=
  pElt.DataAttributes.any fun data_attr =>
    FileFind.dataOf env t data_attr == some (t.Required &&& SearchTerm.DataMask)

/-- Some file name of the record is in location. -/
def someNameInLocation (env : Env) (pElt : MFTRecord) : Bool :=
  pElt.FileNames.any env.m_InLocationBuilder

/-- The condition the scenario of the specification gives for a term asking
`size > N` and an ADS name expression: the record has a data stream whose name
matches the expression, and its unnamed `$DATA` stream is larger than `N`. -/
def scenarioSizeAndAdsRegex (env : Env) (t : SearchTerm) (pElt : MFTRecord) : Prop :=
  (∃ d ∈ pElt.DataAttributes, env.regex_match t.ADSNameRegEx d.Name = true)
  ∧ ∃ u ∈ pElt.DataAttributes, u.Name = [] ∧ ∃ sz, u.DataSize = some sz ∧ sz > t.SizeG

/-- What the engine asks of a record for the same term: the record has a named
data attribute, and one data stream has both a name that matches the expression
and a size of its own larger than `N`. -/
def sameStreamSizeAndAdsRegex (env : Env) (t : SearchTerm) (pElt : MFTRecord) : Prop :=
  pElt.HasNamedDataAttr = true
  ∧ ∃ d ∈ pElt.DataAttributes,
      (∃ sz, d.DataSize = some sz ∧ sz > t.SizeG) ∧ env.regex_match t.ADSNameRegEx d.Name = true

/-- A term asking `size > 1000000` and a stream named by the expression `zone`. -/
def zoneTerm : SearchTerm :=
  { Required := SIZE_GT ||| ADS_REGEX, SizeG := 1000000, ADSNameRegEx := ⟨"zone".toList, true⟩ }

/-- A record with a large unnamed `$DATA` stream and a small stream `zone`. -/
def largeFileSmallZone : MFTRecord :=
  { FileNames := [{ FileName := "a.exe".toList }],
    HasNamedDataAttr := true,
    DataAttributes := [{ Name := [], DataSize := some 2000000 },
                       { Name := "zone".toList, DataSize := some 26 }] }

/-- A record with a small unnamed `$DATA` stream and a large stream `zone`. -/
def smallFileLargeZone : MFTRecord :=
  { FileNames := [{ FileName := "a.exe".toList }],
    HasNamedDataAttr := true,
    DataAttributes := [{ Name := [], DataSize := some 10 },
                       { Name := "zone".toList, DataSize := some 2000000 }] }

/-- Every criteria group the term depends on matched over the record, and some
file name of the record is in location. -/
def groupsMatched (env : Env) (t : SearchTerm) (pElt : MFTRecord) : Bool :=
  (!t.DependsOnName || nameGroupMatched env t pElt)
  && (!t.DependsOnPath || pathGroupMatched env t pElt)
  && (!t.DependsOnDataNameOrSize || dataNameOrSizeGroupMatched env t pElt)
  && someNameInLocation env pElt
  && (!t.DependsOnAttribute || attributeGroupMatched env t pElt)
  && (!t.DependsOnData || dataGroupMatched env t pElt)

/-- The criteria of the five groups that the term requires, together with the
criteria the caller found through an index (`matched`). -/
def groupCriteria (t : SearchTerm) (matched : Nat) : Nat :=
  matched ||| (t.Required &&& SearchTerm.NameMask) ||| (t.Required &&& SearchTerm.PathMask)
    ||| (t.Required &&& SearchTerm.DataNameOrSizeMask)
    ||| (t.Required &&& SearchTerm.AttributeMask) ||| (t.Required &&& SearchTerm.DataMask)

/-- An engine set up with inclusion terms and exclusion terms. -/
def configured (includes excludes : List SearchTerm) : FileFind :=
  FileFind.AddExcludeTerms (FileFind.AddTerms {} includes) excludes

/-- The exclusion terms an engine holds. -/
def storedExcludeTerms (ff : FileFind) : List SearchTerm :=
  ff.m_ExcludeNameTerms.map Prod.snd ++ ff.m_ExcludePathTerms.map Prod.snd
    ++ ff.m_ExcludeSizeTerms.map Prod.snd ++ ff.m_ExcludeTerms

/-- One name of the match, in location, carries all the name criteria of the
term. -/
def nameGroupExcludes (env : Env) (t : SearchTerm) (m : Match) : Bool :=
  m.MatchingNames.any fun n =>
    t.Required &&& SearchTerm.NameMask == FileFind.MatchNameInLocation env t n.FILENAME

/-- One name of the match carries, with its full path, all the path criteria of
the term. -/
def pathGroupExcludes (env : Env) (t : SearchTerm) (m : Match) : Bool :=
  m.MatchingNames.any fun n =>
    t.Required &&& SearchTerm.PathMask == FileFind.MatchPathOfNameMatch env t n

/-- One `$DATA` attribute of the match carries all the stream name and size
criteria of the term. -/
def dataNameOrSizeGroupExcludes (env : Env) (t : SearchTerm) (m : Match) : Bool :=
  m.MatchingAttributes.any fun a =>
    FileFind.excludeDataNameAndSizeOf env t (t.Required &&& SearchTerm.DataNameOrSizeMask) a
      == some (t.Required &&& SearchTerm.DataNameOrSizeMask)

/-- One attribute of the match carries all the attribute criteria of the term
(an EA criterion is never carried). -/
def attributeGroupExcludes (env : Env) (t : SearchTerm) (m : Match) : Bool :=
  m.MatchingAttributes.any fun a =>
    FileFind.excludeAttributesOf env t (t.Required &&& SearchTerm.AttributeMask) a
      == some (t.Required &&& SearchTerm.AttributeMask)

/-- One `$DATA` attribute of the match carries the data content criteria
`wanted`. -/
def dataGroupExcludes (env : Env) (t : SearchTerm) (m : Match) (wanted : Nat) : Bool :=
  m.MatchingAttributes.any fun a => FileFind.excludeDataOf env t a == some wanted

/-- The exclusion term matches the match: for every criteria group the term
depends on, one name or one attribute of the match carries all the criteria of
the group; `wanted` stands for the data content criteria to be carried. -/
def excludeGroupsMatched (env : Env) (t : SearchTerm) (m : Match) (wanted : Nat) : Bool :=
  (!t.DependsOnName || nameGroupExcludes env t m)
  && (!t.DependsOnPath || pathGroupExcludes env t m)
  && (!t.DependsOnDataNameOrSize || dataNameOrSizeGroupExcludes env t m)
  && (!t.DependsOnAttribute || attributeGroupExcludes env t m)
  && (!t.DependsOnData || dataGroupExcludes env t m wanted)

/-- The exclusion term matches the match (see `excludeGroupsMatched`), all the
data content criteria of the term being asked of one attribute. -/
def excludeTermMatches (env : Env) (t : SearchTerm) (m : Match) : Bool :=
  excludeGroupsMatched env t m (t.Required &&& SearchTerm.DataMask)

/-- The exclusion term matches the match when its Yara criterion, if it has
one, is disregarded. -/
def excludeTermMatchesButYara (env : Env) (t : SearchTerm) (m : Match) : Bool :=
  excludeGroupsMatched env t m (clear (t.Required &&& SearchTerm.DataMask) YARA)

/-- The full paths of the match are as the walker builds them: they start with
a backslash. -/
def pathsFromWalker (m : Match) : Prop :=
  ∀ n ∈ m.MatchingNames, n.FullPathName ≠ [] → n.FullPathName.head? = some '\\'

/-- The match was emitted: it was appended to `m_Matches`, and the callback, if
there is one, was called once, with the match. -/
def emitted (ff : FileFind) (aCallback : Option FileFind.FoundMatchCallback) (m : Match)
    (r : FileFind.Evaluated) : Prop :=
  r.ff.m_Matches = ff.m_Matches ++ [m] ∧ r.called = (if aCallback.isSome then [m] else [])

/-- The match was not emitted: `m_Matches` is as it was and the callback was
not called. -/
def notEmitted (ff : FileFind) (r : FileFind.Evaluated) : Prop :=
  r.ff.m_Matches = ff.m_Matches ∧ r.called = []

/-- The exclusion indexes are keyed as `AddExcludeTerm` files terms: an entry
of the name index requires `NAME_EXACT` and sits under its `FileName`, and so
on. -/
structure ExcludeFiled (ff : FileFind) : Prop where
  names : ∀ e ∈ ff.m_ExcludeNameTerms, (Slot.exactName e.1).agrees e.2
  paths : ∀ e ∈ ff.m_ExcludePathTerms, (Slot.exactPath e.1).agrees e.2
  sizes : ∀ e ∈ ff.m_ExcludeSizeTerms, (Slot.size e.1).agrees e.2

/-- `Required` holds only criteria of the five groups: no free-form `NAME`,
`ADS` or `EA` is left in it, and no bit that is not a criterion. -/
def onlyGroupCriteria (t : SearchTerm) : Prop := groupCriteria t NONE = t.Required

instance (t : SearchTerm) : Decidable (onlyGroupCriteria t) :=
  inferInstanceAs (Decidable (groupCriteria t NONE = t.Required))

/-- The criterion with bit `k` of an exclusion term is satisfied by the names
and data attributes of the match: some name, or some `$DATA` attribute, of the
match passes the test of the criterion.  An EA criterion is not one that names
and data attributes can satisfy. -/
def criterionSatisfied (env : Env) (t : SearchTerm) (m : Match) (k : Nat) : Prop :=
  match k with
  | 1 => ∃ n ∈ m.MatchingNames, equalCaseInsensitive t.FileName n.FILENAME.FileName = true
  | 2 => ∃ n ∈ m.MatchingNames, env.PathMatchSpec n.FILENAME.FileName t.FileName = true
  | 3 => ∃ n ∈ m.MatchingNames, env.regex_match t.FileNameRegEx n.FILENAME.FileName = true
  | 4 => ∃ n ∈ m.MatchingNames, equalCaseInsensitive t.Path n.FullPathName = true
  | 5 => ∃ n ∈ m.MatchingNames, env.PathMatchSpec n.FullPathName t.Path = true
  | 6 => ∃ n ∈ m.MatchingNames, env.regex_match t.PathRegEx n.FullPathName = true
  | 8 => ∃ a ∈ m.MatchingAttributes, a.AttrType = ATTR_DATA
            ∧ equalCaseInsensitive t.ADSName a.AttrName = true
  | 9 => ∃ a ∈ m.MatchingAttributes, a.AttrType = ATTR_DATA
            ∧ env.PathMatchSpec a.AttrName t.ADSName = true
  | 10 => ∃ a ∈ m.MatchingAttributes, a.AttrType = ATTR_DATA
            ∧ env.regex_match t.ADSNameRegEx a.AttrName = true
  | 15 => ∃ a ∈ m.MatchingAttributes, a.AttrType = t.dwAttrType
  | 16 => ∃ a ∈ m.MatchingAttributes, equalCaseInsensitive t.AttrName a.AttrName = true
  | 17 => ∃ a ∈ m.MatchingAttributes, env.PathMatchSpec a.AttrName t.AttrName = true
  | 18 => ∃ a ∈ m.MatchingAttributes, env.regex_match t.AttrNameRegEx a.AttrName = true
  | 19 => ∃ a ∈ m.MatchingAttributes, a.AttrType = ATTR_DATA ∧ a.DataSize = t.SizeEQ
  | 20 => ∃ a ∈ m.MatchingAttributes, a.AttrType = ATTR_DATA ∧ a.DataSize > t.SizeG
  | 21 => ∃ a ∈ m.MatchingAttributes, a.AttrType = ATTR_DATA ∧ a.DataSize ≥ t.SizeG
  | 22 => ∃ a ∈ m.MatchingAttributes, a.AttrType = ATTR_DATA ∧ a.DataSize < t.SizeL
  | 23 => ∃ a ∈ m.MatchingAttributes, a.AttrType = ATTR_DATA ∧ a.DataSize ≤ t.SizeL
  | 24 => ∃ a ∈ m.MatchingAttributes, ∃ d, a.DataAttr = some d
            ∧ ∃ h, d.Hashes = some h ∧ h.1 = t.MD5
  | 25 => ∃ a ∈ m.MatchingAttributes, ∃ d, a.DataAttr = some d
            ∧ ∃ h, d.Hashes = some h ∧ h.2.1 = t.SHA1
  | 26 => ∃ a ∈ m.MatchingAttributes, ∃ d, a.DataAttr = some d
            ∧ ∃ h, d.Hashes = some h ∧ h.2.2 = t.SHA256
  | 27 => ∃ a ∈ m.MatchingAttributes, ∃ d, a.DataAttr = some d
            ∧ FileFind.MatchHeader t d ≠ NONE
  | 28 => ∃ a ∈ m.MatchingAttributes, ∃ d, a.DataAttr = some d
            ∧ FileFind.RegExHeader env t d ≠ NONE
  | 29 => ∃ a ∈ m.MatchingAttributes, ∃ d, a.DataAttr = some d
            ∧ FileFind.HexHeader t d ≠ NONE
  | 30 => ∃ a ∈ m.MatchingAttributes, ∃ d, a.DataAttr = some d
            ∧ FileFind.MatchContains t d ≠ NONE
  | 31 => ∃ a ∈ m.MatchingAttributes, ∃ d, a.DataAttr = some d
            ∧ (FileFind.MatchYara env t d).1 ≠ NONE
  | _ => False

/-- The condition of the claim on an exclusion term: every criterion of its
`Required` is satisfied by the names and data attributes of the match. -/
def everyCriterionSatisfied (env : Env) (t : SearchTerm) (m : Match) : Prop :=
  ∀ k, t.Required.testBit k = true → criterionSatisfied env t m k

/-- An exclusion term asking `size > 100` of a stream named `zone`. -/
def bigZoneTerm : SearchTerm :=
  { Required := SIZE_GT ||| ADS_EXACT, SizeG := 100, ADSName := "zone".toList }

/-- A match for `\a.exe` with an unnamed stream of 1000 bytes and a stream
`zone` of 10 bytes. -/
def matchWithSmallZone : Match :=
  { Term := { Required := NAME_MATCH, FileName := "*.exe".toList },
    MatchingNames := [{ FILENAME := { FileName := "a.exe".toList },
                        FullPathName := "\\a.exe".toList }],
    MatchingAttributes :=
      [{ AttrType := ATTR_DATA, InstanceID := 0, AttrName := [], DataSize := 1000 },
       { AttrType := ATTR_DATA, InstanceID := 1, AttrName := "zone".toList, DataSize := 10 }] }

/-- An exclusion term asking for the file name `A.EXE`. -/
def exeNameTerm : SearchTerm :=
  { Required := NAME_EXACT, FileName := "A.EXE".toList }

/-- A callback that asks for the search to stop. -/
def stopCallback : FileFind.FoundMatchCallback := fun _ _ => true

end SpecVocabulary

/-! ## Vocabulary for paths and stream contents -/

section PathVocabulary
open Criteria

/-- A full path with an optional drive prefix: the drive letter and a colon in
front of the path. -/
def withDrive (drive : Option Char) (path : WString) : WString :=
  match drive with
  | none => path
  | some c => c :: ':' :: path

/-- A term asking for the exact path `\a`. -/
def shortPathTerm : SearchTerm :=
  { Required := PATH_EXACT, Path := "\\a".toList }

end PathVocabulary

section ContainsVocabulary
open Criteria

/-- A needle as long as the chunk: `chunk` bytes `01`. -/
def staleCarryNeedle (chunk : Nat) : List Nat := List.replicate chunk 1

/-- A stream of three reads for that needle: `2 * chunk` bytes `00`; then one
byte `00` and `chunk - 1` bytes `01`; then the bytes `01 00`.  The needle
starts at offset `2 * chunk + 1`. -/
def staleCarryStream (chunk : Nat) : List Nat :=
  List.replicate (2 * chunk) 0 ++ ((0 :: List.replicate (chunk - 1) 1) ++ [1, 0])

/-- A term whose search string is 4 MiB of bytes `01`. -/
def fourMiBNeedleTerm : SearchTerm :=
  { Required := CONTAINS, Contains := staleCarryNeedle (4 * 1024 * 1024) }

/-- A data attribute whose stream holds the 4 MiB needle at offset 8 MiB + 1. -/
def fourMiBNeedleStream : MftRecordAttribute :=
  { Stream := some (staleCarryStream (4 * 1024 * 1024)) }

end ContainsVocabulary

/-! ## The MFT walker (`src/OrcLib/MFTWalker.cpp`)

Conventions of the embedding, besides those above

* A pointer to a record is the key of the record in `m_MFTMap`; a null pointer
  is `none`.
* The name buffer is a list of cells; a cell that was never written is `none`.
  A write outside the buffer is undefined behaviour of the C++ code and makes a
  function of the embedding return `Outcome.undefined`.
* `HeapAlloc` is taken to succeed.
-/

/-- The terminator of a wide string, `L'\0'`. -/
def NUL : Char := Char.ofNat 0

/-- Modelled from the spec: the macro `NtfsSegmentNumber` is defined in a header
that is absent; the spec has a reference hold a 48-bit index and a 16-bit
sequence number, and the code calls the value of this macro the unsafe segment
number: the index without the sequence number. -/
def NtfsSegmentNumber (ref : Nat) : Nat := ref % 2 ^ 48

/-- What a function of the walker does: it writes outside a buffer or uses a
record that was freed (`undefined`), it is still looping when the fuel of the
embedding is used up (`noFuel`), or it returns. -/
inductive Outcome (α : Type) where
  | undefined
  | noFuel
  | value (a : α)
deriving DecidableEq, Repr

namespace Outcome

/-- Sequencing: the second computation runs when the first returns. -/
def bind {α β : Type} (x : Outcome α) (f : α → Outcome β) : Outcome β :=
  match x with
  | undefined => undefined
  | noFuel => noFuel
  | value a => f a

instance : Monad Outcome where
  pure := value
  bind := bind

end Outcome

/-- Modelled from the spec: `std::map` / `std::unordered_map` members of
`MFTWalker` are declared in `MFTWalker.h` (absent); the spec calls them maps
from safe segment numbers.  A map is the list of its `(key, value)` entries, one
per key. -/
abbrev SegmentMap (α : Type) := List (Nat × α)

namespace SegmentMap

/-- `map::find(key)`: `none` for `end()`. -/
def find {α : Type} (m : SegmentMap α) (key : Nat) : Option α := List.lookup key m

/-- `map::insert(pair(key, value))`: nothing changes when the key is there. -/
def insert {α : Type} (m : SegmentMap α) (key : Nat) (value : α) : SegmentMap α :=
  if (m.find key).isSome then m else m ++ [(key, value)]

/-- `map[key] = value`. -/
def assign {α : Type} (m : SegmentMap α) (key : Nat) (value : α) : SegmentMap α :=
  if (m.find key).isSome then m.map (fun e => if e.1 == key then (key, value) else e)
  else m ++ [(key, value)]

end SegmentMap

/-- Modelled from the spec: `MFTWalker::MFTFileNameWrapper` is declared in
`MFTWalker.h` (absent); the spec gives a DirectoryName a parent reference, the
bytes of the file name and the in-location tristate.  `m_InLocation` is a
`boost::logic::tribool`: `none` is `boost::indeterminate`.  The constructor
(`MFTWalker.cpp`, lines 34-43) copies a non-null `FILE_NAME`, so `FileName()`
is not `NULL`. -/
structure MFTFileNameWrapper where
  m_pFileName : FILE_NAME
  m_InLocation : Option Bool := none
deriving DecidableEq, Repr

namespace MFTFileNameWrapper

/-- `MFTFileNameWrapper(pFileName)`: `m_InLocation = boost::indeterminate`. -/
def make (pFileName : FILE_NAME) : MFTFileNameWrapper :=
  { m_pFileName := pFileName, m_InLocation := none }

/-- `FileName()`. -/
def FileName (w : MFTFileNameWrapper) : FILE_NAME := w.m_pFileName

end MFTFileNameWrapper

/-- `_wcsnicmp(a, b, n) == 0` for two terminated strings, given without their
terminator: up to `n` characters are compared after `towlower`, and the
comparison ends at the first difference or at a terminator. -/
def _wcsnicmp : WString → WString → Nat → Bool
  | _, _, 0 => true
  | a, b, n + 1 =>
    let ca := towlower (a.headD NUL)
    let cb := towlower (b.headD NUL)
    if ca != cb then false
    else if ca == NUL then true
    else _wcsnicmp a.tail b.tail n

/-- The string that starts at cell `i` of a buffer: the characters up to the
first terminator (or to a cell never written, or to the end of the buffer). -/
def cstring (buffer : List (Option Char)) (i : Nat) : WString :=
  ((buffer.drop i).takeWhile (fun c => c.isSome && c != some NUL)).filterMap id

/-- A write of `s` to the cells `i`, `i + 1`, ... of a buffer: `memcpy_s` and
the character assignments.  `none` when a cell is outside the buffer. -/
def writeAt (buffer : List (Option Char)) (i : Nat) (s : List (Option Char)) :
    Option (List (Option Char)) :=
  if i + s.length ≤ buffer.length then
    some (buffer.take i ++ s ++ buffer.drop (i + s.length))
  else none

/-- One upper-case hexadecimal digit. -/
def hexDigit (d : Nat) : Char :=
  if d < 10 then Char.ofNat (48 + d) else Char.ofNat (55 + d)

/-- The format `%.16I64X` of `swprintf_s`: the 16 upper-case hexadecimal
digits of a 64-bit number. -/
def hex16 (n : Nat) : WString :=
  (List.range 16).map (fun i => hexDigit ((n % 2 ^ 64) / 16 ^ (15 - i) % 16))

/-- `FILE_RECORD_SEGMENT_HEADER`, as far as the walker reads it, followed by
the rest of the record bytes.  `Flags` holds `FILE_RECORD_SEGMENT_IN_USE`
(`0x0001`) in its lowest bit. -/
structure FILE_RECORD_SEGMENT_HEADER where
  Signature : List Char := "FILE".toList
  UpdateSequenceArrayOffset : Nat := 0x30
  FirstAttributeOffset : Nat := 0x38
  SequenceNumber : Nat := 0
  SegmentNumberHighPart : Nat := 0
  SegmentNumberLowPart : Nat := 0
  Flags : Nat := 1
  BaseFileRecordSegment : Nat := 0
  Body : List Nat := []
deriving DecidableEq, Repr

/-- `FILE_RECORD_SEGMENT_IN_USE`. -/
def FILE_RECORD_SEGMENT_IN_USE : Nat := 0x0001

/-- `ATTRIBUTE_LIST_ENTRY`: one row of `$ATTRIBUTE_LIST` (`m_pListEntry`). -/
structure ATTRIBUTE_LIST_ENTRY where
  AttributeTypeCode : Nat := 0
  LowestVcn : Nat := 0
  AttributeName : WString := []
  SegmentReference : Nat := 0
deriving DecidableEq, Repr

/-- The attribute an entry of the attribute list points to (`m_Attribute`), as
far as the walker reads it: its type and name, and `m_pHostRecord`. -/
structure AttributePtr where
  TypeCode : Nat := 0
  Name : WString := []
  m_pHostRecord : Option Nat := none
deriving DecidableEq, Repr

/-- `AttributeListEntry`: `m_Attribute`, `m_pListEntry`, and what the accessors
`TypeCode()`, `LowestVCN()` and `AttributeName()` of the entry return. -/
structure AttributeListEntry where
  m_Attribute : Option AttributePtr := none
  m_pListEntry : Option ATTRIBUTE_LIST_ENTRY := none
  TypeCode : Nat := 0
  LowestVCN : Nat := 0
  AttributeName : WString := []
deriving DecidableEq, Repr

/-- `AttributeList`: `IsPresent()` and `m_AttList`. -/
structure AttributeList where
  IsPresent : Bool := false
  m_AttList : List AttributeListEntry := []
deriving DecidableEq, Repr

/-- Modelled from the spec: the class `MFTRecord` is declared in a header that
is absent; the spec has the records in "an arena of records indexed by
`SafeSegmentNumber`", where "base-record back-pointers and child-record lists
store indices".  The structure holds the header of the record and the members
that the walker reads and writes.  A pointer to a record is the key of the
record in `m_MFTMap` (`m_pBaseFileRecord`), and an entry of `m_ChildRecords` is
the key of the child and whether its pointer is set; `Main_PFILE_NAME` is what
`GetMain_PFILE_NAME()` returns. -/
structure WalkerRecord where
  m_FileReferenceNumber : Nat := 0
  m_pRecord : FILE_RECORD_SEGMENT_HEADER := {}
  m_pBaseFileRecord : Option Nat := none
  m_ChildRecords : List (Nat × Bool) := []
  m_bParsed : Bool := false
  m_bIsComplete : Bool := false
  m_bCallbackCalled : Bool := false
  m_bIsDirectory : Bool := false
  m_FileNames : List FILE_NAME := []
  m_pAttributeList : Option AttributeList := none
  Main_PFILE_NAME : Option FILE_NAME := none
deriving DecidableEq, Repr

/-- `MFTWalker`: the members the operations below read and write, what they
read of the volume reader and of the MFT source (`MaxComponentLength`,
`USNRoot`), the number of cells of the segment store in use, and the trace of
the calls made to `ElementCallback` and to `ParseRecord` (the safe segment
number of the record, in call order). -/
structure MFTWalker where
  m_bIncludeNotInUse : Bool := false
  m_Locations : List WString := []
  m_DirectoryNames : SegmentMap MFTFileNameWrapper := []
  m_MFTMap : SegmentMap (Option WalkerRecord) := []
  m_pFullNameBuffer : Option (List (Option Char)) := none
  m_dwFullNameBufferLen : Nat := 0
  m_dwWalkedItems : Nat := 0
  m_ulMFTRecordCount : Nat := 0
  m_CellStoreLastWalk : Nat := 0
  m_CellStoreThreshold : Nat := 0x10000
  AllocatedCells : Nat := 0
  MaxComponentLength : Nat := 255
  USNRoot : Nat := 0x0005000000000005
  elementCalls : List Nat := []
  parseCalls : List Nat := []
deriving DecidableEq, Repr

namespace MFTWalker

/-- The local variables of one call of `GetFullNameAndIfInLocation` together
with the name buffer: `pCurrent` is the index of the cell it points to.
`returnedNull` is set when a call of `ExtendNameBuffer` has failed: the function
has returned `NULL` there, and the blocks that follow do nothing. -/
structure NameCursor where
  m_pFullNameBuffer : List (Option Char)
  m_dwFullNameBufferLen : Nat
  pCurrent : Nat
  dwCount : Nat
  returnedNull : Bool := false
deriving DecidableEq, Repr

/-- `MFTWalker::ExtendNameBuffer(&pCurrent)`: a new buffer of
`m_dwFullNameBufferLen + MaxComponentLength` bytes receives the old one at the
character offset `MaxComponentLength / sizeof(WCHAR) - 1`, and `pCurrent` is
moved by the same offset.  When the function returns `E_FAIL` the buffer is as
it was and `returnedNull` is set. -/
def ExtendNameBuffer (mcl : Nat) (c : NameCursor) : Outcome NameCursor :=
  let newCells : List (Option Char) := List.replicate ((c.m_dwFullNameBufferLen + mcl) / 2) none
  if mcl / 2 < 1 then Outcome.undefined
  else
    match writeAt newCells (mcl / 2 - 1) c.m_pFullNameBuffer with
    | none => Outcome.undefined
    | some pNewBuf =>
      let dwIndex := c.pCurrent
      let pCurrent := mcl / 2 - 1 + dwIndex
      if pCurrent ≥ (c.m_dwFullNameBufferLen + mcl) / 2 then
        Outcome.value { c with returnedNull := true }
      else
        Outcome.value
          { c with
            m_pFullNameBuffer := pNewBuf,
            m_dwFullNameBufferLen := c.m_dwFullNameBufferLen + mcl,
            pCurrent := pCurrent }

/-- The steps that every block of `GetFullNameAndIfInLocation` starts with:
`dwCount += n * sizeof(WCHAR)`, the call of `ExtendNameBuffer` when `dwCount`
exceeds the length of the buffer, and `pCurrent -= n`.  The two assertions are
not part of a release build; a `pCurrent` in front of the buffer is undefined
behaviour. -/
def reserve (mcl n : Nat) (c : NameCursor) : Outcome NameCursor :=
  if c.returnedNull then Outcome.value c
  else
    let c := { c with dwCount := c.dwCount + n * 2 }
    let extended : Outcome NameCursor :=
      if c.dwCount > c.m_dwFullNameBufferLen then ExtendNameBuffer mcl c
      else Outcome.value c
    extended.bind fun c =>
      if c.returnedNull then Outcome.value c
      else if c.pCurrent < n then Outcome.undefined
      else Outcome.value { c with pCurrent := c.pCurrent - n }

/-- The write of the characters `s` to the cells from index `i` on:
`memcpy_s`, `swprintf_s` and the character assignments. -/
def putAt (i : Nat) (s : WString) (c : NameCursor) : Outcome NameCursor :=
  if c.returnedNull then Outcome.value c
  else
    match writeAt c.m_pFullNameBuffer i (s.map some) with
    | none => Outcome.undefined
    | some buffer => Outcome.value { c with m_pFullNameBuffer := buffer }

/-- The write of the characters `s` to `pCurrent`. -/
def put (s : WString) (c : NameCursor) : Outcome NameCursor := putAt c.pCurrent s c

/-- A block of `GetFullNameAndIfInLocation` that puts the characters `s` in
front of what the buffer holds: `reserve`, then the copy of `s` to `pCurrent`. -/
def prepend (mcl : Nat) (s : WString) (c : NameCursor) : Outcome NameCursor :=
  (reserve mcl s.length c).bind (put s)

/-- The block "Doing Stream name" of `GetFullNameAndIfInLocation`: the name
of the stream and then the colon, when the data attribute has a name. -/
def streamName (mcl : Nat) (pDataAttr : Option MftRecordAttribute) (c : NameCursor) :
    Outcome NameCursor :=
  match pDataAttr with
  | some pDataAttr =>
    if pDataAttr.Name.length != 0 then
      -- Stream has a name, we have to add it
      (prepend mcl pDataAttr.Name c).bind (prepend mcl [':'])
    else Outcome.value c
  | none => Outcome.value c

/-- The `while (pParentPair != end(m_DirectoryNames))` loop of
`GetFullNameAndIfInLocation`: for each parent found, a backslash and the name
of the parent are put in front (not for the name `.`), and the loop goes on with
the parent of the parent until that is the root.  The value is the cursor and
`ulLastSegmentNumber`. -/
def parentLoop (dirs : SegmentMap MFTFileNameWrapper) (mcl root : Nat) (fuel : Nat)
    (c : NameCursor) (ulLastSegmentNumber : Nat) : Outcome (NameCursor × Nat) :=
  match dirs.find ulLastSegmentNumber with
  | none => Outcome.value (c, ulLastSegmentNumber)
  | some pParentPair =>
    match fuel with
    | 0 => Outcome.noFuel
    | fuel + 1 =>
      let pParentName := pParentPair.FileName
      let named : Outcome NameCursor :=
        if !(pParentName.FileName.length == 1 && pParentName.FileName.head? == some '.') then
          (prepend mcl ['\\'] c).bind (prepend mcl pParentName.FileName)
        else Outcome.value c
      named.bind fun c =>
        let ulLastSegmentNumber := NtfsFullSegmentNumber pParentName.ParentDirectory
        if c.returnedNull || ulLastSegmentNumber == root then
          Outcome.value (c, ulLastSegmentNumber)
        else parentLoop dirs mcl root fuel c ulLastSegmentNumber

/-- What a call of `GetFullNameAndIfInLocation` leaves: the walker, the pointer
returned (the index of a cell of `m_pFullNameBuffer`, `none` for `NULL`), the
value given to `*pdwLen`, and the value of `*pbInSpecificLocation` after the
call (`none` when the pointer is null). -/
structure NameCall where
  walker : MFTWalker
  pFullName : Option Nat
  dwLen : Nat
  bInSpecificLocation : Option Bool
deriving DecidableEq, Repr

/-- The end of a call of `GetFullNameAndIfInLocation`: the buffer goes back to
the walker, and the pointer is `NULL` when `ExtendNameBuffer` had failed. -/
def finish (w : MFTWalker) (c : NameCursor) (bInSpecificLocation : Option Bool) : NameCall :=
  { walker := { w with m_pFullNameBuffer := some c.m_pFullNameBuffer,
                         m_dwFullNameBufferLen := c.m_dwFullNameBufferLen },
    pFullName := if c.returnedNull then none else some c.pCurrent,
    dwLen := if c.returnedNull then 0 else c.dwCount,
    bInSpecificLocation := bInSpecificLocation }

/-- The block `if (pDirectParent != end(m_DirectoryNames))` of the branch for
a chain that ends with the root, and the return behind it: the in-location
state of the direct parent is decided when it is indeterminate and locations
are configured, and `*pbInSpecificLocation` is set from it. -/
def decideLocation (w : MFTWalker) (pDirectParentKey : Nat)
    (pbInSpecificLocation : Option Bool) (c : NameCursor) : NameCall :=
  match w.m_DirectoryNames.find pDirectParentKey with
  | some pDirectParent =>
    -- Looking for presence in specific locations
    let pDirectParent : MFTFileNameWrapper :=
      if !w.m_Locations.isEmpty && pDirectParent.m_InLocation == none then
        { pDirectParent with
          m_InLocation := some (w.m_Locations.any fun item =>
            _wcsnicmp (cstring c.m_pFullNameBuffer c.pCurrent) item item.length) }
      else pDirectParent
    let w := { w with m_DirectoryNames :=
      w.m_DirectoryNames.assign pDirectParentKey pDirectParent }
    let flag : Option Bool :=
      match pbInSpecificLocation with
      | none => none
      | some _ =>
        if w.m_Locations.isEmpty then some true
        else
          match pDirectParent.m_InLocation with
          | some true => some true
          | some false => some false
          | none => some false
    finish w c flag
  | none => finish w c pbInSpecificLocation

/-- The branch of `GetFullNameAndIfInLocation` for a missing parent: the
"place holder". -/
def placeHolder (w : MFTWalker) (pbInSpecificLocation : Option Bool) (c : NameCursor)
    (ulLastSegmentNumber : Nat) : Outcome NameCall :=
  (prepend w.MaxComponentLength ['\\'] c).bind fun c =>
  (reserve w.MaxComponentLength 20 c).bind fun c =>
  (putAt c.pCurrent ("__".toList ++ hex16 ulLastSegmentNumber ++ "__".toList ++ [NUL]) c).bind
    fun c =>
  (putAt (c.pCurrent + 20) ['\\'] c).bind fun c =>
  (prepend w.MaxComponentLength ['\\'] c).bind fun c =>
    Outcome.value (finish w c pbInSpecificLocation)

/-- The two branches behind the loop of `GetFullNameAndIfInLocation`. -/
def rootOrPlaceholder (w : MFTWalker) (pDirectParentKey : Nat)
    (pbInSpecificLocation : Option Bool) (c : NameCursor) (ulLastSegmentNumber : Nat) :
    Outcome NameCall :=
  if c.returnedNull then Outcome.value (finish w c pbInSpecificLocation)
  else if ulLastSegmentNumber == w.USNRoot then
    (prepend w.MaxComponentLength ['\\'] c).bind fun c =>
      if c.returnedNull then Outcome.value (finish w c pbInSpecificLocation)
      else Outcome.value (decideLocation w pDirectParentKey pbInSpecificLocation c)
  else
    -- Parent folder was _not_ found, inserting "place holder"
    placeHolder w pbInSpecificLocation c ulLastSegmentNumber

/-- `MFTWalker::GetFullNameAndIfInLocation(pFileName, pDataAttr, pdwLen,
pbInSpecificLocation)`.  `pbInSpecificLocation` is the value behind the pointer
at the call, `none` for a null pointer. -/
def GetFullNameAndIfInLocation (w : MFTWalker) (pFileName : Option FILE_NAME)
    (pDataAttr : Option MftRecordAttribute) (pbInSpecificLocation : Option Bool)
    (fuel : Nat) : Outcome NameCall :=
  let pbInSpecificLocation :=
    if w.m_Locations.isEmpty then pbInSpecificLocation.map (fun _ => true)
    else pbInSpecificLocation
  let mcl := w.MaxComponentLength
  let (buffer, len) : List (Option Char) × Nat :=
    match w.m_pFullNameBuffer with
    | some buffer => (buffer, w.m_dwFullNameBufferLen)
    | none => (List.replicate (mcl * 2 / 2) none, mcl * 2)
  -- Doing trailing \0
  if len < 2 then Outcome.undefined
  else
    let c : NameCursor :=
      { m_pFullNameBuffer := buffer, m_dwFullNameBufferLen := len,
        pCurrent := len / 2 - 1, dwCount := 2 }
    (put [NUL] c).bind fun c =>
    (streamName mcl pDataAttr c).bind fun c =>
    -- Doing base file name
    match pFileName with
    | none =>
      (prepend mcl "<NoName>".toList c).bind fun c =>
        Outcome.value
          (finish w c (if c.returnedNull then pbInSpecificLocation
            else pbInSpecificLocation.map (fun _ => w.m_Locations.isEmpty)))
    | some pCurFileName =>
      (prepend mcl pCurFileName.FileName c).bind fun c =>
      (if c.returnedNull then Outcome.value (c, 0)
        else parentLoop w.m_DirectoryNames mcl w.USNRoot fuel c
          (NtfsFullSegmentNumber pCurFileName.ParentDirectory)).bind fun (c, ulLastSegmentNumber) =>
      rootOrPlaceholder w (NtfsFullSegmentNumber pCurFileName.ParentDirectory)
        pbInSpecificLocation c ulLastSegmentNumber

/-- `MFTWalker::IsInLocation(pFileName)`. -/
def IsInLocation (w : MFTWalker) (pFileName : FILE_NAME) (fuel : Nat) :
    Outcome (Bool × MFTWalker) :=
  if w.m_Locations.isEmpty then Outcome.value (true, w)
  else
    let ulLastSegmentNumber := NtfsFullSegmentNumber pFileName.ParentDirectory
    match w.m_DirectoryNames.find ulLastSegmentNumber with
    | none =>
      -- parent directory not found :'( we return not in location
      Outcome.value (false, w)
    | some it =>
      match it.m_InLocation with
      | some true => Outcome.value (true, w)
      | some false => Outcome.value (false, w)
      | none =>
        -- direct parent is indeterminate... need to determinate!
        (GetFullNameAndIfInLocation w (some pFileName) none (some false) fuel).bind fun call =>
          let bNameInLocation := call.bInSpecificLocation.getD false
          let w := call.walker
          -- result saved for future queries
          Outcome.value (bNameInLocation,
            { w with m_DirectoryNames :=
              (w.m_DirectoryNames.assign ulLastSegmentNumber
                { it with m_InLocation := some bNameInLocation }) })

/-- The record a pointer points to: the record kept in `m_MFTMap` under the
key.  A pointer to a record that was freed, or that is not in the map, is
dangling, and its use is undefined behaviour. -/
def deref (w : MFTWalker) (p : Nat) : Outcome WalkerRecord :=
  match w.m_MFTMap.find p with
  | some (some r) => Outcome.value r
  | _ => Outcome.undefined

/-- `MFTWalker::AddDirectoryName(pRecord)`. -/
def AddDirectoryName (w : MFTWalker) (pRecord : WalkerRecord) : Outcome MFTWalker :=
  match pRecord.m_pBaseFileRecord with
  | none =>
    if pRecord.m_bIsDirectory then
      -- simple case, record is not a child and a directory... let's add it!
      match pRecord.Main_PFILE_NAME with
      | some pFileName =>
        Outcome.value { w with m_DirectoryNames :=
          (w.m_DirectoryNames.insert (NtfsFullSegmentNumber pRecord.m_FileReferenceNumber)
            (MFTFileNameWrapper.make pFileName)) }
      | none => Outcome.value w
    else Outcome.value w
  | some p =>
    (deref w p).bind fun base =>
      if base.m_bIsDirectory then
        -- we need to check if master record is already in m_DirectoryNames....
        match w.m_DirectoryNames.find (NtfsFullSegmentNumber base.m_FileReferenceNumber) with
        | none =>
          -- it's not... we need to add it!
          match base.Main_PFILE_NAME with
          | some pFileName =>
            Outcome.value { w with m_DirectoryNames :=
          (w.m_DirectoryNames.insert (NtfsFullSegmentNumber base.m_FileReferenceNumber)
            (MFTFileNameWrapper.make pFileName)) }
          | none => Outcome.value w
        | some _ => Outcome.value w
      else Outcome.value w

/-- `MAX_PATH`. -/
def MAX_PATH : Nat := 260

/-- The function given to `std::for_each` in `Initialize`: a sub-directory of
the location is expanded, gets a backslash at its end when it has none, and is
inserted in the set `m_Locations`.  `ExpandEnvironmentStringsW` is `none` when
the API returns 0, and else the expanded string; `back()` of an empty string is
taken not to be a backslash. -/
def addLocation (ExpandEnvironmentStringsW : WString → Option WString)
    (m_Locations : List WString) (location : WString) : List WString :=
  match ExpandEnvironmentStringsW location with
  | none => m_Locations
  | some szExpandedLocation =>
    let dwLen := szExpandedLocation.length + 1
    if dwLen > MAX_PATH then m_Locations
    else
      let loc := szExpandedLocation
      let loc := if loc.getLast? != some '\\' then loc ++ ['\\'] else loc
      if m_Locations.contains loc then m_Locations else m_Locations ++ [loc]

/-- The block of `MFTWalker::Initialize` that sets `m_bIncludeNotInUse` and
builds `m_Locations` from the sub-directories of the location (lines 49 and
77-109); the rest of the function sets up the volume reader, the MFT source and
the segment store. -/
def Initialize (ExpandEnvironmentStringsW : WString → Option WString) (w : MFTWalker)
    (subDirs : List WString) (bIncludeNoInUse : Bool) : MFTWalker :=
  let w := { w with m_bIncludeNotInUse := bIncludeNoInUse }
  if !subDirs.isEmpty then
    let locations := subDirs.foldl (addLocation ExpandEnvironmentStringsW) w.m_Locations
    -- if subdirs is only \, then remove subdirs
    let locations :=
      if locations.length == 1 && locations.contains ['\\'] then [] else locations
    { w with m_Locations := locations }
  else w

end MFTWalker

/-! ## Vocabulary for the walker -/

section WalkerVocabulary
open MFTWalker

/-- The `n` cells of a buffer from index `i` on. -/
def textAt (buffer : List (Option Char)) (i n : Nat) : List (Option Char) :=
  (buffer.drop i).take n

/-- The cursor of `GetFullNameAndIfInLocation` holds the text `acc`: the cells
from `pCurrent` on are the characters of `acc` and the terminator, inside the
buffer, `dwCount` is the number of bytes of `acc` with its terminator, and the
buffer has the cells that `m_dwFullNameBufferLen` bytes give. -/
structure MFTWalker.NameCursor.Holds (c : NameCursor) (acc : WString) : Prop where
  notNull : c.returnedNull = false
  cells : c.m_pFullNameBuffer.length = c.m_dwFullNameBufferLen / 2
  inside : c.pCurrent + acc.length + 1 ≤ c.m_pFullNameBuffer.length
  text : textAt c.m_pFullNameBuffer c.pCurrent (acc.length + 1) = (acc ++ [NUL]).map some
  count : c.dwCount = 2 * (acc.length + 1)

/-- No call of `ExtendNameBuffer` was needed so far: the text ends with the
last cell of the buffer. -/
def MFTWalker.NameCursor.Flush (c : NameCursor) : Prop :=
  c.pCurrent * 2 + c.dwCount = c.m_dwFullNameBufferLen / 2 * 2

/-- The cells a call of `GetFullNameAndIfInLocation` returns: the
`dwLen / sizeof(WCHAR)` cells of the name buffer from the pointer returned on;
`none` when the pointer is `NULL`. -/
def MFTWalker.NameCall.text (call : NameCall) : Option (List (Option Char)) :=
  match call.pFullName, call.walker.m_pFullNameBuffer with
  | some p, some b => some (textAt b p (call.dwLen / 2))
  | _, _ => none

/-- The chain of parent references of the spec: from the reference `s`, the
parent is looked up in the directory-name map, and the walk goes on with the
parent of the parent, until the reference is the volume root or is not in the
map.  The value is the names of the directories passed, the direct parent
first, and the reference the walk ends with: the root, or the missing parent. -/
def parentChain (dirs : SegmentMap MFTFileNameWrapper) (root : Nat) (fuel : Nat) (s : Nat) :
    Option (List WString × Nat) :=
  if s = root then some ([], root)
  else
    match dirs.find s with
    | none => some ([], s)
    | some e =>
      match fuel with
      | 0 => none
      | fuel + 1 =>
        (parentChain dirs root fuel (NtfsFullSegmentNumber e.FileName.ParentDirectory)).map
          fun r => (e.FileName.FileName :: r.1, r.2)

/-- The names of the directories of a chain, from the outermost to the direct
parent, each followed by a backslash: the directory part of the path as the
claim words it. -/
def claimedDirPath (names : List WString) : WString :=
  (names.reverse.map (fun n => n ++ ['\\'])).flatten

/-- The directory part of the path: the names of the directories of a chain
other than `.`, from the outermost to the direct parent, each followed by a
backslash. -/
def dirPath (names : List WString) : WString :=
  claimedDirPath (names.filter fun n => n != ['.'])

/-- What follows the file name: `:` and the name of the stream when a named
data attribute is given. -/
def streamSuffix (pDataAttr : Option MftRecordAttribute) : WString :=
  match pDataAttr with
  | some d => if d.Name.length != 0 then ':' :: d.Name else []
  | none => []

/-- The full path: for a chain that ends with the root, a backslash, the
directories and the file name; for a chain that ends with a missing parent, the
same components behind `\__`, the 16 hexadecimal digits of the missing
reference and `__\`. -/
def assembledPath (root last : Nat) (names : List WString) (file suffix : WString) : WString :=
  if last = root then '\\' :: (dirPath names ++ (file ++ suffix))
  else '\\' :: ("__".toList ++ hex16 last ++ "__".toList)
    ++ '\\' :: (dirPath names ++ (file ++ suffix))

/-- The full path as the claim words it, with the name of every directory of
the chain. -/
def claimedPath (root last : Nat) (names : List WString) (file suffix : WString) : WString :=
  if last = root then '\\' :: (claimedDirPath names ++ (file ++ suffix))
  else '\\' :: ("__".toList ++ hex16 last ++ "__".toList)
    ++ '\\' :: (claimedDirPath names ++ (file ++ suffix))

/-- The root directory, when it is in the directory-name map, has the name `.`
and is its own parent. -/
def rootIsDot (dirs : SegmentMap MFTFileNameWrapper) (root : Nat) : Prop :=
  ∀ e, dirs.find root = some e →
    e.FileName.FileName = ['.'] ∧ NtfsFullSegmentNumber e.FileName.ParentDirectory = root

/-- The name buffer of the walker is not allocated yet, or it has the cells
that `m_dwFullNameBufferLen` bytes give, and at least one. -/
def bufferOk (w : MFTWalker) : Prop :=
  match w.m_pFullNameBuffer with
  | none => 1 ≤ w.MaxComponentLength
  | some b => b.length = w.m_dwFullNameBufferLen / 2 ∧ 2 ≤ w.m_dwFullNameBufferLen

/-- The length in bytes of the name buffer at the start of a call of
`GetFullNameAndIfInLocation`. -/
def bufferBytes (w : MFTWalker) : Nat :=
  match w.m_pFullNameBuffer with
  | none => w.MaxComponentLength * 2
  | some _ => w.m_dwFullNameBufferLen

/-- The string `root` is a case-insensitive start of `path`. -/
def startsWithCI (path root : WString) : Bool :=
  (root.map towlower).isPrefixOf (path.map towlower)

/-- The answer of the claim: some configured root is a case-insensitive start
of the assembled full path. -/
def inSomeLocation (w : MFTWalker) (path : WString) : Bool :=
  w.m_Locations.any fun root => startsWithCI path root

/-- The sub-tree roots are as `Initialize` builds them: each ends with a
backslash, and none holds a terminator. -/
def rootsWellFormed (w : MFTWalker) : Prop :=
  ∀ root ∈ w.m_Locations, root.getLast? = some '\\' ∧ NUL ∉ root

/-- The in-location state of the entry `key` of the directory-name map is
decided, and is `v`. -/
def decidedAt (w : MFTWalker) (key : Nat) (v : Bool) : Prop :=
  ∃ e, w.m_DirectoryNames.find key = some e ∧ e.m_InLocation = some v

/-- The walker operations of the claim on the in-location state. -/
inductive WalkerOperation where
  | isInLocation (pFileName : FILE_NAME) (fuel : Nat)
  | getFullNameAndIfInLocation (pFileName : Option FILE_NAME)
      (pDataAttr : Option MftRecordAttribute) (pbInSpecificLocation : Option Bool) (fuel : Nat)
  | addDirectoryName (pRecord : WalkerRecord)

/-- The walker an operation leaves. -/
def WalkerOperation.run (op : WalkerOperation) (w : MFTWalker) : Outcome MFTWalker :=
  match op with
  | .isInLocation pFileName fuel => (w.IsInLocation pFileName fuel).bind fun r => Outcome.value r.2
  | .getFullNameAndIfInLocation pFileName pDataAttr pb fuel =>
    (w.GetFullNameAndIfInLocation pFileName pDataAttr pb fuel).bind
      fun call => Outcome.value call.walker
  | .addDirectoryName pRecord => w.AddDirectoryName pRecord

/-- The walker a sequence of operations leaves. -/
def runOperations (ops : List WalkerOperation) (w : MFTWalker) : Outcome MFTWalker :=
  ops.foldl (fun acc op => acc.bind op.run) (Outcome.value w)

/-- A walker with the directories `\a` and `\a\b` in its directory-name
map, besides the root, and the sub-tree root `\a\`. -/
def sampleWalker : MFTWalker :=
  { USNRoot := 5,
    m_Locations := ["\\a\\".toList],
    m_DirectoryNames :=
      [(5, { m_pFileName := { ParentDirectory := 5, FileName := ".".toList } }),
       (10, { m_pFileName := { ParentDirectory := 5, FileName := "a".toList } }),
       (11, { m_pFileName := { ParentDirectory := 10, FileName := "b".toList } })] }

/-- A file name in the directory `\a\b` of `sampleWalker`. -/
def sampleFileName : FILE_NAME :=
  { ParentDirectory := 11, FileName := "f.txt".toList }

/-- A walker with the sub-tree root `\a\` whose directory-name map holds the
root and the directory `b` of `\a\b`, and not yet its parent `a`. -/
def missingAncestorWalker : MFTWalker :=
  { USNRoot := 5,
    m_Locations := ["\\a\\".toList],
    m_DirectoryNames :=
      [(5, { m_pFileName := { ParentDirectory := 5, FileName := ".".toList } }),
       (11, { m_pFileName := { ParentDirectory := 10, FileName := "b".toList } })] }

/-- The record of the directory `a`, a child of the root. -/
def directoryRecordA : WalkerRecord :=
  { m_FileReferenceNumber := 10, m_bParsed := true, m_bIsDirectory := true,
    m_FileNames := [{ ParentDirectory := 5, FileName := "a".toList }],
    Main_PFILE_NAME := some { ParentDirectory := 5, FileName := "a".toList } }

/-- The walker `missingAncestorWalker` after `IsInLocation` for `f.txt` in
`\a\b`: the name buffer holds the path with the place holder for the missing
parent, and the state `false` is saved on the directory `b`. -/
def savedWalker : MFTWalker :=
  { missingAncestorWalker with
    m_pFullNameBuffer := some (List.replicate 225 none
      ++ ("\\__000000000000000A__\\b\\f.txt".toList ++ [NUL]).map some),
    m_dwFullNameBufferLen := 510,
    m_DirectoryNames :=
      [(5, { m_pFileName := { ParentDirectory := 5, FileName := ".".toList } }),
       (11, { m_pFileName := { ParentDirectory := 10, FileName := "b".toList },
              m_InLocation := some false })] }

/-- The walker `savedWalker` after `AddDirectoryName` for the directory `a`. -/
def staleWalker : MFTWalker :=
  { savedWalker with
    m_DirectoryNames :=
      [(5, { m_pFileName := { ParentDirectory := 5, FileName := ".".toList } }),
       (11, { m_pFileName := { ParentDirectory := 10, FileName := "b".toList },
              m_InLocation := some false }),
       (10, { m_pFileName := { ParentDirectory := 5, FileName := "a".toList } })] }

/-- A walker whose directory-name map holds, besides the root, a directory
below the root that has the name `.` too. -/
def dotWalker : MFTWalker :=
  { USNRoot := 5,
    m_DirectoryNames :=
      [(5, { m_pFileName := { ParentDirectory := 5, FileName := ".".toList } }),
       (11, { m_pFileName := { ParentDirectory := 5, FileName := ".".toList } })] }

/-- A walker whose directory-name map holds one directory below the root, with
a name of 255 characters; `MaxComponentLength` is 255. -/
def longNameWalker : MFTWalker :=
  { USNRoot := 5,
    MaxComponentLength := 255,
    m_DirectoryNames :=
      [(11, { m_pFileName := { ParentDirectory := 5, FileName := List.replicate 255 'd' } })] }

/-- A file name of 255 characters in that directory. -/
def longFileName : FILE_NAME :=
  { ParentDirectory := 11, FileName := List.replicate 255 'x' }

end WalkerVocabulary

/-! ## The record map of the walker (`MFTWalker.cpp`) -/

def E_FAIL : HRESULT := -2147467259
def E_OUTOFMEMORY : HRESULT := -2147024882

/-- `HRESULT_FROM_WIN32(ERROR_NO_MORE_FILES)`. -/
def ERROR_NO_MORE_FILES : HRESULT := -2147024878

/-- `$INDEX_ROOT`. -/
def INDEX_ROOT : Nat := 0x90

/-- Modelled from the spec: `MFTRecord::ParseRecord` is defined in a file that
is absent; the spec has it "parse the record" and "link `base_file_record`".
What a call returns and the members of the record it sets; the segment
reference of the record, its header and the mark of the callback are not
members that a parse sets. -/
structure ParseResult where
  hr : HRESULT := S_OK
  m_bParsed : Bool := true
  m_bIsDirectory : Bool := false
  m_FileNames : List FILE_NAME := []
  m_ChildRecords : List (Nat × Bool) := []
  m_pAttributeList : Option AttributeList := none
  m_pBaseFileRecord : Option Nat := none
  Main_PFILE_NAME : Option FILE_NAME := none

/-- What the walker calls and does not define: `MFTRecord::ParseRecord` (with
the record and the base record given, `none` for a null pointer), the
callbacks `KeepAliveCallback` and `ProgressCallback`, `FetchMFTRecord` of the
MFT source (the result it returns when no call of the callback fails, and the
record indices and buffers it hands to the callback), and `GetNewCell` of the
segment store (whether a cell is returned, given the number of cells in use). -/
structure WalkerEnv where
  ParseRecord : WalkerRecord → Option WalkerRecord → ParseResult
  KeepAliveCallback : WalkerRecord → Bool
  ProgressCallback : Nat → HRESULT
  FetchMFTRecord : List Nat → HRESULT × List (Nat × FILE_RECORD_SEGMENT_HEADER)
  GetNewCell : Nat → Bool

namespace MFTWalker

/-- The record after `ParseRecord`. -/
def parsed (pRecord : WalkerRecord) (r : ParseResult) : WalkerRecord :=
  { pRecord with
    m_bParsed := r.m_bParsed,
    m_bIsDirectory := r.m_bIsDirectory,
    m_FileNames := r.m_FileNames,
    m_ChildRecords := r.m_ChildRecords,
    m_pAttributeList := r.m_pAttributeList,
    m_pBaseFileRecord := r.m_pBaseFileRecord,
    Main_PFILE_NAME := r.Main_PFILE_NAME }

/-- What a pointer taken from `m_MFTMap` gives to `ParseRecord` as base record:
the record, or a null pointer. -/
def recordOrNull (w : MFTWalker) (key : Nat) : Option WalkerRecord :=
  match w.m_MFTMap.find key with
  | some (some r) => some r
  | _ => none

/-- A write through a pointer to a record of the map. -/
def setRecord (w : MFTWalker) (key : Nat) (r : WalkerRecord) : MFTWalker :=
  { w with m_MFTMap := w.m_MFTMap.assign key (some r) }

/-- `missingRecords.push_back(ref)` when the segment is not in `m_MFTMap`. -/
def pushIfAbsent (w : MFTWalker) (missingRecords : List Nat) (ref : Nat) : List Nat :=
  match w.m_MFTMap.find (NtfsFullSegmentNumber ref) with
  | none => missingRecords ++ [ref]
  | some _ => missingRecords

/-- The body of the loop of `AreAttributesComplete` for one entry of the
attribute list. -/
def attributeComplete (w : MFTWalker) (acc : Bool × List Nat) (attr : AttributeListEntry) :
    Outcome (Bool × List Nat) :=
  match attr.m_Attribute with
  | none =>
    match attr.m_pListEntry with
    | some pListEntry =>
      Outcome.value (false, pushIfAbsent w acc.2 pListEntry.SegmentReference)
    | none => Outcome.value acc
  | some m_Attribute =>
    match m_Attribute.m_pHostRecord with
    | none => Outcome.value (false, acc.2)
    | some p =>
      (deref w p).bind fun m_pHostRecord =>
        if !m_pHostRecord.m_bParsed then
          Outcome.value (false, acc.2 ++ [m_pHostRecord.m_FileReferenceNumber])
        else Outcome.value acc

/-- `MFTWalker::AreAttributesComplete(pBaseRecord, missingRecords)`. -/
def AreAttributesComplete (w : MFTWalker) (pBaseRecord : WalkerRecord)
    (missingRecords : List Nat) : Outcome (Bool × List Nat) :=
  match pBaseRecord.m_pAttributeList with
  | none => Outcome.undefined
  | some m_pAttributeList =>
    if m_pAttributeList.IsPresent then
      m_pAttributeList.m_AttList.foldl
        (fun acc attr => acc.bind fun acc => attributeComplete w acc attr)
        (Outcome.value (true, missingRecords))
    else Outcome.value (true, missingRecords)

/-- The `while (pParentName != nullptr)` loop of `IsRecordComplete`: the
parents of a directory name are looked up until the volume root, or a parent
reference with the segment number 0, is met.  The value says whether no parent
was missing. -/
def parentsComplete (w : MFTWalker) (fuel : Nat) (pParentName : FILE_NAME)
    (missingRecords : List Nat) : Outcome (Bool × List Nat) :=
  let UnSafeSegmentNumber := NtfsSegmentNumber pParentName.ParentDirectory
  let SafeSegmentNumber := NtfsFullSegmentNumber pParentName.ParentDirectory
  if SafeSegmentNumber == w.USNRoot || UnSafeSegmentNumber == 0 then
    Outcome.value (true, missingRecords)
  else
    match w.m_DirectoryNames.find SafeSegmentNumber with
    | none => Outcome.value (false, pushIfAbsent w missingRecords pParentName.ParentDirectory)
    | some pOtherParentPair =>
      match fuel with
      | 0 => Outcome.noFuel
      | fuel + 1 => parentsComplete w fuel pOtherParentPair.FileName missingRecords

/-- The loop of `IsRecordComplete` over the file names of the base record.
The value is `bIsComplete` and `missingRecords`. -/
def namesComplete (w : MFTWalker) (fuel : Nat) (m_FileNames : List FILE_NAME)
    (bIsComplete : Bool) (missingRecords : List Nat) : Outcome (Bool × List Nat) :=
  match m_FileNames with
  | [] => Outcome.value (bIsComplete, missingRecords)
  | pFileName :: rest =>
    if NtfsFullSegmentNumber pFileName.ParentDirectory == w.USNRoot then
      Outcome.value (bIsComplete, missingRecords)
    else
      match w.m_DirectoryNames.find (NtfsFullSegmentNumber pFileName.ParentDirectory) with
      | none =>
        Outcome.value (false, pushIfAbsent w missingRecords pFileName.ParentDirectory)
      | some pParentPair =>
        (parentsComplete w fuel pParentPair.FileName missingRecords).bind fun r =>
          namesComplete w fuel rest (bIsComplete && r.1) r.2

/-- The loop of `IsRecordComplete` over the child records. -/
def childrenComplete (w : MFTWalker) (m_ChildRecords : List (Nat × Bool))
    (missingRecords : List Nat) : Bool × List Nat :=
  m_ChildRecords.foldl
    (fun acc child =>
      match w.m_MFTMap.find child.1 with
      | none => (false, acc.2 ++ [child.1])
      | some _ => acc)
    (true, missingRecords)

/-- The base record of a record:
`(pRecord->m_pBaseFileRecord == NULL) ? pRecord : pRecord->m_pBaseFileRecord`. -/
def baseRecord (w : MFTWalker) (pRecord : WalkerRecord) : Outcome WalkerRecord :=
  match pRecord.m_pBaseFileRecord with
  | none => Outcome.value pRecord
  | some p => deref w p

/-- The part of `IsRecordComplete` behind the test of `m_bIsComplete`: the
value is `bIsComplete` and `missingRecords`. -/
def recordCompleteness (w : MFTWalker) (pRecord : WalkerRecord) (missingRecords : List Nat)
    (bAndAttributesComplete bAndAllParents : Bool) (fuel : Nat) : Outcome (Bool × List Nat) :=
  let children := childrenComplete w pRecord.m_ChildRecords missingRecords
  (baseRecord w pRecord).bind fun pBaseRecord =>
  let base : Bool × List Nat :=
    if 0 != NtfsSegmentNumber pBaseRecord.m_pRecord.BaseFileRecordSegment
        && pBaseRecord.m_pBaseFileRecord == none then
      (false, pushIfAbsent w children.2 pBaseRecord.m_pRecord.BaseFileRecordSegment)
    else children
  (if bAndAttributesComplete then
      (AreAttributesComplete w pBaseRecord base.2).bind fun r =>
        Outcome.value (base.1 && r.1, r.2)
    else Outcome.value base).bind fun attributes =>
  if bAndAllParents then
    namesComplete w fuel pBaseRecord.m_FileNames attributes.1 attributes.2
  else Outcome.value attributes

/-- `MFTWalker::IsRecordComplete(pRecord, missingRecords, bAndAttributesComplete,
bAndAllParents)`.  The value is what the function returns, the record with
`m_bIsComplete` as the function leaves it, and `missingRecords`. -/
def IsRecordComplete (w : MFTWalker) (pRecord : WalkerRecord) (missingRecords : List Nat)
    (bAndAttributesComplete bAndAllParents : Bool) (fuel : Nat) :
    Outcome (Bool × WalkerRecord × List Nat) :=
  if pRecord.m_bIsComplete then Outcome.value (true, pRecord, missingRecords)
  else
    (recordCompleteness w pRecord missingRecords bAndAttributesComplete bAndAllParents
        fuel).bind fun c =>
      Outcome.value (c.1, { pRecord with m_bIsComplete := c.1 }, c.2)

/-- `MFTWalker::SimpleCallCallbackForRecord(pRecord, bFreeRecord)`, the
function that `SetCallbacks` installs as `m_pCallbackCall` for the callbacks
`ElementCallback`, `KeepAliveCallback` and `ProgressCallback`.  The record is
given by its pointer; the value is the result, the walker and `bFreeRecord`.
The call of `ElementCallback` is traced in `elementCalls`; the division by
`m_ulMFTRecordCount` is undefined for 0. -/
def SimpleCallCallbackForRecord (env : WalkerEnv) (w : MFTWalker) (p : Nat)
    (bFreeRecord : Bool) : Outcome (HRESULT × MFTWalker × Bool) :=
  (deref w p).bind fun pRecord =>
    if NtfsSegmentNumber pRecord.m_pRecord.BaseFileRecordSegment > 0 then
      -- we don't call the callbacks on child records...
      Outcome.value (S_OK, w, bFreeRecord)
    else if !pRecord.m_bCallbackCalled then
      if w.m_ulMFTRecordCount = 0 then Outcome.undefined
      else
        Outcome.value
          (env.ProgressCallback
            ((((w.m_dwWalkedItems + 1) % 2 ^ 32 * 100) % 2 ^ 32) / w.m_ulMFTRecordCount),
            setRecord { w with
                m_dwWalkedItems := (w.m_dwWalkedItems + 1) % 2 ^ 32,
                elementCalls :=
                  w.elementCalls ++ [NtfsFullSegmentNumber pRecord.m_FileReferenceNumber] }
              p { pRecord with m_bCallbackCalled := true },
            !env.KeepAliveCallback pRecord)
    else Outcome.value (S_OK, w, bFreeRecord)

/-- `m_SegmentStore.FreeCell` for the record of the key, and
`m_MFTMap[key] = nullptr`. -/
def freeAndTombstone (w : MFTWalker) (key : Nat) : MFTWalker :=
  { w with AllocatedCells := w.AllocatedCells - 1,
           m_MFTMap := w.m_MFTMap.assign key none }

/-- The body of the loop of `DeleteRecord` over the child records: a child
whose pointer is set, or that is found in `m_MFTMap`, is freed, and its entry in
the map becomes a null pointer.  A pointer that is set and whose record is not
in the map any more is dangling. -/
def deleteChild (ullRecordIndex : Nat) (w : MFTWalker) (aPair : Nat × Bool) :
    Outcome MFTWalker :=
  match w.m_MFTMap.find aPair.1 with
  | some (some _) =>
    if aPair.1 != ullRecordIndex then Outcome.value (freeAndTombstone w aPair.1)
    else Outcome.value w
  | _ =>
    if aPair.2 && aPair.1 != ullRecordIndex then Outcome.undefined else Outcome.value w

/-- `MFTWalker::DeleteRecord(pRecord)`. -/
def DeleteRecord (w : MFTWalker) (pRecord : WalkerRecord) : Outcome MFTWalker :=
  let ullRecordIndex := NtfsFullSegmentNumber pRecord.m_FileReferenceNumber
  (pRecord.m_ChildRecords.foldl
      (fun acc aPair => acc.bind fun w => deleteChild ullRecordIndex w aPair)
      (Outcome.value w)).bind fun w =>
    Outcome.value (freeAndTombstone w ullRecordIndex)

/-- The block `if (!pRecord->IsParsed())` of the loop of `WalkRecords`.  The
value is `hr`, the walker and the record. -/
def parseUnparsed (env : WalkerEnv) (hr : HRESULT) (w : MFTWalker) (RefNumber : Nat)
    (pRecord : WalkerRecord) : HRESULT × MFTWalker × WalkerRecord :=
  if !pRecord.m_bParsed then
    let pBaseRecord : Option WalkerRecord :=
      if pRecord.m_pBaseFileRecord == none
          && 0 != NtfsFullSegmentNumber pRecord.m_pRecord.BaseFileRecordSegment then
        recordOrNull w (NtfsFullSegmentNumber pRecord.m_pRecord.BaseFileRecordSegment)
      else none
    let r := env.ParseRecord pRecord pBaseRecord
    (r.hr,
      setRecord { w with parseCalls :=
          w.parseCalls ++ [NtfsFullSegmentNumber pRecord.m_FileReferenceNumber] }
        RefNumber (parsed pRecord r),
      parsed pRecord r)
  else (hr, w, pRecord)

/-- The call of `m_pCallbackCall` in `WalkRecords` and in `AddRecordCallback`,
and the call of `DeleteRecord` behind it when `bFreeRecord` is set.  The value
is `hr` and the walker. -/
def callAndFree (env : WalkerEnv) (w : MFTWalker) (p : Nat) : Outcome (HRESULT × MFTWalker) :=
  (SimpleCallCallbackForRecord env w p false).bind fun cb =>
    if cb.2.2 then
      (deref cb.2.1 p).bind fun pRecord =>
        (DeleteRecord cb.2.1 pRecord).bind fun w => Outcome.value (cb.1, w)
    else Outcome.value (cb.1, cb.2.1)

/-- The body of the loop of `WalkRecords` for a base record: the record is
parsed when it is not, and handed to the callback when `IsRecordComplete` says
so; it is deleted when the callback says so.  The value is `hr` and the
walker. -/
def walkRecord (env : WalkerEnv) (bIsFinalWalk : Bool) (fuel : Nat) (hr : HRESULT)
    (w : MFTWalker) (RefNumber : Nat) (pRecord : WalkerRecord) : Outcome (HRESULT × MFTWalker) :=
  let s := parseUnparsed env hr w RefNumber pRecord
  (IsRecordComplete s.2.1 s.2.2 [] (!bIsFinalWalk) (!bIsFinalWalk) fuel).bind fun c =>
    if !c.1 then Outcome.value (s.1, setRecord s.2.1 RefNumber c.2.1)
    else callAndFree env (setRecord s.2.1 RefNumber c.2.1) RefNumber

/-- The loop of `WalkRecords` over the entries of `m_MFTMap`, given by their
keys. -/
def walkLoop (env : WalkerEnv) (bIsFinalWalk : Bool) (fuel : Nat) :
    List Nat → HRESULT → MFTWalker → Outcome (HRESULT × MFTWalker)
  | [], _, w => Outcome.value (S_OK, w)
  | RefNumber :: rest, hr, w =>
    match w.m_MFTMap.find RefNumber with
    | some (some pRecord) =>
      -- skipping non base records
      if NtfsSegmentNumber pRecord.m_pRecord.BaseFileRecordSegment > 0 then
        walkLoop env bIsFinalWalk fuel rest hr w
      else
        (walkRecord env bIsFinalWalk fuel hr w RefNumber pRecord).bind fun r =>
          if r.1 == ERROR_NO_MORE_FILES then Outcome.value r
          else walkLoop env bIsFinalWalk fuel rest r.1 r.2
    | _ => walkLoop env bIsFinalWalk fuel rest hr w

/-- `MFTWalker::WalkRecords(bIsFinalWalk)`.  The entries of the map are visited
in the order of the list that holds them. -/
def WalkRecords (env : WalkerEnv) (w : MFTWalker) (bIsFinalWalk : Bool) (fuel : Nat) :
    Outcome (HRESULT × MFTWalker) :=
  walkLoop env bIsFinalWalk fuel (w.m_MFTMap.map Prod.fst) E_FAIL w

/-- `GetAttributeList()` of a record: the entries of its attribute list. -/
def GetAttributeList (pRecord : WalkerRecord) : List AttributeListEntry :=
  match pRecord.m_pAttributeList with
  | some l => l.m_AttList
  | none => []

/-- The first part of the body of the loop of `UpdateAttributeList`: an entry
without attribute takes the attribute of the matching entry of the record that
its list entry names, when that record is in the map. -/
def resolveAttribute (w : MFTWalker) (attr : AttributeListEntry) : AttributeListEntry :=
  match attr.m_Attribute, attr.m_pListEntry with
  | none, some pListEntry =>
    match w.m_MFTMap.find (NtfsFullSegmentNumber pListEntry.SegmentReference) with
    | some (some it) =>
      match (GetAttributeList it).find? (fun other =>
          other.TypeCode == pListEntry.AttributeTypeCode
            && other.LowestVCN == pListEntry.LowestVcn
            && other.AttributeName == pListEntry.AttributeName) with
      | some other => { attr with m_Attribute := other.m_Attribute }
      | none => attr
    | _ => attr
  | _, _ => attr

/-- The body of the loop of `UpdateAttributeList` for one entry: the state is
the walker, the record and the entries already passed. -/
def updateAttribute (st : MFTWalker × WalkerRecord × List AttributeListEntry)
    (attr : AttributeListEntry) : Outcome (MFTWalker × WalkerRecord × List AttributeListEntry) :=
  let attr := resolveAttribute st.1 attr
  match attr.m_Attribute with
  | some m_Attribute =>
    if m_Attribute.TypeCode == INDEX_ROOT && m_Attribute.Name == "$I30".toList
        && !st.2.1.m_bIsDirectory then
      (AddDirectoryName st.1 { st.2.1 with m_bIsDirectory := true }).bind fun w =>
        Outcome.value (w, { st.2.1 with m_bIsDirectory := true }, st.2.2 ++ [attr])
    else Outcome.value (st.1, st.2.1, st.2.2 ++ [attr])
  | none => Outcome.value (st.1, st.2.1, st.2.2 ++ [attr])

/-- The record with the entries of its attribute list as the loop of
`UpdateAttributeList` leaves them. -/
def withAttributes (pRecord : WalkerRecord) (m_pAttributeList : AttributeList)
    (m_AttList : List AttributeListEntry) : WalkerRecord :=
  { pRecord with m_pAttributeList := some { m_pAttributeList with m_AttList := m_AttList } }

/-- `MFTWalker::UpdateAttributeList(pRecord)`, which returns `S_OK`; the value
is the walker.  `IsBaseRecord()` is that the record names no base record. -/
def UpdateAttributeList (w : MFTWalker) (p : Nat) : Outcome MFTWalker :=
  (deref w p).bind fun pRecord =>
  match pRecord.m_pAttributeList with
  | none => Outcome.undefined
  | some m_pAttributeList =>
    (if m_pAttributeList.IsPresent then
        (m_pAttributeList.m_AttList.foldl (fun acc attr => acc.bind fun st => updateAttribute st attr)
          (Outcome.value (w, pRecord, []))).bind fun st =>
          Outcome.value
            (setRecord st.1 p (withAttributes st.2.1 m_pAttributeList st.2.2),
              withAttributes st.2.1 m_pAttributeList st.2.2)
      else Outcome.value (w, pRecord)).bind fun s =>
    if NtfsSegmentNumber s.2.m_pRecord.BaseFileRecordSegment == 0 && s.2.m_bIsDirectory then
      match s.1.m_DirectoryNames.find (NtfsFullSegmentNumber s.2.m_FileReferenceNumber) with
      | none => AddDirectoryName s.1 s.2
      | some _ => Outcome.value s.1
    else Outcome.value s.1

/-- Modelled from the spec: `MFT_SEGMENT_REFERENCE` is declared in a header
that is absent; the spec has a reference hold a 48-bit index, here in a low
part of 32 bits and a high part of 16 bits, and a 16-bit sequence number. -/
def segmentReference (SegmentNumberLowPart SegmentNumberHighPart SequenceNumber : Nat) : Nat :=
  SegmentNumberLowPart % 2 ^ 32 + (SegmentNumberHighPart % 2 ^ 16) * 2 ^ 32
    + (SequenceNumber % 2 ^ 16) * 2 ^ 48

/-- `SegmentNumberLowPart` of a reference. -/
def SegmentNumberLowPart (ref : Nat) : Nat := ref % 2 ^ 32

/-- `SafeReference` of `AddRecord`: the reference that the header of the record
gives, or, for the layout of a volume upgraded from Windows 2000, the record
index with the sequence number of the header. -/
def SafeReference (ullRecordIndex : Nat) (pHeader : FILE_RECORD_SEGMENT_HEADER) : Nat :=
  if pHeader.UpdateSequenceArrayOffset == 0x2A && pHeader.FirstAttributeOffset == 0x30 then
    segmentReference (ullRecordIndex % 2 ^ 32) (ullRecordIndex / 2 ^ 32) pHeader.SequenceNumber
  else
    segmentReference pHeader.SegmentNumberLowPart pHeader.SegmentNumberHighPart
      pHeader.SequenceNumber

/-- What a call of `AddRecord` leaves: the result, the walker, `pAddedRecord`
(`none` for a null pointer) and `ullRecordIndex`. -/
structure AddRecordResult where
  hr : HRESULT
  walker : MFTWalker
  pAddedRecord : Option Nat
  ullRecordIndex : Nat
deriving DecidableEq, Repr

/-- The body of the loop of `AddRecord` over the entries of the attribute list:
the record that an entry without attribute names is parsed, with `pRecord` as
base record, when it is in the map and not parsed.  An entry without attribute
and without list entry is a null pointer that the loop reads. -/
def parseHostRecord (env : WalkerEnv) (p : Nat) (st : HRESULT × MFTWalker)
    (attr : AttributeListEntry) : Outcome (HRESULT × MFTWalker) :=
  (deref st.2 p).bind fun pRecord =>
  match attr.m_Attribute with
  | some _ => Outcome.value st
  | none =>
    match attr.m_pListEntry with
    | none => Outcome.undefined
    | some m_pListEntry =>
      if NtfsFullSegmentNumber pRecord.m_FileReferenceNumber
          != NtfsFullSegmentNumber m_pListEntry.SegmentReference then
        match st.2.m_MFTMap.find (NtfsFullSegmentNumber m_pListEntry.SegmentReference) with
        | some (some pHostRecord) =>
          if !pHostRecord.m_bParsed then
            Outcome.value ((env.ParseRecord pHostRecord (some pRecord)).hr,
              setRecord { st.2 with parseCalls :=
                  st.2.parseCalls ++ [NtfsFullSegmentNumber pHostRecord.m_FileReferenceNumber] }
                (NtfsFullSegmentNumber m_pListEntry.SegmentReference)
                (parsed pHostRecord (env.ParseRecord pHostRecord (some pRecord))))
          else Outcome.value st
        | _ => Outcome.value st
      else Outcome.value st

/-- The record with the attribute list that `AddRecord` gives it when it has
none: `make_shared<AttributeList>()`. -/
def withAttributeList (pRecord : WalkerRecord) : WalkerRecord :=
  match pRecord.m_pAttributeList with
  | none => { pRecord with m_pAttributeList := some {} }
  | some _ => pRecord

/-- The attribute list that `AddRecord` goes through: that of the record when
it is present, else that of its base record when it is present. -/
def chosenAttributeList (w : MFTWalker) (pRecord : WalkerRecord) :
    Outcome (Option AttributeList) :=
  match pRecord.m_pAttributeList with
  | some l =>
    if l.IsPresent then Outcome.value (some l)
    else
      match pRecord.m_pBaseFileRecord with
      | some b =>
        (deref w b).bind fun m_pBaseFileRecord =>
          match m_pBaseFileRecord.m_pAttributeList with
          | some bl => Outcome.value (if bl.IsPresent then some bl else none)
          | none => Outcome.value none
      | none => Outcome.value none
  | none => Outcome.undefined

/-- The branch `hr == S_OK` of `AddRecord`, behind `ParseRecord`: the record
goes into the map, its directory name is added, and the records of its
attribute list are parsed.  The value is `hr` and the walker. -/
def addParsedRecord (env : WalkerEnv) (w : MFTWalker) (pRecord : WalkerRecord) :
    Outcome (HRESULT × MFTWalker) :=
  let key := NtfsFullSegmentNumber pRecord.m_FileReferenceNumber
  (AddDirectoryName { w with m_MFTMap := w.m_MFTMap.insert key (some pRecord) }
      pRecord).bind fun w =>
  (chosenAttributeList (setRecord w key (withAttributeList pRecord))
      (withAttributeList pRecord)).bind fun pAttributeList =>
  match pAttributeList with
  | some l =>
    l.m_AttList.foldl (fun acc attr => acc.bind fun st => parseHostRecord env key st attr)
      (Outcome.value (S_OK, setRecord w key (withAttributeList pRecord)))
  | none => Outcome.value (S_OK, setRecord w key (withAttributeList pRecord))

/-- The walker behind the call of `ParseRecord` in `AddRecord`: the call is
traced, and the record of the map is the record parsed. -/
def parseLogged (w : MFTWalker) (pRecord : WalkerRecord) (r : ParseResult) (inMap : Bool) :
    MFTWalker :=
  if inMap then
    setRecord { w with parseCalls :=
        w.parseCalls ++ [NtfsFullSegmentNumber pRecord.m_FileReferenceNumber] }
      (NtfsFullSegmentNumber pRecord.m_FileReferenceNumber) (parsed pRecord r)
  else
    { w with parseCalls :=
        w.parseCalls ++ [NtfsFullSegmentNumber pRecord.m_FileReferenceNumber] }

/-- The three branches of `AddRecord` behind the call of `ParseRecord`, which
has returned `r`. -/
def parseAndAdd (env : WalkerEnv) (w : MFTWalker) (ullRecordIndex : Nat)
    (pRecord : WalkerRecord) (inMap : Bool) (r : ParseResult) : Outcome AddRecordResult :=
  if r.hr == S_FALSE then
    (DeleteRecord (parseLogged w pRecord r inMap) (parsed pRecord r)).bind fun w =>
      Outcome.value ⟨S_OK, w, none, ullRecordIndex⟩
  else if r.hr == S_OK then
    (addParsedRecord env (parseLogged w pRecord r inMap) (parsed pRecord r)).bind fun a =>
      Outcome.value
        ⟨if a.1 == ERROR_NO_MORE_FILES then a.1 else S_OK, a.2,
          some (NtfsFullSegmentNumber pRecord.m_FileReferenceNumber), ullRecordIndex⟩
  else
    (DeleteRecord (parseLogged w pRecord r inMap) (parsed pRecord r)).bind fun w =>
      Outcome.value ⟨if r.hr == ERROR_NO_MORE_FILES then r.hr else S_OK, w, none, ullRecordIndex⟩

/-- The record index as `AddRecord` corrects it: the low part of the reference
of the record. -/
def correctedIndex (ullRecordIndex : Nat) (pRecord : WalkerRecord) : Nat :=
  if ullRecordIndex != SegmentNumberLowPart pRecord.m_FileReferenceNumber then
    SegmentNumberLowPart pRecord.m_FileReferenceNumber
  else ullRecordIndex

/-- The base record that `AddRecord` gives to `ParseRecord`: the record that
the map holds for the base segment that the header names. -/
def namedBaseRecord (w : MFTWalker) (pRecord : WalkerRecord) : Option WalkerRecord :=
  -- check if this is not a base file record segment
  if 0 != NtfsSegmentNumber pRecord.m_pRecord.BaseFileRecordSegment then
    recordOrNull w (NtfsFullSegmentNumber pRecord.m_pRecord.BaseFileRecordSegment)
  else none

/-- The part of `AddRecord` behind the look-up of the record: `pRecord` is the
record of the map (`inMap`) or the new one. -/
def addRecord (env : WalkerEnv) (w : MFTWalker) (ullRecordIndex : Nat)
    (pRecord : WalkerRecord) (inMap : Bool) : Outcome AddRecordResult :=
  if w.m_bIncludeNotInUse
      || (pRecord.m_pRecord.Flags &&& FILE_RECORD_SEGMENT_IN_USE) != 0 then
    parseAndAdd env w (correctedIndex ullRecordIndex pRecord) pRecord inMap
      (env.ParseRecord pRecord (namedBaseRecord w pRecord))
  else
    (DeleteRecord w pRecord).bind fun w =>
      Outcome.value ⟨S_OK, w, none, correctedIndex ullRecordIndex pRecord⟩

/-- `MFTWalker::AddRecord(ullRecordIndex, Data, pAddedRecord)`; `Data` is the
buffer as a record header.  The exceptions that `ParseRecord` may throw are not
followed. -/
def AddRecord (env : WalkerEnv) (w : MFTWalker) (ullRecordIndex : Nat)
    (Data : FILE_RECORD_SEGMENT_HEADER) (fuel : Nat) : Outcome AddRecordResult :=
  if Data.Signature != "FILE".toList then
    Outcome.value ⟨S_OK, w, none, ullRecordIndex⟩
  else
    let SafeFRN := NtfsFullSegmentNumber (SafeReference ullRecordIndex Data)
    match w.m_MFTMap.find SafeFRN with
    | some none =>
      -- This record was added, treated and deleted) --> Now SKIP it!
      Outcome.value ⟨S_FALSE, w, none, ullRecordIndex⟩
    | none =>
      (if w.AllocatedCells ≥ w.m_CellStoreLastWalk + w.m_CellStoreThreshold then
          (WalkRecords env w false fuel).bind fun r =>
            Outcome.value { r.2 with m_CellStoreLastWalk := r.2.AllocatedCells }
        else Outcome.value w).bind fun w =>
      if !env.GetNewCell w.AllocatedCells then
        Outcome.value ⟨E_OUTOFMEMORY, w, none, ullRecordIndex⟩
      else
        addRecord env { w with AllocatedCells := w.AllocatedCells + 1 } ullRecordIndex
          { m_FileReferenceNumber := SafeReference ullRecordIndex Data, m_pRecord := Data }
          false
    | some (some pRecord) => addRecord env w ullRecordIndex pRecord true

/-- `SegmentNumberHighPart` of a reference. -/
def SegmentNumberHighPart (ref : Nat) : Nat := ref / 2 ^ 32 % 2 ^ 16

/-- The order that `AddRecordCallback` gives to `std::sort`: by high part, then
by low part. -/
def referenceLess (left rigth : Nat) : Bool :=
  if SegmentNumberHighPart left != SegmentNumberHighPart rigth then
    SegmentNumberHighPart left < SegmentNumberHighPart rigth
  else SegmentNumberLowPart left < SegmentNumberLowPart rigth

/-- The loop of `std::unique` with the equality of the high and low parts:
`a` is the last reference kept, and a reference equal to it is dropped. -/
def uniqueFrom (a : Nat) : List Nat → List Nat
  | [] => [a]
  | b :: rest =>
    if SegmentNumberHighPart a == SegmentNumberHighPart b
        && SegmentNumberLowPart a == SegmentNumberLowPart b then
      uniqueFrom a rest
    else a :: uniqueFrom b rest

/-- `std::unique` with the equality of the high and low parts: of a run of
equal references the first one stays. -/
def uniqueReferences : List Nat → List Nat
  | [] => []
  | a :: rest => uniqueFrom a rest

/-- The references still to fetch: `missingRecords` sorted, without repetitions
and without the references fetched before (`fetchedRecords` is a `std::set`,
and a reference counts as fetched when its equal is in the set). -/
def toFetch (missingRecords fetchedRecords : List Nat) : List Nat :=
  (uniqueReferences (missingRecords.insertionSort fun a b => !referenceLess b a)).filter
    fun one => !fetchedRecords.contains one

/-- The function that `AddRecordCallback` gives to `FetchMFTRecord`, for one
record fetched: the record is added, and `IsRecordComplete` adds what it misses
to `missingRecords`.  The value is the result, the walker and
`missingRecords`. -/
def fetchedRecord (env : WalkerEnv) (fuel : Nat) (w : MFTWalker) (missingRecords : List Nat)
    (ullRecordIndex : Nat) (Data : FILE_RECORD_SEGMENT_HEADER) :
    Outcome (HRESULT × MFTWalker × List Nat) :=
  (AddRecord env w ullRecordIndex Data fuel).bind fun a =>
    if FAILED a.hr then Outcome.value (a.hr, a.walker, missingRecords)
    else
      match a.pAddedRecord with
      | none => Outcome.value (S_OK, a.walker, missingRecords)
      | some p =>
        if a.hr != S_FALSE then
          (deref a.walker p).bind fun pRecord =>
            (IsRecordComplete a.walker pRecord missingRecords true true fuel).bind fun c =>
              Outcome.value (S_OK, setRecord a.walker p c.2.1, c.2.2)
        else Outcome.value (S_OK, a.walker, missingRecords)

/-- Modelled from the spec: `FetchMFTRecord` of the MFT source is defined in a
file that is absent; the spec has it "ask the MFT source for exactly those
records" and call the function given "for each returned raw buffer".  A call of
the function that fails ends the fetch with its result. -/
def fetchRecords (env : WalkerEnv) (fuel : Nat) (hrFetch : HRESULT) :
    List (Nat × FILE_RECORD_SEGMENT_HEADER) → MFTWalker → List Nat →
      Outcome (HRESULT × MFTWalker × List Nat)
  | [], w, missingRecords => Outcome.value (hrFetch, w, missingRecords)
  | (ullRecordIndex, Data) :: rest, w, missingRecords =>
    (fetchedRecord env fuel w missingRecords ullRecordIndex Data).bind fun r =>
      if FAILED r.1 then Outcome.value r
      else fetchRecords env fuel hrFetch rest r.2.1 r.2.2

/-- What the loop `while (!(bIsComplete = IsRecordComplete(pRecord,
missingRecords)))` of `AddRecordCallback` leaves; `fetchedRecords` is the set of
that name, in insertion order, and `fetchRounds` counts the calls of
`FetchMFTRecord` that the loop has made. -/
structure CompletionResult where
  walker : MFTWalker
  bIsComplete : Bool
  bProceed : Bool
  hr : HRESULT
  fetchedRecords : List Nat
  fetchRounds : Nat
deriving DecidableEq, Repr

/-- The end of the body of the loop of `AddRecordCallback`, behind the fetch:
the attribute lists of the record and of its base record are updated. -/
def updateAfterFetch (w : MFTWalker) (p : Nat) : Outcome MFTWalker :=
  (UpdateAttributeList w p).bind fun w =>
  (deref w p).bind fun pRecord =>
  let pRecord : WalkerRecord :=
    if NtfsFullSegmentNumber pRecord.m_pRecord.BaseFileRecordSegment != 0
        && pRecord.m_pBaseFileRecord == none then
      match w.m_MFTMap.find (NtfsFullSegmentNumber pRecord.m_pRecord.BaseFileRecordSegment) with
      | some (some _) =>
        { pRecord with
          m_pBaseFileRecord :=
            (some (NtfsFullSegmentNumber pRecord.m_pRecord.BaseFileRecordSegment)) }
      | _ => pRecord
    else pRecord
  let w := setRecord w p pRecord
  match pRecord.m_pBaseFileRecord with
  | some b => UpdateAttributeList w b
  | none => Outcome.value w

/-- The loop `while (!(bIsComplete = IsRecordComplete(pRecord, missingRecords)))`
of `AddRecordCallback`; `rounds` bounds the number of its rounds, and
`fetchRounds` is the number of the calls of `FetchMFTRecord` made so far.  The
default values of the last two parameters of `IsRecordComplete` are in a header
that is absent; the spec has the test be the whole completeness predicate. -/
def completionLoop (env : WalkerEnv) (fuel : Nat) (p : Nat) :
    Nat → MFTWalker → List Nat → List Nat → HRESULT → Nat → Outcome CompletionResult
  | rounds, w, missingRecords, fetchedRecords, hr, fetchRounds =>
    (deref w p).bind fun pRecord =>
    (IsRecordComplete w pRecord missingRecords true true fuel).bind fun c =>
      let w := setRecord w p c.2.1
      let missingRecords := c.2.2
      if c.1 then Outcome.value ⟨w, true, false, hr, fetchedRecords, fetchRounds⟩
      else if missingRecords.isEmpty then
        -- incomplete but no missing records?
        Outcome.value ⟨w, false, false, hr, fetchedRecords, fetchRounds⟩
      else
        let missingRecords := toFetch missingRecords fetchedRecords
        if missingRecords.isEmpty then
          -- if we could not determine a list of records to fetch, stop being stuborn
          Outcome.value ⟨w, false, true, hr, fetchedRecords, fetchRounds⟩
        else
          let missingCopy := missingRecords
          let fetchedRecords := fetchedRecords ++ missingCopy
          let fetch := env.FetchMFTRecord missingCopy
          (fetchRecords env fuel fetch.1 fetch.2 w []).bind fun f =>
            if FAILED f.1 then
              Outcome.value ⟨f.2.1, false, false, f.1, fetchedRecords, fetchRounds + 1⟩
            else
              (updateAfterFetch f.2.1 p).bind fun w =>
                match rounds with
                | 0 => Outcome.noFuel
                | rounds + 1 =>
                  completionLoop env fuel p rounds w f.2.2 fetchedRecords S_OK
                    (fetchRounds + 1)

/-- `MFTWalker::AddRecordCallback(ullRecordIndex, Data)`.  The value is the
result and the walker. -/
def AddRecordCallback (env : WalkerEnv) (w : MFTWalker) (ullRecordIndex : Nat)
    (Data : FILE_RECORD_SEGMENT_HEADER) (fuel : Nat) : Outcome (HRESULT × MFTWalker) :=
  (AddRecord env w ullRecordIndex Data fuel).bind fun a =>
    if FAILED a.hr then Outcome.value (a.hr, a.walker)
    else
      match a.pAddedRecord with
      | none => Outcome.value (S_OK, a.walker)
      | some p =>
        (completionLoop env fuel p fuel a.walker [] [] a.hr 0).bind fun c =>
          (if c.bIsComplete || c.bProceed then callAndFree env c.walker p
            else Outcome.value (c.hr, c.walker)).bind fun r =>
          Outcome.value (if r.1 == ERROR_NO_MORE_FILES then r.1 else S_OK, r.2)

/-- Modelled from the spec: `EnumMFTRecord` of the MFT source is defined in a
file that is absent; the spec has the walk "consume every record from the
source" and return "when the source is exhausted or a callback signals stop".
The source is the list of the record indices and buffers it delivers; a call
of `AddRecordCallback` that fails ends the enumeration with its result. -/
def EnumMFTRecord (env : WalkerEnv) (fuel : Nat) :
    List (Nat × FILE_RECORD_SEGMENT_HEADER) → MFTWalker → Outcome (HRESULT × MFTWalker)
  | [], w => Outcome.value (S_OK, w)
  | (ullRecordIndex, Data) :: rest, w =>
    (AddRecordCallback env w ullRecordIndex Data fuel).bind fun r =>
      if FAILED r.1 then Outcome.value r
      else EnumMFTRecord env fuel rest r.2

/-- `MFTWalker::Walk(Callbacks)`, for the callbacks `ElementCallback`,
`KeepAliveCallback` and `ProgressCallback`; `GetMFTRecordCount` is what
`GetMFTRecordCount()` returns. -/
def Walk (env : WalkerEnv) (w : MFTWalker) (source : List (Nat × FILE_RECORD_SEGMENT_HEADER))
    (GetMFTRecordCount : Nat) (fuel : Nat) : Outcome (HRESULT × MFTWalker) :=
  (if GetMFTRecordCount > 0 then
      EnumMFTRecord env fuel source { w with m_ulMFTRecordCount := GetMFTRecordCount }
    else Outcome.value (E_FAIL, { w with m_ulMFTRecordCount := GetMFTRecordCount })).bind fun r =>
    if r.1 == ERROR_NO_MORE_FILES then
      -- no more enumeration nor walking...
      Outcome.value r
    else WalkRecords env r.2 true fuel

end MFTWalker

section RecordVocabulary
open MFTWalker

/-- The file names that the loop of `IsRecordComplete` looks at: those in front
of the first one whose parent is the volume root. -/
def checkedNames (root : Nat) (m_FileNames : List FILE_NAME) : List FILE_NAME :=
  m_FileNames.takeWhile fun n => NtfsFullSegmentNumber n.ParentDirectory != root

/-- The directory `s` and its ancestors are in the directory-name map, up to
one whose parent is the volume root or has the segment number 0 (within `fuel`
steps). -/
def ancestorsPresent (dirs : SegmentMap MFTFileNameWrapper) (root : Nat) :
    Nat → Nat → Bool
  | fuel, s =>
    match dirs.find s with
    | none => false
    | some e =>
      if NtfsFullSegmentNumber e.FileName.ParentDirectory == root
          || NtfsSegmentNumber e.FileName.ParentDirectory == 0 then true
      else
        match fuel with
        | 0 => false
        | fuel + 1 =>
          ancestorsPresent dirs root fuel (NtfsFullSegmentNumber e.FileName.ParentDirectory)

/-- The words of the claim: the directory `s` and every ancestor reached by
following the parent references, up to the volume root, are in the
directory-name map (within `fuel` steps). -/
def claimedAncestorsPresent (dirs : SegmentMap MFTFileNameWrapper) (root : Nat) :
    Nat → Nat → Bool
  | fuel, s =>
    if s == root then true
    else
      match dirs.find s with
      | none => false
      | some e =>
        match fuel with
        | 0 => false
        | fuel + 1 =>
          claimedAncestorsPresent dirs root fuel
            (NtfsFullSegmentNumber e.FileName.ParentDirectory)

/-- A walker whose directory-name map holds the root and one directory, the
parent reference of which has the segment number 0 (and the sequence number
1). -/
def zeroParentWalker : MFTWalker :=
  { USNRoot := 0x0005000000000005,
    m_DirectoryNames :=
      [(0x0005000000000005,
          { m_pFileName := { ParentDirectory := 0x0005000000000005, FileName := ".".toList } }),
       (0x0001000000000030,
          { m_pFileName := { ParentDirectory := 0x0001000000000000,
                             FileName := "lost".toList } })] }

/-- A parsed record with one file name, in the directory of `zeroParentWalker`. -/
def orphanRecord : WalkerRecord :=
  { m_FileReferenceNumber := 0x0001000000000031, m_bParsed := true,
    m_pAttributeList := some {},
    m_FileNames := [{ ParentDirectory := 0x0001000000000030, FileName := "f.txt".toList }] }

/-- A parsed record with the file name `f.txt` in the directory `\a\b` of
`sampleWalker`. -/
def sampleRecord : WalkerRecord :=
  { m_FileReferenceNumber := 40, m_bParsed := true, m_pAttributeList := some {},
    m_FileNames := [sampleFileName] }

/-- Every record of the map is kept under the safe segment number of its own
reference, which is the key that `AddRecord` inserts it with. -/
def keysConsistent (w : MFTWalker) : Prop :=
  ∀ k r, w.m_MFTMap.find k = some (some r) →
    NtfsFullSegmentNumber r.m_FileReferenceNumber = k

/-- The segment was handed to the callback and is marked so: its entry in the
map is a null pointer (the record was deleted) or a record with
`m_bCallbackCalled`. -/
def markedCalled (w : MFTWalker) (sn : Nat) : Prop :=
  w.m_MFTMap.find sn = some none
    ∨ ∃ r, w.m_MFTMap.find sn = some (some r) ∧ r.m_bCallbackCalled = true

/-- The segment was not handed to the callback: it is not in the map, or its
record is not marked. -/
def notYetCalled (w : MFTWalker) (sn : Nat) : Prop :=
  w.m_MFTMap.find sn = none
    ∨ ∃ r, w.m_MFTMap.find sn = some (some r) ∧ r.m_bCallbackCalled = false

/-- No segment was handed to `ElementCallback` twice, and every segment handed
to it is marked. -/
def calledOnce (w : MFTWalker) : Prop :=
  w.elementCalls.Nodup ∧ ∀ sn ∈ w.elementCalls, markedCalled w sn

/-- How the map and the trace of the callback evolve between two states of a
walk: a null pointer stays; a record stays the record of its segment, with its
header and, once set, its mark, or is replaced by a null pointer; a record that
enters the map does so under its own segment number; and the segments handed to
the callback in between were not marked, are marked now, and are handed once; and
a record that is marked now was marked, or was handed to the callback. -/
structure Frame (w w2 : MFTWalker) : Prop where
  tomb : ∀ k, w.m_MFTMap.find k = some none → w2.m_MFTMap.find k = some none
  live : ∀ k r, w.m_MFTMap.find k = some (some r) →
    w2.m_MFTMap.find k = some none
      ∨ ∃ r2, w2.m_MFTMap.find k = some (some r2)
          ∧ r2.m_FileReferenceNumber = r.m_FileReferenceNumber
          ∧ r2.m_pRecord = r.m_pRecord
          ∧ (r.m_bCallbackCalled = true → r2.m_bCallbackCalled = true)
  fresh : ∀ k r2, w.m_MFTMap.find k = none → w2.m_MFTMap.find k = some (some r2) →
    NtfsFullSegmentNumber r2.m_FileReferenceNumber = k
  calls : ∃ new, w2.elementCalls = w.elementCalls ++ new ∧ new.Nodup
    ∧ ∀ x ∈ new, notYetCalled w x ∧ markedCalled w2 x
  marks : ∀ k r2, w2.m_MFTMap.find k = some (some r2) → r2.m_bCallbackCalled = true →
    k ∈ w2.elementCalls ∨ ∃ r, w.m_MFTMap.find k = some (some r) ∧ r.m_bCallbackCalled = true

/-- What a step at the key `k` leaves of the other entries of the map: each is
as it was, or a null pointer. -/
def othersKept (k : Nat) (w w1 : MFTWalker) : Prop :=
  ∀ k2, k2 ≠ k → w1.m_MFTMap.find k2 = w.m_MFTMap.find k2 ∨ w1.m_MFTMap.find k2 = some none

/-- Every entry of the map is as it was, or a null pointer. -/
def keptOrTomb (w w1 : MFTWalker) : Prop :=
  ∀ k2, w1.m_MFTMap.find k2 = w.m_MFTMap.find k2 ∨ w1.m_MFTMap.find k2 = some none

/-- What `DeleteRecord` and the steps of its loop leave: the entries of the map
are as they were or null pointers, a segment that was not in the map and is not
`key` is not in the map, and the traces and `m_bIncludeNotInUse` are as they
were. -/
structure Deleted (key : Nat) (w w1 : MFTWalker) : Prop where
  kept : keptOrTomb w w1
  absent : ∀ k2, k2 ≠ key → w.m_MFTMap.find k2 = none → w1.m_MFTMap.find k2 = none
  parse : w1.parseCalls = w.parseCalls
  calls : w1.elementCalls = w.elementCalls
  notInUse : w1.m_bIncludeNotInUse = w.m_bIncludeNotInUse

/-- A base record: its header names no base record, and none is linked. -/
def isBaseRecord (r : WalkerRecord) : Prop :=
  NtfsSegmentNumber r.m_pRecord.BaseFileRecordSegment = 0 ∧ r.m_pBaseFileRecord = none

/-- The base record that the map holds under the key `k`, when there is one,
was handed to the callback, or one of its child records is not in the map. -/
def handedOrChildMissing (w : MFTWalker) (k : Nat) : Prop :=
  ∀ r, w.m_MFTMap.find k = some (some r) → isBaseRecord r →
    r.m_bCallbackCalled = true ∨ ∃ child ∈ r.m_ChildRecords, w.m_MFTMap.find child.1 = none

/-- What a sweep of the map (`WalkRecords`) does besides: no segment enters the
map, the records parsed and handed to the callback are records of the map, and
`m_bIncludeNotInUse` is as it was. -/
structure Sweep (w w2 : MFTWalker) : Prop where
  frame : Frame w w2
  absent : ∀ k, w.m_MFTMap.find k = none → w2.m_MFTMap.find k = none
  parsed : ∃ new, w2.parseCalls = w.parseCalls ++ new ∧ ∀ x ∈ new, w.m_MFTMap.find x ≠ none
  called : ∃ new, w2.elementCalls = w.elementCalls ++ new
    ∧ ∀ x ∈ new, w.m_MFTMap.find x ≠ none
  notInUse : w2.m_bIncludeNotInUse = w.m_bIncludeNotInUse

/-- Every record of the map that is marked was handed to `ElementCallback`. -/
def marksLogged (w : MFTWalker) : Prop :=
  ∀ k r, w.m_MFTMap.find k = some (some r) → r.m_bCallbackCalled = true → k ∈ w.elementCalls

/-- A volume where the record 30 has the child record 31 and the MFT source
fails to fetch records; no record is kept alive. -/
def lostChildEnv : WalkerEnv :=
  { ParseRecord := fun r _ =>
      if r.m_FileReferenceNumber == 30 then
        { m_pAttributeList := some {}, m_ChildRecords := [(31, false)],
          m_FileNames := [{ ParentDirectory := 0x0005000000000005, FileName := "x".toList }] }
      else
        { m_pAttributeList := some {},
          m_FileNames := [{ ParentDirectory := 0x0005000000000005, FileName := "y".toList }] },
    KeepAliveCallback := fun _ => false,
    ProgressCallback := fun _ => S_OK,
    FetchMFTRecord := fun _ => (E_FAIL, []),
    GetNewCell := fun _ => true }

/-- The records 30 and 32, both in use. -/
def lostChildSource : List (Nat × FILE_RECORD_SEGMENT_HEADER) :=
  [(30, { SegmentNumberLowPart := 30 }), (32, { SegmentNumberLowPart := 32 })]

/-- The record 30 as the walk of `lostChildSource` leaves it. -/
def lostChildRecord : WalkerRecord :=
  { m_FileReferenceNumber := 30, m_pRecord := { SegmentNumberLowPart := 30 },
    m_ChildRecords := [(31, false)], m_bParsed := true,
    m_FileNames := [{ ParentDirectory := 0x0005000000000005, FileName := "x".toList }],
    m_pAttributeList := some {} }

/-- The walker that the walk of `lostChildSource` leaves. -/
def lostChildWalker : MFTWalker :=
  { m_MFTMap := [(30, some lostChildRecord), (32, none)], m_dwWalkedItems := 1,
    m_ulMFTRecordCount := 2, AllocatedCells := 1, elementCalls := [32],
    parseCalls := [30, 32] }

/-- A volume where every record is kept alive by the callback. -/
def keepAliveEnv : WalkerEnv :=
  { ParseRecord := fun _ _ =>
      { m_pAttributeList := some {},
        m_FileNames := [{ ParentDirectory := 0x0005000000000005, FileName := "y".toList }] },
    KeepAliveCallback := fun _ => true,
    ProgressCallback := fun _ => S_OK,
    FetchMFTRecord := fun _ => (S_OK, []),
    GetNewCell := fun _ => true }

/-- The record `n` as a walk with `keepAliveEnv` leaves it. -/
def keptRecord (n : Nat) : WalkerRecord :=
  { m_FileReferenceNumber := n, m_pRecord := { SegmentNumberLowPart := n },
    m_bParsed := true, m_bIsComplete := true, m_bCallbackCalled := true,
    m_FileNames := [{ ParentDirectory := 0x0005000000000005, FileName := "y".toList }],
    m_pAttributeList := some {} }

/-- The walker that the walk of the records 32 and 34 with `keepAliveEnv`
leaves. -/
def keptWalker : MFTWalker :=
  { m_MFTMap := [(32, some (keptRecord 32)), (34, some (keptRecord 34))],
    m_dwWalkedItems := 2, m_ulMFTRecordCount := 2, AllocatedCells := 2,
    elementCalls := [32, 34], parseCalls := [32, 34] }

/-- The record 32, in use, the record 33, not in use, and the record 32 a
second time. -/
def twiceSource : List (Nat × FILE_RECORD_SEGMENT_HEADER) :=
  [(32, { SegmentNumberLowPart := 32 }), (33, { SegmentNumberLowPart := 33, Flags := 0 }),
    (32, { SegmentNumberLowPart := 32 })]

/-- The walker that the walk of `twiceSource` with `keepAliveEnv` leaves. -/
def twiceWalker : MFTWalker :=
  { m_MFTMap := [(32, some (keptRecord 32)), (33, none)], m_dwWalkedItems := 1,
    m_ulMFTRecordCount := 3, AllocatedCells := 1, elementCalls := [32],
    parseCalls := [32, 32] }

/-- A volume whose segment store has no cell left. -/
def noCellEnv : WalkerEnv :=
  { keepAliveEnv with GetNewCell := fun _ => false }

/-- The header of the record 33, not in use. -/
def notInUseHeader : FILE_RECORD_SEGMENT_HEADER :=
  { SegmentNumberLowPart := 33, Flags := 0 }

/-- A buffer for the segment 33 whose signature is `BAAD`, with the flag
`FILE_RECORD_SEGMENT_IN_USE` clear. -/
def badSignatureHeader : FILE_RECORD_SEGMENT_HEADER :=
  { Signature := "BAAD".toList, SegmentNumberLowPart := 33, Flags := 0 }

/-- The header of the record 32 once the file is deleted: the flag
`FILE_RECORD_SEGMENT_IN_USE` is clear. -/
def deletedHeader : FILE_RECORD_SEGMENT_HEADER :=
  { SegmentNumberLowPart := 32, Flags := 0 }

end RecordVocabulary

/-! ## Directory names whose parent references form a cycle -/

section CycleVocabulary
open MFTWalker

/-- A walker whose directory-name map holds the root and two directories that
are each the parent of the other. -/
def cycleWalker : MFTWalker :=
  { USNRoot := 5,
    m_DirectoryNames :=
      [(5, { m_pFileName := { ParentDirectory := 5, FileName := ".".toList } }),
       (10, { m_pFileName := { ParentDirectory := 11, FileName := "a".toList } }),
       (11, { m_pFileName := { ParentDirectory := 10, FileName := "b".toList } })] }

/-- A parsed record with the file name `f.txt` in the directory 11 of
`cycleWalker`. -/
def cycleRecord : WalkerRecord :=
  { m_FileReferenceNumber := 40, m_bParsed := true, m_pAttributeList := some {},
    m_FileNames := [{ ParentDirectory := 11, FileName := "f.txt".toList }] }

/-- The same map with the two directories named `.`. -/
def dotCycleWalker : MFTWalker :=
  { USNRoot := 5,
    m_DirectoryNames :=
      [(5, { m_pFileName := { ParentDirectory := 5, FileName := ".".toList } }),
       (10, { m_pFileName := { ParentDirectory := 11, FileName := ".".toList } }),
       (11, { m_pFileName := { ParentDirectory := 10, FileName := ".".toList } })] }

/-- A file name in the directory 11 of these walkers. -/
def cycleFileName : FILE_NAME :=
  { ParentDirectory := 11, FileName := "f.txt".toList }

/-- The name buffer and the local variables of `GetFullNameAndIfInLocation`
when it enters its loop over the parents, for `cycleFileName` and a walker
without a name buffer whose maximum component length is 255. -/
def cycleCursor : NameCursor :=
  { m_pFullNameBuffer := List.replicate 249 none ++ ("f.txt".toList ++ [NUL]).map some,
    m_dwFullNameBufferLen := 510, pCurrent := 249, dwCount := 12 }

/-- The parent of the directory `s` in the directory-name map. -/
def parentOf (dirs : SegmentMap MFTFileNameWrapper) (s : Nat) : Option Nat :=
  (dirs.find s).map fun e => NtfsFullSegmentNumber e.FileName.ParentDirectory

end CycleVocabulary

/-! ## A stop request during an intermediate sweep -/

section StopVocabulary
open MFTWalker

/-- A volume with the file 29 in the directory 30, which the MFT source
delivers behind it and fetches on request, and the file 32.  The callbacks keep
the record 29 alive and ask to stop when 66 percent are reported. -/
def stopInSweepEnv : WalkerEnv :=
  { ParseRecord := fun r _ =>
      if r.m_FileReferenceNumber == 29 then
        { m_pAttributeList := some {},
          m_FileNames := [{ ParentDirectory := 30, FileName := "f.txt".toList }] }
      else if r.m_FileReferenceNumber == 30 then
        { m_pAttributeList := some {}, m_bIsDirectory := true,
          m_FileNames := [{ ParentDirectory := 0x0005000000000005, FileName := "d".toList }],
          Main_PFILE_NAME :=
            (some { ParentDirectory := 0x0005000000000005, FileName := "d".toList }) }
      else
        { m_pAttributeList := some {},
          m_FileNames := [{ ParentDirectory := 0x0005000000000005, FileName := "y".toList }] },
    KeepAliveCallback := fun r => r.m_FileReferenceNumber == 29,
    ProgressCallback := fun percent => if percent == 66 then ERROR_NO_MORE_FILES else S_OK,
    FetchMFTRecord := fun refs =>
      (S_OK, if refs.contains 30 then [(30, { SegmentNumberLowPart := 30 })] else []),
    GetNewCell := fun _ => true }

/-- The records 29 and 32, as the MFT source delivers them. -/
def stopInSweepSource : List (Nat × FILE_RECORD_SEGMENT_HEADER) :=
  [(29, { SegmentNumberLowPart := 29 }), (32, { SegmentNumberLowPart := 32 })]

/-- The record 29 once it was handed to the callback and kept alive. -/
def keptFileRecord : WalkerRecord :=
  { m_FileReferenceNumber := 29, m_pRecord := { SegmentNumberLowPart := 29 },
    m_bParsed := true, m_bIsComplete := true, m_bCallbackCalled := true,
    m_FileNames := [{ ParentDirectory := 30, FileName := "f.txt".toList }],
    m_pAttributeList := some {} }

/-- The record of the directory 30 once it was fetched: it is complete and was
not handed to the callback. -/
def fetchedDirectoryRecord : WalkerRecord :=
  { m_FileReferenceNumber := 30, m_pRecord := { SegmentNumberLowPart := 30 },
    m_bParsed := true, m_bIsComplete := true, m_bIsDirectory := true,
    m_FileNames := [{ ParentDirectory := 0x0005000000000005, FileName := "d".toList }],
    m_pAttributeList := some {},
    Main_PFILE_NAME := some { ParentDirectory := 0x0005000000000005, FileName := "d".toList } }

/-- The walker once the record 29 has arrived: a sweep of the map is due. -/
def arrivedWalker : MFTWalker :=
  { m_DirectoryNames :=
      [(30, { m_pFileName :=
        { ParentDirectory := 0x0005000000000005, FileName := "d".toList } })],
    m_MFTMap := [(29, some keptFileRecord), (30, some fetchedDirectoryRecord)],
    m_dwWalkedItems := 1, m_ulMFTRecordCount := 3, m_CellStoreLastWalk := 1,
    m_CellStoreThreshold := 1, AllocatedCells := 2, elementCalls := [29],
    parseCalls := [29, 30] }

/-- The walker behind the sweep that `AddRecord` runs when the record 32
arrives. -/
def sweptWalker : MFTWalker :=
  { arrivedWalker with
    m_MFTMap := [(29, some keptFileRecord), (30, none)],
    m_dwWalkedItems := 2, AllocatedCells := 1, elementCalls := [29, 30] }

/-- The walker at the end of the walk. -/
def stoppedLateWalker : MFTWalker :=
  { arrivedWalker with
    m_MFTMap := [(29, some keptFileRecord), (30, none), (32, none)],
    m_dwWalkedItems := 3, AllocatedCells := 1, elementCalls := [29, 30, 32],
    parseCalls := [29, 30, 32] }

/-- The record 29 once `AddRecord` has parsed it. -/
def pendingFileRecord : WalkerRecord :=
  { keptFileRecord with m_bIsComplete := false, m_bCallbackCalled := false }

/-- The walker of the walk of the records 29 and 32 when the enumeration
starts. -/
def stopStartWalker : MFTWalker := { m_CellStoreThreshold := 1, m_ulMFTRecordCount := 3 }

/-- The walker once `AddRecord` has added the record 29. -/
def addedWalker : MFTWalker :=
  { stopStartWalker with
    m_MFTMap := [(29, some pendingFileRecord)], AllocatedCells := 1, parseCalls := [29] }

/-- The walker once the directory 30 was fetched for the record 29. -/
def fetchedWalker : MFTWalker :=
  { arrivedWalker with
    m_MFTMap := [(29, some pendingFileRecord), (30, some fetchedDirectoryRecord)],
    m_dwWalkedItems := 0, elementCalls := [] }

/-- The walker once the record 29 was found complete. -/
def completedWalker : MFTWalker :=
  { arrivedWalker with
    m_MFTMap := [(29, some { keptFileRecord with m_bCallbackCalled := false }),
      (30, some fetchedDirectoryRecord)],
    m_dwWalkedItems := 0, elementCalls := [] }

/-- The record 32 once `AddRecord` has parsed it. -/
def lateRecord : WalkerRecord :=
  { m_FileReferenceNumber := 32, m_pRecord := { SegmentNumberLowPart := 32 },
    m_bParsed := true,
    m_FileNames := [{ ParentDirectory := 0x0005000000000005, FileName := "y".toList }],
    m_pAttributeList := some {} }

/-- The walker once `AddRecord` has swept the map and added the record 32. -/
def lateAddedWalker : MFTWalker :=
  { sweptWalker with
    m_MFTMap := [(29, some keptFileRecord), (30, none), (32, some lateRecord)],
    AllocatedCells := 2, parseCalls := [29, 30, 32] }

/-- The walker once the record 32 was found complete. -/
def lateCompleteWalker : MFTWalker :=
  { lateAddedWalker with
    m_MFTMap := [(29, some keptFileRecord), (30, none),
      (32, some { lateRecord with m_bIsComplete := true })] }

end StopVocabulary

/-! ## Terms of the `$I30` containers -/

section I30Vocabulary
open Criteria

/-- A `Required` bitmask that holds name and path criteria only. -/
def onlyNameAndPathCriteria (Required : Nat) : Bool :=
  clear Required (SearchTerm.NameMask ||| SearchTerm.PathMask) == NONE

/-- The terms of the three `$I30` containers. -/
def I30Stored (ff : FileFind) : List SearchTerm :=
  ff.m_I30ExactNameTerms.map Prod.snd ++ ff.m_I30ExactPathTerms.map Prod.snd ++ ff.m_I30Terms

/-- A term with the free-form name `foo.txt:stream`. -/
def streamTerm : SearchTerm := { Required := NAME, Name := "foo.txt:stream".toList }

/-- A term that requires a stream name and an extended attribute name, both
free-form. -/
def mixedStreamTerm : SearchTerm :=
  { Required := ADS ||| EA, ADSName := "s".toList, EAName := "e".toList }

/-- A term that requires an attribute type and a free-form stream name. -/
def typedStreamTerm : SearchTerm :=
  { Required := ATTR_TYPE ||| ADS, dwAttrType := 0x80, ADSName := "s".toList }

end I30Vocabulary

/-! ## The references fetched for a record -/

section FetchVocabulary
open MFTWalker

/-- The high and the low part of a reference as one number: the order and the
equality that `AddRecordCallback` gives to `std::sort` and `std::unique` are
those of this number. -/
def referenceKey (ref : Nat) : Nat :=
  SegmentNumberHighPart ref * 2 ^ 32 + SegmentNumberLowPart ref

end FetchVocabulary

/-! ## Terms written to the configuration -/

/-- The text conversions `AddTermToConfig` calls: `std::to_wstring` and
`CBinaryBuffer::ToHex`, which lives in a file that is not part of the sources
at hand. -/
structure Writers where
  /-- `std::to_wstring` -/
  to_wstring : Nat → WString
  /-- `CBinaryBuffer::ToHex` -/
  ToHex : List Nat → WString

namespace SearchTerm
open Criteria

/-- The `switch (dwAttrType)` of `AddTermToConfig`: the name of the attribute
type, and `std::to_wstring(dwAttrType)` for a type without a name. -/
def attrTypeText (tw : Writers) (dwAttrType : Nat) : WString :=
  match attributeTypeCodes.find? fun p => p.2 == dwAttrType with
  | some p => p.1
  | none => tw.to_wstring dwAttrType

/-- One `if (cond) { ... }` block of `AddTermToConfig`: `f` writes the sub
items. -/
def writeIf (cond : Bool) (f : ConfigItem → ConfigItem) (item : ConfigItem) : ConfigItem :=
  if cond then f item else item

/-- `FileFind::SearchTerm::AddTermToConfig(item)`: the blocks of the function
in their order; a sub item whose `Status` is set to `PRESENT` is `some` of its
`strData`.  The call returns `S_OK`. -/
def AddTermToConfig (tw : Writers) (t : SearchTerm) (item : ConfigItem) : ConfigItem :=
  let ntfs_find := item
  let ntfs_find := writeIf (test t.Required NAME_EXACT)
    (fun i => { i with CONFIG_FILEFIND_NAME := some t.FileName }) ntfs_find
  let ntfs_find := writeIf (test t.Required NAME_MATCH)
    (fun i => { i with CONFIG_FILEFIND_NAME_MATCH := some t.FileName }) ntfs_find
  let ntfs_find := writeIf (test t.Required NAME_REGEX)
    (fun i => { i with CONFIG_FILEFIND_NAME_REGEX := some t.FileName }) ntfs_find
  let ntfs_find := writeIf (test t.Required PATH_EXACT)
    (fun i => { i with CONFIG_FILEFIND_PATH := some t.Path }) ntfs_find
  let ntfs_find := writeIf (test t.Required PATH_MATCH)
    (fun i => { i with CONFIG_FILEFIND_PATH_MATCH := some t.Path }) ntfs_find
  let ntfs_find := writeIf (test t.Required PATH_REGEX)
    (fun i => { i with CONFIG_FILEFIND_PATH_REGEX := some t.Path }) ntfs_find
  let ntfs_find := writeIf (test t.Required EA_EXACT)
    (fun i => { i with CONFIG_FILEFIND_EA := some t.EAName }) ntfs_find
  let ntfs_find := writeIf (test t.Required EA_MATCH)
    (fun i => { i with CONFIG_FILEFIND_EA_MATCH := some t.EAName }) ntfs_find
  let ntfs_find := writeIf (test t.Required EA_REGEX)
    (fun i => { i with CONFIG_FILEFIND_EA_REGEX := some t.EAName }) ntfs_find
  let ntfs_find := writeIf (test t.Required ADS_EXACT)
    (fun i => { i with CONFIG_FILEFIND_ADS := some t.ADSName }) ntfs_find
  let ntfs_find := writeIf (test t.Required ADS_MATCH)
    (fun i => { i with CONFIG_FILEFIND_ADS_MATCH := some t.ADSName }) ntfs_find
  let ntfs_find := writeIf (test t.Required ADS_REGEX)
    (fun i => { i with CONFIG_FILEFIND_ADS_REGEX := some t.ADSName }) ntfs_find
  let ntfs_find := writeIf (test t.Required SIZE_EQ)
    (fun i => { i with CONFIG_FILEFIND_SIZE := some (tw.to_wstring t.SizeEQ) }) ntfs_find
  let ntfs_find := writeIf (test t.Required SIZE_GT)
    (fun i => { i with CONFIG_FILEFIND_SIZE_GT := some (tw.to_wstring t.SizeG) }) ntfs_find
  let ntfs_find := writeIf (test t.Required SIZE_GE)
    (fun i => { i with CONFIG_FILEFIND_SIZE_GE := some (tw.to_wstring t.SizeG) }) ntfs_find
  let ntfs_find := writeIf (test t.Required SIZE_LT)
    (fun i => { i with CONFIG_FILEFIND_SIZE_LT := some (tw.to_wstring t.SizeL) }) ntfs_find
  let ntfs_find := writeIf (test t.Required SIZE_LE)
    (fun i => { i with CONFIG_FILEFIND_SIZE_LE := some (tw.to_wstring t.SizeL) }) ntfs_find
  let ntfs_find := writeIf (test t.Required DATA_MD5)
    (fun i => { i with CONFIG_FILEFIND_MD5 := some (tw.ToHex t.MD5) }) ntfs_find
  let ntfs_find := writeIf (test t.Required DATA_SHA1)
    (fun i => { i with CONFIG_FILEFIND_SHA1 := some (tw.ToHex t.SHA1) }) ntfs_find
  let ntfs_find := writeIf (test t.Required DATA_SHA256)
    (fun i => { i with CONFIG_FILEFIND_SHA256 := some (tw.ToHex t.SHA256) }) ntfs_find
  let ntfs_find := writeIf (test t.Required HEADER || test t.Required HEADER_HEX)
    (fun i =>
      writeIf (t.HeaderLen > 0)
        (fun i => { i with CONFIG_FILEFIND_HEADER_LENGTH := some (tw.to_wstring t.HeaderLen) })
        { i with CONFIG_FILEFIND_HEADER_HEX := some (tw.ToHex t.Header) }) ntfs_find
  let ntfs_find := writeIf (test t.Required HEADER_REGEX)
    (fun i =>
      writeIf (t.HeaderLen > 0)
        (fun i => { i with CONFIG_FILEFIND_HEADER_LENGTH := some (tw.to_wstring t.HeaderLen) })
        { i with CONFIG_FILEFIND_HEADER_HEX := some t.strHeaderRegEx }) ntfs_find
  let ntfs_find := writeIf (test t.Required ATTR_TYPE)
    (fun i => { i with CONFIG_FILEFIND_ATTR_TYPE := some (attrTypeText tw t.dwAttrType) }) ntfs_find
  let ntfs_find := writeIf (test t.Required ATTR_NAME_EXACT)
    (fun i => { i with CONFIG_FILEFIND_ATTR_NAME := some t.AttrName }) ntfs_find
  let ntfs_find := writeIf (test t.Required ATTR_NAME_MATCH)
    (fun i => { i with CONFIG_FILEFIND_ATTR_MATCH := some t.AttrName }) ntfs_find
  let ntfs_find := writeIf (test t.Required ATTR_NAME_REGEX)
    (fun i => { i with CONFIG_FILEFIND_ATTR_REGEX := some t.AttrName }) ntfs_find
  let ntfs_find := writeIf (test t.Required CONTAINS)
    (fun i => { i with CONFIG_FILEFIND_CONTAINS_HEX := some (tw.ToHex t.Contains) }) ntfs_find
  let ntfs_find := writeIf (test t.Required YARA)
    (writeIf (!t.YaraRulesSpec.isEmpty)
      (fun i => { i with CONFIG_FILEFIND_YARA_RULE := some t.YaraRulesSpec })) ntfs_find
  ntfs_find

end SearchTerm

section ConfigVocabulary
open Criteria SearchTerm

/-- The criteria that `AddTermToConfig` writes to the item from which
`GetSearchTermFromConfig` reads them: all those it writes but `HEADER`,
`HEADER_REGEX` and `EA_EXACT`. -/
def writtenAndReadCriteria : Nat :=
  NAME_EXACT ||| NAME_MATCH ||| NAME_REGEX ||| PATH_EXACT ||| PATH_MATCH ||| PATH_REGEX
    ||| EA_MATCH ||| EA_REGEX ||| ADS_EXACT ||| ADS_MATCH ||| ADS_REGEX
    ||| SIZE_EQ ||| SIZE_GT ||| SIZE_GE ||| SIZE_LT ||| SIZE_LE
    ||| DATA_MD5 ||| DATA_SHA1 ||| DATA_SHA256 ||| HEADER_HEX
    ||| ATTR_TYPE ||| ATTR_NAME_EXACT ||| ATTR_NAME_MATCH ||| ATTR_NAME_REGEX
    ||| CONTAINS ||| YARA

/-- The texts that `AddTermToConfig` writes for the criteria of a term are
texts that `GetSearchTermFromConfig` takes: each size converts to a number,
each hash to a buffer of its size, the content and the header to a buffer, the
attribute type is a name of the table or a number that is not zero, and the
rules specification is not empty. -/
def readsBack (cv : Conversions) (tw : Writers) (t : SearchTerm) : Bool :=
  (!test t.Required SIZE_EQ || (cv.toDWORD64 (tw.to_wstring t.SizeEQ)).isSome)
  && (!test t.Required SIZE_GT || (cv.toDWORD64 (tw.to_wstring t.SizeG)).isSome)
  && (!test t.Required SIZE_GE || (cv.toDWORD64 (tw.to_wstring t.SizeG)).isSome)
  && (!test t.Required SIZE_LT || (cv.toDWORD64 (tw.to_wstring t.SizeL)).isSome)
  && (!test t.Required SIZE_LE || (cv.toDWORD64 (tw.to_wstring t.SizeL)).isSome)
  && (!test t.Required DATA_MD5
      || (cv.GetBytesFromHexaStringN (tw.ToHex t.MD5) BYTES_IN_MD5_HASH).isSome)
  && (!test t.Required DATA_SHA1
      || (cv.GetBytesFromHexaStringN (tw.ToHex t.SHA1) BYTES_IN_SHA1_HASH).isSome)
  && (!test t.Required DATA_SHA256
      || (cv.GetBytesFromHexaStringN (tw.ToHex t.SHA256) BYTES_IN_SHA256_HASH).isSome)
  && (!test t.Required CONTAINS || (cv.GetBytesFromHexaString (tw.ToHex t.Contains)).isSome)
  && (!test t.Required HEADER_HEX || (cv.GetBytesFromHexaString (tw.ToHex t.Header)).isSome)
  && (!test t.Required ATTR_TYPE
      || (attributeTypeCodes.lookup (attrTypeText tw t.dwAttrType)).isSome
      || cv.wtoi (attrTypeText tw t.dwAttrType) != 0)
  && (!test t.Required YARA || !t.YaraRulesSpec.isEmpty)

/-- The bytes of a buffer as two hexadecimal digits each. -/
def hexText (b : List Nat) : WString :=
  b.flatMap fun x => [Nat.digitChar (x / 16 % 16), Nat.digitChar (x % 16)]

/-- The value of a hexadecimal digit. -/
def hexValue (c : Char) : Option Nat :=
  if c.isDigit then some (c.toNat - 48)
  else if 'a'.toNat ≤ c.toNat && c.toNat ≤ 'f'.toNat then some (c.toNat - 87)
  else if 'A'.toNat ≤ c.toNat && c.toNat ≤ 'F'.toNat then some (c.toNat - 55)
  else none

/-- The bytes that a text of hexadecimal digits stands for. -/
def hexBytes : WString → Option (List Nat)
  | [] => some []
  | [_] => none
  | a :: b :: rest =>
    (hexValue a).bind fun x => (hexValue b).bind fun y =>
      (hexBytes rest).map fun l => (16 * x + y) :: l

/-- A sample of conversions for evaluating the configuration reader on what
`AddTermToConfig` writes: numbers are decimal, buffers are hexadecimal digits. -/
def sampleConversions : Conversions :=
  { decimalConversions with
    GetBytesFromHexaStringN := fun s n => (hexBytes s).filter fun b => b.length == n,
    GetBytesFromHexaString := hexBytes }

/-- The writers that go with `sampleConversions`. -/
def sampleWriters : Writers :=
  { to_wstring := fun n => Nat.toDigits 10 n, ToHex := hexText }

/-- A term that requires the header `MZ`, given as text. -/
def headerTerm : SearchTerm := { Required := HEADER, Header := [0x4D, 0x5A], HeaderLen := 2 }

/-- A term that requires scan rules and has no rules specification. -/
def emptyRulesTerm : SearchTerm := { Required := YARA }

/-- A term that requires the attribute type 0. -/
def zeroTypeTerm : SearchTerm := { Required := ATTR_TYPE, dwAttrType := 0 }

/-- A term with a name, a stream name, a size, a hash, an attribute type and
scan rules. -/
def writtenTerm : SearchTerm :=
  { Required := NAME_MATCH ||| ADS_EXACT ||| SIZE_GT ||| DATA_MD5 ||| ATTR_TYPE ||| YARA,
    FileName := "*.exe".toList, ADSName := "Zone.Identifier".toList, SizeG := 1024,
    MD5 := [0xd4, 0x1d, 0x8c, 0xd9, 0x8f, 0x00, 0xb2, 0x04, 0xe9, 0x80, 0x09, 0x98, 0xec,
      0xf8, 0x42, 0x7e],
    dwAttrType := 0x80, YaraRulesSpec := "rules.yar".toList }

end ConfigVocabulary

/-! ## A match written to a table -/

/-- The four times of a `$STANDARD_INFORMATION` or of a `$FILE_NAME`. -/
structure FileTimes where
  CreationTime : Nat := 0
  LastModificationTime : Nat := 0
  LastAccessTime : Nat := 0
  LastChangeTime : Nat := 0
deriving DecidableEq, Repr

/-- One call of a writing method of `ITableOutput`, with what it is given.
Modelled from the spec: `SystemDetails::WriteComputerName` is defined in a file
that is absent; the spec has the column "computer" first, and the call is taken
to write that one cell. -/
inductive TableCall where
  | WriteComputerName
  | WriteInteger (v : Nat)
  | WriteString (s : WString)
  | WriteNothing
  | WriteFileTime (t : Nat)
  | WriteFileSize (n : Nat)
  | WriteBytes (b : List Nat)
  | WriteGUID (g : Nat)
  | WriteEndOfLine
deriving DecidableEq, Repr

/-- What `Match::Write` reads and the evaluation model of a match does not
hold: the serial number of the volume, the snapshot of the volume reader when
it is a `SnapshotVolumeReader`, the description of the term, the
`$STANDARD_INFORMATION` that the pointer `StandardInformation` leads to (`none`
for a null pointer), for each name what `FILENAME()` leads to (`none` for a
null pointer, else the times of `Info`), and for each attribute its `MD5`,
`SHA1` and `SHA256`. -/
structure WriteSource where
  VolumeSerialNumber : Nat := 0
  SnapshotID : Option Nat := none
  GetDescription : WString := []
  StandardInformation : Option FileTimes := none
  FILENAME : NameMatch → Option FileTimes := fun _ => some {}
  Hashes : AttributeMatch → List Nat × List Nat × List Nat := fun _ => ([], [], [])

/-- `GUID_NULL`. -/
def GUID_NULL : Nat := 0

namespace Match
open TableCall

/-- The four `WriteFileTime` calls for the times of a `$STANDARD_INFORMATION`
or of a `$FILE_NAME`. -/
def writeTimes (t : FileTimes) : List TableCall :=
  [WriteFileTime t.CreationTime, WriteFileTime t.LastModificationTime,
   WriteFileTime t.LastAccessTime, WriteFileTime t.LastChangeTime]

/-- The snapshot written: that of the reader, or `GUID_NULL`. -/
def snapshotOf (src : WriteSource) : Nat := src.SnapshotID.getD GUID_NULL

/-- The body of the loop over `MatchingNames` when `MatchingAttributes` is
empty.  `name_it->FILENAME()->ParentDirectory` is read before `FILENAME()` is
tested. -/
def writeName (src : WriteSource) (m : Match) (name_it : NameMatch) :
    Outcome (List TableCall) :=
  match src.FILENAME name_it with
  | none => Outcome.undefined
  | some Info =>
    Outcome.value
      ([WriteComputerName, WriteInteger src.VolumeSerialNumber,
        WriteString name_it.FullPathName, WriteInteger m.FRN,
        WriteInteger name_it.FILENAME.ParentDirectory, WriteNothing,
        WriteString src.GetDescription]
      ++ (match src.StandardInformation with
          | some si => writeTimes si
          | none => [WriteNothing, WriteNothing, WriteNothing, WriteNothing])
      ++ writeTimes Info
      ++ [WriteNothing, WriteNothing, WriteNothing, WriteGUID (snapshotOf src),
        WriteEndOfLine])

/-- The body of the inner loop over `MatchingNames` for the attribute
`data_match`: `StandardInformation` and `FILENAME()` are not tested. -/
def writeNameAndData (src : WriteSource) (m : Match) (data_match : AttributeMatch)
    (name_it : NameMatch) : Outcome (List TableCall) :=
  match src.FILENAME name_it, src.StandardInformation with
  | some Info, some si =>
    Outcome.value
      ([WriteComputerName, WriteInteger src.VolumeSerialNumber,
        WriteString name_it.FullPathName, WriteInteger m.FRN,
        WriteInteger name_it.FILENAME.ParentDirectory, WriteFileSize data_match.DataSize,
        WriteString src.GetDescription]
      ++ writeTimes si ++ writeTimes Info
      ++ [WriteBytes (src.Hashes data_match).1, WriteBytes (src.Hashes data_match).2.1,
        WriteBytes (src.Hashes data_match).2.2, WriteGUID (snapshotOf src), WriteEndOfLine])
  | _, _ => Outcome.undefined

/-- A loop whose body writes to the table: the calls of the iterations, in
order. -/
def writeEach {α : Type} (body : α → Outcome (List TableCall)) :
    List α → Outcome (List TableCall)
  | [] => Outcome.value []
  | a :: rest =>
    (body a).bind fun calls => (writeEach body rest).bind fun more =>
      Outcome.value (calls ++ more)

/-- `FileFind::Match::Write(pLog, output)` to a table: the result and the calls
made on `output`. -/
def Write (src : WriteSource) (m : Match) : Outcome (HRESULT × List TableCall) :=
  (if m.MatchingAttributes.isEmpty then writeEach (writeName src m) m.MatchingNames
    else
      writeEach (fun data_match => writeEach (writeNameAndData src m data_match) m.MatchingNames)
        m.MatchingAttributes).bind fun calls =>
    Outcome.value (S_OK, calls)

end Match

section TableVocabulary
open TableCall

/-- The calls that write the given rows, each ended by `WriteEndOfLine`. -/
def tableCalls (rows : List (List TableCall)) : List TableCall :=
  (rows.map fun row => row ++ [WriteEndOfLine]).flatten

/-- The cell of a time column: the time, or nothing when there is none. -/
def timeCell : Option Nat → TableCall
  | some t => WriteFileTime t
  | none => WriteNothing

/-- The cell of a hash column: the bytes, or nothing when there is none. -/
def hashCell : Option (List Nat) → TableCall
  | some b => WriteBytes b
  | none => WriteNothing

/-- The row of the specification for a name of a match and, when the match has
matching attributes, one of them: the 19 cells "computer, volume serial, full
path, file reference number, parent reference number, size, rule description,
standard-info {created, modified, accessed, entry-changed}, file-name
timestamps, MD5, SHA-1, SHA-256, snapshot guid".  The size and the hashes are
those of the attribute, the parent reference and the file-name times those of
the name. -/
def specifiedRow (src : WriteSource) (m : Match) (name : NameMatch)
    (data : Option AttributeMatch) : List TableCall :=
  [WriteComputerName,
   WriteInteger src.VolumeSerialNumber,
   WriteString name.FullPathName,
   WriteInteger m.FRN,
   WriteInteger name.FILENAME.ParentDirectory,
   (match data with
    | some a => WriteFileSize a.DataSize
    | none => WriteNothing),
   WriteString src.GetDescription,
   timeCell (src.StandardInformation.map fun si => si.CreationTime),
   timeCell (src.StandardInformation.map fun si => si.LastModificationTime),
   timeCell (src.StandardInformation.map fun si => si.LastAccessTime),
   timeCell (src.StandardInformation.map fun si => si.LastChangeTime),
   timeCell ((src.FILENAME name).map fun fn => fn.CreationTime),
   timeCell ((src.FILENAME name).map fun fn => fn.LastModificationTime),
   timeCell ((src.FILENAME name).map fun fn => fn.LastAccessTime),
   timeCell ((src.FILENAME name).map fun fn => fn.LastChangeTime),
   hashCell (data.map fun a => (src.Hashes a).1),
   hashCell (data.map fun a => (src.Hashes a).2.1),
   hashCell (data.map fun a => (src.Hashes a).2.2),
   WriteGUID (src.SnapshotID.getD GUID_NULL)]

/-- The rows of the specification for a match: one for each name when the match
has no matching attribute, and else one for each attribute and name, the rows
of an attribute together. -/
def specifiedRows (src : WriteSource) (m : Match) : List (List TableCall) :=
  if m.MatchingAttributes.isEmpty then
    m.MatchingNames.map fun name => specifiedRow src m name none
  else
    m.MatchingAttributes.flatMap fun data =>
      m.MatchingNames.map fun name => specifiedRow src m name (some data)

/-- A match with two names and no attribute. -/
def namesOnlyMatch : Match :=
  { Term := { Required := Criteria.NAME_EXACT }, FRN := 0x0001000000000040,
    MatchingNames :=
      [{ FILENAME := { ParentDirectory := 0x0005000000000005, FileName := "a.txt".toList },
         FullPathName := "\\a.txt".toList },
       { FILENAME := { ParentDirectory := 0x000100000000002A, FileName := "a.txt".toList },
         FullPathName := "\\d\\a.txt".toList }] }

/-- The same match with two attributes. -/
def namesAndDataMatch : Match :=
  { namesOnlyMatch with
    MatchingAttributes :=
      [{ AttrType := 0x80, InstanceID := 1, AttrName := [], DataSize := 12 },
       { AttrType := 0x80, InstanceID := 2, AttrName := "s".toList, DataSize := 3 }] }

/-- A volume whose records have a `$STANDARD_INFORMATION`. -/
def sampleSource : WriteSource :=
  { VolumeSerialNumber := 0x1234, GetDescription := "Name is a.txt".toList,
    StandardInformation :=
      some ⟨1, 2, 3, 4⟩,
    FILENAME := fun name => some ⟨5 + name.FullPathName.length, 6, 7, 8⟩,
    Hashes := fun a => ([0xd4, a.InstanceID], [0xda, a.InstanceID], [0xe3, a.InstanceID]) }

end TableVocabulary

/-! ## The callbacks of a dispatch -/

/-- One call of a callback of `MFTWalker::Callbacks`, with what tells the calls
of a dispatch apart: the attribute, the file name, the data attribute, the
index entry (and `bCarved`), the offset of the `$SDS` entry, the percentage. -/
inductive CallbackEvent where
  | ElementCallback
  | AttributeCallback (attr : AttributeListEntry)
  | FileNameCallback (name : FILE_NAME)
  | DirectoryCallback (name : FILE_NAME)
  | FileNameAndDataCallback (name : FILE_NAME) (data : MftRecordAttribute)
  | DataCallback (data : MftRecordAttribute)
  | I30Callback (entry : Nat) (bCarved : Bool)
  | SecDescCallback (SecurityDescriptorOffset : Nat)
  | KeepAliveCallback
  | ProgressCallback (percent : Nat)
deriving DecidableEq, Repr

/-- `MFTWalker::Callbacks` once `SetCallbacks` has run: for each callback that
can be left empty whether it is set, what `KeepAliveCallback` answers for the
record of a dispatch and what `ProgressCallback` returns. -/
structure Callbacks where
  ElementCallback : Bool := true
  AttributeCallback : Bool := false
  FileNameCallback : Bool := false
  DirectoryCallback : Bool := false
  FileNameAndDataCallback : Bool := false
  DataCallback : Bool := false
  I30Callback : Bool := false
  SecDescCallback : Bool := false
  KeepAliveCallback : WalkerRecord → Bool := fun _ => false
  ProgressCallback : Nat → HRESULT := fun _ => S_OK

/-- One block of an `$INDEX_ALLOCATION` as `EnumData` hands it to the handler:
the result of `MultiSectorFixup` on it, its index entries before the one with
`INDEX_ENTRY_END` (for `$I30` a number that names the entry, for `$SII` the
`SecurityDescriptorOffset` of the entry), and the file names of the record that
the carving loops find, from the first free byte on (`slack`) and from the
start of the block on (`carved`). -/
structure IndexBuffer where
  MultiSectorFixup : HRESULT := S_OK
  entries : List Nat := []
  slack : List Nat := []
  carved : List Nat := []
deriving DecidableEq, Repr

/-- What `GetIndexAttributes` gives for an index of a record: its result, the
entries of `$INDEX_ROOT` before the one with `INDEX_ENTRY_END` (`none` for a
null `pIR`), the result of `DataSize` and the blocks of `$INDEX_ALLOCATION`
(`none` for a null `pIA`), and the bits of `$BITMAP` (`none` for a null
`pBM`). -/
structure IndexAttributes where
  hr : HRESULT := S_OK
  pIR : Option (List Nat) := none
  pIA : Option (HRESULT × List IndexBuffer) := none
  pBM : Option (Nat → Bool) := none

/-- `HRESULT_FROM_NT(NTE_BAD_SIGNATURE)`: `0x80090006 | 0x10000000`. -/
def HRESULT_FROM_NT_NTE_BAD_SIGNATURE : HRESULT := -1878458362

/-- `HRESULT_FROM_WIN32(ERROR_INVALID_DATA)`: `0x8007000D`. -/
def ERROR_INVALID_DATA : HRESULT := -2147024883

namespace MFTWalker
open CallbackEvent

/-- Modelled from the spec: `MFTRecord::EnumData` is defined in a file that is
absent; the spec has the walker "iterate it block by block (`size_per_index`
bytes each)".  The blocks are handed to the handler in order, with what the
handler captures by reference; a call of the handler that fails ends the
enumeration with its result. -/
def EnumData {σ : Type} (handler : σ → IndexBuffer → Outcome (HRESULT × σ)) :
    List IndexBuffer → σ → Outcome (HRESULT × σ)
  | [], s => Outcome.value (S_OK, s)
  | Data :: rest, s =>
    (handler s Data).bind fun r =>
      if FAILED r.1 then Outcome.value r else EnumData handler rest r.2

/-- The handler that `ParseI30AndCallback` gives to `EnumData`; the state is
the counter `i` and the calls of `I30Callback` made so far.  `(*pBM)[i]` with a
null `pBM` is undefined. -/
def I30Block (pBM : Option (Nat → Bool)) (st : Nat × List CallbackEvent) (Data : IndexBuffer) :
    Outcome (HRESULT × Nat × List CallbackEvent) :=
  match pBM with
  | none => Outcome.undefined
  | some bits =>
    if bits st.1 then
      if FAILED Data.MultiSectorFixup then
        if HRESULT_FROM_NT_NTE_BAD_SIGNATURE != Data.MultiSectorFixup then
          Outcome.value (Data.MultiSectorFixup, st)
        else Outcome.value (S_OK, (st.1 + 1) % 2 ^ 32, st.2)
      else
        Outcome.value (S_OK, (st.1 + 1) % 2 ^ 32,
          st.2 ++ Data.entries.map (fun e => I30Callback e false)
            ++ Data.slack.map (fun e => I30Callback e true))
    else
      -- Index i of $INDEX_ALLOCATION is not in use, only carving...
      if FAILED Data.MultiSectorFixup then Outcome.value (S_OK, st)
      else
        Outcome.value (S_OK, (st.1 + 1) % 2 ^ 32,
          st.2 ++ Data.carved.map (fun e => I30Callback e true))

/-- The loop of `ParseI30AndCallback` over the entries of `$INDEX_ROOT`. -/
def rootEntries (cb : Callbacks) (I30 : IndexAttributes) : List CallbackEvent :=
  match I30.pIR with
  | some entries => if cb.I30Callback then entries.map (fun e => I30Callback e false) else []
  | none => []

/-- `MFTWalker::ParseI30AndCallback(pRecord)` for a record that is not null:
`IsDirectory` is what `pRecord->IsDirectory()` returns and `I30` what
`GetIndexAttributes` gives for `$I30`.  The value is the result and the calls
of `I30Callback`.  `pIR->SizePerIndex()` with a null `pIR` is undefined. -/
def ParseI30AndCallback (cb : Callbacks) (IsDirectory : Bool) (I30 : IndexAttributes) :
    Outcome (HRESULT × List CallbackEvent) :=
  if !IsDirectory then Outcome.value (S_OK, [])
  else if FAILED I30.hr then Outcome.value (I30.hr, [])
  else
    let events : List CallbackEvent := rootEntries cb I30
    match I30.pIA with
    | some (hrDataSize, blocks) =>
      if cb.I30Callback then
        if FAILED hrDataSize then Outcome.value (hrDataSize, events)
        else
          match I30.pIR with
          | none => Outcome.undefined
          | some _ =>
            (EnumData (I30Block I30.pBM) blocks (0, events)).bind fun r =>
              if FAILED r.1 then Outcome.value (r.1, r.2.2) else Outcome.value (S_OK, r.2.2)
      else Outcome.value (S_OK, events)
    | none => Outcome.value (S_OK, events)

/-- The handler that `Parse$SecureAndCallback` gives to `EnumData`; the state is
the counter `i`, which the handler does not change, and the calls of
`SecDescCallback` made so far. -/
def SecureBlock (cb : Callbacks) (pBM : Option (Nat → Bool)) (st : Nat × List CallbackEvent)
    (Data : IndexBuffer) : Outcome (HRESULT × Nat × List CallbackEvent) :=
  match pBM with
  | none => Outcome.undefined
  | some bits =>
    if bits st.1 then
      if FAILED Data.MultiSectorFixup then Outcome.value (Data.MultiSectorFixup, st)
      else
        Outcome.value (S_OK, st.1,
          st.2 ++ (if cb.SecDescCallback then Data.entries.map SecDescCallback else []))
    else Outcome.value (S_OK, st)

/-- `MFTWalker::Parse$SecureAndCallback(pRecord)`: `SDS` is the `$SDS` stream
once it is loaded (`none` when the attribute or the stream is missing, or the
copy fails) and `SII` what `GetIndexAttributes` gives for `$SII`.  The value is
the result and the calls of `SecDescCallback`, each with the offset in `$SDS`
of the entry handed over. -/
def ParseSecureAndCallback (cb : Callbacks) (SDS : Option (List Nat)) (SII : IndexAttributes) :
    Outcome (HRESULT × List CallbackEvent) :=
  match SDS with
  | none => Outcome.value (ERROR_INVALID_DATA, [])
  | some _ =>
    if FAILED SII.hr then Outcome.value (SII.hr, [])
    else
      -- the loop over the entries of $INDEX_ROOT makes no call
      match SII.pIA with
      | some (hrDataSize, blocks) =>
        if FAILED hrDataSize then Outcome.value (hrDataSize, [])
        else
          match SII.pIR with
          | none => Outcome.undefined
          | some _ =>
            (EnumData (SecureBlock cb SII.pBM) blocks (0, [])).bind fun r =>
              if FAILED r.1 then Outcome.value (r.1, r.2.2) else Outcome.value (S_OK, r.2.2)
      | none => Outcome.value (S_OK, [])

end MFTWalker

/-- What a dispatch reads of a record: the record of the walker model, the data
attributes (`m_DataAttrList`, which `GetDataAttributes()` returns) and what
`GetIndexAttributes` gives for `$I30`. -/
structure DispatchRecord where
  record : WalkerRecord
  m_DataAttrList : List MftRecordAttribute := []
  I30 : IndexAttributes := {}

/-- What a call of `SimpleCallCallbackForRecord` or `FullCallCallbackForRecord`
leaves: the result, the walker, `bFreeRecord`, whether the record is marked as
handed to the callbacks, and the calls of the callbacks in their order. -/
structure Dispatch where
  hr : HRESULT
  walker : MFTWalker
  bFreeRecord : Bool
  bCallbackCalled : Bool
  events : List CallbackEvent
deriving DecidableEq, Repr

namespace Dispatch
open MFTWalker CallbackEvent

/-- The end of a dispatch: `KeepAliveCallback`, `ProgressCallback` and
`CallbackCalled()`.  `w` is the walker with `m_dwWalkedItems` counted up; the
division by `m_ulMFTRecordCount` is undefined for 0. -/
def keepAliveAndProgress (cb : Callbacks) (w : MFTWalker) (pRecord : DispatchRecord)
    (events : List CallbackEvent) : Outcome Dispatch :=
  if w.m_ulMFTRecordCount = 0 then Outcome.undefined
  else
    let percent := ((w.m_dwWalkedItems * 100) % 2 ^ 32) / w.m_ulMFTRecordCount
    Outcome.value
      { hr := cb.ProgressCallback percent, walker := w,
        bFreeRecord := !cb.KeepAliveCallback pRecord.record, bCallbackCalled := true,
        events := events ++ [KeepAliveCallback, ProgressCallback percent] }

/-- The call of `ParseI30AndCallback` in a dispatch: a failure is logged, and
the calls of `I30Callback` it made stay. -/
def parseI30 (cb : Callbacks) (pRecord : DispatchRecord) : Outcome (List CallbackEvent) :=
  (ParseI30AndCallback cb pRecord.record.m_bIsDirectory pRecord.I30).bind fun r =>
    Outcome.value r.2

/-- `MFTWalker::SimpleCallCallbackForRecord(pRecord, bFreeRecord)` with the
calls of all the callbacks. -/
def SimpleCallCallbackForRecord (cb : Callbacks) (w : MFTWalker) (pRecord : DispatchRecord)
    (bFreeRecord : Bool) : Outcome Dispatch :=
  if NtfsSegmentNumber pRecord.record.m_pRecord.BaseFileRecordSegment > 0 then
    -- we don't call the callbacks on child records...
    Outcome.value ⟨S_OK, w, bFreeRecord, pRecord.record.m_bCallbackCalled, []⟩
  else if !pRecord.record.m_bCallbackCalled then
    let w := { w with m_dwWalkedItems := (w.m_dwWalkedItems + 1) % 2 ^ 32 }
    (if cb.I30Callback && pRecord.record.m_bIsDirectory then parseI30 cb pRecord
      else Outcome.value []).bind fun i30 =>
    keepAliveAndProgress cb w pRecord ([ElementCallback] ++ i30)
  else Outcome.value ⟨S_OK, w, bFreeRecord, pRecord.record.m_bCallbackCalled, []⟩

/-- The loop of `FullCallCallbackForRecord` over the data attributes of a
record without `$FILE_NAME`.  The value is the walker and the calls made. -/
def dataOfUnnamed (fuel : Nat) :
    List MftRecordAttribute → MFTWalker → List CallbackEvent →
      Outcome (MFTWalker × List CallbackEvent)
  | [], w, events => Outcome.value (w, events)
  | pDataAttr :: rest, w, events =>
    (GetFullNameAndIfInLocation w none (some pDataAttr) (some false) fuel).bind fun call =>
      dataOfUnnamed fuel rest call.walker
        (if call.pFullName.isSome && call.bInSpecificLocation.getD false then
          events ++ [DataCallback pDataAttr]
        else events)

/-- The body of the loop of `FullCallCallbackForRecord` over the file names of
a record, the "standard" case.  The value is the walker and the calls made. -/
def nameCallbacks (cb : Callbacks) (pRecord : DispatchRecord) (fuel : Nat) (w : MFTWalker)
    (name : FILE_NAME) : Outcome (MFTWalker × List CallbackEvent) :=
  (GetFullNameAndIfInLocation w (some name) none (some false) fuel).bind fun call =>
    let bInSpecificLocation := call.bInSpecificLocation.getD false
    let pFullName := call.pFullName
    let events : List CallbackEvent :=
      if cb.FileNameCallback && bInSpecificLocation then [FileNameCallback name] else []
    if bInSpecificLocation
        && (cb.FileNameAndDataCallback || cb.DirectoryCallback || cb.I30Callback)
        && pRecord.record.m_bIsDirectory then
      let events := events ++ (if cb.DirectoryCallback then [DirectoryCallback name] else [])
      -- This record is a directory and has Data attributes (i.e. ADS).
      let events := events ++
        (if cb.FileNameAndDataCallback && pFullName.isSome then
          pRecord.m_DataAttrList.map (FileNameAndDataCallback name)
        else [])
      (if cb.I30Callback then parseI30 cb pRecord else Outcome.value []).bind fun i30 =>
        Outcome.value (call.walker, events ++ i30)
    else if bInSpecificLocation && !pRecord.m_DataAttrList.isEmpty
        && cb.FileNameAndDataCallback then
      -- This record has Data attributes.
      Outcome.value (call.walker,
        events ++ (if pFullName.isSome then
          pRecord.m_DataAttrList.map (FileNameAndDataCallback name) else []))
    else Outcome.value (call.walker, events)

/-- The loop of `FullCallCallbackForRecord` over the file names of a record. -/
def namesLoop (cb : Callbacks) (pRecord : DispatchRecord) (fuel : Nat) :
    List FILE_NAME → MFTWalker → List CallbackEvent →
      Outcome (MFTWalker × List CallbackEvent)
  | [], w, events => Outcome.value (w, events)
  | name :: rest, w, events =>
    (nameCallbacks cb pRecord fuel w name).bind fun r =>
      namesLoop cb pRecord fuel rest r.1 (events ++ r.2)

/-- The block of `FullCallCallbackForRecord` between the attribute callbacks
and the keep-alive query. -/
def namesAndData (cb : Callbacks) (pRecord : DispatchRecord) (fuel : Nat) (w : MFTWalker) :
    Outcome (MFTWalker × List CallbackEvent) :=
  if pRecord.record.m_FileNames.isEmpty && cb.DataCallback then
    -- This record has Data attributes (but no $FILENAME).
    dataOfUnnamed fuel pRecord.m_DataAttrList w []
  else if cb.FileNameCallback || cb.DirectoryCallback || cb.FileNameAndDataCallback
      || cb.DataCallback then
    -- "standard" case
    (namesLoop cb pRecord fuel pRecord.record.m_FileNames w []).bind fun r =>
      Outcome.value (r.1,
        r.2 ++ (if !pRecord.m_DataAttrList.isEmpty && cb.DataCallback then
          -- This record has Data attributes.
          pRecord.m_DataAttrList.map DataCallback
        else []))
  else Outcome.value (w, [])

/-- `MFTWalker::FullCallCallbackForRecord(pRecord, bFreeRecord)` with the calls
of all the callbacks. -/
def FullCallCallbackForRecord (cb : Callbacks) (w : MFTWalker) (pRecord : DispatchRecord)
    (bFreeRecord : Bool) (fuel : Nat) : Outcome Dispatch :=
  if NtfsSegmentNumber pRecord.record.m_pRecord.BaseFileRecordSegment > 0 then
    -- we don't call the callbacks on child records...
    Outcome.value ⟨S_OK, w, bFreeRecord, pRecord.record.m_bCallbackCalled, []⟩
  else if !pRecord.record.m_bCallbackCalled then
    let w := { w with m_dwWalkedItems := (w.m_dwWalkedItems + 1) % 2 ^ 32 }
    let events : List CallbackEvent := if cb.ElementCallback then [ElementCallback] else []
    let events := events ++
      (if cb.AttributeCallback then (GetAttributeList pRecord.record).map AttributeCallback
        else [])
    (namesAndData cb pRecord fuel w).bind fun r =>
      keepAliveAndProgress cb r.1 pRecord (events ++ r.2)
  else Outcome.value ⟨S_OK, w, bFreeRecord, pRecord.record.m_bCallbackCalled, []⟩

/-- `m_pCallbackCall` as `SetCallbacks` sets it: `FullCallCallbackForRecord`
when one of the attribute, data, name-and-data, directory and file-name
callbacks is given, else `SimpleCallCallbackForRecord`. -/
def m_pCallbackCall (cb : Callbacks) (w : MFTWalker) (pRecord : DispatchRecord)
    (bFreeRecord : Bool) (fuel : Nat) : Outcome Dispatch :=
  if cb.AttributeCallback || cb.DataCallback || cb.FileNameAndDataCallback
      || cb.DirectoryCallback || cb.FileNameCallback then
    FullCallCallbackForRecord cb w pRecord bFreeRecord fuel
  else SimpleCallCallbackForRecord cb w pRecord bFreeRecord

end Dispatch

section DispatchVocabulary
open MFTWalker CallbackEvent

/-- A call of a callback for the record, its attributes, names, data and index
entries: any call but the keep-alive query and the progress report. -/
def isRecordCallback : CallbackEvent → Bool
  | KeepAliveCallback => false
  | ProgressCallback _ => false
  | _ => true

/-- The record of a dispatch is handed to the callbacks: it is a base record
that was not handed to them before. -/
def isDispatched (pRecord : DispatchRecord) : Bool :=
  !(NtfsSegmentNumber pRecord.record.m_pRecord.BaseFileRecordSegment > 0)
    && !pRecord.record.m_bCallbackCalled

/-- A walker with the sub-tree root `\a\` and the directories `\a` and `\c`. -/
def outsideWalker : MFTWalker :=
  { USNRoot := 5, m_ulMFTRecordCount := 100,
    m_Locations := ["\\a\\".toList],
    m_DirectoryNames :=
      [(5, { m_pFileName := { ParentDirectory := 5, FileName := ".".toList } }),
       (10, { m_pFileName := { ParentDirectory := 5, FileName := "a".toList } }),
       (12, { m_pFileName := { ParentDirectory := 5, FileName := "c".toList } })] }

/-- The one file name of `outsideRecord`: `f.txt` in the directory `\c`. -/
def outsideFileName : FILE_NAME := { ParentDirectory := 12, FileName := "f.txt".toList }

/-- The unnamed data attribute of `outsideRecord`. -/
def outsideData : MftRecordAttribute := { TypeCode := ATTR_DATA }

/-- A file with the one name `\c\f.txt` and one data attribute. -/
def outsideRecord : DispatchRecord :=
  { record := { m_FileReferenceNumber := 40, m_bParsed := true, m_bIsComplete := true,
                m_FileNames := [outsideFileName] },
    m_DataAttrList := [outsideData] }

/-- A block of an index that is not in use and holds no index buffer: its
fixup fails. -/
def unusedBlock : IndexBuffer := { MultiSectorFixup := HRESULT_FROM_NT_NTE_BAD_SIGNATURE }

/-- A block of an index with the entry 70, which the carving from the start of
the block finds as well. -/
def usedBlock : IndexBuffer := { entries := [70], carved := [70] }

/-- An `$I30` index of two blocks of which the second is in use. -/
def staleBitIndex : IndexAttributes :=
  { pIR := some [], pIA := some (S_OK, [unusedBlock, usedBlock]),
    pBM := some fun k => k == 1 }

/-- A `$SII` index whose entries are all resident in `$INDEX_ROOT`. -/
def residentIndex : IndexAttributes := { pIR := some [0x100, 0x1A0] }

/-- A `$SII` index of two blocks, with one entry each, of which the second is
in use. -/
def secondBlockIndex : IndexAttributes :=
  { pIR := some [],
    pIA := some (S_OK, [{ entries := [0x100] }, { entries := [0x240] }]),
    pBM := some fun k => k == 1 }

/-- The same index with the first block in use and the second not. -/
def firstBlockIndex : IndexAttributes :=
  { secondBlockIndex with pBM := some fun k => k == 0 }

end DispatchVocabulary

section ReturnVocabulary
open MFTWalker

/-- The walker `w2` has what a call of `GetFullNameAndIfInLocation` on `w` whose
path fits the name buffer leaves of `w`: a name buffer of the same size, the
same names and parents in the directory-name map, and the same settings. -/
structure NamesKept (w w2 : MFTWalker) : Prop where
  buffer : bufferOk w2
  bytes : bufferBytes w2 = bufferBytes w
  root : w2.USNRoot = w.USNRoot
  mcl : w2.MaxComponentLength = w.MaxComponentLength
  locations : w2.m_Locations = w.m_Locations
  count : w2.m_ulMFTRecordCount = w.m_ulMFTRecordCount
  names : ∀ k, (w2.m_DirectoryNames.find k).map (fun e => e.m_pFileName)
    = (w.m_DirectoryNames.find k).map (fun e => e.m_pFileName)

/-- The chain of parent references of a file name ends within `fuel` steps
with the root or with a parent that is not in the map, and the full path fits
the name buffer of the walker as it is. -/
def pathFits (w : MFTWalker) (fuel : Nat) (f : FILE_NAME) : Prop :=
  ∃ ns last,
    parentChain w.m_DirectoryNames w.USNRoot fuel (NtfsFullSegmentNumber f.ParentDirectory)
      = some (ns, last)
    ∧ 2 * ((assembledPath w.USNRoot last ns f.FileName []).length + 1) ≤ bufferBytes w

/-- The name given to a data attribute of a record without file name fits the
name buffer of the walker as it is. -/
def streamFits (w : MFTWalker) (d : MftRecordAttribute) : Prop :=
  2 * (("<NoName>".toList ++ streamSuffix (some d)).length + 1) ≤ bufferBytes w

/-- The pointers that `ParseI30AndCallback` reads without a test are set: with
an `$INDEX_ALLOCATION` there is an `$INDEX_ROOT`, and a `$BITMAP` when the
`$INDEX_ALLOCATION` has a block. -/
def indexPointersSet (I30 : IndexAttributes) : Bool :=
  match I30.pIA with
  | none => true
  | some (_, blocks) => I30.pIR.isSome && (I30.pBM.isSome || blocks.isEmpty)

end ReturnVocabulary

section DispatchSamples
open MFTWalker CallbackEvent

/-- A directory whose `$I30` index is `staleBitIndex`. -/
def indexedDirectory : DispatchRecord :=
  { record := { m_FileReferenceNumber := 12, m_bParsed := true, m_bIsComplete := true,
                m_bIsDirectory := true,
                m_FileNames := [{ ParentDirectory := 5, FileName := "c".toList }] },
    I30 := staleBitIndex }

end DispatchSamples

end Orc


/-! # Properties -/

namespace Orc
open Criteria FileFind

/-! ## Bit masks -/

@[simp] theorem testBit_flag (k i : Nat) : (flag k).testBit i = decide (k = i) := by
  simp [flag, Nat.one_shiftLeft, Nat.testBit_two_pow]

@[simp] theorem test_flag (r k : Nat) : test r (flag k) = r.testBit k := by
  unfold test flag
  rw [Nat.one_shiftLeft, Nat.and_two_pow]
  cases h : r.testBit k <;> simp

theorem test_eq_true_iff (r x : Nat) :
    test r x = true ↔ ∃ i, r.testBit i = true ∧ x.testBit i = true := by
  unfold test
  constructor
  · intro h
    have hne : r &&& x ≠ 0 := by simpa using h
    obtain ⟨i, hi⟩ := Nat.ne_zero_implies_bit_true hne
    exact ⟨i, by simpa [Nat.testBit_and] using hi⟩
  · rintro ⟨i, h1, h2⟩
    have : (r &&& x).testBit i = true := by simp [Nat.testBit_and, h1, h2]
    have hne : r &&& x ≠ 0 := by
      intro h0
      rw [h0] at this
      simp at this
    simpa using hne

@[simp] theorem test_or (r a b : Nat) : test r (a ||| b) = (test r a || test r b) := by
  rw [Bool.eq_iff_iff]
  simp only [Bool.or_eq_true, test_eq_true_iff, Nat.testBit_or]
  constructor
  · rintro ⟨i, h1, h2 | h2⟩
    · exact Or.inl ⟨i, h1, h2⟩
    · exact Or.inr ⟨i, h1, h2⟩
  · rintro (⟨i, h1, h2⟩ | ⟨i, h1, h2⟩)
    · exact ⟨i, h1, Or.inl h2⟩
    · exact ⟨i, h1, Or.inr h2⟩

@[simp] theorem testBit_clear (r x i : Nat) :
    (clear r x).testBit i = (r.testBit i && !x.testBit i) := by
  simp only [clear, Nat.testBit_xor, Nat.testBit_and]
  cases r.testBit i <;> cases x.testBit i <;> rfl

@[simp] theorem test_zero_left (x : Nat) : test 0 x = false := by
  simp [test]


/-! ## Classifying a name -/

theorem regex_search_iff (s : WString) (p : LiteralAlternation) :
    regex_search s p = true ↔ containsAnyOf s p.alts := by
  simp [regex_search, containsAnyOf]

/-- The third test of the classifiers never decides: a name with a character of
`RegexPattern` has one of `RegexOnlyPattern` or one of `DOSPattern`. -/
theorem regex_search_RegexPattern (s : WString) (h : regex_search s RegexPattern = true) :
    regex_search s RegexOnlyPattern = true ∨ regex_search s DOSPattern = true := by
  simp only [regex_search_iff, containsAnyOf, RegexPattern, RegexOnlyPattern, DOSPattern] at *
  obtain ⟨c, hc, hm⟩ := h
  simp only [List.mem_cons, List.mem_singleton, List.not_mem_nil, or_false] at hm
  rcases hm with h | h | h | h | h | h | h | h | h | h <;> subst h
  all_goals first
    | exact Or.inr ⟨_, hc, by decide⟩
    | exact Or.inl ⟨_, hc, by decide⟩

/-- The three classifiers follow one rule; `classify` is that rule for the
criteria `(regex, glob, exact)` of a group. -/
theorem classify_rule (s : WString) (hs : s ≠ []) (rx gl ex : Nat) :
    (if s.isEmpty then NONE
      else if regex_search s RegexOnlyPattern then rx
      else if regex_search s DOSPattern then gl
      else if regex_search s RegexPattern then rx
      else ex) =
    (if containsAnyOf s regexChars then rx
      else if containsAnyOf s globChars then gl else ex) := by
  have hne : s.isEmpty = false := by cases s <;> simp_all
  simp only [hne]
  by_cases a : regex_search s RegexOnlyPattern = true
  · have : containsAnyOf s regexChars := (regex_search_iff _ _).1 a
    simp [a, this]
  · have na : ¬ containsAnyOf s regexChars := fun h => a ((regex_search_iff _ _).2 h)
    by_cases b : regex_search s DOSPattern = true
    · have : containsAnyOf s globChars := (regex_search_iff _ _).1 b
      simp [a, b, na, this]
    · have nb : ¬ containsAnyOf s globChars := fun h => b ((regex_search_iff _ _).2 h)
      have c : ¬ regex_search s RegexPattern = true :=
        fun h => (regex_search_RegexPattern s h).elim a b
      simp [a, b, c, na, nb]

/-- C3: for a non-empty string, `DiscriminateName` answers `NAME_REGEX` when the
string has one of `: + { } [ ] ( )`, else `NAME_MATCH` when it has `*` or `?`,
else `NAME_EXACT`; `DiscriminateADS` and `DiscriminateEA` follow the same rule
with the `ADS_` and `EA_` criteria. -/
theorem C3_discriminate_rule (s : WString) (hs : s ≠ []) :
    DiscriminateName s =
        (if containsAnyOf s regexChars then NAME_REGEX
         else if containsAnyOf s globChars then NAME_MATCH else NAME_EXACT)
    ∧ DiscriminateADS s =
        (if containsAnyOf s regexChars then ADS_REGEX
         else if containsAnyOf s globChars then ADS_MATCH else ADS_EXACT)
    ∧ DiscriminateEA s =
        (if containsAnyOf s regexChars then EA_REGEX
         else if containsAnyOf s globChars then EA_MATCH else EA_EXACT) :=
  ⟨classify_rule s hs _ _ _, classify_rule s hs _ _ _, classify_rule s hs _ _ _⟩

/-- C3 at the name `a[0-9]*.log`: it has both `[` and `*`, and is a regular
expression for all three classifiers. -/
theorem C3_discriminate_rule_witness :
    DiscriminateName "a[0-9]*.log".toList = NAME_REGEX
    ∧ DiscriminateADS "a[0-9]*.log".toList = ADS_REGEX
    ∧ DiscriminateEA "a[0-9]*.log".toList = EA_REGEX := by
  have h := C3_discriminate_rule "a[0-9]*.log".toList (by decide)
  have hc : containsAnyOf "a[0-9]*.log".toList regexChars := by decide
  simpa only [if_pos hc] using h

/-! ## `AddTerm`: rejected combinations -/

theorem rejectedCombination_place (t : SearchTerm) (h : rejectedCombination t) :
    FileFind.place t = ⟨E_INVALIDARG, t, none⟩ := by
  unfold FileFind.place
  by_cases h0 : t.Required = NONE
  · simp [h0]
  have h0' : (t.Required == NONE) = false := by simpa using h0
  by_cases h1 : FileFind.nameWithSpecific t.Required = true
  · simp [h0', h1]
  by_cases h2 : FileFind.eaWithAds t.Required = true
  · simp [h0', h1, h2]
  by_cases h3 : FileFind.attrWithEaOrAds t.Required = true
  · simp [h0', h1, h2, h3]
  exfalso
  rcases h with h | ⟨hn, c, hc, hr⟩ | ⟨⟨c, hc, hr⟩, d, hd, hs⟩ | ⟨⟨c, hc, hr⟩, d, hd, hs⟩
  · exact h0 h
  · apply h1
    simp only [specificNameOrPath, eaCriteria, adsCriteria, List.cons_append, List.nil_append,
      List.mem_cons, List.mem_singleton, List.not_mem_nil, or_false] at hc
    simp only [SearchTerm.requires] at hn hr
    simp only [FileFind.nameWithSpecific, hn, Bool.true_and, Bool.or_eq_true]
    rcases hc with h | h | h | h | h | h | h | h | h | h | h | h <;> subst h <;> simp [hr]
  · apply h2
    simp only [eaCriteria, adsCriteria, List.mem_cons, List.mem_singleton, List.not_mem_nil,
      or_false] at hc hd
    simp only [SearchTerm.requires] at hr hs
    simp only [FileFind.eaWithAds, Bool.and_eq_true, Bool.or_eq_true]
    constructor
    · rcases hc with h | h | h <;> subst h <;> simp [hr]
    · rcases hd with h | h | h <;> subst h <;> simp [hs]
  · apply h3
    simp only [attrCriteria, eaCriteria, adsCriteria, List.cons_append, List.nil_append,
      List.mem_cons, List.mem_singleton, List.not_mem_nil, or_false] at hc hd
    simp only [SearchTerm.requires] at hr hs
    simp only [FileFind.attrWithEaOrAds, Bool.and_eq_true, Bool.or_eq_true]
    constructor
    · rcases hc with h | h | h | h <;> subst h <;> simp [hr]
    · rcases hd with h | h | h | h | h | h <;> subst h <;> simp [hs]

/-- `AddTerm` returns `E_INVALIDARG` and leaves `m_AllTerms` and every term
container as they were (and the term untouched) for the combinations that its
tests name: an empty `Required`, the free-form `NAME` with a specific name,
path, EA or ADS criterion, a specific EA criterion with a specific ADS
criterion, and an attribute-name or attribute-type criterion with a specific EA
or ADS criterion. -/
theorem AddTerm_rejects_tested (ff : FileFind) (t : SearchTerm) (h : rejectedCombination t) :
    FileFind.AddTerm ff t = (E_INVALIDARG, ff, t) := by
  simp [FileFind.AddTerm, rejectedCombination_place t h]

/-- C5 fails for the free-form `ADS` and `EA` criteria, which the tests of
`AddTerm` do not name.  A term that requires `ADS` and `EA` passes them, is
pushed on `m_AllTerms`, has the two criteria replaced by `ADS_EXACT` and
`EA_EXACT`, is filed in `m_Terms`, and `AddTerm` returns `S_OK`: the term
stored is one that the second test rejects.  So does a term that requires
`ATTR_TYPE` and `ADS`, stored with `ATTR_TYPE` and `ADS_EXACT`, which the third
test rejects. -/
theorem C5_generic_ea_with_ads_accepted :
    mixedStreamTerm.Required = ADS ||| EA
    ∧ (FileFind.AddTerm {} mixedStreamTerm).1 = S_OK
    ∧ (FileFind.AddTerm {} mixedStreamTerm).2.2.Required = ADS_EXACT ||| EA_EXACT
    ∧ (FileFind.AddTerm {} mixedStreamTerm).2.1.m_AllTerms
        = [(FileFind.AddTerm {} mixedStreamTerm).2.2]
    ∧ (FileFind.AddTerm {} mixedStreamTerm).2.1.m_Terms
        = [(FileFind.AddTerm {} mixedStreamTerm).2.2]
    ∧ FileFind.eaWithAds (FileFind.AddTerm {} mixedStreamTerm).2.2.Required = true
    ∧ typedStreamTerm.Required = ATTR_TYPE ||| ADS
    ∧ (FileFind.AddTerm {} typedStreamTerm).1 = S_OK
    ∧ (FileFind.AddTerm {} typedStreamTerm).2.2.Required = ATTR_TYPE ||| ADS_EXACT
    ∧ (FileFind.AddTerm {} typedStreamTerm).2.1.m_AllTerms
        = [(FileFind.AddTerm {} typedStreamTerm).2.2]
    ∧ FileFind.attrWithEaOrAds (FileFind.AddTerm {} typedStreamTerm).2.2.Required = true := by
  decide

/-! ## `AddTerm`: a free-form name -/

theorem FileSpecPattern_match_plain (N : WString) (h : ∀ c ∈ N, notSpecSeparator c = true) :
    FileSpecPattern_match N = ⟨some N, none, none⟩ := by
  have h1 : N.dropWhile notSpecSeparator = [] := List.dropWhile_eq_nil_iff.2 h
  have h2 : N.takeWhile notSpecSeparator = N := List.takeWhile_eq_self_iff.2 h
  simp [FileSpecPattern_match, h1, h2]

theorem FileSpecPattern_match_split (pre post : WString) (sep : Char)
    (hpre : ∀ c ∈ pre, notSpecSeparator c = true) (hsep : notSpecSeparator sep = false)
    (hpost : ∀ c ∈ post, isLineTerminator c = false) :
    FileSpecPattern_match (pre ++ sep :: post) = ⟨some pre, some [sep], some post⟩ := by
  have h1 : (pre ++ sep :: post).dropWhile notSpecSeparator = sep :: post := by
    induction pre with
    | nil => simp [List.dropWhile, hsep]
    | cons a l ih =>
      have ha : notSpecSeparator a = true := hpre a (by simp)
      simp only [List.cons_append, List.dropWhile_cons, ha, if_true]
      exact ih (fun c hc => hpre c (by simp [hc]))
  have h2 : (pre ++ sep :: post).takeWhile notSpecSeparator = pre := by
    clear h1
    induction pre with
    | nil => simp [List.takeWhile, hsep]
    | cons a l ih =>
      have ha : notSpecSeparator a = true := hpre a (by simp)
      simp only [List.cons_append, List.takeWhile_cons, ha, if_true]
      rw [ih (fun c hc => hpre c (by simp [hc]))]
  have h3 : post.all (fun c => !isLineTerminator c) = true := by
    simpa using hpost
  simp [FileSpecPattern_match, h1, h2, h3]

/-- A term with the free-form `NAME` and none of the specific name, path, EA and
ADS criteria passes the rejection tests of `AddTerm`. -/
theorem place_tests_free_form (t : SearchTerm) (hname : t.requires NAME)
    (hspec : ∀ c ∈ specificNameOrPath ++ eaCriteria ++ adsCriteria, ¬ t.requires c) :
    (t.Required == NONE) = false ∧ nameWithSpecific t.Required = false
      ∧ eaWithAds t.Required = false ∧ attrWithEaOrAds t.Required = false := by
  simp only [specificNameOrPath, eaCriteria, adsCriteria, List.cons_append, List.nil_append,
      List.mem_cons, List.mem_singleton, List.not_mem_nil, or_false, SearchTerm.requires,
      forall_eq_or_imp, forall_eq, Bool.not_eq_true] at hspec hname
  obtain ⟨a1, a2, a3, a4, a5, a6, a7, a8, a9, a10, a11, a12⟩ := hspec
  refine ⟨?_, ?_, ?_, ?_⟩
  · have : t.Required ≠ NONE := by
      intro h0
      rw [h0] at hname
      simp at hname
    simpa using this
  · simp [nameWithSpecific, a1, a2, a3, a4, a5, a6, a7, a8, a9, a10, a11, a12]
  · simp [eaWithAds, a1, a2, a3, a4, a5, a6, a7, a8, a9, a10, a11, a12]
  · simp [attrWithEaOrAds, a1, a2, a3, a4, a5, a6, a7, a8, a9, a10, a11, a12]

theorem place_free_form_plain (t : SearchTerm) (hname : t.requires NAME)
    (hspec : ∀ c ∈ specificNameOrPath ++ eaCriteria ++ adsCriteria, ¬ t.requires c)
    (h : ∀ c ∈ t.Name, notSpecSeparator c = true) :
    (place t).hr = S_OK ∧
    (place t).term =
      { t with Required := clear t.Required NAME ||| DiscriminateName t.Name,
               FileName := t.Name } := by
  obtain ⟨h0, h1, h2, h3⟩ := place_tests_free_form t hname hspec
  have hn : test t.Required NAME = true := hname
  simp [place, h0, h1, h2, h3, hn, FileSpecPattern_match_plain t.Name h]

theorem place_free_form_split (t : SearchTerm) (hname : t.requires NAME)
    (hspec : ∀ c ∈ specificNameOrPath ++ eaCriteria ++ adsCriteria, ¬ t.requires c)
    (pre post : WString) (sep : Char) (hN : t.Name = pre ++ sep :: post)
    (hpre : ∀ c ∈ pre, notSpecSeparator c = true) (hsep : sep = ':' ∨ sep = '#')
    (hpost : ∀ c ∈ post, isLineTerminator c = false) :
    (place t).hr = S_OK ∧
    (place t).term =
      if sep = ':' then
        { t with Required := clear t.Required NAME ||| DiscriminateName pre ||| DiscriminateADS post,
                 FileName := pre, ADSName := post }
      else
        { t with Required := clear t.Required NAME ||| DiscriminateName pre ||| DiscriminateEA post,
                 FileName := pre, EAName := post } := by
  obtain ⟨h0, h1, h2, h3⟩ := place_tests_free_form t hname hspec
  have hn : test t.Required NAME = true := hname
  have hs : notSpecSeparator sep = false := by
    rcases hsep with h | h <;> subst h <;> decide
  have hm := FileSpecPattern_match_split pre post sep hpre hs hpost
  rw [← hN] at hm
  rcases hsep with h | h <;> subst h <;>
    simp [place, h0, h1, h2, h3, hn, hm]


/-- The result code of `AddTerm` does not depend on the containers. -/
theorem AddTerm_hr (ff : FileFind) (t : SearchTerm) :
    (FileFind.AddTerm ff t).1 = (FileFind.place t).hr := by
  simp only [FileFind.AddTerm]
  split <;> rfl

/-- The term `AddTerm` leaves does not depend on the containers. -/
theorem AddTerm_term (ff : FileFind) (t : SearchTerm) :
    (FileFind.AddTerm ff t).2.2 = (FileFind.place t).term := by
  simp only [FileFind.AddTerm]
  split <;> rfl

theorem notSpecSeparator_iff (c : Char) : notSpecSeparator c = true ↔ c ≠ ':' ∧ c ≠ '#' := by
  simp [notSpecSeparator]

/-- C4: `AddTerm` on a term with the free-form `NAME`, no specific name, path,
EA or ADS criterion, and a name `N` without line-break characters returns
`S_OK` and leaves the term as follows.  If `N` has neither `:` nor `#`,
`FileName` is `N` and `ADSName`, `EAName` are untouched.  If `N` is
`pre ++ sep :: post` with `sep` the first `:` or `#` of `N`, `FileName` is `pre`
and `post` is the `ADSName` when `sep` is `:` and the `EAName` when `sep` is `#`.
In `Required` the `NAME` bit is cleared and the classification of each part is
added (an empty part is classified `NONE` and adds nothing). -/
theorem C4_AddTerm_free_form (ff : FileFind) (t : SearchTerm)
    (hname : t.requires NAME)
    (hspec : ∀ c ∈ specificNameOrPath ++ eaCriteria ++ adsCriteria, ¬ t.requires c)
    (hlb : ∀ c ∈ t.Name, isLineTerminator c = false) :
    (FileFind.AddTerm ff t).1 = S_OK
    ∧ ((∀ c ∈ t.Name, c ≠ ':' ∧ c ≠ '#') →
        (FileFind.AddTerm ff t).2.2 =
          { t with Required := clear t.Required NAME ||| DiscriminateName t.Name,
                   FileName := t.Name })
    ∧ (∀ pre post, t.Name = pre ++ ':' :: post → (∀ c ∈ pre, c ≠ ':' ∧ c ≠ '#') →
        (FileFind.AddTerm ff t).2.2 =
          { t with Required :=
                     clear t.Required NAME ||| DiscriminateName pre ||| DiscriminateADS post,
                   FileName := pre, ADSName := post })
    ∧ (∀ pre post, t.Name = pre ++ '#' :: post → (∀ c ∈ pre, c ≠ ':' ∧ c ≠ '#') →
        (FileFind.AddTerm ff t).2.2 =
          { t with Required :=
                     clear t.Required NAME ||| DiscriminateName pre ||| DiscriminateEA post,
                   FileName := pre, EAName := post })
    ∧ DiscriminateName [] = NONE ∧ DiscriminateADS [] = NONE ∧ DiscriminateEA [] = NONE := by
  have hterm := AddTerm_term ff t
  have hhr := AddTerm_hr ff t
  have hsplit : ∀ pre post sep, t.Name = pre ++ sep :: post →
      (∀ c ∈ pre, c ≠ ':' ∧ c ≠ '#') → (sep = ':' ∨ sep = '#') →
      (FileFind.place t).hr = S_OK ∧ (FileFind.place t).term =
        if sep = ':' then
          { t with Required :=
                     clear t.Required NAME ||| DiscriminateName pre ||| DiscriminateADS post,
                   FileName := pre, ADSName := post }
        else
          { t with Required :=
                     clear t.Required NAME ||| DiscriminateName pre ||| DiscriminateEA post,
                   FileName := pre, EAName := post } := by
    intro pre post sep hN hpre hsep
    refine place_free_form_split t hname hspec pre post sep hN
      (fun c hc => (notSpecSeparator_iff c).2 (hpre c hc)) hsep ?_
    intro c hc
    exact hlb c (by rw [hN]; simp [hc])
  rw [hterm, hhr]
  refine ⟨?_, ?_, ?_, ?_, by decide, by decide, by decide⟩
  · by_cases hp : ∀ c ∈ t.Name, notSpecSeparator c = true
    · exact (place_free_form_plain t hname hspec hp).1
    · -- the name has a first separator
      have hex : ∃ c ∈ t.Name, notSpecSeparator c = false := by
        simpa using hp
      obtain ⟨pre, sep, post, hN, hsep, hpre⟩ :
          ∃ pre sep post, t.Name = pre ++ sep :: post ∧ notSpecSeparator sep = false
            ∧ ∀ c ∈ pre, notSpecSeparator c = true := by
        generalize t.Name = N at hex
        induction N with
        | nil => simp at hex
        | cons a l ih =>
          by_cases ha : notSpecSeparator a = true
          · have hex2 : ∃ c ∈ l, notSpecSeparator c = false := by
              obtain ⟨c, hc, hf⟩ := hex
              rcases List.mem_cons.1 hc with h | h
              · subst h; rw [ha] at hf; cases hf
              · exact ⟨c, h, hf⟩
            obtain ⟨pre, sep, post, hN, hsep, hpre⟩ := ih hex2
            refine ⟨a :: pre, sep, post, by simp [hN], hsep, ?_⟩
            intro c hc
            rcases List.mem_cons.1 hc with h | h
            · subst h; exact ha
            · exact hpre c h
          · exact ⟨[], a, l, rfl, by simpa using ha, by simp⟩
      have hsep2 : sep = ':' ∨ sep = '#' := by
        by_contra hcon
        have := (notSpecSeparator_iff sep).2 ⟨fun h => hcon (Or.inl h), fun h => hcon (Or.inr h)⟩
        rw [hsep] at this
        cases this
      exact (hsplit pre post sep hN
        (fun c hc => (notSpecSeparator_iff c).1 (hpre c hc)) hsep2).1
  · intro hp
    exact (place_free_form_plain t hname hspec
      (fun c hc => (notSpecSeparator_iff c).2 (hp c hc))).2
  · intro pre post hN hpre
    have := (hsplit pre post ':' hN hpre (Or.inl rfl)).2
    simpa using this
  · intro pre post hN hpre
    have := (hsplit pre post '#' hN hpre (Or.inr rfl)).2
    simpa using this

/-- C4 at the free-form name `evil*.exe:Zone.Identifier`. -/
theorem C4_AddTerm_free_form_witness :
    (FileFind.AddTerm {} { Required := NAME, Name := "evil*.exe:Zone.Identifier".toList }).1 = S_OK
    ∧ (FileFind.AddTerm {} { Required := NAME, Name := "evil*.exe:Zone.Identifier".toList }).2.2
        = { Required := NAME_MATCH ||| ADS_EXACT, Name := "evil*.exe:Zone.Identifier".toList,
            FileName := "evil*.exe".toList, ADSName := "Zone.Identifier".toList } := by
  have h := C4_AddTerm_free_form {}
    { Required := NAME, Name := "evil*.exe:Zone.Identifier".toList }
    (by decide) (by decide) (by decide)
  refine ⟨h.1, ?_⟩
  rw [h.2.2.1 "evil*.exe".toList "Zone.Identifier".toList (by decide) (by decide)]
  decide

/-! ## `AddTerm`: the choice of a container -/

theorem DiscriminateName_cases (s : WString) :
    DiscriminateName s = NONE ∨ DiscriminateName s = NAME_REGEX
      ∨ DiscriminateName s = NAME_MATCH ∨ DiscriminateName s = NAME_EXACT := by
  unfold DiscriminateName
  split_ifs <;> simp

theorem DiscriminateADS_cases (s : WString) :
    DiscriminateADS s = NONE ∨ DiscriminateADS s = ADS_REGEX
      ∨ DiscriminateADS s = ADS_MATCH ∨ DiscriminateADS s = ADS_EXACT := by
  unfold DiscriminateADS
  split_ifs <;> simp

theorem DiscriminateEA_cases (s : WString) :
    DiscriminateEA s = NONE ∨ DiscriminateEA s = EA_REGEX
      ∨ DiscriminateEA s = EA_MATCH ∨ DiscriminateEA s = EA_EXACT := by
  unfold DiscriminateEA
  split_ifs <;> simp

theorem FileSpecPattern_match_spec (N : WString) (spec : WString)
    (h : (FileSpecPattern_match N).spec = some spec) : spec = [':'] ∨ spec = ['#'] := by
  unfold FileSpecPattern_match at h
  split at h
  · simp at h
  · rename_i sep sub hd
    have hsep : notSpecSeparator sep = false := by
      have := List.head_dropWhile_not notSpecSeparator N (by rw [hd]; simp)
      simpa [hd] using this
    split at h
    · simp at h
      subst h
      by_contra hcon
      simp at hcon
      have := (notSpecSeparator_iff sep).2 ⟨hcon.1, hcon.2⟩
      rw [hsep] at this
      cases this
    · simp at h

theorem FileSpecPattern_match_shape (N : WString) :
    (∃ f, FileSpecPattern_match N = ⟨some f, none, none⟩)
    ∨ (∃ f sub, FileSpecPattern_match N = ⟨some f, some [':'], some sub⟩)
    ∨ (∃ f sub, FileSpecPattern_match N = ⟨some f, some ['#'], some sub⟩)
    ∨ FileSpecPattern_match N = ⟨none, none, none⟩ := by
  have hs := FileSpecPattern_match_spec N
  unfold FileSpecPattern_match at hs ⊢
  split
  · exact Or.inl ⟨_, rfl⟩
  · rename_i sep sub hd
    simp only [hd] at hs
    split
    · rename_i hall
      simp only [hall, if_true] at hs
      rcases hs [sep] rfl with h | h
      · simp at h; subst h; exact Or.inr (Or.inl ⟨_, _, rfl⟩)
      · simp at h; subst h; exact Or.inr (Or.inr (Or.inl ⟨_, _, rfl⟩))
    · exact Or.inr (Or.inr (Or.inr rfl))

theorem place_slots (t : SearchTerm) :
    match (place t).slots with
    | none => (place t).hr = E_INVALIDARG ∧ (place t).term = t
    | some (s, _) => (place t).hr = S_OK ∧ s.agrees (place t).term := by
  unfold place
  by_cases h0 : (t.Required == NONE) = true
  · simp [h0]
  by_cases h1 : nameWithSpecific t.Required = true
  · simp [h0, h1]
  by_cases h2 : eaWithAds t.Required = true
  · simp [h0, h1, h2]
  by_cases h3 : attrWithEaOrAds t.Required = true
  · simp [h0, h1, h2, h3]
  simp only [h0, h1, h2, h3, if_false, Bool.false_eq_true]
  by_cases hn : test t.Required NAME = true
  · simp only [hn, if_true]
    simp only [nameWithSpecific, hn, Bool.true_and, Bool.or_eq_true, not_or, Bool.not_eq_true,
      test_flag] at h1
    obtain ⟨⟨⟨⟨⟨⟨⟨⟨⟨⟨⟨a1, a2⟩, a3⟩, a4⟩, a5⟩, a6⟩, a7⟩, a8⟩, a9⟩, a10⟩, a11⟩, a12⟩ := h1
    rcases FileSpecPattern_match_shape t.Name with ⟨f, hm⟩ | ⟨f, sub, hm⟩ | ⟨f, sub, hm⟩ | hm
    · simp only [hm]
      rcases DiscriminateName_cases f with hd | hd | hd | hd <;>
        simp [hd, nameSlot, Slot.agrees, SearchTerm.requires, Nat.testBit_or, a1, a4] <;>
        split_ifs <;> simp_all [Slot.agrees, SearchTerm.requires, Nat.testBit_or]
    · simp only [hm]
      rcases DiscriminateName_cases f with hd | hd | hd | hd <;>
        rcases DiscriminateADS_cases sub with he | he | he | he <;>
        simp [hd, he, nameSlot, Slot.agrees, SearchTerm.requires, Nat.testBit_or, a1, a4] <;>
        split_ifs <;> simp_all [Slot.agrees, SearchTerm.requires, Nat.testBit_or]
    · simp only [hm]
      rcases DiscriminateName_cases f with hd | hd | hd | hd <;>
        rcases DiscriminateEA_cases sub with he | he | he | he <;>
        simp [hd, he, nameSlot, Slot.agrees, SearchTerm.requires, Nat.testBit_or, a1, a4] <;>
        split_ifs <;> simp_all [Slot.agrees, SearchTerm.requires, Nat.testBit_or]
    · simp only [hm]
      simp [Slot.agrees, SearchTerm.requires, a1, a4]
      split_ifs <;> simp_all [Slot.agrees, SearchTerm.requires]
  · simp only [hn, if_false, Bool.false_eq_true]
    simp only [specificSlot]
    split_ifs <;> simp_all [Slot.agrees, SearchTerm.requires]

theorem agrees_exactName {k : WString} {t : SearchTerm} (h : (Slot.exactName k).agrees t) :
    inExactName t = true ∧ inExactPath t = false ∧ inExactSize t = false
      ∧ inGeneral t = false ∧ k = t.FileName := by
  obtain ⟨h1, h2⟩ := h
  simp only [SearchTerm.requires] at h1
  simp [inExactName, inExactPath, inExactSize, inGeneral, h1, h2]

theorem agrees_exactPath {k : WString} {t : SearchTerm} (h : (Slot.exactPath k).agrees t) :
    inExactName t = false ∧ inExactPath t = true ∧ inExactSize t = false
      ∧ inGeneral t = false ∧ k = t.Path := by
  obtain ⟨h1, h2, h3⟩ := h
  simp only [SearchTerm.requires, Bool.not_eq_true] at h1 h2
  simp [inExactName, inExactPath, inExactSize, inGeneral, h1, h2, h3]

theorem agrees_size {k : Nat} {t : SearchTerm} (h : (Slot.size k).agrees t) :
    inExactName t = false ∧ inExactPath t = false ∧ inExactSize t = true
      ∧ inGeneral t = false ∧ k = t.SizeEQ := by
  obtain ⟨h1, h2, h3, h4⟩ := h
  simp only [SearchTerm.requires, Bool.not_eq_true] at h1 h2 h3
  simp [inExactName, inExactPath, inExactSize, inGeneral, h1, h2, h3, h4]

theorem agrees_general {t : SearchTerm} (h : Slot.general.agrees t) :
    inExactName t = false ∧ inExactPath t = false ∧ inExactSize t = false
      ∧ inGeneral t = true := by
  obtain ⟨h1, h2, h3⟩ := h
  simp only [SearchTerm.requires, Bool.not_eq_true] at h1 h2 h3
  simp [inExactName, inExactPath, inExactSize, inGeneral, h1, h2, h3]

/-- One `AddTerm` call keeps the containers filed as claimed. -/
theorem AddTerm_filed (ff : FileFind) (acc : List SearchTerm) (t : SearchTerm)
    (h : FiledAsClaimed ff acc) :
    FiledAsClaimed (AddTerm ff t).2.1
      (if (AddTerm ff t).1 = S_OK then acc ++ [(AddTerm ff t).2.2] else acc) := by
  have hp := place_slots t
  simp only [AddTerm]
  cases hs : (place t).slots with
  | none =>
    simp only [hs] at hp
    have : ¬ (place t).hr = S_OK := by rw [hp.1]; decide
    simpa [this] using h
  | some si =>
    obtain ⟨s, i⟩ := si
    simp only [hs] at hp
    obtain ⟨hok, hag⟩ := hp
    simp only [hok, if_true]
    obtain ⟨ha, hn, hpa, hsz, hg⟩ := h
    cases s with
    | exactName k =>
      obtain ⟨e1, e2, e3, e4, e5⟩ := agrees_exactName hag
      subst e5
      constructor <;> cases i <;>
        simp [store, TermMap.emplace, List.filter_append, e1, e2, e3, e4, ha, hn, hpa, hsz, hg]
    | exactPath k =>
      obtain ⟨e1, e2, e3, e4, e5⟩ := agrees_exactPath hag
      subst e5
      constructor <;> cases i <;>
        simp [store, TermMap.emplace, List.filter_append, e1, e2, e3, e4, ha, hn, hpa, hsz, hg]
    | size k =>
      obtain ⟨e1, e2, e3, e4, e5⟩ := agrees_size hag
      subst e5
      constructor <;> cases i <;>
        simp [store, TermMap.emplace, List.filter_append, e1, e2, e3, e4, ha, hn, hpa, hsz, hg]
    | general =>
      obtain ⟨e1, e2, e3, e4⟩ := agrees_general hag
      constructor <;> cases i <;>
        simp [store, TermMap.emplace, List.filter_append, e1, e2, e3, e4, ha, hn, hpa, hsz, hg]

theorem AddTermsAccepted_filed (terms : List SearchTerm) (ff : FileFind) (acc : List SearchTerm)
    (h : FiledAsClaimed ff acc) :
    FiledAsClaimed
      (terms.foldl (fun a t => ((AddTerm a.1 t).2.1,
          if (AddTerm a.1 t).1 = S_OK then a.2 ++ [(AddTerm a.1 t).2.2] else a.2)) (ff, acc)).1
      (terms.foldl (fun a t => ((AddTerm a.1 t).2.1,
          if (AddTerm a.1 t).1 = S_OK then a.2 ++ [(AddTerm a.1 t).2.2] else a.2)) (ff, acc)).2 := by
  induction terms generalizing ff acc with
  | nil => simpa using h
  | cons t l ih =>
    simp only [List.foldl_cons]
    exact ih _ _ (AddTerm_filed ff acc t h)

theorem filed_empty : FiledAsClaimed {} [] := by
  constructor <;> rfl

theorem partition_four (t : SearchTerm) :
    (inExactName t = true ∧ inExactPath t = false ∧ inExactSize t = false ∧ inGeneral t = false)
    ∨ (inExactName t = false ∧ inExactPath t = true ∧ inExactSize t = false ∧ inGeneral t = false)
    ∨ (inExactName t = false ∧ inExactPath t = false ∧ inExactSize t = true ∧ inGeneral t = false)
    ∨ (inExactName t = false ∧ inExactPath t = false ∧ inExactSize t = false ∧ inGeneral t = true) := by
  simp only [inExactName, inExactPath, inExactSize, inGeneral]
  cases test t.Required NAME_EXACT <;> cases test t.Required PATH_EXACT <;>
    cases test t.Required SIZE_EQ <;> simp

/-- Splitting a list along four predicates of which each element satisfies
exactly one. -/
theorem perm_four_filters {α : Type} (p1 p2 p3 p4 : α → Bool) (l : List α)
    (h : ∀ a, (p1 a = true ∧ p2 a = false ∧ p3 a = false ∧ p4 a = false)
      ∨ (p1 a = false ∧ p2 a = true ∧ p3 a = false ∧ p4 a = false)
      ∨ (p1 a = false ∧ p2 a = false ∧ p3 a = true ∧ p4 a = false)
      ∨ (p1 a = false ∧ p2 a = false ∧ p3 a = false ∧ p4 a = true)) :
    List.Perm l (l.filter p1 ++ l.filter p2 ++ l.filter p3 ++ l.filter p4) := by
  induction l with
  | nil => simp
  | cons a l ih =>
    rcases h a with ⟨h1, h2, h3, h4⟩ | ⟨h1, h2, h3, h4⟩ | ⟨h1, h2, h3, h4⟩ | ⟨h1, h2, h3, h4⟩
    · simp only [List.filter_cons, h1, h2, h3, h4, if_true, if_false, Bool.false_eq_true,
        List.cons_append]
      exact List.Perm.cons a ih
    · refine (List.Perm.cons a ih).trans ?_
      have := (@List.perm_middle _ a (l.filter p1)
        (l.filter p2 ++ l.filter p3 ++ l.filter p4)).symm
      simpa [List.filter_cons, h1, h2, h3, h4, List.append_assoc] using this
    · refine (List.Perm.cons a ih).trans ?_
      have := (@List.perm_middle _ a (l.filter p1 ++ l.filter p2)
        (l.filter p3 ++ l.filter p4)).symm
      simpa [List.filter_cons, h1, h2, h3, h4, List.append_assoc] using this
    · refine (List.Perm.cons a ih).trans ?_
      have := (@List.perm_middle _ a (l.filter p1 ++ l.filter p2 ++ l.filter p3)
        (l.filter p4)).symm
      simpa [List.filter_cons, h1, h2, h3, h4, List.append_assoc] using this

/-- C8: after any sequence of `AddTerm` calls on an empty `FileFind`, every
accepted term sits in exactly one of the four inclusion containers: the
exact-name index, under its `FileName`, if and only if its `Required` has
`NAME_EXACT`; otherwise the exact-path index, under its `Path`, if it has
`PATH_EXACT`; otherwise the exact-size index, under `SizeEQ`, if it has
`SIZE_EQ`; otherwise the general list.  The accepted terms are, up to order, the
entries of the four containers taken together, and looking a name `n` up in the
exact-name index returns the accepted terms that require `NAME_EXACT` and whose
`FileName` is `n` for the key equivalence of the index, and no other term. -/
theorem C8_inclusion_containers (terms : List SearchTerm) :
    FiledAsClaimed (AddTermsAccepted {} terms).1 (AddTermsAccepted {} terms).2
    ∧ List.Perm (AddTermsAccepted {} terms).2
        ((AddTermsAccepted {} terms).1.m_ExactNameTerms.map Prod.snd
          ++ (AddTermsAccepted {} terms).1.m_ExactPathTerms.map Prod.snd
          ++ (AddTermsAccepted {} terms).1.m_SizeTerms.map Prod.snd
          ++ (AddTermsAccepted {} terms).1.m_Terms)
    ∧ ∀ (keyEq : WString → WString → Bool) (n : WString),
        TermMap.equal_range keyEq (AddTermsAccepted {} terms).1.m_ExactNameTerms n
          = (AddTermsAccepted {} terms).2.filter
              (fun t => test t.Required NAME_EXACT && keyEq t.FileName n) := by
  have h := AddTermsAccepted_filed terms {} [] filed_empty
  change FiledAsClaimed (AddTermsAccepted {} terms).1 (AddTermsAccepted {} terms).2 at h
  refine ⟨h, ?_, ?_⟩
  · rw [h.names, h.paths, h.sizes, h.general]
    simp only [List.map_map, Function.comp_def, List.map_id']
    exact perm_four_filters _ _ _ _ _ partition_four
  · intro keyEq n
    rw [h.names]
    simp only [TermMap.equal_range, List.filter_map, List.map_map, Function.comp_def,
      List.map_id', List.filter_filter, inExactName]
    congr 1
    funext t
    rw [Bool.and_comm]

/-! ## Terms that `AddTerm` accepts although the specification rejects them -/

/-- C7 (the code at the failing input): a free-form term with an empty name
passes the `Required == NONE` test, has its `NAME` bit cleared, gets no
criterion back from `DiscriminateName`, and is pushed onto `m_Terms` with an
empty `Required`; the call returns `S_OK`. -/
theorem C7_empty_name_stored_with_empty_required :
    FileFind.AddTerm {} { Required := NAME, Name := [] }
      = (S_OK,
          { m_AllTerms := [{ Required := NONE }], m_Terms := [{ Required := NONE }] },
          { Required := NONE }) := by
  decide

/-- C6 (the code at the failing input): configuration nodes with `size` and
`size_gt`, with `size_gt` and `size_ge`, and with `size_lt` and `size_le` give
terms that `IsValidTerm` declares invalid, and `AddTermsFromConfig` files each
of them: the first in the exact-size index, the others in the general list. -/
theorem C6_invalid_size_terms_stored :
    let i1 : ConfigItem :=
      { CONFIG_FILEFIND_SIZE := some "5".toList, CONFIG_FILEFIND_SIZE_GT := some "3".toList }
    let i2 : ConfigItem :=
      { CONFIG_FILEFIND_SIZE_GT := some "3".toList, CONFIG_FILEFIND_SIZE_GE := some "4".toList }
    let i3 : ConfigItem :=
      { CONFIG_FILEFIND_SIZE_LT := some "7".toList, CONFIG_FILEFIND_SIZE_LE := some "8".toList }
    let t1 : SearchTerm := { Required := SIZE_EQ ||| SIZE_GT, SizeEQ := 5, SizeG := 3 }
    let t2 : SearchTerm := { Required := SIZE_GT ||| SIZE_GE, SizeG := 4 }
    let t3 : SearchTerm := { Required := SIZE_LT ||| SIZE_LE, SizeL := 8 }
    FileFind.GetSearchTermFromConfig decimalConversions i1 = t1
    ∧ FileFind.GetSearchTermFromConfig decimalConversions i2 = t2
    ∧ FileFind.GetSearchTermFromConfig decimalConversions i3 = t3
    ∧ t1.IsValidTerm = false ∧ t2.IsValidTerm = false ∧ t3.IsValidTerm = false
    ∧ FileFind.AddTermsFromConfig decimalConversions {} [i1, i2, i3]
        = (S_OK, { m_AllTerms := [t1, t2, t3], m_SizeTerms := [(5, t1)], m_Terms := [t2, t3] }) := by
  decide

/-! ## Size criteria -/

theorem testBit_requiredSize (t : SearchTerm) (i : Nat) :
    t.requiredSize.testBit i =
      (t.Required.testBit i && (decide (19 = i) || decide (20 = i) || decide (21 = i)
        || decide (22 = i) || decide (23 = i))) := by
  simp [SearchTerm.requiredSize, sizeMask, Nat.testBit_and, Nat.testBit_or]

theorem testBit_bif_flag (c : Bool) (k i : Nat) :
    (bif c then flag k else 0).testBit i = (c && decide (k = i)) := by
  cases c <;> simp

/-- The required size criteria, flag by flag. -/
theorem requiredSize_eq (t : SearchTerm) :
    t.requiredSize =
      (bif t.Required.testBit 19 then SIZE_EQ else 0)
      ||| (bif t.Required.testBit 20 then SIZE_GT else 0)
      ||| (bif t.Required.testBit 21 then SIZE_GE else 0)
      ||| (bif t.Required.testBit 22 then SIZE_LT else 0)
      ||| (bif t.Required.testBit 23 then SIZE_LE else 0) := by
  apply Nat.eq_of_testBit_eq
  intro i
  rw [testBit_requiredSize]
  simp only [Nat.testBit_or, testBit_bif_flag]
  by_cases e19 : 19 = i
  · subst e19; simp
  by_cases e20 : 20 = i
  · subst e20; simp
  by_cases e21 : 21 = i
  · subst e21; simp
  by_cases e22 : 22 = i
  · subst e22; simp
  by_cases e23 : 23 = i
  · subst e23; simp
  simp [e19, e20, e21, e22, e23]

set_option maxHeartbeats 1000000 in
/-- C9: for a term whose size criteria form an allowed combination and every
data size `s`, `SizeMatch` returns exactly the size criteria the term requires
when `s` satisfies each of them (`s = SizeEQ`, `s > SizeG`, `s >= SizeG`,
`s < SizeL`, `s <= SizeL`), and a value different from them otherwise. -/
theorem C9_SizeMatch_exact (t : SearchTerm) (s : Nat) (ha : allowedSizeCombination t) :
    (satisfiesSizes t s → SizeMatch t s = t.requiredSize)
    ∧ (¬ satisfiesSizes t s → SizeMatch t s ≠ t.requiredSize) := by
  obtain ⟨a1, a2, a3⟩ := ha
  simp only [SearchTerm.requires, test_flag] at a1 a2 a3
  rw [requiredSize_eq]
  unfold SizeMatch satisfiesSizes
  simp only [SearchTerm.requires, test_flag]
  cases h19 : t.Required.testBit 19 <;> cases h20 : t.Required.testBit 20 <;>
    cases h21 : t.Required.testBit 21 <;> cases h22 : t.Required.testBit 22 <;>
    cases h23 : t.Required.testBit 23 <;> simp [h19, h20, h21, h22, h23] at a1 a2 a3 ⊢
  all_goals
    constructor <;> intros <;> (try split_ifs) <;>
      first
        | omega
        | (simp [flag] at * <;> omega)

/-- C9 at a term asking `size > 10` and `size <= 20`: 15 and 20 match, 10 and 21
do not. -/
theorem C9_SizeMatch_exact_witness :
    allowedSizeCombination { Required := SIZE_GT ||| SIZE_LE, SizeG := 10, SizeL := 20 }
    ∧ SizeMatch { Required := SIZE_GT ||| SIZE_LE, SizeG := 10, SizeL := 20 } 15
        = SIZE_GT ||| SIZE_LE
    ∧ SizeMatch { Required := SIZE_GT ||| SIZE_LE, SizeG := 10, SizeL := 20 } 20
        = SIZE_GT ||| SIZE_LE
    ∧ SizeMatch { Required := SIZE_GT ||| SIZE_LE, SizeG := 10, SizeL := 20 } 10
        ≠ SIZE_GT ||| SIZE_LE
    ∧ SizeMatch { Required := SIZE_GT ||| SIZE_LE, SizeG := 10, SizeL := 20 } 21
        ≠ SIZE_GT ||| SIZE_LE :=
  have ha : allowedSizeCombination
      { Required := SIZE_GT ||| SIZE_LE, SizeG := 10, SizeL := 20 } := by decide
  ⟨ha,
    (C9_SizeMatch_exact _ 15 ha).1 (by decide),
    (C9_SizeMatch_exact _ 20 ha).1 (by decide),
    (C9_SizeMatch_exact _ 10 ha).2 (by decide),
    (C9_SizeMatch_exact _ 21 ha).2 (by decide)⟩

/-! ## The loops over the names and attributes of a record -/

/-- The value a group loop returns: `val` when some element is a hit, else the
value it was started with. -/
theorem scan_fst {α : Type} (hit : α → Bool) (upd : Option Match → α → Option Match)
    (val : Nat) (xs : List α) (retval : Nat) (fm : Option Match) :
    (scan hit upd val xs retval fm).1 = if xs.any hit then val else retval := by
  induction xs generalizing retval fm with
  | nil => simp [scan]
  | cons x xs ih =>
    by_cases h : hit x = true
    · simp only [scan, h, if_true, List.any_cons, Bool.true_or]
      rw [ih]
      split_ifs <;> rfl
    · simp only [scan, h, if_false, List.any_cons, Bool.false_or, Bool.false_eq_true]
      rw [ih]

theorem AddMatchingName_fst (env : Env) (t : SearchTerm) (fm : Option Match) (pElt : MFTRecord) :
    (AddMatchingName env t (t.Required &&& SearchTerm.NameMask) fm pElt).1
      = if nameGroupMatched env t pElt then t.Required &&& SearchTerm.NameMask else NONE := by
  simp only [AddMatchingName, scan_fst, nameGroupMatched]

theorem AddMatchingPath_fst (env : Env) (t : SearchTerm) (fm : Option Match) (pElt : MFTRecord) :
    (AddMatchingPath env t (t.Required &&& SearchTerm.PathMask) fm pElt).1
      = if pathGroupMatched env t pElt then t.Required &&& SearchTerm.PathMask else NONE := by
  simp only [AddMatchingPath, scan_fst, pathGroupMatched]

theorem AddMatchingDataNameAndSize_fst (env : Env) (t : SearchTerm) (fm : Option Match)
    (pElt : MFTRecord) :
    (AddMatchingDataNameAndSize env t (t.Required &&& SearchTerm.DataNameOrSizeMask) fm pElt).1
      = if dataNameOrSizeGroupMatched env t pElt then
          t.Required &&& SearchTerm.DataNameOrSizeMask else NONE := by
  simp only [AddMatchingDataNameAndSize, scan_fst, dataNameOrSizeGroupMatched]

theorem MatchAttributes_fst (env : Env) (t : SearchTerm) (fm : Option Match) (pElt : MFTRecord) :
    (MatchAttributes env t (t.Required &&& SearchTerm.AttributeMask) fm pElt).1
      = if attributeGroupMatched env t pElt then
          t.Required &&& SearchTerm.AttributeMask else NONE := by
  simp only [MatchAttributes, scan_fst, attributeGroupMatched]

theorem AddMatchingData_fst (env : Env) (t : SearchTerm) (fm : Option Match) (pElt : MFTRecord) :
    (AddMatchingData env t (t.Required &&& SearchTerm.DataMask) fm pElt).1
      = if dataGroupMatched env t pElt then t.Required &&& SearchTerm.DataMask else NONE := by
  simp only [AddMatchingData, scan_fst, dataGroupMatched]

theorem useDefaultName_ok (env : Env) (m : Match) (pElt : MFTRecord)
    (h : someNameInLocation env pElt = true) : (useDefaultName env m pElt).1 = true := by
  have hfind : ∃ n, pElt.FileNames.find? env.m_InLocationBuilder = some n := by
    simp only [someNameInLocation, List.any_eq_true] at h
    obtain ⟨n, hn, hl⟩ := h
    cases hf : pElt.FileNames.find? env.m_InLocationBuilder with
    | none =>
      rw [List.find?_eq_none] at hf
      exact absurd hl (hf n hn)
    | some n' => exact ⟨n', rfl⟩
  obtain ⟨n, hn⟩ := hfind
  unfold useDefaultName
  cases hd : pElt.DefaultFileName with
  | none => rfl
  | some p =>
    by_cases hc : env.m_InLocationBuilder p = true <;> simp [hc, hn]

/-- With a file name in location the fill-in block does not give up. -/
theorem fillInTheBlanks_ok (env : Env) (t : SearchTerm) (fm : Option Match) (pElt : MFTRecord)
    (h : someNameInLocation env pElt = true) : (fillInTheBlanks env t fm pElt).1 = true := by
  unfold fillInTheBlanks
  by_cases h1 : (ensureMatch t pElt fm).MatchingNames.isEmpty = true
  · simp [h1, useDefaultName_ok env _ pElt h]
  · simp [h1]


theorem includeGroup_spec (dependsOn : Bool) (required : Nat)
    (eval : Option Match → Nat × Option Match) (g : Bool)
    (heval : ∀ fm, (eval fm).1 = if g then required else NONE)
    (hdep : dependsOn = test required required) (s : LookupState) :
    (includeGroup dependsOn required eval s).running = (s.running && (!dependsOn || g))
    ∧ ((includeGroup dependsOn required eval s).running = true →
        (includeGroup dependsOn required eval s).matchedSpecs = s.matchedSpecs ||| required) := by
  have hz : dependsOn = false → required = 0 := by
    intro h
    rw [h] at hdep
    have := hdep.symm
    simpa [test] using this
  have hnz : dependsOn = true → required ≠ 0 := by
    intro h
    rw [h] at hdep
    have := hdep.symm
    simpa [test] using this
  obtain ⟨run, ms, fm⟩ := s
  unfold includeGroup
  cases run
  · simp
  · cases hd : dependsOn
    · simp [hz hd]
    · cases hg : g
      · have h0 := hnz hd
        simp [heval, hg, h0]
      · simp [heval, hg]

theorem dependsOn_eq (r m : Nat) : test r m = test (r &&& m) (r &&& m) := by
  simp [test]


theorem locationGate_spec (env : Env) (pElt : MFTRecord) (s : LookupState) :
    (locationGate env pElt s).running = (s.running && someNameInLocation env pElt)
    ∧ (locationGate env pElt s).matchedSpecs = s.matchedSpecs := by
  obtain ⟨run, ms, fm⟩ := s
  unfold locationGate someNameInLocation
  cases run
  · simp
  · cases h : pElt.FileNames.any env.m_InLocationBuilder <;> simp [h]

/-- The groups of `LookupTermInRecordAddMatching`: the function is still
running behind them exactly when every group the term depends on matched and a
file name is in location, and `matchedSpecs` is then `matched` with the
criteria of the groups. -/
theorem lookupGroups_spec (env : Env) (t : SearchTerm) (matched : Nat) (fm : Option Match)
    (pElt : MFTRecord) :
    (lookupGroups env t matched fm pElt).running = groupsMatched env t pElt
    ∧ ((lookupGroups env t matched fm pElt).running = true →
        (lookupGroups env t matched fm pElt).matchedSpecs = groupCriteria t matched) := by
  unfold lookupGroups
  have s1 := includeGroup_spec t.DependsOnName (t.Required &&& SearchTerm.NameMask)
    (fun fm => AddMatchingName env t (t.Required &&& SearchTerm.NameMask) fm pElt)
    (nameGroupMatched env t pElt) (fun fm => AddMatchingName_fst env t fm pElt)
    (dependsOn_eq _ _) ⟨true, matched, fm⟩
  generalize includeGroup t.DependsOnName (t.Required &&& SearchTerm.NameMask)
    (fun fm => AddMatchingName env t (t.Required &&& SearchTerm.NameMask) fm pElt)
    ⟨true, matched, fm⟩ = st1 at s1 ⊢
  have s2 := includeGroup_spec t.DependsOnPath (t.Required &&& SearchTerm.PathMask)
    (fun fm => AddMatchingPath env t (t.Required &&& SearchTerm.PathMask) fm pElt)
    (pathGroupMatched env t pElt) (fun fm => AddMatchingPath_fst env t fm pElt)
    (dependsOn_eq _ _) st1
  generalize includeGroup t.DependsOnPath (t.Required &&& SearchTerm.PathMask)
    (fun fm => AddMatchingPath env t (t.Required &&& SearchTerm.PathMask) fm pElt)
    st1 = st2 at s2 ⊢
  have s3 := includeGroup_spec t.DependsOnDataNameOrSize
    (t.Required &&& SearchTerm.DataNameOrSizeMask)
    (fun fm => AddMatchingDataNameAndSize env t
      (t.Required &&& SearchTerm.DataNameOrSizeMask) fm pElt)
    (dataNameOrSizeGroupMatched env t pElt)
    (fun fm => AddMatchingDataNameAndSize_fst env t fm pElt) (dependsOn_eq _ _) st2
  generalize includeGroup t.DependsOnDataNameOrSize
    (t.Required &&& SearchTerm.DataNameOrSizeMask)
    (fun fm => AddMatchingDataNameAndSize env t
      (t.Required &&& SearchTerm.DataNameOrSizeMask) fm pElt) st2 = st3 at s3 ⊢
  have s4 := locationGate_spec env pElt st3
  generalize locationGate env pElt st3 = st4 at s4 ⊢
  have s5 := includeGroup_spec t.DependsOnAttribute (t.Required &&& SearchTerm.AttributeMask)
    (fun fm => MatchAttributes env t (t.Required &&& SearchTerm.AttributeMask) fm pElt)
    (attributeGroupMatched env t pElt) (fun fm => MatchAttributes_fst env t fm pElt)
    (dependsOn_eq _ _) st4
  generalize includeGroup t.DependsOnAttribute (t.Required &&& SearchTerm.AttributeMask)
    (fun fm => MatchAttributes env t (t.Required &&& SearchTerm.AttributeMask) fm pElt)
    st4 = st5 at s5 ⊢
  have s6 := includeGroup_spec t.DependsOnData (t.Required &&& SearchTerm.DataMask)
    (fun fm => AddMatchingData env t (t.Required &&& SearchTerm.DataMask) fm pElt)
    (dataGroupMatched env t pElt) (fun fm => AddMatchingData_fst env t fm pElt)
    (dependsOn_eq _ _) st5
  generalize includeGroup t.DependsOnData (t.Required &&& SearchTerm.DataMask)
    (fun fm => AddMatchingData env t (t.Required &&& SearchTerm.DataMask) fm pElt)
    st5 = st6 at s6 ⊢
  obtain ⟨r1, m1⟩ := s1
  obtain ⟨r2, m2⟩ := s2
  obtain ⟨r3, m3⟩ := s3
  obtain ⟨r4, m4⟩ := s4
  obtain ⟨r5, m5⟩ := s5
  obtain ⟨r6, m6⟩ := s6
  simp only [Bool.true_and] at r1
  constructor
  · rw [r6, r5, r4, r3, r2, r1]
    simp only [groupsMatched, SearchTerm.DependsOnName, SearchTerm.DependsOnPath,
      SearchTerm.DependsOnDataNameOrSize, SearchTerm.DependsOnAttribute,
      SearchTerm.DependsOnData]
  · intro h6
    have h5 : st5.running = true := by rw [r6] at h6; simp at h6; exact h6.1
    have h4 : st4.running = true := by rw [r5] at h5; simp at h5; exact h5.1
    have h3 : st3.running = true := by rw [r4] at h4; simp at h4; exact h4.1
    have h2 : st2.running = true := by rw [r3] at h3; simp at h3; exact h3.1
    have h1 : st1.running = true := by rw [r2] at h2; simp at h2; exact h2.1
    rw [m6 h6, m5 h5, m4, m3 h3, m2 h2, m1 h1]
    rfl

/-- The value `LookupTermInRecordAddMatching` returns. -/
theorem LookupTermInRecordAddMatching_fst (env : Env) (t : SearchTerm) (matched : Nat)
    (fm : Option Match) (pElt : MFTRecord) :
    (LookupTermInRecordAddMatching env t matched fm pElt).1
      = if groupsMatched env t pElt = true ∧ groupCriteria t matched = t.Required
          then t.Required else NONE := by
  obtain ⟨hrun, hms⟩ := lookupGroups_spec env t matched fm pElt
  unfold LookupTermInRecordAddMatching
  simp only []
  cases hg : groupsMatched env t pElt
  · rw [hg] at hrun
    simp [hrun]
  · rw [hg] at hrun
    have hm := hms hrun
    have hloc : someNameInLocation env pElt = true := by
      simp only [groupsMatched, Bool.and_eq_true] at hg
      exact hg.1.1.2
    by_cases hc : groupCriteria t matched = t.Required
    · simp [hrun, hm, hc, fillInTheBlanks_ok env t _ pElt hloc]
    · simp [hrun, hm, hc]


/-! ## A size criterion together with a stream name -/

theorem step_some (cond : Bool) (aSpec : Nat) (upd : Nat → Nat → Nat) (m : Nat) :
    step cond aSpec upd (some m)
      = if cond then (if aSpec = NONE then none else some (upd m aSpec)) else some m := by
  unfold step
  by_cases hc : cond = true <;> by_cases ha : aSpec = NONE <;> simp [hc, ha]

@[simp] theorem step_none (cond : Bool) (aSpec : Nat) (upd : Nat → Nat → Nat) :
    step cond aSpec upd none = none := rfl

/-- For a term asking `size > N` and an ADS name expression, the body of the
loop of `AddMatchingDataNameAndSize` reaches the required criteria on a data
attribute exactly when the record has a named data attribute and the attribute
itself is larger than `N` and has a matching name. -/
theorem dataNameAndSizeOf_size_gt_ads_regex (env : Env) (t : SearchTerm)
    (hR : t.Required = SIZE_GT ||| ADS_REGEX) (pElt : MFTRecord) (d : MftRecordAttribute) :
    dataNameAndSizeOf env t (SIZE_GT ||| ADS_REGEX) pElt d = some (SIZE_GT ||| ADS_REGEX)
      ↔ pElt.HasNamedDataAttr = true
        ∧ (∃ sz, d.DataSize = some sz ∧ sz > t.SizeG)
        ∧ env.regex_match t.ADSNameRegEx d.Name = true := by
  have hany : anySize (SIZE_GT ||| ADS_REGEX) = true := by decide
  have h1 : test (SIZE_GT ||| ADS_REGEX) ADS_EXACT = false := by decide
  have h2 : test (SIZE_GT ||| ADS_REGEX) ADS_MATCH = false := by decide
  have h3 : test (SIZE_GT ||| ADS_REGEX) ADS_REGEX = true := by decide
  have hsz : ∀ sz, SizeMatch t sz = if sz > t.SizeG then SIZE_GT else NONE := by
    intro sz
    have e1 : test (SIZE_GT ||| ADS_REGEX) SIZE_EQ = false := by decide
    have e2 : test (SIZE_GT ||| ADS_REGEX) SIZE_GT = true := by decide
    have e3 : test (SIZE_GT ||| ADS_REGEX) SIZE_LT = false := by decide
    have e4 : test (SIZE_GT ||| ADS_REGEX) SIZE_LE = false := by decide
    unfold SizeMatch
    rw [hR]
    simp only [e1, e2, e3, e4, if_true, if_false, Bool.false_eq_true]
    split_ifs <;> simp
  have hrx : RegexADS env t d.Name
      = if env.regex_match t.ADSNameRegEx d.Name then ADS_REGEX else NONE := by
    unfold RegexADS
    rw [hR]
    simp only [h3, if_true]
    split_ifs <;> simp
  unfold dataNameAndSizeOf
  simp only [hany, h1, h2, h3, if_true, Bool.false_and, Bool.true_and]
  cases hds : d.DataSize with
  | none => simp [step]
  | some sz =>
    simp only [step_some, hsz, hrx, if_true, if_false, Bool.false_eq_true]
    by_cases hgt : sz > t.SizeG <;> by_cases hn : pElt.HasNamedDataAttr = true <;>
      by_cases hre : env.regex_match t.ADSNameRegEx d.Name = true <;>
      simp [hgt, hn, hre, orInto, flag, step_some]

set_option maxRecDepth 4096 in
/-- C10, as amended: for a term asking exactly `size > N` and an ADS name
expression, looked up from the general list (`matched` is `NONE`), a record
matches (`LookupTermInRecordAddMatching` returns something else than `NONE`,
and then `Required`) exactly when one of its file names is in location, it has
a named data attribute, and one of its data streams has both a name matching
the expression and a size of its own larger than `N`. -/
theorem C10_same_stream (env : Env) (t : SearchTerm) (hR : t.Required = SIZE_GT ||| ADS_REGEX)
    (fm : Option Match) (pElt : MFTRecord) :
    ((LookupTermInRecordAddMatching env t NONE fm pElt).1 ≠ NONE
      ↔ (∃ n ∈ pElt.FileNames, env.m_InLocationBuilder n = true)
        ∧ sameStreamSizeAndAdsRegex env t pElt)
    ∧ ((LookupTermInRecordAddMatching env t NONE fm pElt).1 ≠ NONE →
        (LookupTermInRecordAddMatching env t NONE fm pElt).1 = t.Required) := by
  have hcrit : groupCriteria t NONE = t.Required := by
    unfold groupCriteria
    rw [hR]
    decide
  have hne : t.Required ≠ NONE := by rw [hR]; decide
  have hmask : t.Required &&& SearchTerm.DataNameOrSizeMask = SIZE_GT ||| ADS_REGEX := by
    rw [hR]; decide
  have hgm : groupsMatched env t pElt
      = (dataNameOrSizeGroupMatched env t pElt && someNameInLocation env pElt) := by
    have d1 : t.DependsOnName = false := by unfold SearchTerm.DependsOnName; rw [hR]; decide
    have d2 : t.DependsOnPath = false := by unfold SearchTerm.DependsOnPath; rw [hR]; decide
    have d3 : t.DependsOnDataNameOrSize = true := by
      unfold SearchTerm.DependsOnDataNameOrSize; rw [hR]; decide
    have d4 : t.DependsOnAttribute = false := by
      unfold SearchTerm.DependsOnAttribute; rw [hR]; decide
    have d5 : t.DependsOnData = false := by unfold SearchTerm.DependsOnData; rw [hR]; decide
    simp [groupsMatched, d1, d2, d3, d4, d5]
  have hgroup : dataNameOrSizeGroupMatched env t pElt = true
      ↔ sameStreamSizeAndAdsRegex env t pElt := by
    unfold dataNameOrSizeGroupMatched sameStreamSizeAndAdsRegex
    rw [hmask]
    simp only [List.any_eq_true, beq_iff_eq, dataNameAndSizeOf_size_gt_ads_regex env t hR]
    constructor
    · rintro ⟨d, hd, hn, hs, hr⟩
      exact ⟨hn, d, hd, hs, hr⟩
    · rintro ⟨hn, d, hd, hs, hr⟩
      exact ⟨d, hd, hn, hs, hr⟩
  have hloc : someNameInLocation env pElt = true
      ↔ ∃ n ∈ pElt.FileNames, env.m_InLocationBuilder n = true := by
    simp [someNameInLocation]
  rw [LookupTermInRecordAddMatching_fst, hgm]
  constructor
  · constructor
    · intro h
      split_ifs at h with hc
      · simp only [Bool.and_eq_true] at hc
        exact ⟨hloc.1 hc.1.2, hgroup.1 hc.1.1⟩
      · exact absurd rfl h
    · rintro ⟨h1, h2⟩
      rw [if_pos]
      · exact hne
      · exact ⟨by simp [hgroup.2 h2, hloc.2 h1], hcrit⟩
  · intro h
    split_ifs at h ⊢
    · rfl
    · exact absurd rfl h

/-- C10 at the record with a small unnamed stream and a large stream `zone`:
the record matches. -/
theorem C10_same_stream_witness :
    zoneTerm.Required = SIZE_GT ||| ADS_REGEX
    ∧ (LookupTermInRecordAddMatching sampleEnv zoneTerm NONE none smallFileLargeZone).1 ≠ NONE :=
  ⟨rfl,
    (C10_same_stream sampleEnv zoneTerm rfl none smallFileLargeZone).1.2
      ⟨⟨{ FileName := "a.exe".toList }, by decide, rfl⟩,
        rfl,
        ⟨{ Name := "zone".toList, DataSize := some 2000000 }, by decide,
          ⟨2000000, rfl, by decide⟩, by decide⟩⟩⟩

/-- C10 as stated fails: a record with a stream named `zone` and an unnamed
`$DATA` stream of 2000000 bytes meets the condition of the scenario for the
term `size > 1000000`, stream name `zone`, and does not match, because the
stream `zone` itself has 26 bytes; and a record whose unnamed stream has 10
bytes and whose stream `zone` has 2000000 bytes matches without meeting the
condition of the scenario. -/
theorem C10_scenario_counterexample :
    (scenarioSizeAndAdsRegex sampleEnv zoneTerm largeFileSmallZone
      ∧ (LookupTermInRecordAddMatching sampleEnv zoneTerm NONE none largeFileSmallZone).1 = NONE)
    ∧ (¬ scenarioSizeAndAdsRegex sampleEnv zoneTerm smallFileLargeZone
      ∧ (LookupTermInRecordAddMatching sampleEnv zoneTerm NONE none smallFileLargeZone).1
          = zoneTerm.Required
      ∧ zoneTerm.Required ≠ NONE) := by
  refine ⟨⟨⟨?_, ?_⟩, by decide⟩, ?_, by decide, by decide⟩
  · exact ⟨{ Name := "zone".toList, DataSize := some 26 }, by decide, by decide⟩
  · exact ⟨{ Name := [], DataSize := some 2000000 }, by decide, rfl, 2000000, rfl, by decide⟩
  · rintro ⟨-, u, hu, hname, sz, hsz, hgt⟩
    simp only [smallFileLargeZone, List.mem_cons, List.mem_singleton, List.not_mem_nil,
      or_false] at hu
    rcases hu with h | h
    · subst h
      simp at hsz
      subst hsz
      simp [zoneTerm] at hgt
    · subst h
      simp at hname

/-! ## The result of a lookup -/

/-- C1: `LookupTermInRecordAddMatching` returns `NONE` or exactly the term's
`Required`; and when it returns a match (something else than `NONE`, hence
`Required`), some file name of the record is in location and, for every
criteria group the term depends on (name, path, data name and size, attribute,
data content), the evaluation of the group over the record returned all the
criteria of the group that the term requires, which it does when one element of
the record (a file name, a data attribute, an attribute) carries them all. -/
theorem C1_lookup_result (env : Env) (t : SearchTerm) (matched : Nat) (fm : Option Match)
    (pElt : MFTRecord) :
    ((LookupTermInRecordAddMatching env t matched fm pElt).1 = NONE
      ∨ (LookupTermInRecordAddMatching env t matched fm pElt).1 = t.Required)
    ∧ ((LookupTermInRecordAddMatching env t matched fm pElt).1 ≠ NONE →
        (LookupTermInRecordAddMatching env t matched fm pElt).1 = t.Required
        ∧ (∃ n ∈ pElt.FileNames, env.m_InLocationBuilder n = true)
        ∧ (t.DependsOnName = true →
            (∀ fm', (AddMatchingName env t (t.Required &&& SearchTerm.NameMask) fm' pElt).1
              = t.Required &&& SearchTerm.NameMask)
            ∧ ∃ n ∈ pElt.FileNames,
                MatchNameInLocation env t n = t.Required &&& SearchTerm.NameMask)
        ∧ (t.DependsOnPath = true →
            (∀ fm', (AddMatchingPath env t (t.Required &&& SearchTerm.PathMask) fm' pElt).1
              = t.Required &&& SearchTerm.PathMask)
            ∧ ∃ n ∈ pElt.FileNames,
                MatchPathOfFileName env t n = t.Required &&& SearchTerm.PathMask)
        ∧ (t.DependsOnDataNameOrSize = true →
            (∀ fm', (AddMatchingDataNameAndSize env t
                (t.Required &&& SearchTerm.DataNameOrSizeMask) fm' pElt).1
              = t.Required &&& SearchTerm.DataNameOrSizeMask)
            ∧ ∃ d ∈ pElt.DataAttributes,
                dataNameAndSizeOf env t (t.Required &&& SearchTerm.DataNameOrSizeMask) pElt d
                  = some (t.Required &&& SearchTerm.DataNameOrSizeMask))
        ∧ (t.DependsOnAttribute = true →
            (∀ fm', (MatchAttributes env t
                (t.Required &&& SearchTerm.AttributeMask) fm' pElt).1
              = t.Required &&& SearchTerm.AttributeMask)
            ∧ ∃ a ∈ pElt.AttributeList,
                attributesOf env t (t.Required &&& SearchTerm.AttributeMask) pElt a
                  = some (t.Required &&& SearchTerm.AttributeMask))
        ∧ (t.DependsOnData = true →
            (∀ fm', (AddMatchingData env t (t.Required &&& SearchTerm.DataMask) fm' pElt).1
              = t.Required &&& SearchTerm.DataMask)
            ∧ ∃ d ∈ pElt.DataAttributes,
                dataOf env t d = some (t.Required &&& SearchTerm.DataMask))) := by
  rw [LookupTermInRecordAddMatching_fst]
  constructor
  · split_ifs
    · exact Or.inr rfl
    · exact Or.inl rfl
  · intro h
    split_ifs at h ⊢ with hc
    · obtain ⟨hg, -⟩ := hc
      simp only [groupsMatched, Bool.and_eq_true, Bool.or_eq_true, Bool.not_eq_true'] at hg
      obtain ⟨⟨⟨⟨⟨g1, g2⟩, g3⟩, g4⟩, g5⟩, g6⟩ := hg
      refine ⟨rfl, ?_, ?_, ?_, ?_, ?_, ?_⟩
      · simpa [someNameInLocation] using g4
      · intro hd
        have hm : nameGroupMatched env t pElt = true := by
          rcases g1 with g | g
          · rw [hd] at g; cases g
          · exact g
        refine ⟨fun fm' => by rw [AddMatchingName_fst, if_pos hm], ?_⟩
        simp only [nameGroupMatched, List.any_eq_true, beq_iff_eq] at hm
        obtain ⟨n, hn, he⟩ := hm
        exact ⟨n, hn, he.symm⟩
      · intro hd
        have hm : pathGroupMatched env t pElt = true := by
          rcases g2 with g | g
          · rw [hd] at g; cases g
          · exact g
        refine ⟨fun fm' => by rw [AddMatchingPath_fst, if_pos hm], ?_⟩
        simpa [pathGroupMatched] using hm
      · intro hd
        have hm : dataNameOrSizeGroupMatched env t pElt = true := by
          rcases g3 with g | g
          · rw [hd] at g; cases g
          · exact g
        refine ⟨fun fm' => by rw [AddMatchingDataNameAndSize_fst, if_pos hm], ?_⟩
        simpa [dataNameOrSizeGroupMatched] using hm
      · intro hd
        have hm : attributeGroupMatched env t pElt = true := by
          rcases g5 with g | g
          · rw [hd] at g; cases g
          · exact g
        refine ⟨fun fm' => by rw [MatchAttributes_fst, if_pos hm], ?_⟩
        simpa [attributeGroupMatched] using hm
      · intro hd
        have hm : dataGroupMatched env t pElt = true := by
          rcases g6 with g | g
          · rw [hd] at g; cases g
          · exact g
        refine ⟨fun fm' => by rw [AddMatchingData_fst, if_pos hm], ?_⟩
        simpa [dataGroupMatched] using hm
    · exact absurd rfl h

/-- C1 at the term `size > 1000000` with the stream name `zone` and the record
whose stream `zone` has 2000000 bytes: the lookup returns `Required`, and a
file name of the record is in location. -/
theorem C1_lookup_result_witness :
    (LookupTermInRecordAddMatching sampleEnv zoneTerm NONE none smallFileLargeZone).1 ≠ NONE
    ∧ (LookupTermInRecordAddMatching sampleEnv zoneTerm NONE none smallFileLargeZone).1
        = zoneTerm.Required
    ∧ ∃ n ∈ smallFileLargeZone.FileNames, sampleEnv.m_InLocationBuilder n = true :=
  ⟨by decide,
   ((C1_lookup_result sampleEnv zoneTerm NONE none smallFileLargeZone).2 (by decide)).1,
   ((C1_lookup_result sampleEnv zoneTerm NONE none smallFileLargeZone).2 (by decide)).2.1⟩

/-! ## Exclusion -/

theorem excludeGroup_some (dependsOn : Bool) (required evaluated : Nat) (g : Bool)
    (heval : evaluated = if g then required else NONE)
    (hdep : dependsOn = test required required) (m : Nat) :
    excludeGroup dependsOn required evaluated (some m)
      = if !dependsOn || g then some (m ||| required) else none := by
  have hz : dependsOn = false → required = 0 := by
    intro h
    rw [h] at hdep
    have := hdep.symm
    simpa [test] using this
  have hnz : dependsOn = true → required ≠ 0 := by
    intro h
    rw [h] at hdep
    have := hdep.symm
    simpa [test] using this
  unfold excludeGroup
  cases hd : dependsOn
  · simp [hz hd]
  · cases hg : g
    · have h0 := hnz hd
      simp [heval, hg, h0]
    · simp [heval, hg]

@[simp] theorem excludeGroup_none (dependsOn : Bool) (required evaluated : Nat) :
    excludeGroup dependsOn required evaluated none = none := rfl

theorem ExcludeMatchingName_eq (env : Env) (t : SearchTerm) (m : Match) :
    ExcludeMatchingName env t (t.Required &&& SearchTerm.NameMask) m
      = if nameGroupExcludes env t m then t.Required &&& SearchTerm.NameMask else NONE := by
  unfold ExcludeMatchingName nameGroupExcludes
  cases hm : m.MatchingNames with
  | nil => simp
  | cons a l => simp

theorem ExcludeMatchingPath_eq (env : Env) (t : SearchTerm) (m : Match) :
    ExcludeMatchingPath env t (t.Required &&& SearchTerm.PathMask) m
      = if pathGroupExcludes env t m then t.Required &&& SearchTerm.PathMask else NONE := rfl

theorem ExcludeMatchingDataNameAndSize_eq (env : Env) (t : SearchTerm) (m : Match) :
    ExcludeMatchingDataNameAndSize env t (t.Required &&& SearchTerm.DataNameOrSizeMask) m
      = if dataNameOrSizeGroupExcludes env t m then
          t.Required &&& SearchTerm.DataNameOrSizeMask else NONE := rfl

theorem ExcludeMatchingAttributes_eq (env : Env) (t : SearchTerm) (m : Match) :
    ExcludeMatchingAttributes env t (t.Required &&& SearchTerm.AttributeMask) m
      = if attributeGroupExcludes env t m then
          t.Required &&& SearchTerm.AttributeMask else NONE := rfl

theorem ExcludeMatchingData_eq (env : Env) (t : SearchTerm) (m : Match) :
    ExcludeMatchingData env t (t.Required &&& SearchTerm.DataMask) m
      = if dataGroupExcludes env t m (t.Required &&& SearchTerm.DataMask) then
          t.Required &&& SearchTerm.DataMask else NONE := rfl

/-- The value `LookupTermInMatchExcludeMatching` returns. -/
theorem LookupTermInMatchExcludeMatching_eq (env : Env) (t : SearchTerm) (matched : Nat)
    (m : Match) :
    LookupTermInMatchExcludeMatching env t matched m
      = if excludeTermMatches env t m = true ∧ groupCriteria t matched = t.Required
          then t.Required else NONE := by
  unfold LookupTermInMatchExcludeMatching
  simp only []
  rw [excludeGroup_some t.DependsOnName _ _ (nameGroupExcludes env t m)
    (ExcludeMatchingName_eq env t m) (dependsOn_eq _ _)]
  cases h1 : (!t.DependsOnName || nameGroupExcludes env t m)
  · simp [excludeTermMatches, excludeGroupsMatched, h1]
  rw [if_pos rfl, excludeGroup_some t.DependsOnPath _ _ (pathGroupExcludes env t m)
    (ExcludeMatchingPath_eq env t m) (dependsOn_eq _ _)]
  cases h2 : (!t.DependsOnPath || pathGroupExcludes env t m)
  · simp [excludeTermMatches, excludeGroupsMatched, h1, h2]
  rw [if_pos rfl, excludeGroup_some t.DependsOnDataNameOrSize _ _
    (dataNameOrSizeGroupExcludes env t m)
    (ExcludeMatchingDataNameAndSize_eq env t m) (dependsOn_eq _ _)]
  cases h3 : (!t.DependsOnDataNameOrSize || dataNameOrSizeGroupExcludes env t m)
  · simp [excludeTermMatches, excludeGroupsMatched, h1, h2, h3]
  rw [if_pos rfl, excludeGroup_some t.DependsOnAttribute _ _ (attributeGroupExcludes env t m)
    (ExcludeMatchingAttributes_eq env t m) (dependsOn_eq _ _)]
  cases h4 : (!t.DependsOnAttribute || attributeGroupExcludes env t m)
  · simp [excludeTermMatches, excludeGroupsMatched, h1, h2, h3, h4]
  rw [if_pos rfl, excludeGroup_some t.DependsOnData _ _
    (dataGroupExcludes env t m (t.Required &&& SearchTerm.DataMask))
    (ExcludeMatchingData_eq env t m) (dependsOn_eq _ _)]
  cases h5 : (!t.DependsOnData || dataGroupExcludes env t m (t.Required &&& SearchTerm.DataMask))
  · simp [excludeTermMatches, excludeGroupsMatched, h1, h2, h3, h4, h5]
  have hall : excludeTermMatches env t m = true := by
    simp [excludeTermMatches, excludeGroupsMatched, h1, h2, h3, h4, h5]
  simp only [if_pos rfl, hall, true_and, groupCriteria]
  by_cases hc : matched ||| t.Required &&& SearchTerm.NameMask ||| t.Required &&& SearchTerm.PathMask
      ||| t.Required &&& SearchTerm.DataNameOrSizeMask ||| t.Required &&& SearchTerm.AttributeMask
      ||| t.Required &&& SearchTerm.DataMask = t.Required
  · simp [hc]
  · simp [hc]

/-! ### Which test sets which criterion -/

/-- Where a bit of the running value of a chain of `matched |= aSpec` steps
comes from: the value before the step, or the criterion of the step. -/
theorem step_orInto_bit (cond : Bool) (aSpec : Nat) (o : Option Nat) (k w : Nat)
    (h : step cond aSpec orInto o = some w) (hb : w.testBit k = true) :
    (∃ w', o = some w' ∧ w'.testBit k = true) ∨ (cond = true ∧ aSpec.testBit k = true) := by
  cases o with
  | none => simp at h
  | some m =>
    rw [step_some] at h
    split_ifs at h with hc ha
    · simp only [Option.some.injEq] at h
      subst h
      simp only [orInto, Nat.testBit_or, Bool.or_eq_true] at hb
      rcases hb with hb | hb
      · exact Or.inl ⟨m, rfl, hb⟩
      · exact Or.inr ⟨hc, hb⟩
    · simp only [Option.some.injEq] at h
      subst h
      exact Or.inl ⟨m, rfl, hb⟩

theorem getD_bit (o : Option Nat) (k : Nat) (h : (o.getD NONE).testBit k = true) :
    ∃ w, o = some w ∧ w.testBit k = true := by
  cases o with
  | none => simp at h
  | some w => exact ⟨w, rfl, h⟩

theorem ExactName_bit (t : SearchTerm) (n : FILE_NAME) (k : Nat)
    (h : (ExactName t n).testBit k = true) :
    k = 1 ∧ equalCaseInsensitive t.FileName n.FileName = true := by
  unfold ExactName at h
  split_ifs at h with h1 h2 h3 <;> simp at h
  exact ⟨h.symm, h3⟩

theorem MatchName_bit (env : Env) (t : SearchTerm) (n : FILE_NAME) (k : Nat)
    (h : (MatchName env t n).testBit k = true) : k = 2 := by
  unfold MatchName at h
  split_ifs at h <;> simp at h
  exact h.symm

theorem RegexName_bit (env : Env) (t : SearchTerm) (n : FILE_NAME) (k : Nat)
    (h : (RegexName env t n).testBit k = true) : k = 3 := by
  unfold RegexName at h
  split_ifs at h <;> simp at h
  exact h.symm

/-- A name that carries the name criteria of a term requiring `NAME_EXACT` has
the term's file name, case aside. -/
theorem MatchNameInLocation_exact (env : Env) (t : SearchTerm) (n : FILE_NAME)
    (h : (MatchNameInLocation env t n).testBit 1 = true) :
    equalCaseInsensitive t.FileName n.FileName = true := by
  unfold MatchNameInLocation at h
  split_ifs at h with hl
  · simp at h
  · obtain ⟨w, hw, hb⟩ := getD_bit _ _ h
    rcases step_orInto_bit _ _ _ _ _ hw hb with ⟨w2, hw2, hb2⟩ | ⟨-, hb2⟩
    · rcases step_orInto_bit _ _ _ _ _ hw2 hb2 with ⟨w3, hw3, hb3⟩ | ⟨-, hb3⟩
      · rcases step_orInto_bit _ _ _ _ _ hw3 hb3 with ⟨w4, hw4, hb4⟩ | ⟨-, hb4⟩
        · simp only [Option.some.injEq] at hw4
          subst hw4
          simp at hb4
        · exact (ExactName_bit t n 1 hb4).2
      · exact absurd (MatchName_bit env t n 1 hb3) (by decide)
    · exact absurd (RegexName_bit env t n 1 hb2) (by decide)

theorem skipDrive_of_backslash (s : WString) (hs : s.head? = some '\\') :
    skipDrive s = none ∨ skipDrive s = some s := by
  unfold skipDrive
  cases s with
  | nil => simp at hs
  | cons c rest =>
    simp only [List.head?_cons, Option.some.injEq] at hs
    subst hs
    by_cases hlen : ('\\' :: rest).length < 4
    · left
      rw [if_pos hlen]
    · right
      rw [if_neg hlen]
      have h1 : ¬ ('A' < '\\' ∧ '\\' < 'Z') := by decide
      have h2 : ¬ ('a' < '\\' ∧ '\\' < 'z') := by decide
      simp [h1, h2]

theorem ExactPath_bit (t : SearchTerm) (s : WString) (k : Nat)
    (h : (ExactPath t s).testBit k = true) :
    k = 4 ∧ ∃ p, skipDrive s = some p ∧ equalCaseInsensitive t.Path p = true := by
  unfold ExactPath at h
  split_ifs at h with h1
  · cases hs : skipDrive s with
    | none => simp [hs] at h
    | some p =>
      simp only [hs] at h
      split_ifs at h with h2
      · simp at h
        exact ⟨h.symm, p, rfl, h2⟩
      · simp at h
  · simp at h

theorem MatchPath_cases (env : Env) (t : SearchTerm) (s : WString) :
    MatchPath env t s = NONE ∨ MatchPath env t s = PATH_MATCH := by
  unfold MatchPath
  cases skipDrive s <;> simp only [] <;> split_ifs <;> simp

theorem RegexPath_cases (env : Env) (t : SearchTerm) (s : WString) :
    RegexPath env t s = NONE ∨ RegexPath env t s = PATH_REGEX := by
  unfold RegexPath
  cases skipDrive s <;> simp only [] <;> split_ifs <;> simp

theorem MatchPath_bit (env : Env) (t : SearchTerm) (s : WString) (k : Nat)
    (h : (MatchPath env t s).testBit k = true) : k = 5 := by
  rcases MatchPath_cases env t s with h0 | h0 <;> rw [h0] at h <;> simp at h
  exact h.symm

theorem RegexPath_bit (env : Env) (t : SearchTerm) (s : WString) (k : Nat)
    (h : (RegexPath env t s).testBit k = true) : k = 6 := by
  rcases RegexPath_cases env t s with h0 | h0 <;> rw [h0] at h <;> simp at h
  exact h.symm

/-- A name that carries the path criteria of a term requiring `PATH_EXACT` has
a full path that is the term's path, case aside, when full paths start with a
backslash. -/
theorem MatchPathOfNameMatch_exact (env : Env) (t : SearchTerm) (n : NameMatch)
    (hp : n.FullPathName ≠ [] → n.FullPathName.head? = some '\\')
    (h : (MatchPathOfNameMatch env t n).testBit 4 = true) :
    equalCaseInsensitive t.Path n.FullPathName = true := by
  unfold MatchPathOfNameMatch at h
  split_ifs at h with hne
  · have hne2 : n.FullPathName ≠ [] := by
      intro h0
      rw [h0] at hne
      simp at hne
    unfold pathTests at h
    obtain ⟨w, hw, hb⟩ := getD_bit _ _ h
    rcases step_orInto_bit _ _ _ _ _ hw hb with ⟨w2, hw2, hb2⟩ | ⟨-, hb2⟩
    · rcases step_orInto_bit _ _ _ _ _ hw2 hb2 with ⟨w3, hw3, hb3⟩ | ⟨-, hb3⟩
      · rcases step_orInto_bit _ _ _ _ _ hw3 hb3 with ⟨w4, hw4, hb4⟩ | ⟨-, hb4⟩
        · simp only [Option.some.injEq] at hw4
          subst hw4
          simp at hb4
        · obtain ⟨-, p, hs, he⟩ := ExactPath_bit t _ 4 hb4
          rcases skipDrive_of_backslash _ (hp hne2) with hs' | hs'
          · rw [hs'] at hs; cases hs
          · rw [hs'] at hs
            simp only [Option.some.injEq] at hs
            subst hs
            exact he
      · exact absurd (MatchPath_bit env t _ 4 hb3) (by decide)
    · exact absurd (RegexPath_bit env t _ 4 hb2) (by decide)
  · simp at h

theorem SizeMatch_bit_eq (t : SearchTerm) (s : Nat) (h : (SizeMatch t s).testBit 19 = true) :
    s = t.SizeEQ := by
  unfold SizeMatch at h
  split_ifs at h <;> simp [Nat.testBit_or] at h
  first | assumption | simp_all

theorem ExactADS_bit (t : SearchTerm) (s : WString) (k : Nat)
    (h : (ExactADS t s).testBit k = true) : k = 8 := by
  unfold ExactADS at h
  split_ifs at h <;> simp at h
  exact h.symm

theorem MatchADS_bit (env : Env) (t : SearchTerm) (s : WString) (k : Nat)
    (h : (MatchADS env t s).testBit k = true) : k = 9 := by
  unfold MatchADS at h
  split_ifs at h <;> simp at h
  exact h.symm

theorem RegexADS_bit (env : Env) (t : SearchTerm) (s : WString) (k : Nat)
    (h : (RegexADS env t s).testBit k = true) : k = 10 := by
  unfold RegexADS at h
  split_ifs at h <;> simp at h
  exact h.symm

/-- An attribute that carries the stream name and size criteria of a term
requiring `SIZE_EQ` has the size the term asks for. -/
theorem excludeDataNameAndSizeOf_eq (env : Env) (t : SearchTerm) (req : Nat)
    (a : AttributeMatch) (w : Nat) (h : excludeDataNameAndSizeOf env t req a = some w)
    (hb : w.testBit 19 = true) : a.DataSize = t.SizeEQ := by
  unfold excludeDataNameAndSizeOf at h
  split_ifs at h with hty
  rcases step_orInto_bit _ _ _ _ _ h hb with ⟨w2, hw2, hb2⟩ | ⟨-, hb2⟩
  · rcases step_orInto_bit _ _ _ _ _ hw2 hb2 with ⟨w3, hw3, hb3⟩ | ⟨-, hb3⟩
    · rcases step_orInto_bit _ _ _ _ _ hw3 hb3 with ⟨w4, hw4, hb4⟩ | ⟨-, hb4⟩
      · rcases step_orInto_bit _ _ _ _ _ hw4 hb4 with ⟨w5, hw5, hb5⟩ | ⟨-, hb5⟩
        · simp only [Option.some.injEq] at hw5
          subst hw5
          simp at hb5
        · exact SizeMatch_bit_eq t _ hb5
      · exact absurd (ExactADS_bit t _ 19 hb4) (by decide)
    · exact absurd (MatchADS_bit env t _ 19 hb3) (by decide)
  · exact absurd (RegexADS_bit env t _ 19 hb2) (by decide)

theorem MatchHeader_bit (t : SearchTerm) (d : MftRecordAttribute) (k : Nat)
    (h : (MatchHeader t d).testBit k = true) : k = 27 := by
  unfold MatchHeader at h
  split_ifs at h with h1
  · cases hr : readHeader t d with
    | none => simp [hr] at h
    | some b =>
      simp only [hr] at h
      split_ifs at h <;> simp at h
      exact h.symm
  · simp at h

theorem HexHeader_bit (t : SearchTerm) (d : MftRecordAttribute) (k : Nat)
    (h : (HexHeader t d).testBit k = true) : k = 29 := by
  unfold HexHeader at h
  split_ifs at h with h1
  · cases hr : readHeader t d with
    | none => simp [hr] at h
    | some b =>
      simp only [hr] at h
      split_ifs at h <;> simp at h
      exact h.symm
  · simp at h

theorem RegExHeader_bit (env : Env) (t : SearchTerm) (d : MftRecordAttribute) (k : Nat)
    (h : (RegExHeader env t d).testBit k = true) : k = 28 := by
  unfold RegExHeader at h
  split_ifs at h with h1
  · cases hr : readHeader t d with
    | none => simp [hr] at h
    | some b =>
      simp only [hr] at h
      split_ifs at h <;> simp at h
      exact h.symm
  · simp at h

theorem MatchHash_bit (t : SearchTerm) (d : MftRecordAttribute) (k : Nat)
    (h : (MatchHash t d).testBit k = true) : k = 24 ∨ k = 25 ∨ k = 26 := by
  unfold MatchHash at h
  split_ifs at h with h1
  · cases hh : d.Hashes with
    | none => simp [hh] at h
    | some v =>
      obtain ⟨md5, sha1, sha256⟩ := v
      simp only [hh] at h
      obtain ⟨w, hw, hb⟩ := getD_bit _ _ h
      rcases step_orInto_bit _ _ _ _ _ hw hb with ⟨w2, hw2, hb2⟩ | ⟨-, hb2⟩
      · rcases step_orInto_bit _ _ _ _ _ hw2 hb2 with ⟨w3, hw3, hb3⟩ | ⟨-, hb3⟩
        · rcases step_orInto_bit _ _ _ _ _ hw3 hb3 with ⟨w4, hw4, hb4⟩ | ⟨-, hb4⟩
          · simp only [Option.some.injEq] at hw4
            subst hw4
            simp at hb4
          · split_ifs at hb4 <;> simp at hb4
            exact Or.inl hb4.symm
        · split_ifs at hb3 <;> simp at hb3
          exact Or.inr (Or.inl hb3.symm)
      · split_ifs at hb2 <;> simp at hb2
        exact Or.inr (Or.inr hb2.symm)
  · simp at h

theorem MatchContains_bit (t : SearchTerm) (d : MftRecordAttribute) (k : Nat)
    (h : (MatchContains t d).testBit k = true) : k = 30 := by
  unfold MatchContains at h
  split_ifs at h with h1
  · cases hs : d.Stream with
    | none => simp [hs] at h
    | some c =>
      simp only [hs] at h
      split_ifs at h <;> simp [Nat.testBit_or, Nat.testBit_and] at h
      exact h.1.symm
  · simp at h

/-- The tests of `ExcludeMatchingData` never yield the Yara criterion. -/
theorem dataContentOf_no_yara (env : Env) (t : SearchTerm) (req : Nat)
    (d : MftRecordAttribute) (w : Nat) (h : dataContentOf env t req d = some w) :
    w.testBit 31 = false := by
  by_contra hcon
  have hb : w.testBit 31 = true := by simpa using hcon
  unfold dataContentOf at h
  rcases step_orInto_bit _ _ _ _ _ h hb with ⟨w2, hw2, hb2⟩ | ⟨-, hb2⟩
  · rcases step_orInto_bit _ _ _ _ _ hw2 hb2 with ⟨w3, hw3, hb3⟩ | ⟨-, hb3⟩
    · rcases step_orInto_bit _ _ _ _ _ hw3 hb3 with ⟨w4, hw4, hb4⟩ | ⟨-, hb4⟩
      · rcases step_orInto_bit _ _ _ _ _ hw4 hb4 with ⟨w5, hw5, hb5⟩ | ⟨-, hb5⟩
        · rcases step_orInto_bit _ _ _ _ _ hw5 hb5 with ⟨w6, hw6, hb6⟩ | ⟨-, hb6⟩
          · simp only [Option.some.injEq] at hw6
            subst hw6
            simp at hb6
          · exact absurd (MatchHeader_bit t d 31 hb6) (by decide)
        · exact absurd (HexHeader_bit t d 31 hb5) (by decide)
      · exact absurd (RegExHeader_bit env t d 31 hb4) (by decide)
    · rcases MatchHash_bit t d 31 hb3 with h | h | h <;> exact absurd h (by decide)
  · exact absurd (MatchContains_bit t d 31 hb2) (by decide)

/-- A term that matches a match matches it when its Yara criterion is
disregarded. -/
theorem excludeTermMatches_butYara (env : Env) (t : SearchTerm) (m : Match)
    (h : excludeTermMatches env t m = true) : excludeTermMatchesButYara env t m = true := by
  unfold excludeTermMatches excludeGroupsMatched at h
  unfold excludeTermMatchesButYara excludeGroupsMatched
  simp only [Bool.and_eq_true] at h ⊢
  obtain ⟨⟨⟨⟨g1, g2⟩, g3⟩, g4⟩, g5⟩ := h
  refine ⟨⟨⟨⟨g1, g2⟩, g3⟩, g4⟩, ?_⟩
  simp only [Bool.or_eq_true, Bool.not_eq_true'] at g5 ⊢
  rcases g5 with g | g
  · exact Or.inl g
  · right
    simp only [dataGroupExcludes, List.any_eq_true, beq_iff_eq] at g ⊢
    obtain ⟨a, ha, he⟩ := g
    refine ⟨a, ha, ?_⟩
    rw [he]
    have hno : (t.Required &&& SearchTerm.DataMask).testBit 31 = false := by
      unfold excludeDataOf at he
      split_ifs at he
      cases hd : a.DataAttr with
      | none => simp [hd] at he
      | some d =>
        simp only [hd] at he
        exact dataContentOf_no_yara env t _ d _ he
    congr 1
    apply Nat.eq_of_testBit_eq
    intro i
    rw [testBit_clear, testBit_flag]
    by_cases hi : 31 = i
    · subst hi
      simp [hno]
    · simp [hi]

/-! ### `ExcludeMatch` and `EvaluateMatchCallCallback` -/

/-- `AddTerm` leaves the exclusion containers as they are. -/
theorem AddTerm_exclude (ff : FileFind) (t : SearchTerm) :
    (AddTerm ff t).2.1.m_ExcludeNameTerms = ff.m_ExcludeNameTerms
    ∧ (AddTerm ff t).2.1.m_ExcludePathTerms = ff.m_ExcludePathTerms
    ∧ (AddTerm ff t).2.1.m_ExcludeSizeTerms = ff.m_ExcludeSizeTerms := by
  simp only [AddTerm]
  cases hs : (place t).slots with
  | none => simp
  | some si =>
    obtain ⟨s, i⟩ := si
    cases s <;> cases i <;> simp [store]

theorem AddTerm_excludeFiled (ff : FileFind) (t : SearchTerm) (h : ExcludeFiled ff) :
    ExcludeFiled (AddTerm ff t).2.1 := by
  obtain ⟨h1, h2, h3⟩ := AddTerm_exclude ff t
  exact ⟨by rw [h1]; exact h.names, by rw [h2]; exact h.paths, by rw [h3]; exact h.sizes⟩

theorem AddTerms_excludeFiled (ff : FileFind) (terms : List SearchTerm) (h : ExcludeFiled ff) :
    ExcludeFiled (AddTerms ff terms) := by
  unfold AddTerms AddTermsAccepted
  generalize hp : ((ff, []) : FileFind × List SearchTerm) = p
  have h2 : ExcludeFiled p.1 := by rw [← hp]; exact h
  clear hp h
  induction terms generalizing p with
  | nil => simpa using h2
  | cons t ts ih =>
    simp only [List.foldl_cons]
    apply ih
    exact AddTerm_excludeFiled _ t h2

/-- One `AddExcludeTerm` call keeps the exclusion indexes keyed as filed. -/
theorem AddExcludeTerm_excludeFiled (ff : FileFind) (t : SearchTerm) (h : ExcludeFiled ff) :
    ExcludeFiled (AddExcludeTerm ff t).2.1 := by
  have hp := place_slots t
  simp only [AddExcludeTerm]
  cases hs : (place t).slots with
  | none => simpa using h
  | some si =>
    obtain ⟨s, i⟩ := si
    simp only [hs] at hp
    obtain ⟨-, hag⟩ := hp
    cases s with
    | exactName k =>
      refine ⟨?_, h.paths, h.sizes⟩
      intro e he
      simp only [storeExclude, TermMap.emplace, List.mem_append, List.mem_singleton] at he
      rcases he with he | he
      · exact h.names e he
      · subst he; exact hag
    | exactPath k =>
      refine ⟨h.names, ?_, h.sizes⟩
      intro e he
      simp only [storeExclude, TermMap.emplace, List.mem_append, List.mem_singleton] at he
      rcases he with he | he
      · exact h.paths e he
      · subst he; exact hag
    | size k =>
      refine ⟨h.names, h.paths, ?_⟩
      intro e he
      simp only [storeExclude, TermMap.emplace, List.mem_append, List.mem_singleton] at he
      rcases he with he | he
      · exact h.sizes e he
      · subst he; exact hag
    | general => exact ⟨h.names, h.paths, h.sizes⟩

theorem AddExcludeTerms_excludeFiled (ff : FileFind) (terms : List SearchTerm)
    (h : ExcludeFiled ff) : ExcludeFiled (AddExcludeTerms ff terms) := by
  unfold AddExcludeTerms
  induction terms generalizing ff with
  | nil => simpa using h
  | cons t ts ih =>
    simp only [List.foldl_cons]
    exact ih _ (AddExcludeTerm_excludeFiled ff t h)

/-- An engine set up by `AddTerm` and `AddExcludeTerm` calls has its exclusion
indexes keyed as filed. -/
theorem configured_excludeFiled (includes excludes : List SearchTerm) :
    ExcludeFiled (configured includes excludes) := by
  unfold configured
  apply AddExcludeTerms_excludeFiled
  apply AddTerms_excludeFiled
  exact ⟨by simp, by simp, by simp⟩

theorem mem_equal_range {κ : Type} (keyEq : κ → κ → Bool) (m : TermMap κ) (k : κ)
    (t : SearchTerm) :
    t ∈ TermMap.equal_range keyEq m k ↔ ∃ e ∈ m, keyEq e.1 k = true ∧ e.2 = t := by
  simp only [TermMap.equal_range, List.mem_map, List.mem_filter]
  constructor
  · rintro ⟨e, ⟨h1, h2⟩, h3⟩
    exact ⟨e, h1, h2, h3⟩
  · rintro ⟨e, h1, h2, h3⟩
    exact ⟨e, ⟨h1, h2⟩, h3⟩

theorem Lookup_exclude_matches (env : Env) (t : SearchTerm) (k : Nat) (m : Match)
    (h : (LookupTermInMatchExcludeMatching env t k m != NONE) = true) :
    excludeTermMatches env t m = true := by
  rw [LookupTermInMatchExcludeMatching_eq] at h
  split_ifs at h with hc
  · exact hc.1
  · simp at h

theorem Lookup_exclude_of_matches (env : Env) (t : SearchTerm) (k : Nat) (m : Match)
    (hm : excludeTermMatches env t m = true) (hg : groupCriteria t k = t.Required)
    (hne : t.Required ≠ NONE) :
    (LookupTermInMatchExcludeMatching env t k m != NONE) = true := by
  rw [LookupTermInMatchExcludeMatching_eq, if_pos ⟨hm, hg⟩]
  simpa using hne

theorem groupCriteria_flag (t : SearchTerm) (b : Nat) (hg : onlyGroupCriteria t)
    (hb : t.Required.testBit b = true) : groupCriteria t (flag b) = t.Required := by
  unfold onlyGroupCriteria groupCriteria at hg
  unfold groupCriteria
  apply Nat.eq_of_testBit_eq
  intro i
  have hi := congrArg (fun x => x.testBit i) hg
  simp only [Nat.testBit_or, NONE, Nat.zero_testBit, Bool.false_or] at hi
  simp only [Nat.testBit_or, testBit_flag, Bool.or_assoc] at hi ⊢
  by_cases hbi : b = i
  · subst hbi
    simp [hb]
  · simpa [hbi] using hi

theorem mem_stored_names (ff : FileFind) (e : WString × SearchTerm)
    (he : e ∈ ff.m_ExcludeNameTerms) : e.2 ∈ storedExcludeTerms ff := by
  simp only [storedExcludeTerms, List.mem_append, List.mem_map]
  exact Or.inl (Or.inl (Or.inl ⟨e, he, rfl⟩))

theorem mem_stored_paths (ff : FileFind) (e : WString × SearchTerm)
    (he : e ∈ ff.m_ExcludePathTerms) : e.2 ∈ storedExcludeTerms ff := by
  simp only [storedExcludeTerms, List.mem_append, List.mem_map]
  exact Or.inl (Or.inl (Or.inr ⟨e, he, rfl⟩))

theorem mem_stored_sizes (ff : FileFind) (e : Nat × SearchTerm)
    (he : e ∈ ff.m_ExcludeSizeTerms) : e.2 ∈ storedExcludeTerms ff := by
  simp only [storedExcludeTerms, List.mem_append, List.mem_map]
  exact Or.inl (Or.inr ⟨e, he, rfl⟩)

theorem mem_stored_terms (ff : FileFind) (t : SearchTerm)
    (he : t ∈ ff.m_ExcludeTerms) : t ∈ storedExcludeTerms ff := by
  simp only [storedExcludeTerms, List.mem_append, List.mem_map]
  exact Or.inr he

theorem mem_stored_cases (ff : FileFind) (t : SearchTerm) (h : t ∈ storedExcludeTerms ff) :
    (∃ k, (k, t) ∈ ff.m_ExcludeNameTerms) ∨ (∃ k, (k, t) ∈ ff.m_ExcludePathTerms)
      ∨ (∃ k, (k, t) ∈ ff.m_ExcludeSizeTerms) ∨ t ∈ ff.m_ExcludeTerms := by
  simp only [storedExcludeTerms, List.mem_append, List.mem_map] at h
  rcases h with ((⟨e, he, rfl⟩ | ⟨e, he, rfl⟩) | ⟨e, he, rfl⟩) | h
  · exact Or.inl ⟨e.1, he⟩
  · exact Or.inr (Or.inl ⟨e.1, he⟩)
  · exact Or.inr (Or.inr (Or.inl ⟨e.1, he⟩))
  · exact Or.inr (Or.inr (Or.inr h))

theorem excludedByNameOrPath_sound (env : Env) (ff : FileFind) (m : Match)
    (h : excludedByNameOrPath env ff m = true) :
    ∃ t ∈ storedExcludeTerms ff, excludeTermMatches env t m = true := by
  unfold excludedByNameOrPath at h
  split_ifs at h with hc
  rw [List.any_eq_true] at h
  obtain ⟨n, -, hor⟩ := h
  rw [Bool.or_eq_true] at hor
  rcases hor with ha | ha
  · rw [Bool.and_eq_true, List.any_eq_true] at ha
    obtain ⟨-, t, ht, hl⟩ := ha
    obtain ⟨e, he, -, rfl⟩ := (mem_equal_range _ _ _ _).1 ht
    exact ⟨e.2, mem_stored_names ff e he, Lookup_exclude_matches env _ _ m hl⟩
  · rw [Bool.and_eq_true, List.any_eq_true] at ha
    obtain ⟨-, t, ht, hl⟩ := ha
    obtain ⟨e, he, -, rfl⟩ := (mem_equal_range _ _ _ _).1 ht
    exact ⟨e.2, mem_stored_paths ff e he, Lookup_exclude_matches env _ _ m hl⟩

theorem excludedBySize_sound (env : Env) (ff : FileFind) (m : Match)
    (h : excludedBySize env ff m = true) :
    ∃ t ∈ storedExcludeTerms ff, excludeTermMatches env t m = true := by
  unfold excludedBySize at h
  rw [Bool.and_eq_true, List.any_eq_true] at h
  obtain ⟨-, a, -, ha⟩ := h
  rw [List.any_eq_true] at ha
  obtain ⟨t, ht, hl⟩ := ha
  obtain ⟨e, he, -, rfl⟩ := (mem_equal_range _ _ _ _).1 ht
  exact ⟨e.2, mem_stored_sizes ff e he, Lookup_exclude_matches env _ _ m hl⟩

theorem excludedByTerms_sound (env : Env) (ff : FileFind) (m : Match)
    (h : excludedByTerms env ff m = true) :
    ∃ t ∈ storedExcludeTerms ff, excludeTermMatches env t m = true := by
  unfold excludedByTerms at h
  rw [List.any_eq_true] at h
  obtain ⟨t, ht, hl⟩ := h
  exact ⟨t, mem_stored_terms ff t ht, Lookup_exclude_matches env _ _ m hl⟩

/-- `ExcludeMatch` returns `S_OK` or `S_FALSE`. -/
theorem ExcludeMatch_cases (env : Env) (ff : FileFind) (m : Match) :
    ExcludeMatch env ff m = S_OK ∨ ExcludeMatch env ff m = S_FALSE := by
  unfold ExcludeMatch
  split_ifs <;> simp

/-- A match that `ExcludeMatch` excludes is matched by one of the stored
exclusion terms. -/
theorem ExcludeMatch_sound (env : Env) (ff : FileFind) (m : Match)
    (h : ExcludeMatch env ff m ≠ S_FALSE) :
    ∃ t ∈ storedExcludeTerms ff, excludeTermMatches env t m = true := by
  unfold ExcludeMatch at h
  split_ifs at h with h1 h2 h3
  · exact excludedByNameOrPath_sound env ff m h1
  · exact excludedBySize_sound env ff m h2
  · exact excludedByTerms_sound env ff m h3
  · exact absurd rfl h

theorem requires_bit (t : SearchTerm) (b : Nat) : t.requires (flag b) ↔ t.Required.testBit b = true := by
  simp [SearchTerm.requires]

theorem isEmpty_of_mem {α : Type} (l : List α) (a : α) (h : a ∈ l) : l.isEmpty = false := by
  cases l with
  | nil => simp at h
  | cons b l => rfl

theorem excludedByNameOrPath_of_name (env : Env) (ff : FileFind) (m : Match) (k : WString)
    (t : SearchTerm) (hk : (k, t) ∈ ff.m_ExcludeNameTerms) (n : NameMatch)
    (hn : n ∈ m.MatchingNames) (hkey : nameKeyEq k n.FILENAME.FileName = true)
    (hl : (LookupTermInMatchExcludeMatching env t NAME_EXACT m != NONE) = true) :
    excludedByNameOrPath env ff m = true := by
  have hne := isEmpty_of_mem _ _ hk
  unfold excludedByNameOrPath
  rw [if_pos (by simp [hne]), List.any_eq_true]
  refine ⟨n, hn, ?_⟩
  rw [Bool.or_eq_true]
  left
  rw [Bool.and_eq_true, List.any_eq_true]
  exact ⟨by simp [hne], t, (mem_equal_range _ _ _ _).2 ⟨(k, t), hk, hkey, rfl⟩, hl⟩

theorem excludedByNameOrPath_of_path (env : Env) (ff : FileFind) (m : Match) (k : WString)
    (t : SearchTerm) (hk : (k, t) ∈ ff.m_ExcludePathTerms) (n : NameMatch)
    (hn : n ∈ m.MatchingNames) (hkey : nameKeyEq k n.FullPathName = true)
    (hl : (LookupTermInMatchExcludeMatching env t PATH_EXACT m != NONE) = true) :
    excludedByNameOrPath env ff m = true := by
  have hne := isEmpty_of_mem _ _ hk
  unfold excludedByNameOrPath
  rw [if_pos (by simp [hne]), List.any_eq_true]
  refine ⟨n, hn, ?_⟩
  rw [Bool.or_eq_true]
  right
  rw [Bool.and_eq_true, List.any_eq_true]
  exact ⟨by simp [hne], t, (mem_equal_range _ _ _ _).2 ⟨(k, t), hk, hkey, rfl⟩, hl⟩

theorem excludedBySize_of (env : Env) (ff : FileFind) (m : Match) (k : Nat)
    (t : SearchTerm) (hk : (k, t) ∈ ff.m_ExcludeSizeTerms) (a : AttributeMatch)
    (ha : a ∈ m.MatchingAttributes) (hkey : k = a.DataSize)
    (hl : (LookupTermInMatchExcludeMatching env t SIZE_EQ m != NONE) = true) :
    excludedBySize env ff m = true := by
  have hne := isEmpty_of_mem _ _ hk
  unfold excludedBySize
  rw [Bool.and_eq_true, List.any_eq_true]
  refine ⟨by simp [hne], a, ha, ?_⟩
  rw [List.any_eq_true]
  exact ⟨t, (mem_equal_range _ _ _ _).2 ⟨(k, t), hk, by simp [hkey], rfl⟩, hl⟩

theorem excludedByTerms_of (env : Env) (ff : FileFind) (m : Match)
    (t : SearchTerm) (hk : t ∈ ff.m_ExcludeTerms)
    (hl : (LookupTermInMatchExcludeMatching env t NONE m != NONE) = true) :
    excludedByTerms env ff m = true := by
  unfold excludedByTerms
  rw [List.any_eq_true]
  exact ⟨t, hk, hl⟩

theorem dependsOn_of_bit (r mask b : Nat) (h1 : r.testBit b = true) (h2 : mask.testBit b = true) :
    test r mask = true := (test_eq_true_iff r mask).2 ⟨b, h1, h2⟩

/-- A stored exclusion term that matches the match makes `ExcludeMatch` return
`S_OK`, when its `Required` holds only criteria of the five groups and the
paths of the match start with a backslash. -/
theorem ExcludeMatch_complete (env : Env) (ff : FileFind) (m : Match) (hf : ExcludeFiled ff)
    (hw : pathsFromWalker m) (t : SearchTerm) (ht : t ∈ storedExcludeTerms ff)
    (hne : t.Required ≠ NONE) (hg : onlyGroupCriteria t)
    (hm : excludeTermMatches env t m = true) : ExcludeMatch env ff m = S_OK := by
  have hgm := hm
  unfold excludeTermMatches excludeGroupsMatched at hgm
  simp only [Bool.and_eq_true, Bool.or_eq_true, Bool.not_eq_true'] at hgm
  obtain ⟨⟨⟨⟨g1, g2⟩, g3⟩, g4⟩, g5⟩ := hgm
  unfold ExcludeMatch
  rcases mem_stored_cases ff t ht with ⟨k, hk⟩ | ⟨k, hk⟩ | ⟨k, hk⟩ | hk
  · -- the term is in the name index
    obtain ⟨hreq, hkey⟩ := hf.names _ hk
    have hbit : t.Required.testBit 1 = true := (requires_bit t 1).1 hreq
    have hmask : SearchTerm.NameMask.testBit 1 = true := by
      simp [SearchTerm.NameMask, Nat.testBit_or]
    have hdep : t.DependsOnName = true := dependsOn_of_bit _ _ 1 hbit hmask
    rw [hdep] at g1
    simp only [Bool.true_eq_false, false_or] at g1
    unfold nameGroupExcludes at g1
    rw [List.any_eq_true] at g1
    obtain ⟨n, hn, he⟩ := g1
    have he2 := beq_iff_eq.1 he
    have hb : (MatchNameInLocation env t n.FILENAME).testBit 1 = true := by
      rw [← he2, Nat.testBit_and, hbit, hmask]; rfl
    have hci := MatchNameInLocation_exact env t _ hb
    have hl := Lookup_exclude_of_matches env t NAME_EXACT m hm (groupCriteria_flag t 1 hg hbit) hne
    have hx := excludedByNameOrPath_of_name env ff m k t hk n hn
      (by simp only at hkey; rw [hkey]; exact hci) hl
    rw [if_pos hx]
  · -- the term is in the path index
    obtain ⟨-, hreq, hkey⟩ := hf.paths _ hk
    have hbit : t.Required.testBit 4 = true := (requires_bit t 4).1 hreq
    have hmask : SearchTerm.PathMask.testBit 4 = true := by
      simp [SearchTerm.PathMask, Nat.testBit_or]
    have hdep : t.DependsOnPath = true := dependsOn_of_bit _ _ 4 hbit hmask
    rw [hdep] at g2
    simp only [Bool.true_eq_false, false_or] at g2
    unfold pathGroupExcludes at g2
    rw [List.any_eq_true] at g2
    obtain ⟨n, hn, he⟩ := g2
    have he2 := beq_iff_eq.1 he
    have hb : (MatchPathOfNameMatch env t n).testBit 4 = true := by
      rw [← he2, Nat.testBit_and, hbit, hmask]; rfl
    have hci := MatchPathOfNameMatch_exact env t n (hw n hn) hb
    have hl := Lookup_exclude_of_matches env t PATH_EXACT m hm (groupCriteria_flag t 4 hg hbit) hne
    have hx := excludedByNameOrPath_of_path env ff m k t hk n hn
      (by simp only at hkey; rw [hkey]; exact hci) hl
    rw [if_pos hx]
  · -- the term is in the size index
    obtain ⟨-, -, hreq, hkey⟩ := hf.sizes _ hk
    have hbit : t.Required.testBit 19 = true := (requires_bit t 19).1 hreq
    have hmask : SearchTerm.DataNameOrSizeMask.testBit 19 = true := by
      simp [SearchTerm.DataNameOrSizeMask, Nat.testBit_or]
    have hdep : t.DependsOnDataNameOrSize = true := dependsOn_of_bit _ _ 19 hbit hmask
    rw [hdep] at g3
    simp only [Bool.true_eq_false, false_or] at g3
    unfold dataNameOrSizeGroupExcludes at g3
    rw [List.any_eq_true] at g3
    obtain ⟨a, ha, he⟩ := g3
    have he2 := beq_iff_eq.1 he
    have hsz := excludeDataNameAndSizeOf_eq env t _ a _ he2
      (by rw [Nat.testBit_and, hbit, hmask]; rfl)
    have hl := Lookup_exclude_of_matches env t SIZE_EQ m hm (groupCriteria_flag t 19 hg hbit) hne
    have hx := excludedBySize_of env ff m k t hk a ha
      (by simp only at hkey; rw [hkey, hsz]) hl
    split_ifs <;> rfl
  · have hl := Lookup_exclude_of_matches env t NONE m hm hg hne
    have hx := excludedByTerms_of env ff m t hk hl
    split_ifs <;> rfl

theorem Evaluate_of_not_excluded (env : Env) (ff : FileFind)
    (aCallback : Option FoundMatchCallback) (bStop : Bool) (m : Match)
    (h : ExcludeMatch env ff m = S_FALSE) :
    emitted ff aCallback m (EvaluateMatchCallCallback env ff aCallback bStop m) := by
  unfold EvaluateMatchCallCallback emitted
  simp only [h]
  cases aCallback <;> simp [FAILED, S_FALSE]

theorem Evaluate_of_excluded (env : Env) (ff : FileFind)
    (aCallback : Option FoundMatchCallback) (bStop : Bool) (m : Match)
    (h : ExcludeMatch env ff m = S_OK) :
    notEmitted ff (EvaluateMatchCallCallback env ff aCallback bStop m) := by
  unfold EvaluateMatchCallCallback notEmitted
  simp only [h]
  simp [FAILED, S_FALSE, S_OK]

end Orc

namespace Orc
open Criteria FileFind

/-! ## Exact paths -/

theorem skipDrive_withDrive (drive : Option Char) (p : WString)
    (hp : p.head? = some '\\')
    (hd : ∀ c, drive = some c → ('A' < c ∧ c < 'Z') ∨ ('a' < c ∧ c < 'z'))
    (hlen : 4 ≤ (withDrive drive p).length) :
    skipDrive (withDrive drive p) = some p := by
  cases drive with
  | none =>
    simp only [withDrive] at hlen ⊢
    rcases skipDrive_of_backslash p hp with h | h
    · unfold skipDrive at h
      rw [if_neg (by omega)] at h
      cases p with
      | nil => simp at hp
      | cons c rest =>
        simp only [List.head?_cons, Option.some.injEq] at hp
        subst hp
        have h1 : ¬ ('A' < '\\' ∧ '\\' < 'Z') := by decide
        have h2 : ¬ ('a' < '\\' ∧ '\\' < 'z') := by decide
        simp [h1, h2] at h
    · exact h
  | some c =>
    simp only [withDrive] at hlen ⊢
    unfold skipDrive
    rw [if_neg (by omega)]
    have hc := hd c rfl
    have hb : (('A' < c && c < 'Z') || ('a' < c && c < 'z')) = true := by
      rcases hc with ⟨h1, h2⟩ | ⟨h1, h2⟩
      · simp [h1, h2]
      · simp [h1, h2]
    simp [hb, hp]

/-- C11 (amended): for a term requiring an exact path and a full path of at
least four characters that begins with a backslash, optionally preceded by a
drive letter strictly between `A` and `Z` (in either case) and a colon,
`ExactPath` reports `PATH_EXACT` if and only if the term's `Path` equals the
path without the drive prefix, compared case-insensitively; otherwise it
reports `NONE`. -/
theorem C11_ExactPath_after_drive (t : SearchTerm) (drive : Option Char) (p : WString)
    (hreq : t.requires PATH_EXACT) (hp : p.head? = some '\\')
    (hd : ∀ c, drive = some c → ('A' < c ∧ c < 'Z') ∨ ('a' < c ∧ c < 'z'))
    (hlen : 4 ≤ (withDrive drive p).length) :
    (ExactPath t (withDrive drive p) = PATH_EXACT ↔ equalCaseInsensitive t.Path p = true)
    ∧ (ExactPath t (withDrive drive p) = PATH_EXACT ∨ ExactPath t (withDrive drive p) = NONE) := by
  have hs := skipDrive_withDrive drive p hp hd hlen
  have hr : test t.Required PATH_EXACT = true := hreq
  unfold ExactPath
  rw [if_pos hr, hs]
  simp only []
  by_cases he : equalCaseInsensitive t.Path p = true
  · simp [he]
  · simp only [he, if_false]
    constructor
    · constructor
      · intro h
        exact absurd h (by decide)
      · intro h
        exact absurd h (by simp)
    · exact Or.inr rfl

/-- C11 at the path `c:\Windows\System32` for the term path
`\windows\system32`: the path is reported as an exact match. -/
theorem C11_ExactPath_after_drive_witness :
    ExactPath { Required := PATH_EXACT, Path := "\\windows\\system32".toList }
      (withDrive (some 'c') "\\Windows\\System32".toList) = PATH_EXACT :=
  (C11_ExactPath_after_drive { Required := PATH_EXACT, Path := "\\windows\\system32".toList }
    (some 'c') "\\Windows\\System32".toList (by decide) (by decide)
    (by intro c hc; cases hc; exact Or.inr (by decide)) (by decide)).1.2 (by decide)

/-- C11 as stated fails: the full path `\a` begins with a backslash and the
term's `Path` is `\a`, equal to it, yet `ExactPath` reports `NONE`, since the
path has fewer than four characters. -/
theorem C11_short_path_counterexample :
    shortPathTerm.requires PATH_EXACT
    ∧ ("\\a".toList : WString).head? = some '\\'
    ∧ equalCaseInsensitive shortPathTerm.Path (withDrive none "\\a".toList) = true
    ∧ ExactPath shortPathTerm (withDrive none "\\a".toList) = NONE := by
  refine ⟨by decide, by decide, by decide, by decide⟩

/-! ## Substring search over a stream -/

/-- With a needle as long as the chunk, the bytes carried over are not renewed
after the second read: a stream made of three reads `a`, `b`, `d` is searched
as `a`, then the end of `a` with `b`, then the end of `a` (again) with `d`. -/
theorem MatchContainsLoop_stale_carry (chunk : Nat) (needle a b d : List Nat) (fuel : Nat)
    (hn : needle.length = chunk) (hc : 0 < chunk)
    (ha : a.length = 2 * chunk) (hb : b.length = chunk)
    (hd1 : d ≠ []) (hd2 : d.length ≤ chunk)
    (h1 : ¬ needle <:+: a) (h2 : ¬ needle <:+: a.drop chunk ++ b)
    (h3 : ¬ needle <:+: a.drop chunk ++ d) :
    MatchContainsLoop chunk needle (fuel + 3) (a ++ (b ++ d)) [] = false := by
  have hbd : b ++ d ≠ [] := by simp [hd1]
  have hane : a ≠ [] := by
    intro h
    rw [h] at ha
    simp at ha
    omega
  -- first read
  rw [MatchContainsLoop]
  simp only [List.length_nil, Nat.sub_zero, List.nil_append, hn]
  have e1 : chunk + chunk = a.length := by omega
  rw [e1, List.take_left, List.drop_left]
  have f1 : boyer_moore_found needle a = false := by
    simp [boyer_moore_found, h1]
  rw [f1]
  simp only [Bool.false_eq_true, if_false]
  have g1 : (!(b ++ d).isEmpty && decide (a.length > chunk)) = true := by
    have : (b ++ d).isEmpty = false := by
      cases hx : b ++ d with
      | nil => exact absurd hx hbd
      | cons _ _ => rfl
    simp [this]
    omega
  have g1' : (!(b ++ d).isEmpty) = true := by
    have : (b ++ d).isEmpty = false := by
      cases hx : b ++ d with
      | nil => exact absurd hx hbd
      | cons _ _ => rfl
    simp [this]
  rw [if_pos g1, if_pos g1']
  have e2 : a.length - chunk = chunk := by omega
  rw [e2]
  -- second read
  rw [MatchContainsLoop]
  have hl : (List.drop chunk a).length = chunk := by simp [ha]; omega
  simp only [hl, hn]
  have e3 : chunk + chunk - chunk = b.length := by omega
  rw [e3, List.take_left, List.drop_left]
  have f2 : boyer_moore_found needle (List.drop chunk a ++ b) = false := by
    simp [boyer_moore_found, h2]
  rw [f2]
  simp only [Bool.false_eq_true, if_false]
  have g2 : (!d.isEmpty && decide (b.length > chunk)) = false := by
    simp [hb]
  have g2' : (!d.isEmpty) = true := by
    cases d with
    | nil => exact absurd rfl hd1
    | cons _ _ => rfl
  rw [g2, g2']
  simp only [Bool.false_eq_true, if_false, if_true]
  -- third read
  rw [MatchContainsLoop]
  simp only [hl, hn]
  have e4 : chunk + chunk - chunk = chunk := by omega
  rw [e4, List.take_of_length_le hd2, List.drop_of_length_le hd2]
  have f3 : boyer_moore_found needle (List.drop chunk a ++ d) = false := by
    simp [boyer_moore_found, h3]
  rw [f3]
  simp

/-- An occurrence of the needle in `x ++ y` lies in `x` or in the last
`needle.length` elements of `x` followed by `y`. -/
theorem infix_append_overlap (needle x y : List Nat) (hx : needle.length ≤ x.length)
    (hnot : ¬ needle <:+: x) :
    needle <:+: x ++ y ↔ needle <:+: x.drop (x.length - needle.length) ++ y := by
  constructor
  · rintro ⟨s, t, hst⟩
    by_cases hle : s.length + needle.length ≤ x.length
    · exfalso
      apply hnot
      have h1 : (s ++ needle) = (x ++ y).take (s.length + needle.length) := by
        rw [← hst, List.append_assoc s needle t, ← List.append_assoc s needle t]
        rw [List.take_left' (by simp)]
      rw [List.take_append_of_le_length hle] at h1
      refine ⟨s, x.drop (s.length + needle.length), ?_⟩
      rw [h1, List.take_append_drop]
    · have hm : x.length - needle.length ≤ s.length := by omega
      refine ⟨s.drop (x.length - needle.length), t, ?_⟩
      have h2 := congrArg (List.drop (x.length - needle.length)) hst
      rw [List.drop_append_of_le_length (by omega : x.length - needle.length ≤ x.length)] at h2
      rw [← h2, List.append_assoc, List.append_assoc,
        List.drop_append_of_le_length hm]
  · intro h
    have hsuf : x.drop (x.length - needle.length) ++ y <:+ x ++ y := by
      refine ⟨x.take (x.length - needle.length), ?_⟩
      rw [← List.append_assoc, List.take_append_drop]
    exact h.trans hsuf.isInfix

/-- For a needle shorter than the chunk, the loop of `MatchContains` finds the
needle exactly when it occurs in the bytes carried over followed by the rest of
the stream. -/
theorem MatchContainsLoop_iff (chunk : Nat) (needle : List Nat) (hn : needle ≠ [])
    (hlt : needle.length < chunk) :
    ∀ (fuel : Nat) (rest carried : List Nat), rest.length < fuel →
      (carried = [] ∨ carried.length = needle.length) →
      (MatchContainsLoop chunk needle fuel rest carried = true
        ↔ needle <:+: carried ++ rest) := by
  intro fuel
  induction fuel with
  | zero => intro rest carried h; omega
  | succ fuel ih =>
    intro rest carried hfuel hcar
    have hcl : carried.length ≤ needle.length := by
      rcases hcar with h | h
      · simp [h]
      · omega
    rw [MatchContainsLoop]
    simp only []
    by_cases hin : needle <:+: carried ++ rest.take (chunk + needle.length - carried.length)
    · have hne : (carried ++ rest.take (chunk + needle.length - carried.length)) ≠ [] := by
        intro h0
        rw [h0] at hin
        exact hn (List.eq_nil_of_infix_nil hin)
      have hbm : boyer_moore_found needle
          (carried ++ rest.take (chunk + needle.length - carried.length)) = true := by
        unfold boyer_moore_found
        cases hx : carried ++ rest.take (chunk + needle.length - carried.length) with
        | nil => exact absurd hx hne
        | cons a l =>
          rw [hx] at hin
          simp [hin]
      rw [if_pos hbm]
      simp only [true_iff]
      refine hin.trans (List.IsPrefix.isInfix ?_)
      exact (List.prefix_append_right_inj carried).2 (List.take_prefix _ _)
    · have hbm : boyer_moore_found needle
          (carried ++ rest.take (chunk + needle.length - carried.length)) = false := by
        unfold boyer_moore_found
        simp [hin]
      rw [hbm]
      simp only [Bool.false_eq_true, if_false]
      by_cases hrest : rest.drop (chunk + needle.length - carried.length) = []
      · simp only [hrest, List.isEmpty_nil, Bool.not_true, Bool.false_and, Bool.false_eq_true,
          if_false, false_iff]
        have hk : rest.length ≤ chunk + needle.length - carried.length :=
          List.drop_eq_nil_iff.1 hrest
        rw [List.take_of_length_le hk] at hin
        exact hin
      · have hk : chunk + needle.length - carried.length < rest.length := by
          by_contra hge
          exact hrest (List.drop_eq_nil_iff.2 (by omega))
        have hre : (rest.drop (chunk + needle.length - carried.length)).isEmpty = false := by
          cases hx : rest.drop (chunk + needle.length - carried.length) with
          | nil => exact absurd hx hrest
          | cons _ _ => rfl
        have hlen : (rest.take (chunk + needle.length - carried.length)).length
            = chunk + needle.length - carried.length := by
          rw [List.length_take]
          omega
        have hgt : (rest.take (chunk + needle.length - carried.length)).length
            > needle.length := by
          rw [hlen]; omega
        simp only [hre, Bool.not_false, Bool.true_and, decide_eq_true_eq, hgt, if_true]
        rw [ih _ _ (by rw [List.length_drop]; omega)
          (Or.inr (by rw [List.length_drop, hlen]; omega))]
        have hx : needle.length
            ≤ (carried ++ rest.take (chunk + needle.length - carried.length)).length := by
          rw [List.length_append, hlen]; omega
        have key := infix_append_overlap needle
          (carried ++ rest.take (chunk + needle.length - carried.length))
          (rest.drop (chunk + needle.length - carried.length)) hx hin
        rw [List.append_assoc, List.take_append_drop] at key
        rw [key]
        have hd : (carried ++ rest.take (chunk + needle.length - carried.length)).drop
            ((carried ++ rest.take (chunk + needle.length - carried.length)).length
              - needle.length)
            = (rest.take (chunk + needle.length - carried.length)).drop
                ((rest.take (chunk + needle.length - carried.length)).length
                  - needle.length) := by
          rw [List.length_append, List.drop_append_eq_append_drop]
          have h0 : List.drop (carried.length
              + (rest.take (chunk + needle.length - carried.length)).length - needle.length)
              carried = [] := List.drop_eq_nil_iff.2 (by rw [hlen]; omega)
          rw [h0, List.nil_append]
          congr 1
          rw [hlen]
          omega
        rw [hd]

/-- For a search string that is not empty and shorter than 4 MiB, and a stream
whose reads return all requested bytes until its end, `MatchContains` returns
`CONTAINS` if and only if the string occurs as a contiguous run of bytes of the
stream. -/
theorem MatchContains_iff_infix (t : SearchTerm) (d : MftRecordAttribute) (content : List Nat)
    (hreq : t.requires CONTAINS) (hs : d.Stream = some content) (hn : t.Contains ≠ [])
    (hlt : t.Contains.length < 4 * 1024 * 1024) :
    (MatchContains t d = CONTAINS ↔ t.Contains <:+: content)
    ∧ (MatchContains t d = CONTAINS ∨ MatchContains t d = NONE) := by
  have hr : test t.Required CONTAINS = true := hreq
  have hand : CONTAINS &&& t.Required = CONTAINS := by
    have hb : t.Required.testBit 30 = true := (test_flag t.Required 30).symm.trans hr
    apply Nat.eq_of_testBit_eq
    intro i
    rw [Nat.testBit_and]
    have hc : CONTAINS.testBit i = decide (30 = i) := testBit_flag 30 i
    by_cases hi : 30 = i
    · subst hi; simp [hb, hc]
    · simp [hi, hc]
  have key := MatchContainsLoop_iff (4 * 1024 * 1024) t.Contains hn hlt
    (content.length + 1) content [] (by omega) (Or.inl rfl)
  rw [List.nil_append] at key
  unfold MatchContains
  rw [if_pos hr, hs]
  simp only []
  by_cases hin : t.Contains <:+: content
  · rw [if_pos (key.2 hin)]
    simp [hin, hand]
  · have : ¬ MatchContainsLoop (4 * 1024 * 1024) t.Contains (content.length + 1) content []
        = true := fun h => hin (key.1 h)
    rw [if_neg this]
    exact ⟨⟨fun h => absurd h (by decide), fun h => absurd h hin⟩, Or.inr rfl⟩

theorem not_infix_of_count_lt (x : Nat) (needle hay : List Nat)
    (h : hay.count x < needle.count x) : ¬ needle <:+: hay := by
  intro hin
  have := hin.sublist.count_le x
  omega

theorem staleCarryNeedle_infix (chunk : Nat) (hc : 0 < chunk) :
    staleCarryNeedle chunk <:+: staleCarryStream chunk := by
  obtain ⟨k, rfl⟩ : ∃ k, chunk = k + 1 := ⟨chunk - 1, by omega⟩
  refine ⟨List.replicate (2 * (k + 1)) 0 ++ [0], [0], ?_⟩
  simp only [staleCarryNeedle, staleCarryStream, Nat.add_sub_cancel, List.replicate_succ',
    List.append_assoc, List.singleton_append, List.cons_append, List.nil_append]

/-- The loop of `MatchContains` misses the needle of `staleCarryStream`. -/
theorem MatchContainsLoop_staleCarryStream (chunk fuel : Nat) (hc : 2 ≤ chunk) :
    MatchContainsLoop chunk (staleCarryNeedle chunk) (fuel + 3) (staleCarryStream chunk) []
      = false := by
  unfold staleCarryStream
  apply MatchContainsLoop_stale_carry
  · simp [staleCarryNeedle]
  · omega
  · simp
  · simp; omega
  · simp
  · simp; omega
  · apply not_infix_of_count_lt 1
    simp [staleCarryNeedle, List.count_replicate]
    omega
  · apply not_infix_of_count_lt 1
    simp [staleCarryNeedle, List.count_replicate, List.drop_replicate, List.count_cons]
    omega
  · apply not_infix_of_count_lt 1
    simp [staleCarryNeedle, List.count_replicate, List.drop_replicate, List.count_cons]
    omega

theorem staleCarryStream_length (chunk : Nat) (hc : 0 < chunk) :
    (staleCarryStream chunk).length = 3 * chunk + 2 := by
  simp [staleCarryStream]
  omega


theorem MatchContainsLoop_staleCarryStream_fuel (chunk fuel : Nat) (hc : 2 ≤ chunk)
    (hf : 3 ≤ fuel) :
    MatchContainsLoop chunk (staleCarryNeedle chunk) fuel (staleCarryStream chunk) [] = false := by
  obtain ⟨k, rfl⟩ : ∃ k, fuel = k + 3 := ⟨fuel - 3, by omega⟩
  exact MatchContainsLoop_staleCarryStream chunk k hc

theorem MatchContains_of_loop_false (t : SearchTerm) (d : MftRecordAttribute)
    (content : List Nat) (hs : d.Stream = some content)
    (hl : MatchContainsLoop (4 * 1024 * 1024) t.Contains (content.length + 1) content []
      = false) :
    MatchContains t d = NONE := by
  unfold MatchContains
  split_ifs with h
  · rw [hs]
    simp only [hl, Bool.false_eq_true, if_false]
  · rfl

/-- C12 at a search string of 4 MiB: the string, 4 MiB of bytes `01`, is not
empty and occurs in the stream (at offset 8 MiB + 1, after 8 MiB + 1 bytes
`00`), yet `MatchContains` returns `NONE`: the bytes carried over from the
first read are not renewed after the second read, because a read of 4 MiB is
not longer than the search string. -/
theorem C12_long_needle_missed :
    fourMiBNeedleTerm.Contains ≠ []
    ∧ fourMiBNeedleTerm.Contains <:+: staleCarryStream (4 * 1024 * 1024)
    ∧ fourMiBNeedleStream.Stream = some (staleCarryStream (4 * 1024 * 1024))
    ∧ MatchContains fourMiBNeedleTerm fourMiBNeedleStream = NONE := by
  have hc2 : 2 ≤ 4 * 1024 * 1024 := by norm_num
  have hc0 : 0 < 4 * 1024 * 1024 := by norm_num
  refine ⟨?_, staleCarryNeedle_infix _ hc0, rfl, ?_⟩
  · intro h
    have hlen := congrArg List.length h
    have e : fourMiBNeedleTerm.Contains = staleCarryNeedle (4 * 1024 * 1024) := rfl
    rw [e] at hlen
    simp only [staleCarryNeedle, List.length_replicate, List.length_nil] at hlen
    omega
  · apply MatchContains_of_loop_false fourMiBNeedleTerm fourMiBNeedleStream
      (staleCarryStream (4 * 1024 * 1024)) rfl
    have e : fourMiBNeedleTerm.Contains = staleCarryNeedle (4 * 1024 * 1024) := rfl
    rw [e]
    apply MatchContainsLoop_staleCarryStream_fuel _ _ hc2
    rw [staleCarryStream_length _ hc0]
    omega

end Orc

namespace Orc
open MFTWalker

/-! ## The name buffer of the walker -/

/-! ## The name buffer -/

theorem Outcome.value_bind {α β : Type} (a : α) (f : α → Outcome β) :
    (Outcome.value a).bind f = f a := rfl

theorem Outcome.undefined_bind {α β : Type} (f : α → Outcome β) :
    (Outcome.undefined : Outcome α).bind f = Outcome.undefined := rfl

theorem Outcome.noFuel_bind {α β : Type} (f : α → Outcome β) :
    (Outcome.noFuel : Outcome α).bind f = Outcome.noFuel := rfl

theorem writeAt_eq_some (buffer : List (Option Char)) (i : Nat) (s : List (Option Char))
    (h : i + s.length ≤ buffer.length) :
    writeAt buffer i s = some (buffer.take i ++ s ++ buffer.drop (i + s.length)) := by
  simp [writeAt, h]

theorem writeAt_length (buffer b : List (Option Char)) (i : Nat) (s : List (Option Char))
    (h : writeAt buffer i s = some b) : b.length = buffer.length := by
  unfold writeAt at h
  split_ifs at h with hle
  simp only [Option.some.injEq] at h
  subst h
  simp
  omega

/-- After a write of `s` at `i`, the cells from `i` on are `s` followed by the
cells that were behind it. -/
theorem writeAt_textAt (buffer b : List (Option Char)) (i n : Nat) (s : List (Option Char))
    (h : writeAt buffer i s = some b) :
    textAt b i (s.length + n) = s ++ textAt buffer (i + s.length) n := by
  unfold writeAt at h
  split_ifs at h with hle
  simp only [Option.some.injEq] at h
  subst h
  unfold textAt
  have hi : (buffer.take i).length = i := by simp; omega
  rw [List.append_assoc, List.drop_left' hi, List.take_append_eq_append_take]
  simp

theorem textAt_add (buffer : List (Option Char)) (i n m : Nat) :
    textAt buffer (i + n) m = (textAt buffer i (n + m)).drop n := by
  unfold textAt
  rw [List.drop_take, ← List.drop_drop, Nat.add_sub_cancel_left]

/-- After a write of `s` at `i`, the cells of the part written are those of
`s`. -/
theorem writeAt_textAt_inner (buffer b : List (Option Char)) (i p n : Nat)
    (s : List (Option Char)) (h : writeAt buffer i s = some b) (hp : p + n ≤ s.length) :
    textAt b (i + p) n = textAt s p n := by
  have h1 := writeAt_textAt buffer b i 0 s h
  rw [textAt_add, show p + n = (p + n) from rfl]
  have h2 : textAt b i (p + n) = textAt s 0 (p + n) := by
    have h3 : textAt b i (s.length + 0) = s := by
      rw [h1]; simp [textAt]
    unfold textAt at h3 ⊢
    rw [Nat.add_zero] at h3
    rw [List.drop_zero]
    have : List.take (p + n) (List.take s.length (List.drop i b))
        = List.take (p + n) (List.drop i b) := by
      rw [List.take_take]
      congr 1
      omega
    rw [← this, h3]
  rw [h2]
  unfold textAt
  rw [List.drop_zero, List.drop_take, Nat.add_sub_cancel_left]

/-- What `reserve` leaves of a cursor that holds `acc`: room for `n` characters
in front of `acc`. -/
theorem reserve_holds (mcl n : Nat) (c : NameCursor) (acc : WString) (h : c.Holds acc) :
    reserve mcl n c = Outcome.undefined
    ∨ ∃ c2, reserve mcl n c = Outcome.value c2
        ∧ c2.returnedNull = false
        ∧ c2.m_pFullNameBuffer.length = c2.m_dwFullNameBufferLen / 2
        ∧ c2.pCurrent + n + acc.length + 1 ≤ c2.m_pFullNameBuffer.length
        ∧ textAt c2.m_pFullNameBuffer (c2.pCurrent + n) (acc.length + 1)
            = (acc ++ [NUL]).map some
        ∧ c2.dwCount = 2 * (acc.length + 1) + n * 2 := by
  obtain ⟨h1, h2, h3, h4, h5⟩ := h
  unfold reserve
  simp only [h1, Bool.false_eq_true, if_false]
  by_cases hext : c.dwCount + n * 2 > c.m_dwFullNameBufferLen
  · -- the buffer is extended
    rw [if_pos hext]
    unfold ExtendNameBuffer
    simp only []
    by_cases hm : mcl / 2 < 1
    · left
      rw [if_pos hm]
      rfl
    · rw [if_neg hm]
      have hw : mcl / 2 - 1 + c.m_pFullNameBuffer.length
          ≤ (List.replicate ((c.m_dwFullNameBufferLen + mcl) / 2) (none : Option Char)).length := by
        rw [List.length_replicate, h2]
        omega
      rw [writeAt_eq_some _ _ _ hw]
      simp only []
      have hlt : ¬ mcl / 2 - 1 + c.pCurrent ≥ (c.m_dwFullNameBufferLen + mcl) / 2 := by
        rw [h2] at h3
        omega
      rw [if_neg hlt]
      simp only [Outcome.bind, h1, Bool.false_eq_true, if_false]
      by_cases hp : mcl / 2 - 1 + c.pCurrent < n
      · left
        rw [if_pos hp]
      · right
        rw [if_neg hp]
        have hwr := writeAt_eq_some _ _ _ hw
        have hlen := writeAt_length _ _ _ _ hwr
        refine ⟨_, rfl, rfl, ?_, ?_, ?_, ?_⟩
        · simp only []
          rw [hlen, List.length_replicate]
        · simp only []
          rw [hlen, List.length_replicate]
          rw [h2] at h3
          omega
        · simp only []
          have e : mcl / 2 - 1 + c.pCurrent - n + n = mcl / 2 - 1 + c.pCurrent := by omega
          rw [e, writeAt_textAt_inner _ _ _ _ _ _ hwr (by omega), h4]
        · simp only []
          omega
  · rw [if_neg hext]
    simp only [Outcome.bind, h1, Bool.false_eq_true, if_false]
    by_cases hp : c.pCurrent < n
    · left
      rw [if_pos hp]
    · right
      rw [if_neg hp]
      refine ⟨_, rfl, rfl, h2, ?_, ?_, ?_⟩
      · simp only []
        omega
      · simp only []
        have e : c.pCurrent - n + n = c.pCurrent := by omega
        rw [e, h4]
      · simp only []
        omega

/-- A block that puts `s` in front of the text `acc` leaves the text
`s ++ acc`, unless it writes in front of the buffer. -/
theorem prepend_holds (mcl : Nat) (s : WString) (c : NameCursor) (acc : WString)
    (h : c.Holds acc) :
    prepend mcl s c = Outcome.undefined
    ∨ ∃ c2, prepend mcl s c = Outcome.value c2 ∧ c2.Holds (s ++ acc) := by
  unfold prepend
  rcases reserve_holds mcl s.length c acc h with hu | ⟨c2, hc2, g1, g2, g3, g4, g5⟩
  · left
    rw [hu]
    rfl
  · right
    rw [hc2]
    simp only [Outcome.bind, put, putAt, g1, Bool.false_eq_true, if_false]
    have hw : c2.pCurrent + (s.map some).length ≤ c2.m_pFullNameBuffer.length := by
      rw [List.length_map]; omega
    have hwr := writeAt_eq_some _ _ _ hw
    rw [hwr]
    refine ⟨_, rfl, rfl, ?_, ?_, ?_, ?_⟩
    · simp only []
      rw [writeAt_length _ _ _ _ hwr, g2]
    · simp only []
      rw [writeAt_length _ _ _ _ hwr, List.length_append]
      omega
    · simp only []
      have e : (s ++ acc).length + 1 = (s.map some).length + (acc.length + 1) := by
        simp; omega
      rw [e, writeAt_textAt _ _ _ _ _ hwr, List.length_map, g4]
      simp
    · simp only []
      rw [g5, List.length_append]
      omega

/-- A block that needs no extension of the buffer: when the text ends with the
last cell of the buffer and the longer text still fits, the block returns, and
the buffer has the length it had. -/
theorem prepend_flush (mcl : Nat) (s : WString) (c : NameCursor) (acc : WString)
    (h : c.Holds acc) (hf : c.Flush)
    (hfit : c.dwCount + s.length * 2 ≤ c.m_dwFullNameBufferLen) :
    ∃ c2, prepend mcl s c = Outcome.value c2 ∧ c2.Holds (s ++ acc) ∧ c2.Flush
      ∧ c2.m_dwFullNameBufferLen = c.m_dwFullNameBufferLen := by
  have hcount := h.count
  have hnn := h.notNull
  unfold NameCursor.Flush at hf
  have hp : ¬ c.pCurrent < s.length := by omega
  have hw : c.pCurrent - s.length + (s.map some).length ≤ c.m_pFullNameBuffer.length := by
    have := h.inside
    rw [List.length_map]
    omega
  have hval : prepend mcl s c = Outcome.value
      { c with
        dwCount := c.dwCount + s.length * 2,
        pCurrent := c.pCurrent - s.length,
        m_pFullNameBuffer :=
          c.m_pFullNameBuffer.take (c.pCurrent - s.length) ++ s.map some
            ++ c.m_pFullNameBuffer.drop (c.pCurrent - s.length + (s.map some).length) } := by
    unfold prepend reserve
    simp only [hnn, Bool.false_eq_true, if_false]
    rw [if_neg (by omega)]
    simp only [Outcome.bind, hnn, Bool.false_eq_true, if_false, if_neg hp, put, putAt]
    rw [writeAt_eq_some _ _ _ hw]
  rcases prepend_holds mcl s c acc h with hu | ⟨c2, hc2, hh⟩
  · rw [hval] at hu
    cases hu
  · refine ⟨c2, hc2, hh, ?_, ?_⟩
    · rw [hval] at hc2
      cases hc2
      unfold NameCursor.Flush
      simp only []
      omega
    · rw [hval] at hc2
      cases hc2
      rfl


theorem dirPath_nil : dirPath [] = [] := rfl

theorem dirPath_cons (n : WString) (ns : List WString) :
    dirPath (n :: ns) = dirPath ns ++ (if n = ['.'] then [] else n ++ ['\\']) := by
  by_cases h : n = ['.']
  · subst h
    simp [dirPath, List.filter_cons]
  · simp [dirPath, claimedDirPath, List.filter_cons, h]

theorem not_dot_iff (n : WString) :
    (!(n.length == 1 && n.head? == some '.')) = true ↔ n ≠ ['.'] := by
  cases n with
  | nil => simp
  | cons a l =>
    cases l with
    | nil => simp
    | cons b l2 => simp

/-- The block of the loop over the parents that puts the name of a parent and
a backslash in front of the text, unless the name is `.`. -/
theorem namedBlock_holds (mcl : Nat) (n : WString) (c : NameCursor) (acc : WString)
    (h : c.Holds acc) :
    (if (!(n.length == 1 && n.head? == some '.')) = true then
        (prepend mcl ['\\'] c).bind (prepend mcl n)
      else Outcome.value c) = Outcome.undefined
    ∨ ∃ c2, (if (!(n.length == 1 && n.head? == some '.')) = true then
          (prepend mcl ['\\'] c).bind (prepend mcl n)
        else Outcome.value c) = Outcome.value c2
      ∧ c2.Holds ((if n = ['.'] then [] else n ++ ['\\']) ++ acc) := by
  by_cases hn : n = ['.']
  · right
    refine ⟨c, ?_, ?_⟩
    · subst hn
      rfl
    · simpa [hn] using h
  · simp only [(not_dot_iff _).2 hn, if_true, if_neg hn]
    rcases prepend_holds mcl ['\\'] c acc h with hu | ⟨c1, hc1, hh1⟩
    · left
      rw [hu]
      rfl
    · rw [hc1]
      simp only [Outcome.value_bind]
      rcases prepend_holds mcl n c1 _ hh1 with hu | ⟨c2, hc2, hh2⟩
      · left
        exact hu
      · right
        exact ⟨c2, hc2, by simpa [List.append_assoc] using hh2⟩

/-- The same block when no extension of the buffer is needed. -/
theorem namedBlock_flush (mcl : Nat) (n : WString) (c : NameCursor) (acc : WString)
    (h : c.Holds acc) (hfl : c.Flush)
    (hfit : c.dwCount + (if n = ['.'] then [] else n ++ ['\\']).length * 2
      ≤ c.m_dwFullNameBufferLen) :
    ∃ c2, (if (!(n.length == 1 && n.head? == some '.')) = true then
          (prepend mcl ['\\'] c).bind (prepend mcl n)
        else Outcome.value c) = Outcome.value c2
      ∧ c2.Holds ((if n = ['.'] then [] else n ++ ['\\']) ++ acc) ∧ c2.Flush
      ∧ c2.m_dwFullNameBufferLen = c.m_dwFullNameBufferLen := by
  by_cases hn : n = ['.']
  · refine ⟨c, ?_, ?_, hfl, rfl⟩
    · subst hn
      rfl
    · simpa [hn] using h
  · simp only [(not_dot_iff _).2 hn, if_true, if_neg hn]
    rw [if_neg hn, List.length_append] at hfit
    simp only [List.length_singleton] at hfit
    obtain ⟨c1, hc1, hh1, hf1, hl1⟩ := prepend_flush mcl ['\\'] c acc h hfl
      (by simp only [List.length_singleton]; omega)
    rw [hc1]
    simp only [Outcome.value_bind]
    have hcnt1 := hh1.count
    have hcnt0 := h.count
    simp only [List.singleton_append, List.length_cons] at hcnt1
    obtain ⟨c2, hc2, hh2, hf2, hl2⟩ := prepend_flush mcl n c1 _ hh1 hf1
      (by rw [hl1]; omega)
    exact ⟨c2, hc2, by simpa [List.append_assoc] using hh2, hf2, by rw [hl2, hl1]⟩

/-- The loop over the parents, for a chain that starts below the root: the
names of the directories passed are put in front of the text, unless a block
writes in front of the buffer. -/
theorem parentLoop_holds (dirs : SegmentMap MFTFileNameWrapper) (mcl root : Nat) :
    ∀ (fuel s : Nat) (c : NameCursor) (acc : WString) (ns : List WString) (last : Nat),
      c.Holds acc → s ≠ root →
      parentChain dirs root fuel s = some (ns, last) →
      parentLoop dirs mcl root fuel c s = Outcome.undefined
      ∨ ∃ c2, parentLoop dirs mcl root fuel c s = Outcome.value (c2, last)
          ∧ c2.Holds (dirPath ns ++ acc) := by
  intro fuel
  induction fuel with
  | zero =>
    intro s c acc ns last h hs hch
    unfold parentChain at hch
    rw [if_neg hs] at hch
    unfold parentLoop
    cases hf : dirs.find s with
    | none =>
      simp only [hf, Option.some.injEq, Prod.mk.injEq] at hch
      obtain ⟨rfl, rfl⟩ := hch
      right
      exact ⟨c, rfl, by simpa [dirPath_nil] using h⟩
    | some e => simp [hf] at hch
  | succ fuel ih =>
    intro s c acc ns last h hs hch
    unfold parentChain at hch
    rw [if_neg hs] at hch
    unfold parentLoop
    cases hf : dirs.find s with
    | none =>
      simp only [hf, Option.some.injEq, Prod.mk.injEq] at hch
      obtain ⟨rfl, rfl⟩ := hch
      right
      exact ⟨c, rfl, by simpa [dirPath_nil] using h⟩
    | some e =>
      simp only [hf, Option.map_eq_some'] at hch
      obtain ⟨⟨ns2, last2⟩, hrec, heq⟩ := hch
      simp only [Prod.mk.injEq] at heq
      obtain ⟨rfl, rfl⟩ := heq
      simp only []
      rcases namedBlock_holds mcl e.FileName.FileName c acc h with hu | ⟨c2, hc2, hh2⟩
      · left
        rw [hu]
        rfl
      · rw [hc2]
        simp only [Outcome.value_bind, hh2.notNull, Bool.false_or]
        by_cases hr : NtfsFullSegmentNumber e.FileName.ParentDirectory = root
        · have hb : (NtfsFullSegmentNumber e.FileName.ParentDirectory == root) = true := by
            simpa using hr
          rw [if_pos hb]
          unfold parentChain at hrec
          rw [if_pos hr] at hrec
          simp only [Option.some.injEq, Prod.mk.injEq] at hrec
          obtain ⟨rfl, rfl⟩ := hrec
          right
          refine ⟨c2, by rw [hr], ?_⟩
          rw [dirPath_cons, dirPath_nil]
          simpa using hh2
        · have hb : ¬ (NtfsFullSegmentNumber e.FileName.ParentDirectory == root) = true := by
            simpa using hr
          rw [if_neg hb]
          rcases ih _ c2 _ ns2 last2 hh2 hr hrec with hu | ⟨c3, hc3, hh3⟩
          · left; exact hu
          · right
            refine ⟨c3, hc3, ?_⟩
            rw [dirPath_cons]
            simpa [List.append_assoc] using hh3


/-- The loop over the parents when no extension of the buffer is needed. -/
theorem parentLoop_flush (dirs : SegmentMap MFTFileNameWrapper) (mcl root : Nat) :
    ∀ (fuel s : Nat) (c : NameCursor) (acc : WString) (ns : List WString) (last : Nat),
      c.Holds acc → c.Flush → s ≠ root →
      parentChain dirs root fuel s = some (ns, last) →
      c.dwCount + (dirPath ns).length * 2 ≤ c.m_dwFullNameBufferLen →
      ∃ c2, parentLoop dirs mcl root fuel c s = Outcome.value (c2, last)
          ∧ c2.Holds (dirPath ns ++ acc) ∧ c2.Flush
          ∧ c2.m_dwFullNameBufferLen = c.m_dwFullNameBufferLen := by
  intro fuel
  induction fuel with
  | zero =>
    intro s c acc ns last h hfl hs hch hfit
    unfold parentChain at hch
    rw [if_neg hs] at hch
    unfold parentLoop
    cases hf : dirs.find s with
    | none =>
      simp only [hf, Option.some.injEq, Prod.mk.injEq] at hch
      obtain ⟨rfl, rfl⟩ := hch
      exact ⟨c, rfl, by simpa [dirPath_nil] using h, hfl, rfl⟩
    | some e => simp [hf] at hch
  | succ fuel ih =>
    intro s c acc ns last h hfl hs hch hfit
    unfold parentChain at hch
    rw [if_neg hs] at hch
    unfold parentLoop
    cases hf : dirs.find s with
    | none =>
      simp only [hf, Option.some.injEq, Prod.mk.injEq] at hch
      obtain ⟨rfl, rfl⟩ := hch
      exact ⟨c, rfl, by simpa [dirPath_nil] using h, hfl, rfl⟩
    | some e =>
      simp only [hf, Option.map_eq_some'] at hch
      obtain ⟨⟨ns2, last2⟩, hrec, heq⟩ := hch
      simp only [Prod.mk.injEq] at heq
      obtain ⟨rfl, rfl⟩ := heq
      rw [dirPath_cons, List.length_append] at hfit
      simp only []
      obtain ⟨c2, hc2, hh2, hf2, hl2⟩ :=
        namedBlock_flush mcl e.FileName.FileName c acc h hfl (by omega)
      rw [hc2]
      simp only [Outcome.value_bind, hh2.notNull, Bool.false_or]
      have hcnt2 := hh2.count
      have hcnt0 := h.count
      rw [List.length_append] at hcnt2
      by_cases hr : NtfsFullSegmentNumber e.FileName.ParentDirectory = root
      · have hb : (NtfsFullSegmentNumber e.FileName.ParentDirectory == root) = true := by
          simpa using hr
        rw [if_pos hb]
        unfold parentChain at hrec
        rw [if_pos hr] at hrec
        simp only [Option.some.injEq, Prod.mk.injEq] at hrec
        obtain ⟨rfl, rfl⟩ := hrec
        refine ⟨c2, by rw [hr], ?_, hf2, hl2⟩
        rw [dirPath_cons, dirPath_nil]
        simpa using hh2
      · have hb : ¬ (NtfsFullSegmentNumber e.FileName.ParentDirectory == root) = true := by
          simpa using hr
        rw [if_neg hb]
        obtain ⟨c3, hc3, hh3, hf3, hl3⟩ := ih _ c2 _ ns2 last2 hh2 hf2 hr hrec
          (by rw [hl2]; omega)
        refine ⟨c3, hc3, ?_, hf3, by rw [hl3, hl2]⟩
        rw [dirPath_cons]
        simpa [List.append_assoc] using hh3

/-- More fuel does not change what the loop over the parents returns. -/
theorem parentLoop_fuel (dirs : SegmentMap MFTFileNameWrapper) (mcl root : Nat) :
    ∀ (fuel s : Nat) (c : NameCursor),
      parentLoop dirs mcl root fuel c s ≠ Outcome.noFuel →
      parentLoop dirs mcl root (fuel + 1) c s = parentLoop dirs mcl root fuel c s := by
  intro fuel
  induction fuel with
  | zero =>
    intro s c h
    unfold parentLoop at h ⊢
    cases hf : dirs.find s with
    | none => rfl
    | some e => simp [hf] at h
  | succ fuel ih =>
    intro s c h
    rw [parentLoop] at h
    rw [parentLoop, parentLoop.eq_def dirs mcl root (fuel + 1)]
    cases hf : dirs.find s with
    | none => rfl
    | some e =>
      simp only [hf] at h ⊢
      generalize (if (!(e.FileName.FileName.length == 1
          && e.FileName.FileName.head? == some '.')) = true then
            (prepend mcl ['\\'] c).bind (prepend mcl e.FileName.FileName)
          else Outcome.value c) = named at h ⊢
      cases named with
      | undefined => rfl
      | noFuel => rfl
      | value c2 =>
        simp only [Outcome.bind] at h ⊢
        split_ifs with hc
        · rfl
        · rw [if_neg hc] at h
          exact ih _ _ h


/-- The loop over the parents from the parent of the file name, which may be the
root itself. -/
theorem parentLoop_start (dirs : SegmentMap MFTFileNameWrapper) (mcl root fuel s : Nat)
    (c : NameCursor) (acc : WString) (ns : List WString) (last : Nat)
    (h : c.Holds acc) (hroot : rootIsDot dirs root)
    (hch : parentChain dirs root fuel s = some (ns, last)) :
    parentLoop dirs mcl root (fuel + 1) c s = Outcome.undefined
    ∨ ∃ c2, parentLoop dirs mcl root (fuel + 1) c s = Outcome.value (c2, last)
        ∧ c2.Holds (dirPath ns ++ acc) := by
  by_cases hs : s = root
  · subst hs
    unfold parentChain at hch
    rw [if_pos rfl] at hch
    simp only [Option.some.injEq, Prod.mk.injEq] at hch
    obtain ⟨rfl, rfl⟩ := hch
    right
    refine ⟨c, ?_, by simpa [dirPath_nil] using h⟩
    unfold parentLoop
    cases hf : dirs.find s with
    | none => rfl
    | some e =>
      obtain ⟨h1, h2⟩ := hroot e hf
      simp [MFTFileNameWrapper.FileName] at h1 h2
      simp [MFTFileNameWrapper.FileName, h1, h2, Outcome.bind]
  · rcases parentLoop_holds dirs mcl root fuel s c acc ns last h hs hch with hu | ⟨c2, hc2, hh⟩
    · left
      rw [parentLoop_fuel _ _ _ _ _ _ (by rw [hu]; exact fun h => nomatch h), hu]
    · right
      refine ⟨c2, ?_, hh⟩
      rw [parentLoop_fuel _ _ _ _ _ _ (by rw [hc2]; exact fun h => nomatch h), hc2]

/-- The same when no extension of the buffer is needed. -/
theorem parentLoop_start_flush (dirs : SegmentMap MFTFileNameWrapper) (mcl root fuel s : Nat)
    (c : NameCursor) (acc : WString) (ns : List WString) (last : Nat)
    (h : c.Holds acc) (hfl : c.Flush) (hroot : rootIsDot dirs root)
    (hch : parentChain dirs root fuel s = some (ns, last))
    (hfit : c.dwCount + (dirPath ns).length * 2 ≤ c.m_dwFullNameBufferLen) :
    ∃ c2, parentLoop dirs mcl root (fuel + 1) c s = Outcome.value (c2, last)
        ∧ c2.Holds (dirPath ns ++ acc) ∧ c2.Flush
        ∧ c2.m_dwFullNameBufferLen = c.m_dwFullNameBufferLen := by
  by_cases hs : s = root
  · subst hs
    unfold parentChain at hch
    rw [if_pos rfl] at hch
    simp only [Option.some.injEq, Prod.mk.injEq] at hch
    obtain ⟨rfl, rfl⟩ := hch
    refine ⟨c, ?_, by simpa [dirPath_nil] using h, hfl, rfl⟩
    unfold parentLoop
    cases hf : dirs.find s with
    | none => rfl
    | some e =>
      obtain ⟨h1, h2⟩ := hroot e hf
      simp [MFTFileNameWrapper.FileName] at h1 h2
      simp [MFTFileNameWrapper.FileName, h1, h2, Outcome.bind]
  · obtain ⟨c2, hc2, hh, hf2, hl2⟩ :=
      parentLoop_flush dirs mcl root fuel s c acc ns last h hfl hs hch hfit
    refine ⟨c2, ?_, hh, hf2, hl2⟩
    rw [parentLoop_fuel _ _ _ _ _ _ (by rw [hc2]; exact fun h => nomatch h), hc2]

/-- The first block of `GetFullNameAndIfInLocation`: the terminator in the last
cell of the buffer. -/
theorem initial_cursor (buffer : List (Option Char)) (len : Nat)
    (hcells : buffer.length = len / 2) (hlen : 2 ≤ len) :
    ∃ c, put [NUL]
        { m_pFullNameBuffer := buffer, m_dwFullNameBufferLen := len,
          pCurrent := len / 2 - 1, dwCount := 2 } = Outcome.value c
      ∧ c.Holds [] ∧ c.Flush ∧ c.m_dwFullNameBufferLen = len := by
  have hw : len / 2 - 1 + ([NUL].map some).length ≤ buffer.length := by
    simp only [List.map_cons, List.map_nil, List.length_singleton]
    omega
  have hwr := writeAt_eq_some _ _ _ hw
  refine ⟨{ m_pFullNameBuffer := buffer.take (len / 2 - 1) ++ [NUL].map some
              ++ buffer.drop (len / 2 - 1 + ([NUL].map some).length),
            m_dwFullNameBufferLen := len, pCurrent := len / 2 - 1, dwCount := 2 },
    ?_, ⟨rfl, ?_, ?_, ?_, rfl⟩, ?_, rfl⟩
  · simp only [put, putAt, Bool.false_eq_true, if_false]
    rw [hwr]
  · show (buffer.take (len / 2 - 1) ++ [NUL].map some
        ++ buffer.drop (len / 2 - 1 + ([NUL].map some).length)).length = len / 2
    rw [writeAt_length _ _ _ _ hwr, hcells]
  · show len / 2 - 1 + ([] : WString).length + 1 ≤ (buffer.take (len / 2 - 1) ++ [NUL].map some
        ++ buffer.drop (len / 2 - 1 + ([NUL].map some).length)).length
    rw [writeAt_length _ _ _ _ hwr]
    simp only [List.length_nil]
    omega
  · have := writeAt_textAt _ _ _ 0 _ hwr
    simp only [List.map_cons, List.map_nil, List.length_singleton, Nat.add_zero] at this
    show textAt (buffer.take (len / 2 - 1) ++ [NUL].map some
        ++ buffer.drop (len / 2 - 1 + ([NUL].map some).length)) (len / 2 - 1)
        (([] : WString).length + 1) = (([] : WString) ++ [NUL]).map some
    simp only [List.length_nil, Nat.zero_add, List.nil_append, List.map_cons, List.map_nil,
      List.length_singleton]
    rw [this]
    simp [textAt]
  · unfold NameCursor.Flush
    simp only []
    omega


theorem streamName_holds (mcl : Nat) (d : Option MftRecordAttribute) (c : NameCursor)
    (h : c.Holds []) :
    streamName mcl d c = Outcome.undefined
    ∨ ∃ c2, streamName mcl d c = Outcome.value c2 ∧ c2.Holds (streamSuffix d) := by
  unfold streamName
  cases d with
  | none => exact Or.inr ⟨c, rfl, by simpa [streamSuffix] using h⟩
  | some a =>
    simp only [streamSuffix]
    by_cases hn : (a.Name.length != 0) = true
    · simp only [hn, if_true]
      rcases prepend_holds mcl a.Name c [] h with hu | ⟨c1, hc1, hh1⟩
      · left; rw [hu]; rfl
      · rw [hc1]
        simp only [Outcome.bind]
        rcases prepend_holds mcl [':'] c1 _ hh1 with hu | ⟨c2, hc2, hh2⟩
        · left; exact hu
        · right
          exact ⟨c2, hc2, by simpa using hh2⟩
    · simp only [hn, Bool.false_eq_true, if_false]
      exact Or.inr ⟨c, rfl, h⟩

theorem streamName_flush (mcl : Nat) (d : Option MftRecordAttribute) (c : NameCursor)
    (h : c.Holds []) (hfl : c.Flush)
    (hfit : c.dwCount + (streamSuffix d).length * 2 ≤ c.m_dwFullNameBufferLen) :
    ∃ c2, streamName mcl d c = Outcome.value c2 ∧ c2.Holds (streamSuffix d) ∧ c2.Flush
        ∧ c2.m_dwFullNameBufferLen = c.m_dwFullNameBufferLen := by
  unfold streamName
  cases d with
  | none => exact ⟨c, rfl, by simpa [streamSuffix] using h, hfl, rfl⟩
  | some a =>
    simp only [streamSuffix] at hfit ⊢
    by_cases hn : (a.Name.length != 0) = true
    · simp only [hn, if_true, List.length_cons] at hfit ⊢
      have hc0 := h.count
      obtain ⟨c1, hc1, hh1, hf1, hl1⟩ := prepend_flush mcl a.Name c [] h hfl (by omega)
      rw [hc1]
      simp only [Outcome.bind]
      have hcnt := hh1.count
      simp only [List.append_nil] at hcnt
      obtain ⟨c2, hc2, hh2, hf2, hl2⟩ := prepend_flush mcl [':'] c1 _ hh1 hf1
        (by simp only [List.length_singleton]; rw [hl1]; simp only [List.length_nil] at hc0; omega)
      exact ⟨c2, hc2, by simpa using hh2, hf2, by rw [hl2, hl1]⟩
    · simp only [hn, Bool.false_eq_true, if_false]
      exact ⟨c, rfl, h, hfl, rfl⟩


theorem hex16_length (n : Nat) : (hex16 n).length = 16 := by
  simp [hex16]

theorem reserve_flush (mcl n : Nat) (c : NameCursor) (acc : WString)
    (h : c.Holds acc) (hf : c.Flush) (hfit : c.dwCount + n * 2 ≤ c.m_dwFullNameBufferLen) :
    reserve mcl n c = Outcome.value
      { c with dwCount := c.dwCount + n * 2, pCurrent := c.pCurrent - n }
    ∧ n ≤ c.pCurrent := by
  have hcount := h.count
  have hnn := h.notNull
  unfold NameCursor.Flush at hf
  have hp : ¬ c.pCurrent < n := by omega
  refine ⟨?_, by omega⟩
  unfold reserve
  simp only [hnn, Bool.false_eq_true, if_false]
  rw [if_neg (by omega)]
  simp only [Outcome.bind, hnn, Bool.false_eq_true, if_false, if_neg hp]

/-- The format block of the place holder: `swprintf_s` writes the `n`
characters of `s` and a terminator over the first character of the text, and
the assignment that follows puts that character back. -/
theorem format_block (s : WString) (a : Char) (acc : WString) (c : NameCursor)
    (g1 : c.returnedNull = false)
    (g2 : c.m_pFullNameBuffer.length = c.m_dwFullNameBufferLen / 2)
    (g3 : c.pCurrent + s.length + (a :: acc).length + 1 ≤ c.m_pFullNameBuffer.length)
    (g4 : textAt c.m_pFullNameBuffer (c.pCurrent + s.length) ((a :: acc).length + 1)
      = ((a :: acc) ++ [NUL]).map some)
    (g5 : c.dwCount = 2 * ((a :: acc).length + 1) + s.length * 2) :
    ∃ c2, ((putAt c.pCurrent (s ++ [NUL]) c).bind
        fun c => putAt (c.pCurrent + s.length) [a] c) = Outcome.value c2
      ∧ c2.Holds (s ++ a :: acc) ∧ c2.pCurrent = c.pCurrent
      ∧ c2.m_dwFullNameBufferLen = c.m_dwFullNameBufferLen ∧ c2.dwCount = c.dwCount := by
  simp only [List.length_cons] at g3 g4 g5
  -- the cell of the first character of the text
  obtain ⟨tl, htl⟩ : ∃ tl, c.m_pFullNameBuffer.drop (c.pCurrent + s.length) = some a :: tl := by
    unfold textAt at g4
    cases hd : c.m_pFullNameBuffer.drop (c.pCurrent + s.length) with
    | nil =>
      rw [hd] at g4
      simp at g4
    | cons x tl =>
      rw [hd] at g4
      simp only [List.take_succ_cons, List.cons_append, List.map_cons, List.cons.injEq] at g4
      exact ⟨tl, by rw [g4.1]⟩
  have htl2 : c.m_pFullNameBuffer.drop (c.pCurrent + s.length + 1) = tl := by
    rw [← List.drop_drop, htl]
    rfl
  have hw1 : c.pCurrent + ((s ++ [NUL]).map some).length ≤ c.m_pFullNameBuffer.length := by
    simp only [List.map_append, List.length_append, List.length_map, List.map_cons, List.map_nil,
      List.length_singleton]
    omega
  have hwr1 := writeAt_eq_some _ _ _ hw1
  have hlen1 := writeAt_length _ _ _ _ hwr1
  have hw2 : c.pCurrent + s.length + ([a].map some).length
      ≤ (c.m_pFullNameBuffer.take c.pCurrent ++ (s ++ [NUL]).map some
          ++ c.m_pFullNameBuffer.drop (c.pCurrent + ((s ++ [NUL]).map some).length)).length := by
    rw [hlen1]
    simp only [List.map_cons, List.map_nil, List.length_singleton]
    omega
  have hwr2 := writeAt_eq_some _ _ _ hw2
  have hw3 : c.pCurrent + (s.map some).length ≤ c.m_pFullNameBuffer.length := by
    rw [List.length_map]; omega
  have hwr3 := writeAt_eq_some _ _ _ hw3
  -- the two writes amount to the write of `s`
  have hsame : (c.m_pFullNameBuffer.take c.pCurrent ++ (s ++ [NUL]).map some
        ++ c.m_pFullNameBuffer.drop (c.pCurrent + ((s ++ [NUL]).map some).length)).take
          (c.pCurrent + s.length) ++ [a].map some
        ++ (c.m_pFullNameBuffer.take c.pCurrent ++ (s ++ [NUL]).map some
        ++ c.m_pFullNameBuffer.drop (c.pCurrent + ((s ++ [NUL]).map some).length)).drop
          (c.pCurrent + s.length + ([a].map some).length)
      = c.m_pFullNameBuffer.take c.pCurrent ++ s.map some
        ++ c.m_pFullNameBuffer.drop (c.pCurrent + (s.map some).length) := by
    have hp : (c.m_pFullNameBuffer.take c.pCurrent).length = c.pCurrent := by
      rw [List.length_take]; omega
    have e1 : (c.m_pFullNameBuffer.take c.pCurrent ++ (s ++ [NUL]).map some
        ++ c.m_pFullNameBuffer.drop (c.pCurrent + ((s ++ [NUL]).map some).length))
        = (c.m_pFullNameBuffer.take c.pCurrent ++ s.map some)
          ++ (some NUL :: c.m_pFullNameBuffer.drop (c.pCurrent + s.length + 1)) := by
      simp [List.append_assoc, Nat.add_assoc]
    have hl : (c.m_pFullNameBuffer.take c.pCurrent ++ s.map some).length
        = c.pCurrent + s.length := by
      rw [List.length_append, hp, List.length_map]
    rw [e1, List.take_left' hl]
    have e2 : c.pCurrent + s.length + ([a].map some).length
        = (c.m_pFullNameBuffer.take c.pCurrent ++ s.map some).length + 1 := by
      rw [hl]; simp
    rw [e2, List.drop_append, List.length_map, htl2]
    simp only [List.drop_succ_cons, List.drop_zero, List.map_cons, List.map_nil]
    rw [htl]
    simp [List.append_assoc]
  refine ⟨{ c with m_pFullNameBuffer := c.m_pFullNameBuffer.take c.pCurrent ++ s.map some
        ++ c.m_pFullNameBuffer.drop (c.pCurrent + (s.map some).length) }, ?_, ?_, rfl, rfl, rfl⟩
  · simp only [putAt, g1, Bool.false_eq_true, if_false, hwr1, Outcome.bind, hwr2, hsame]
  · refine ⟨g1, ?_, ?_, ?_, ?_⟩
    · show (c.m_pFullNameBuffer.take c.pCurrent ++ s.map some
        ++ c.m_pFullNameBuffer.drop (c.pCurrent + (s.map some).length)).length = _
      rw [writeAt_length _ _ _ _ hwr3, g2]
    · show c.pCurrent + (s ++ a :: acc).length + 1 ≤ (c.m_pFullNameBuffer.take c.pCurrent
        ++ s.map some ++ c.m_pFullNameBuffer.drop (c.pCurrent + (s.map some).length)).length
      rw [writeAt_length _ _ _ _ hwr3]
      simp only [List.length_append, List.length_cons]
      omega
    · show textAt (c.m_pFullNameBuffer.take c.pCurrent ++ s.map some
        ++ c.m_pFullNameBuffer.drop (c.pCurrent + (s.map some).length)) c.pCurrent
          ((s ++ a :: acc).length + 1) = _
      have e : (s ++ a :: acc).length + 1 = (s.map some).length + (acc.length + 1 + 1) := by
        simp; omega
      rw [e, writeAt_textAt _ _ _ _ _ hwr3, List.length_map, g4]
      simp
    · show c.dwCount = 2 * ((s ++ a :: acc).length + 1)
      rw [g5]
      simp only [List.length_append, List.length_cons]
      omega


theorem placeHolder_format_length (last : Nat) :
    ("__".toList ++ hex16 last ++ "__".toList).length = 20 := by
  simp [hex16_length]

/-- The branch for a missing parent puts `\__`, the 16 digits and `__\` in front
of the text, unless a block writes in front of the buffer. -/
theorem placeHolder_holds (w : MFTWalker) (pb : Option Bool) (c : NameCursor) (last : Nat)
    (acc : WString) (h : c.Holds acc) :
    placeHolder w pb c last = Outcome.undefined
    ∨ ∃ c2, placeHolder w pb c last = Outcome.value (finish w c2 pb)
        ∧ c2.Holds ('\\' :: (("__".toList ++ hex16 last ++ "__".toList) ++ '\\' :: acc)) := by
  have hs := placeHolder_format_length last
  unfold placeHolder
  rcases prepend_holds w.MaxComponentLength ['\\'] c acc h with hu | ⟨c1, hc1, hh1⟩
  · left; rw [hu]; rfl
  rw [hc1]
  simp only [Outcome.bind]
  rcases reserve_holds w.MaxComponentLength 20 c1 _ hh1 with hu | ⟨c2, hc2, g1, g2, g3, g4, g5⟩
  · left; rw [hu]
  rw [hc2]
  simp only []
  obtain ⟨c3, hc3, hh3, -, -, -⟩ := format_block ("__".toList ++ hex16 last ++ "__".toList)
    '\\' acc c2 g1 g2 (by rw [hs]; simpa using g3) (by rw [hs]; simpa using g4)
    (by rw [hs]; simpa using g5)
  rw [hs] at hc3
  simp only [Outcome.bind] at hc3
  generalize hq : putAt c2.pCurrent ("__".toList ++ hex16 last ++ "__".toList ++ [NUL]) c2 = q
    at hc3 ⊢
  cases q with
  | undefined => simp at hc3
  | noFuel => simp at hc3
  | value c2b =>
    simp only [] at hc3 ⊢
    rw [hc3]
    simp only []
    rcases prepend_holds w.MaxComponentLength ['\\'] c3 _ hh3 with hu | ⟨c4, hc4, hh4⟩
    · left; rw [hu]
    · right
      rw [hc4]
      exact ⟨c4, rfl, by simpa using hh4⟩

/-- The branch for a missing parent when no extension of the buffer is
needed. -/
theorem placeHolder_flush (w : MFTWalker) (pb : Option Bool) (c : NameCursor) (last : Nat)
    (acc : WString) (h : c.Holds acc) (hfl : c.Flush)
    (hfit : c.dwCount + 22 * 2 ≤ c.m_dwFullNameBufferLen) :
    ∃ c2, placeHolder w pb c last = Outcome.value (finish w c2 pb)
        ∧ c2.Holds ('\\' :: (("__".toList ++ hex16 last ++ "__".toList) ++ '\\' :: acc)) := by
  have hs := placeHolder_format_length last
  have hc0 := h.count
  unfold placeHolder
  obtain ⟨c1, hc1, hh1, hf1, hl1⟩ := prepend_flush w.MaxComponentLength ['\\'] c acc h hfl
    (by simp only [List.length_singleton]; omega)
  rw [hc1]
  simp only [Outcome.bind]
  have hcnt1 := hh1.count
  simp only [List.singleton_append, List.length_cons] at hcnt1
  obtain ⟨hr, hp⟩ := reserve_flush w.MaxComponentLength 20 c1 _ hh1 hf1 (by rw [hl1]; omega)
  rcases reserve_holds w.MaxComponentLength 20 c1 _ hh1 with hu | ⟨c2, hc2, g1, g2, g3, g4, g5⟩
  · rw [hr] at hu; cases hu
  rw [hc2]
  simp only []
  have hc2e : c2 = { c1 with dwCount := c1.dwCount + 20 * 2, pCurrent := c1.pCurrent - 20 } := by
    rw [hr] at hc2
    cases hc2
    rfl
  obtain ⟨c3, hc3, hh3, hp3, hl3, hd3⟩ := format_block ("__".toList ++ hex16 last ++ "__".toList)
    '\\' acc c2 g1 g2 (by rw [hs]; simpa using g3) (by rw [hs]; simpa using g4)
    (by rw [hs]; simpa using g5)
  rw [hs] at hc3
  simp only [Outcome.bind] at hc3
  generalize hq : putAt c2.pCurrent ("__".toList ++ hex16 last ++ "__".toList ++ [NUL]) c2 = q
    at hc3 ⊢
  cases q with
  | undefined => simp at hc3
  | noFuel => simp at hc3
  | value c2b =>
    simp only [] at hc3 ⊢
    rw [hc3]
    simp only []
    have hf3 : c3.Flush := by
      unfold NameCursor.Flush at hf1 ⊢
      rw [hp3, hl3, hd3, hc2e]
      simp only []
      omega
    obtain ⟨c4, hc4, hh4, -, -⟩ := prepend_flush w.MaxComponentLength ['\\'] c3 _ hh3 hf3
      (by
        simp only [List.length_singleton]
        rw [hl3, hd3, hc2e]
        simp only []
        rw [hl1]
        omega)
    rw [hc4]
    exact ⟨c4, rfl, by simpa using hh4⟩


theorem bufferOk_cells (w : MFTWalker) (h : bufferOk w) :
    ∃ buffer len, (match w.m_pFullNameBuffer with
        | some buffer => (buffer, w.m_dwFullNameBufferLen)
        | none => (List.replicate (w.MaxComponentLength * 2 / 2) (none : Option Char),
            w.MaxComponentLength * 2)) = (buffer, len)
      ∧ buffer.length = len / 2 ∧ 2 ≤ len ∧ len = bufferBytes w := by
  unfold bufferOk at h
  unfold bufferBytes
  cases hb : w.m_pFullNameBuffer with
  | none =>
    rw [hb] at h
    simp only [] at h
    exact ⟨_, _, rfl, by simp, by omega, rfl⟩
  | some b =>
    rw [hb] at h
    simp only [] at h
    exact ⟨_, _, rfl, h.1, h.2, rfl⟩

/-- The blocks of `GetFullNameAndIfInLocation` up to the loop over the parents
leave the directories, the file name and the stream name in the buffer. -/
theorem GetFullName_front (w : MFTWalker) (f : FILE_NAME) (d : Option MftRecordAttribute)
    (pb : Option Bool) (fuel : Nat) (ns : List WString) (last : Nat)
    (hbuf : bufferOk w) (hroot : rootIsDot w.m_DirectoryNames w.USNRoot)
    (hch : parentChain w.m_DirectoryNames w.USNRoot fuel
      (NtfsFullSegmentNumber f.ParentDirectory) = some (ns, last)) :
    GetFullNameAndIfInLocation w (some f) d pb (fuel + 1) = Outcome.undefined
    ∨ ∃ c, c.Holds (dirPath ns ++ (f.FileName ++ streamSuffix d))
        ∧ GetFullNameAndIfInLocation w (some f) d pb (fuel + 1)
          = rootOrPlaceholder w (NtfsFullSegmentNumber f.ParentDirectory)
              (if w.m_Locations.isEmpty then pb.map (fun _ => true) else pb) c last := by
  obtain ⟨buffer, len, hbl, hcells, hlen, -⟩ := bufferOk_cells w hbuf
  obtain ⟨c0, hc0, hh0, -, -⟩ := initial_cursor buffer len hcells hlen
  unfold GetFullNameAndIfInLocation
  simp only [hbl]
  rw [if_neg (by omega), hc0]
  simp only [Outcome.value_bind]
  rcases streamName_holds w.MaxComponentLength d c0 hh0 with hu | ⟨c1, hc1, hh1⟩
  · left; rw [hu]; rfl
  rw [hc1]
  simp only [Outcome.value_bind]
  rcases prepend_holds w.MaxComponentLength f.FileName c1 _ hh1 with hu | ⟨c2, hc2, hh2⟩
  · left; rw [hu]; rfl
  rw [hc2]
  simp only [Outcome.value_bind, hh2.notNull, Bool.false_eq_true, if_false]
  rcases parentLoop_start w.m_DirectoryNames w.MaxComponentLength w.USNRoot fuel
    (NtfsFullSegmentNumber f.ParentDirectory) c2 _ ns last hh2 hroot hch with
    hu | ⟨c3, hc3, hh3⟩
  · left; rw [hu]; rfl
  · right
    rw [hc3]
    exact ⟨c3, hh3, rfl⟩

theorem GetFullName_front_flush (w : MFTWalker) (f : FILE_NAME)
    (d : Option MftRecordAttribute)
    (pb : Option Bool) (fuel : Nat) (ns : List WString) (last : Nat)
    (hbuf : bufferOk w) (hroot : rootIsDot w.m_DirectoryNames w.USNRoot)
    (hch : parentChain w.m_DirectoryNames w.USNRoot fuel
      (NtfsFullSegmentNumber f.ParentDirectory) = some (ns, last))
    (hfit : 2 * ((dirPath ns ++ (f.FileName ++ streamSuffix d)).length + 1) ≤ bufferBytes w) :
    ∃ c, c.Holds (dirPath ns ++ (f.FileName ++ streamSuffix d)) ∧ c.Flush
        ∧ c.m_dwFullNameBufferLen = bufferBytes w
        ∧ GetFullNameAndIfInLocation w (some f) d pb (fuel + 1)
          = rootOrPlaceholder w (NtfsFullSegmentNumber f.ParentDirectory)
              (if w.m_Locations.isEmpty then pb.map (fun _ => true) else pb) c last := by
  obtain ⟨buffer, len, hbl, hcells, hlen, hbytes⟩ := bufferOk_cells w hbuf
  obtain ⟨c0, hc0, hh0, hf0, hl0⟩ := initial_cursor buffer len hcells hlen
  simp only [List.length_append] at hfit
  have hcnt0 := hh0.count
  simp only [List.length_nil] at hcnt0
  unfold GetFullNameAndIfInLocation
  simp only [hbl]
  rw [if_neg (by omega), hc0]
  simp only [Outcome.value_bind]
  obtain ⟨c1, hc1, hh1, hf1, hl1⟩ := streamName_flush w.MaxComponentLength d c0 hh0 hf0
    (by rw [hl0, hbytes]; omega)
  rw [hc1]
  simp only [Outcome.value_bind]
  have hcnt1 := hh1.count
  obtain ⟨c2, hc2, hh2, hf2, hl2⟩ := prepend_flush w.MaxComponentLength f.FileName c1 _ hh1 hf1
    (by rw [hl1, hl0, hbytes]; omega)
  rw [hc2]
  simp only [Outcome.value_bind, hh2.notNull, Bool.false_eq_true, if_false]
  have hcnt2 := hh2.count
  simp only [List.length_append] at hcnt2
  obtain ⟨c3, hc3, hh3, hf3, hl3⟩ := parentLoop_start_flush w.m_DirectoryNames
    w.MaxComponentLength w.USNRoot fuel
    (NtfsFullSegmentNumber f.ParentDirectory) c2 _ ns last hh2 hf2 hroot hch
    (by rw [hl2, hl1, hl0, hbytes]; omega)
  rw [hc3]
  exact ⟨c3, hh3, hf3, by rw [hl3, hl2, hl1, hl0, hbytes], rfl⟩


/-- What `finish` returns for a cursor that holds `acc`: the cells of `acc` and
the terminator. -/
theorem finish_text (w : MFTWalker) (c : NameCursor) (flag : Option Bool) (acc : WString)
    (h : c.Holds acc) :
    (finish w c flag).text = some ((acc ++ [NUL]).map some)
    ∧ (finish w c flag).dwLen = 2 * (acc.length + 1) := by
  have h1 := h.notNull
  have h5 := h.count
  have h4 := h.text
  constructor
  · unfold NameCall.text finish
    simp only [h1, Bool.false_eq_true, if_false, h5]
    rw [Nat.mul_div_cancel_left _ (by decide : 0 < 2), h4]
  · unfold finish
    simp only [h1, Bool.false_eq_true, if_false, h5]

theorem decideLocation_text (w : MFTWalker) (key : Nat) (pb : Option Bool) (c : NameCursor)
    (acc : WString) (h : c.Holds acc) :
    (decideLocation w key pb c).text = some ((acc ++ [NUL]).map some)
    ∧ (decideLocation w key pb c).dwLen = 2 * (acc.length + 1) := by
  unfold decideLocation
  cases w.m_DirectoryNames.find key with
  | none => exact finish_text w c pb acc h
  | some e => exact finish_text _ c _ acc h

/-- The two branches behind the loop put the start of the path in front of the
text. -/
theorem rootOrPlaceholder_text (w : MFTWalker) (key : Nat) (pb : Option Bool)
    (c : NameCursor) (last : Nat) (ns : List WString) (file suffix : WString)
    (h : c.Holds (dirPath ns ++ (file ++ suffix))) :
    rootOrPlaceholder w key pb c last = Outcome.undefined
    ∨ ∃ call, rootOrPlaceholder w key pb c last = Outcome.value call
        ∧ call.text = some ((assembledPath w.USNRoot last ns file suffix ++ [NUL]).map some)
        ∧ call.dwLen = 2 * ((assembledPath w.USNRoot last ns file suffix).length + 1) := by
  unfold rootOrPlaceholder assembledPath
  simp only [h.notNull, Bool.false_eq_true, if_false]
  by_cases hr : last = w.USNRoot
  · have hb : (last == w.USNRoot) = true := by simpa using hr
    rw [if_pos hb, if_pos hr]
    rcases prepend_holds w.MaxComponentLength ['\\'] c _ h with hu | ⟨c2, hc2, hh2⟩
    · left; rw [hu]; rfl
    · right
      rw [hc2]
      simp only [Outcome.value_bind, hh2.notNull, Bool.false_eq_true, if_false]
      exact ⟨_, rfl, decideLocation_text w key pb c2 _ hh2⟩
  · have hb : ¬ (last == w.USNRoot) = true := by simpa using hr
    rw [if_neg hb, if_neg hr]
    rcases placeHolder_holds w pb c last _ h with hu | ⟨c2, hc2, hh2⟩
    · left; exact hu
    · right
      rw [hc2]
      exact ⟨_, rfl, finish_text w c2 pb _ hh2⟩

theorem rootOrPlaceholder_flush (w : MFTWalker) (key : Nat) (pb : Option Bool)
    (c : NameCursor) (last : Nat) (ns : List WString) (file suffix : WString)
    (h : c.Holds (dirPath ns ++ (file ++ suffix))) (hfl : c.Flush)
    (hfit : 2 * ((assembledPath w.USNRoot last ns file suffix).length + 1)
      ≤ c.m_dwFullNameBufferLen) :
    rootOrPlaceholder w key pb c last ≠ Outcome.undefined := by
  have hcnt := h.count
  unfold assembledPath at hfit
  unfold rootOrPlaceholder
  simp only [h.notNull, Bool.false_eq_true, if_false]
  by_cases hr : last = w.USNRoot
  · have hb : (last == w.USNRoot) = true := by simpa using hr
    rw [if_pos hb]
    rw [if_pos hr] at hfit
    simp only [List.length_cons] at hfit
    obtain ⟨c2, hc2, hh2, -, -⟩ := prepend_flush w.MaxComponentLength ['\\'] c _ h hfl
      (by simp only [List.length_singleton]; omega)
    rw [hc2]
    simp only [Outcome.value_bind, hh2.notNull, Bool.false_eq_true, if_false]
    exact fun h => nomatch h
  · have hb : ¬ (last == w.USNRoot) = true := by simpa using hr
    rw [if_neg hb]
    rw [if_neg hr] at hfit
    have hs := placeHolder_format_length last
    simp only [List.cons_append, List.length_cons, List.length_append] at hfit hs hcnt
    obtain ⟨c2, hc2, -⟩ := placeHolder_flush w pb c last _ h hfl (by omega)
    rw [hc2]
    exact fun h => nomatch h

/-- A path that fits the name buffer as it is at the call is assembled without
a write outside the buffer. -/
theorem GetFullName_defined (w : MFTWalker) (f : FILE_NAME) (d : Option MftRecordAttribute)
    (pb : Option Bool) (fuel : Nat) (ns : List WString) (last : Nat)
    (hbuf : bufferOk w) (hroot : rootIsDot w.m_DirectoryNames w.USNRoot)
    (hch : parentChain w.m_DirectoryNames w.USNRoot fuel
      (NtfsFullSegmentNumber f.ParentDirectory) = some (ns, last))
    (hfit : 2 * ((assembledPath w.USNRoot last ns f.FileName (streamSuffix d)).length + 1)
          ≤ bufferBytes w) :
    GetFullNameAndIfInLocation w (some f) d pb (fuel + 1) ≠ Outcome.undefined := by
  have hfit2 : 2 * ((dirPath ns ++ (f.FileName ++ streamSuffix d)).length + 1)
      ≤ bufferBytes w := by
    unfold assembledPath at hfit
    split_ifs at hfit
    · simp only [List.length_cons] at hfit
      omega
    · have hs := placeHolder_format_length last
      simp only [List.cons_append, List.length_cons, List.length_append] at hfit hs ⊢
      omega
  obtain ⟨c, hh, hfl, hl, hc⟩ :=
    GetFullName_front_flush w f d pb fuel ns last hbuf hroot hch hfit2
  rw [hc]
  exact rootOrPlaceholder_flush w _ _ c last ns f.FileName (streamSuffix d) hh hfl
    (by rw [hl]; exact hfit)

/-- C13, as amended: for a file name whose chain of parent references ends
with the volume root or with a parent that is not in the directory-name map (the
root, when it is in the map, has the name `.` and is its own parent),
`GetFullNameAndIfInLocation` returns, unless it writes in front of the name
buffer, this path followed by a terminator: for a chain that ends with the root,
a backslash, the names other than `.` of the ancestors from the outermost to the
direct parent, each followed by a backslash, the file name, and `:` with the
stream name when a named data attribute is given; for a chain that ends with a
missing parent, the same components behind `\__`, the 16 upper-case hexadecimal
digits of the missing reference and `__\`.  It does return when the path fits
the buffer as it is at the call. -/
theorem C13_full_name (w : MFTWalker) (f : FILE_NAME) (d : Option MftRecordAttribute)
    (pb : Option Bool) (fuel : Nat) (ns : List WString) (last : Nat)
    (hbuf : bufferOk w) (hroot : rootIsDot w.m_DirectoryNames w.USNRoot)
    (hch : parentChain w.m_DirectoryNames w.USNRoot fuel
      (NtfsFullSegmentNumber f.ParentDirectory) = some (ns, last)) :
    (GetFullNameAndIfInLocation w (some f) d pb (fuel + 1) = Outcome.undefined
      ∨ ∃ call, GetFullNameAndIfInLocation w (some f) d pb (fuel + 1) = Outcome.value call
          ∧ call.text = some
              ((assembledPath w.USNRoot last ns f.FileName (streamSuffix d) ++ [NUL]).map some)
          ∧ call.dwLen
              = 2 * ((assembledPath w.USNRoot last ns f.FileName (streamSuffix d)).length + 1))
    ∧ (2 * ((assembledPath w.USNRoot last ns f.FileName (streamSuffix d)).length + 1)
          ≤ bufferBytes w →
        GetFullNameAndIfInLocation w (some f) d pb (fuel + 1) ≠ Outcome.undefined) := by
  constructor
  · rcases GetFullName_front w f d pb fuel ns last hbuf hroot hch with hu | ⟨c, hh, hc⟩
    · exact Or.inl hu
    · rw [hc]
      exact rootOrPlaceholder_text w _ _ c last ns f.FileName (streamSuffix d) hh
  · exact GetFullName_defined w f d pb fuel ns last hbuf hroot hch

/-- Witness of `C13_full_name`: the file name `f.txt` in the directory `\a\b`. -/
theorem C13_full_name_witness :
    (GetFullNameAndIfInLocation sampleWalker (some sampleFileName) none none (2 + 1)
        = Outcome.undefined
      ∨ ∃ call, GetFullNameAndIfInLocation sampleWalker (some sampleFileName) none none (2 + 1)
            = Outcome.value call
          ∧ call.text = some
              ((assembledPath sampleWalker.USNRoot 5 ["b".toList, "a".toList]
                  sampleFileName.FileName (streamSuffix none) ++ [NUL]).map some)
          ∧ call.dwLen
              = 2 * ((assembledPath sampleWalker.USNRoot 5 ["b".toList, "a".toList]
                  sampleFileName.FileName (streamSuffix none)).length + 1))
    ∧ (2 * ((assembledPath sampleWalker.USNRoot 5 ["b".toList, "a".toList]
                  sampleFileName.FileName (streamSuffix none)).length + 1)
          ≤ bufferBytes sampleWalker →
        GetFullNameAndIfInLocation sampleWalker (some sampleFileName) none none (2 + 1)
          ≠ Outcome.undefined) :=
  C13_full_name sampleWalker sampleFileName none none 2 ["b".toList, "a".toList] 5
    (by simp [bufferOk, sampleWalker])
    (by intro e he; simp [sampleWalker, SegmentMap.find, List.lookup] at he; subst he; decide)
    (by decide)

set_option maxRecDepth 100000 in
/-- C13 fails for a directory, not the root, that has the name `.`: its chain of
parent references resolves up to the root, with the one name `.`, so that the
path of the claim is `\.\f.txt`; `GetFullNameAndIfInLocation` leaves the name
`.` out and returns `\f.txt`. -/
theorem C13_dot_directory_counterexample :
    parentChain dotWalker.m_DirectoryNames dotWalker.USNRoot 1
        (NtfsFullSegmentNumber 11) = some ([".".toList], 5)
    ∧ ∃ call, GetFullNameAndIfInLocation dotWalker
          (some { ParentDirectory := 11, FileName := "f.txt".toList }) none none 2
          = Outcome.value call
        ∧ call.text = some (("\\f.txt".toList ++ [NUL]).map some)
        ∧ call.text ≠ some
            ((claimedPath dotWalker.USNRoot 5 [".".toList] "f.txt".toList [] ++ [NUL]).map some) := by
  refine ⟨by decide, _, rfl, by decide, by decide⟩

set_option maxRecDepth 100000 in
/-- C14 fails for a file name of 255 characters in a directory of 255
characters below the root, with a maximum component length of 255: no name is
longer than the maximum component length, the assembled path needs more room
than the name buffer has, and `GetFullNameAndIfInLocation` writes in front of
the buffer it has extended. -/
theorem C14_long_names_write_in_front_of_buffer :
    longFileName.FileName.length ≤ longNameWalker.MaxComponentLength
    ∧ (∀ e ∈ longNameWalker.m_DirectoryNames,
        e.2.FileName.FileName.length ≤ longNameWalker.MaxComponentLength)
    ∧ bufferBytes longNameWalker
        < 2 * ((assembledPath longNameWalker.USNRoot 5 [List.replicate 255 'd']
                  longFileName.FileName []).length + 1)
    ∧ GetFullNameAndIfInLocation longNameWalker (some longFileName) none none 2
        = Outcome.undefined := by
  refine ⟨by decide, by decide, by decide, by decide⟩

/-! ## The in-location state of the directory names -/

theorem Outcome.bind_eq_value {α β : Type} (x : Outcome α) (f : α → Outcome β) (b : β) :
    x.bind f = Outcome.value b ↔ ∃ a, x = Outcome.value a ∧ f a = Outcome.value b := by
  cases x with
  | undefined => simp [Outcome.bind]
  | noFuel => simp [Outcome.bind]
  | value a => simp [Outcome.bind]

theorem lookup_cons_ite {α : Type} (k2 a : Nat) (v : α) (m : List (Nat × α)) :
    List.lookup k2 ((a, v) :: m) = if k2 = a then some v else List.lookup k2 m := by
  by_cases h : k2 = a
  · subst h
    simp [List.lookup]
  · have h3 : (k2 == a) = false := by simpa using h
    simp [List.lookup, h3, h]

theorem lookup_map_assign {α : Type} (m : List (Nat × α)) (k k2 : Nat) (x : α) :
    List.lookup k2 (m.map (fun e => if e.1 == k then (k, x) else e))
      = if k2 = k then (List.lookup k m).map (fun _ => x) else List.lookup k2 m := by
  induction m with
  | nil => simp
  | cons e m ih =>
    obtain ⟨a, v⟩ := e
    rw [List.map_cons]
    by_cases hak : a = k
    · have e1 : (if ((a, v).1 == k) = true then (k, x) else (a, v)) = (k, x) := by
        simp [hak]
      rw [e1, lookup_cons_ite, lookup_cons_ite, ih, hak]
      by_cases h2 : k2 = k
      · simp [h2, lookup_cons_ite]
      · simp [h2, lookup_cons_ite]
    · have e1 : (if ((a, v).1 == k) = true then (k, x) else (a, v)) = (a, v) := by
        simp [hak]
      rw [e1, lookup_cons_ite, lookup_cons_ite, ih]
      by_cases h2 : k2 = k
      · have h4 : ¬ k = a := fun h => hak h.symm
        simp [h2, h4, lookup_cons_ite]
      · by_cases h4 : k2 = a
        · simp [h4, hak, lookup_cons_ite]
        · simp [h2, h4, lookup_cons_ite]

theorem SegmentMap.find_assign {α : Type} (m : SegmentMap α) (k k2 : Nat) (x : α) :
    (m.assign k x).find k2 = if k2 = k then some x else m.find k2 := by
  unfold SegmentMap.assign SegmentMap.find
  cases h : List.lookup k m with
  | some y =>
    simp only [Option.isSome_some, if_true]
    rw [lookup_map_assign, h]
    rfl
  | none =>
    simp only [Option.isSome_none, Bool.false_eq_true, if_false, List.lookup_append]
    by_cases h2 : k2 = k
    · subst h2
      simp [h, List.lookup]
    · have h3 : (k2 == k) = false := by simpa using h2
      simp [List.lookup, h3, h2]

theorem SegmentMap.find_insert {α : Type} (m : SegmentMap α) (k k2 : Nat) (x : α) :
    (m.insert k x).find k2
      = if (m.find k).isSome then m.find k2 else if k2 = k then some x else m.find k2 := by
  unfold SegmentMap.insert SegmentMap.find
  cases h : List.lookup k m with
  | some y => simp
  | none =>
    simp only [Option.isSome_none, Bool.false_eq_true, if_false, List.lookup_append]
    by_cases h2 : k2 = k
    · subst h2
      simp [h, List.lookup]
    · have h3 : (k2 == k) = false := by simpa using h2
      simp [List.lookup, h3, h2]


theorem finish_decided (w : MFTWalker) (c : NameCursor) (flag : Option Bool) (k : Nat)
    (v : Bool) (h : decidedAt w k v) : decidedAt (finish w c flag).walker k v := h

theorem decideLocation_decided (w : MFTWalker) (key : Nat) (pb : Option Bool)
    (c : NameCursor) (k : Nat) (v : Bool) (h : decidedAt w k v) :
    decidedAt (decideLocation w key pb c).walker k v := by
  unfold decideLocation
  cases hf : w.m_DirectoryNames.find key with
  | none => exact h
  | some e =>
    obtain ⟨e0, he0, hv⟩ := h
    simp only []
    unfold decidedAt finish
    simp only [SegmentMap.find_assign]
    by_cases hk : k = key
    · subst hk
      rw [hf] at he0
      cases he0
      simp [hv]
    · simp only [if_neg hk]
      exact ⟨e0, he0, hv⟩

theorem placeHolder_shape (w : MFTWalker) (pb : Option Bool) (c : NameCursor) (last : Nat)
    (call : NameCall) (h : placeHolder w pb c last = Outcome.value call) :
    ∃ c2, call = finish w c2 pb := by
  unfold placeHolder at h
  simp only [Outcome.bind_eq_value] at h
  obtain ⟨c1, -, c2, -, c3, -, c4, -, c5, -, h⟩ := h
  cases h
  exact ⟨c5, rfl⟩

theorem rootOrPlaceholder_shape (w : MFTWalker) (key : Nat) (pb : Option Bool)
    (c : NameCursor) (last : Nat) (call : NameCall)
    (h : rootOrPlaceholder w key pb c last = Outcome.value call) :
    (∃ c2, call = finish w c2 pb) ∨ ∃ c2, call = decideLocation w key pb c2 := by
  unfold rootOrPlaceholder at h
  split_ifs at h with h1 h2
  · cases h
    exact Or.inl ⟨c, rfl⟩
  · rw [Outcome.bind_eq_value] at h
    obtain ⟨c1, -, h⟩ := h
    split_ifs at h
    · cases h
      exact Or.inl ⟨c1, rfl⟩
    · cases h
      exact Or.inr ⟨c1, rfl⟩
  · exact Or.inl (placeHolder_shape w pb c last call h)

/-- What a call of `GetFullNameAndIfInLocation` that returns leaves: the walker
with its buffer, and at most the in-location state of the direct parent
decided. -/
theorem GetFullName_shape (w : MFTWalker) (pf : Option FILE_NAME)
    (d : Option MftRecordAttribute) (pb : Option Bool) (fuel : Nat) (call : NameCall)
    (h : GetFullNameAndIfInLocation w pf d pb fuel = Outcome.value call) :
    (∃ c2 flag, call = finish w c2 flag ∧
        (pf ≠ none → flag = if w.m_Locations.isEmpty then pb.map (fun _ => true) else pb))
    ∨ ∃ f c2, pf = some f ∧ call = decideLocation w (NtfsFullSegmentNumber f.ParentDirectory)
        (if w.m_Locations.isEmpty then pb.map (fun _ => true) else pb) c2 := by
  unfold GetFullNameAndIfInLocation at h
  simp only [] at h
  generalize (if w.m_Locations.isEmpty then pb.map (fun _ => true) else pb) = pb2 at h ⊢
  generalize (match w.m_pFullNameBuffer with
    | some buffer => (buffer, w.m_dwFullNameBufferLen)
    | none => (List.replicate (w.MaxComponentLength * 2 / 2) (none : Option Char),
        w.MaxComponentLength * 2)) = bl at h
  split_ifs at h with hlen
  rw [Outcome.bind_eq_value] at h
  obtain ⟨c0, -, h⟩ := h
  rw [Outcome.bind_eq_value] at h
  obtain ⟨c1, -, h⟩ := h
  cases pf with
  | none =>
    simp only [] at h
    rw [Outcome.bind_eq_value] at h
    obtain ⟨c2, -, h⟩ := h
    cases h
    exact Or.inl ⟨c2, _, rfl, fun hh => absurd rfl hh⟩
  | some f =>
    simp only [] at h
    rw [Outcome.bind_eq_value] at h
    obtain ⟨c2, -, h⟩ := h
    rw [Outcome.bind_eq_value] at h
    obtain ⟨⟨c3, last⟩, -, h⟩ := h
    rcases rootOrPlaceholder_shape w _ _ c3 last call h with ⟨c4, hc⟩ | ⟨c4, hc⟩
    · exact Or.inl ⟨c4, _, hc, fun _ => rfl⟩
    · exact Or.inr ⟨f, c4, rfl, hc⟩

theorem GetFullName_decided (w : MFTWalker) (pf : Option FILE_NAME)
    (d : Option MftRecordAttribute) (pb : Option Bool) (fuel : Nat) (call : NameCall)
    (h : GetFullNameAndIfInLocation w pf d pb fuel = Outcome.value call)
    (k : Nat) (v : Bool) (hd : decidedAt w k v) : decidedAt call.walker k v := by
  rcases GetFullName_shape w pf d pb fuel call h with ⟨c2, flag, rfl, -⟩ | ⟨f, c2, -, rfl⟩
  · exact finish_decided w c2 flag k v hd
  · exact decideLocation_decided w _ _ c2 k v hd

theorem IsInLocation_decided (w : MFTWalker) (f : FILE_NAME) (fuel : Nat) (b : Bool)
    (w2 : MFTWalker) (h : IsInLocation w f fuel = Outcome.value (b, w2))
    (k : Nat) (v : Bool) (hd : decidedAt w k v) : decidedAt w2 k v := by
  unfold IsInLocation at h
  split_ifs at h with he
  · cases h; exact hd
  · simp only [] at h
    cases hf : w.m_DirectoryNames.find (NtfsFullSegmentNumber f.ParentDirectory) with
    | none =>
      rw [hf] at h
      cases h; exact hd
    | some it =>
      rw [hf] at h
      simp only [] at h
      cases hm : it.m_InLocation with
      | some t =>
        rw [hm] at h
        cases t <;> (cases h; exact hd)
      | none =>
        rw [hm] at h
        simp only [] at h
        rw [Outcome.bind_eq_value] at h
        obtain ⟨call, hcall, h⟩ := h
        cases h
        have hd2 := GetFullName_decided w _ _ _ fuel call hcall k v hd
        obtain ⟨e, he1, he2⟩ := hd2
        unfold decidedAt
        simp only [SegmentMap.find_assign]
        by_cases hk : k = NtfsFullSegmentNumber f.ParentDirectory
        · subst hk
          obtain ⟨e0, h0, hv0⟩ := hd
          rw [hf] at h0
          cases h0
          rw [hm] at hv0
          cases hv0
        · rw [if_neg hk]
          exact ⟨e, he1, he2⟩

theorem AddDirectoryName_decided (w : MFTWalker) (r : WalkerRecord) (w2 : MFTWalker)
    (h : AddDirectoryName w r = Outcome.value w2)
    (k : Nat) (v : Bool) (hd : decidedAt w k v) : decidedAt w2 k v := by
  have key : ∀ (s : Nat) (x : MFTFileNameWrapper),
      decidedAt { w with m_DirectoryNames := w.m_DirectoryNames.insert s x } k v := by
    intro s x
    obtain ⟨e, he, hv⟩ := hd
    unfold decidedAt
    simp only [SegmentMap.find_insert]
    split_ifs with h1 h2
    · exact ⟨e, he, hv⟩
    · subst h2
      rw [he] at h1
      simp at h1
    · exact ⟨e, he, hv⟩
  unfold AddDirectoryName at h
  cases hb : r.m_pBaseFileRecord with
  | none =>
    rw [hb] at h
    simp only [] at h
    split_ifs at h
    · cases hm : r.Main_PFILE_NAME with
      | none => rw [hm] at h; cases h; exact hd
      | some n => rw [hm] at h; cases h; exact key _ _
    · cases h; exact hd
  | some p =>
    rw [hb] at h
    simp only [] at h
    rw [Outcome.bind_eq_value] at h
    obtain ⟨base, -, h⟩ := h
    split_ifs at h
    · cases hfd : w.m_DirectoryNames.find (NtfsFullSegmentNumber base.m_FileReferenceNumber) with
      | some e => rw [hfd] at h; cases h; exact hd
      | none =>
        rw [hfd] at h
        simp only [] at h
        cases hm : base.Main_PFILE_NAME with
        | none => rw [hm] at h; cases h; exact hd
        | some n => rw [hm] at h; cases h; exact key _ _
    · cases h; exact hd

theorem WalkerOperation.run_decided (op : WalkerOperation) (w w2 : MFTWalker)
    (h : op.run w = Outcome.value w2) (k : Nat) (v : Bool) (hd : decidedAt w k v) :
    decidedAt w2 k v := by
  cases op with
  | isInLocation f fuel =>
    simp only [WalkerOperation.run, Outcome.bind_eq_value] at h
    obtain ⟨⟨b, w3⟩, h1, h2⟩ := h
    cases h2
    exact IsInLocation_decided w f fuel b _ h1 k v hd
  | getFullNameAndIfInLocation pf d pb fuel =>
    simp only [WalkerOperation.run, Outcome.bind_eq_value] at h
    obtain ⟨call, h1, h2⟩ := h
    cases h2
    exact GetFullName_decided w pf d pb fuel call h1 k v hd
  | addDirectoryName r =>
    exact AddDirectoryName_decided w r w2 h k v hd

theorem runOperations_decided (ops : List WalkerOperation) :
    ∀ (w w2 : MFTWalker), runOperations ops w = Outcome.value w2 →
      ∀ (k : Nat) (v : Bool), decidedAt w k v → decidedAt w2 k v := by
  induction ops using List.reverseRecOn with
  | nil =>
    intro w w2 h k v hd
    cases h
    exact hd
  | append_singleton ops op ih =>
    intro w w2 h k v hd
    unfold runOperations at h
    rw [List.foldl_append] at h
    simp only [List.foldl_cons, List.foldl_nil] at h
    rw [Outcome.bind_eq_value] at h
    obtain ⟨w1, h1, h2⟩ := h
    exact WalkerOperation.run_decided op w1 w2 h2 k v (ih w w1 h1 k v hd)


theorem towlower_toNat (c : Char) :
    (towlower c).toNat = if 65 ≤ c.toNat ∧ c.toNat ≤ 90 then c.toNat + 32 else c.toNat := by
  unfold towlower
  have hA : ('A' ≤ c) ↔ 65 ≤ c.toNat := by
    rw [Char.le_def, UInt32.le_def]
    rfl
  have hZ : (c ≤ 'Z') ↔ c.toNat ≤ 90 := by
    rw [Char.le_def, UInt32.le_def]
    rfl
  by_cases h : 'A' ≤ c ∧ c ≤ 'Z'
  · have h2 : 65 ≤ c.toNat ∧ c.toNat ≤ 90 := ⟨hA.1 h.1, hZ.1 h.2⟩
    rw [if_pos h, if_pos h2]
    have hv : (c.toNat + 32).isValidChar := by
      left
      omega
    have hv2 : (c.val.toNat + 32).isValidChar := hv
    simp only [Char.ofNat, Char.toNat, dif_pos hv2, Char.ofNatAux]
    rfl
  · have h2 : ¬ (65 ≤ c.toNat ∧ c.toNat ≤ 90) := fun hh => h ⟨hA.2 hh.1, hZ.2 hh.2⟩
    rw [if_neg h, if_neg h2]


theorem char_eq_of_toNat (a b : Char) (h : a.toNat = b.toNat) : a = b := by
  apply Char.ext
  apply UInt32.ext
  exact h

theorem towlower_eq_iff (c x : Char)
    (hx : x.toNat < 65 ∨ (90 < x.toNat ∧ x.toNat < 97) ∨ 122 < x.toNat) :
    towlower c = x ↔ c = x := by
  constructor
  · intro h
    have h2 := congrArg Char.toNat h
    rw [towlower_toNat] at h2
    apply char_eq_of_toNat
    split_ifs at h2 <;> omega
  · intro h
    subst h
    apply char_eq_of_toNat
    rw [towlower_toNat]
    split_ifs <;> omega

theorem towlower_eq_NUL (c : Char) : towlower c = NUL ↔ c = NUL :=
  towlower_eq_iff c NUL (Or.inl (by decide))

theorem towlower_eq_backslash (c : Char) : towlower c = '\\' ↔ c = '\\' :=
  towlower_eq_iff c '\\' (Or.inr (Or.inl (by decide)))

/-- The comparison `_wcsnicmp` of the string at a cell of the buffer with a
root, over the length of the root, is the test that the root is a
case-insensitive start of the text. -/
theorem wcsnicmp_takeWhile (item : WString) :
    ∀ (path : WString), NUL ∉ item →
      _wcsnicmp (path.takeWhile (fun c => c != NUL)) item item.length
        = startsWithCI path item := by
  induction item with
  | nil =>
    intro path _
    simp [_wcsnicmp, startsWithCI]
  | cons y item ih =>
    intro path hn
    have hy : y ≠ NUL := fun h => hn (by simp [h])
    have hn2 : NUL ∉ item := fun h => hn (List.mem_cons_of_mem _ h)
    have hly : towlower y ≠ NUL := fun h => hy ((towlower_eq_NUL y).1 h)
    cases path with
    | nil =>
      simp only [List.takeWhile_nil, List.length_cons, _wcsnicmp, List.headD_nil,
        List.headD_cons, startsWithCI, List.map_cons, List.map_nil, List.isPrefixOf]
      have h0 : towlower NUL = NUL := (towlower_eq_NUL NUL).2 rfl
      have h1 : (NUL != towlower y) = true := by
        simpa using fun h => hly h.symm
      simp [h0, h1]
    | cons x path =>
      by_cases hx : x = NUL
      · subst hx
        have e1 : (NUL :: path).takeWhile (fun c => c != NUL) = [] := by
          simp [List.takeWhile]
        rw [e1]
        simp only [List.length_cons, _wcsnicmp, List.headD_nil,
          List.headD_cons, startsWithCI, List.map_cons, List.isPrefixOf]
        have h0 : towlower NUL = NUL := (towlower_eq_NUL NUL).2 rfl
        have h1 : (NUL != towlower y) = true := by
          simpa using fun h => hly h.symm
        have h2 : (towlower y == NUL) = false := by
          simpa using hly
        simp [h0, h1, h2]
      · have e1 : (x :: path).takeWhile (fun c => c != NUL)
            = x :: path.takeWhile (fun c => c != NUL) := by
          have hb : (x != NUL) = true := by simpa using hx
          rw [List.takeWhile_cons, hb]
          rfl
        rw [e1]
        simp only [List.length_cons, _wcsnicmp, List.headD_cons, List.tail_cons, startsWithCI,
          List.map_cons, List.isPrefixOf]
        by_cases hxy : towlower x = towlower y
        · have h1 : (towlower x != towlower y) = false := by simpa using hxy
          have h2 : (towlower x == NUL) = false := by
            rw [hxy]; simpa using hly
          have h3 : (towlower y == towlower x) = true := by simpa using hxy.symm
          simp only [h1, h2, h3, Bool.false_eq_true, if_false, Bool.true_and]
          exact ih path hn2
        · have h1 : (towlower x != towlower y) = true := by simpa using hxy
          have h3 : (towlower y == towlower x) = false := by simpa using fun h => hxy h.symm
          simp [h1, h3]


theorem takeWhile_terminated (acc : WString) (rest : List (Option Char)) :
    ((acc ++ [NUL]).map some ++ rest).takeWhile (fun c => c.isSome && c != some NUL)
      = (acc.takeWhile (fun c => c != NUL)).map some := by
  induction acc with
  | nil => simp [List.takeWhile]
  | cons a acc ih =>
    by_cases ha : a = NUL
    · subst ha
      simp [List.takeWhile]
    · have hb : (a != NUL) = true := by simpa using ha
      have hb2 : ((some a).isSome && some a != some NUL) = true := by simpa using ha
      simp only [List.cons_append, List.map_cons, List.takeWhile_cons, hb, hb2, if_true]
      rw [← ih]

/-- The string at `pCurrent`, as `_wcsnicmp` reads it, is the text the cursor
holds, up to its first terminator. -/
theorem cstring_holds (c : NameCursor) (acc : WString) (h : c.Holds acc) :
    cstring c.m_pFullNameBuffer c.pCurrent = acc.takeWhile (fun c => c != NUL) := by
  have ht := h.text
  unfold textAt at ht
  have hd : c.m_pFullNameBuffer.drop c.pCurrent
      = (acc ++ [NUL]).map some
        ++ (c.m_pFullNameBuffer.drop c.pCurrent).drop (acc.length + 1) := by
    rw [← ht, List.take_append_drop]
  unfold cstring
  rw [hd, takeWhile_terminated]
  simp [List.filterMap_map]

/-- The test of `std::any_of` in `GetFullNameAndIfInLocation`, on a cursor that
holds the path. -/
theorem any_wcsnicmp (w : MFTWalker) (c : NameCursor) (path : WString) (h : c.Holds path)
    (hwf : rootsWellFormed w) :
    (w.m_Locations.any fun item =>
        _wcsnicmp (cstring c.m_pFullNameBuffer c.pCurrent) item item.length)
      = inSomeLocation w path := by
  unfold inSomeLocation
  rw [cstring_holds c path h]
  apply Bool.eq_iff_iff.2
  simp only [List.any_eq_true]
  constructor
  · rintro ⟨item, hi, ht⟩
    exact ⟨item, hi, by rw [← wcsnicmp_takeWhile item path (hwf item hi).2]; exact ht⟩
  · rintro ⟨item, hi, ht⟩
    exact ⟨item, hi, by rw [wcsnicmp_takeWhile item path (hwf item hi).2]; exact ht⟩

/-- The end of a call for a chain that ends with the root and a direct parent
in the map, with sub-tree roots configured: the flag is the state of the direct
parent when that is decided, and else the prefix test, which is saved on the
direct parent. -/
theorem decideLocation_flag (w : MFTWalker) (key : Nat) (b0 : Bool) (c : NameCursor)
    (path : WString) (e : MFTFileNameWrapper) (h : c.Holds path)
    (hwf : rootsWellFormed w) (hloc : w.m_Locations.isEmpty = false)
    (hf : w.m_DirectoryNames.find key = some e) :
    (decideLocation w key (some b0) c).bInSpecificLocation
        = some (e.m_InLocation.getD (inSomeLocation w path))
    ∧ decidedAt (decideLocation w key (some b0) c).walker key
        (e.m_InLocation.getD (inSomeLocation w path)) := by
  unfold decideLocation
  rw [hf]
  simp only [hloc, Bool.not_false, Bool.true_and, any_wcsnicmp w c path h hwf]
  unfold decidedAt finish
  simp only [SegmentMap.find_assign, if_true, Bool.false_eq_true, if_false]
  cases hm : e.m_InLocation with
  | none =>
    simp only [beq_self_eq_true, if_true, Option.getD_none]
    constructor
    · cases inSomeLocation w path <;> rfl
    · exact ⟨_, rfl, rfl⟩
  | some v =>
    have hne : (some v == (none : Option Bool)) = false := rfl
    simp only [hne, Bool.false_eq_true, if_false, Option.getD_some, hm]
    constructor
    · cases v <;> rfl
    · exact ⟨_, rfl, hm⟩


theorem prefix_append_of_last {L A B : List Char} {x : Char}
    (hl : L.getLast? = some x) (hx : x ∉ B) : L <+: A ++ B ↔ L <+: A := by
  constructor
  · intro h
    rcases List.prefix_or_prefix_of_prefix h (List.prefix_append A B) with h1 | h1
    · exact h1
    · obtain ⟨r, rfl⟩ := h1
      have hr : r <+: B := (List.prefix_append_right_inj A).1 h
      cases r with
      | nil => simp
      | cons y r =>
        exfalso
        apply hx
        apply hr.subset
        have hne : y :: r ≠ [] := by simp
        rw [List.getLast?_append, List.getLast?_eq_getLast _ hne] at hl
        simp only [Option.or_some, Option.some.injEq] at hl
        rw [← hl]
        exact List.getLast_mem hne
  · intro h
    exact h.trans (List.prefix_append A B)

/-- A root that ends with a backslash is a start of a directory path with a
name behind it exactly when it is a start of the directory path. -/
theorem startsWithCI_dir (root D t : WString) (hl : root.getLast? = some '\\')
    (ht : '\\' ∉ t) : startsWithCI (D ++ t) root = startsWithCI D root := by
  unfold startsWithCI
  apply Bool.eq_iff_iff.2
  rw [List.isPrefixOf_iff_prefix, List.isPrefixOf_iff_prefix, List.map_append]
  apply prefix_append_of_last (x := '\\')
  · rw [List.getLast?_map, hl]
    rfl
  · intro hm
    rw [List.mem_map] at hm
    obtain ⟨c, hc, hcl⟩ := hm
    rw [(towlower_eq_backslash c).1 hcl] at hc
    exact ht hc

theorem inSomeLocation_dir (w : MFTWalker) (D t : WString) (hwf : rootsWellFormed w)
    (ht : '\\' ∉ t) : inSomeLocation w (D ++ t) = inSomeLocation w D := by
  unfold inSomeLocation
  apply Bool.eq_iff_iff.2
  simp only [List.any_eq_true]
  constructor
  · rintro ⟨item, hi, h⟩
    exact ⟨item, hi, by rw [← startsWithCI_dir item D t (hwf item hi).1 ht]; exact h⟩
  · rintro ⟨item, hi, h⟩
    exact ⟨item, hi, by rw [startsWithCI_dir item D t (hwf item hi).1 ht]; exact h⟩

theorem assembledPath_root (root : Nat) (ns : List WString) (file suffix : WString) :
    assembledPath root root ns file suffix = ('\\' :: dirPath ns) ++ (file ++ suffix) := by
  unfold assembledPath
  rw [if_pos rfl]
  rfl

/-- The branch of `GetFullNameAndIfInLocation` for a chain that ends with the
root. -/
theorem rootBranch_holds (w : MFTWalker) (key : Nat) (pb : Option Bool) (c : NameCursor)
    (acc : WString) (h : c.Holds acc) :
    rootOrPlaceholder w key pb c w.USNRoot = Outcome.undefined
    ∨ ∃ c2, rootOrPlaceholder w key pb c w.USNRoot
          = Outcome.value (decideLocation w key pb c2)
        ∧ c2.Holds ('\\' :: acc) := by
  unfold rootOrPlaceholder
  simp only [h.notNull, Bool.false_eq_true, if_false, beq_self_eq_true, if_true]
  rcases prepend_holds w.MaxComponentLength ['\\'] c _ h with hu | ⟨c2, hc2, hh2⟩
  · left; rw [hu]; rfl
  · right
    rw [hc2]
    simp only [Outcome.value_bind, hh2.notNull, Bool.false_eq_true, if_false]
    exact ⟨c2, rfl, hh2⟩

theorem rootBranch_flush (w : MFTWalker) (key : Nat) (pb : Option Bool) (c : NameCursor)
    (acc : WString) (h : c.Holds acc) (hfl : c.Flush)
    (hfit : c.dwCount + 2 ≤ c.m_dwFullNameBufferLen) :
    ∃ c2, rootOrPlaceholder w key pb c w.USNRoot
          = Outcome.value (decideLocation w key pb c2)
        ∧ c2.Holds ('\\' :: acc) := by
  unfold rootOrPlaceholder
  simp only [h.notNull, Bool.false_eq_true, if_false, beq_self_eq_true, if_true]
  obtain ⟨c2, hc2, hh2, -, -⟩ := prepend_flush w.MaxComponentLength ['\\'] c _ h hfl
    (by simpa using hfit)
  rw [hc2]
  simp only [Outcome.value_bind, hh2.notNull, Bool.false_eq_true, if_false]
  exact ⟨c2, rfl, hh2⟩

/-- The flag of `GetFullNameAndIfInLocation` for a chain that ends with the
root, with sub-tree roots configured and the direct parent in the map. -/
theorem GetFullName_flag (w : MFTWalker) (f : FILE_NAME) (d : Option MftRecordAttribute)
    (b0 : Bool) (fuel : Nat) (ns : List WString) (e : MFTFileNameWrapper)
    (hbuf : bufferOk w) (hroot : rootIsDot w.m_DirectoryNames w.USNRoot)
    (hloc : w.m_Locations.isEmpty = false) (hwf : rootsWellFormed w)
    (hch : parentChain w.m_DirectoryNames w.USNRoot fuel
      (NtfsFullSegmentNumber f.ParentDirectory) = some (ns, w.USNRoot))
    (hf : w.m_DirectoryNames.find (NtfsFullSegmentNumber f.ParentDirectory) = some e) :
    GetFullNameAndIfInLocation w (some f) d (some b0) (fuel + 1) = Outcome.undefined
    ∨ ∃ call, GetFullNameAndIfInLocation w (some f) d (some b0) (fuel + 1) = Outcome.value call
        ∧ call.bInSpecificLocation = some (e.m_InLocation.getD (inSomeLocation w
            (assembledPath w.USNRoot w.USNRoot ns f.FileName (streamSuffix d))))
        ∧ decidedAt call.walker (NtfsFullSegmentNumber f.ParentDirectory)
            (e.m_InLocation.getD (inSomeLocation w
              (assembledPath w.USNRoot w.USNRoot ns f.FileName (streamSuffix d))))
        ∧ call.walker.m_DirectoryNames = w.m_DirectoryNames.assign
            (NtfsFullSegmentNumber f.ParentDirectory)
            { e with m_InLocation := some (e.m_InLocation.getD (inSomeLocation w
              (assembledPath w.USNRoot w.USNRoot ns f.FileName (streamSuffix d)))) } := by
  rcases GetFullName_front w f d (some b0) fuel ns _ hbuf hroot hch with hu | ⟨c, hh, hc⟩
  · exact Or.inl hu
  · rw [hc]
    simp only [hloc, Bool.false_eq_true, if_false]
    rcases rootBranch_holds w (NtfsFullSegmentNumber f.ParentDirectory) (some b0) c _ hh with
      hu | ⟨c2, hc2, hh2⟩
    · exact Or.inl hu
    · right
      rw [hc2]
      have hp : '\\' :: (dirPath ns ++ (f.FileName ++ streamSuffix d))
          = assembledPath w.USNRoot w.USNRoot ns f.FileName (streamSuffix d) := by
        rw [assembledPath_root]; rfl
      rw [hp] at hh2
      obtain ⟨h1, h2⟩ := decideLocation_flag w _ b0 c2 _ e hh2 hwf hloc hf
      refine ⟨_, rfl, h1, h2, ?_⟩
      unfold decideLocation
      rw [hf]
      simp only [hloc, Bool.not_false, Bool.true_and, any_wcsnicmp w c2 _ hh2 hwf]
      unfold finish
      simp only []
      cases hm : e.m_InLocation with
      | none => simp
      | some v =>
        have hne : (some v == (none : Option Bool)) = false := rfl
        simp only [hne, Bool.false_eq_true, if_false, Option.getD_some]
        rw [← hm]


/-- The answer of `IsInLocation` for a chain that ends with the root, with
sub-tree roots configured and the direct parent in the map. -/
theorem IsInLocation_answer (w : MFTWalker) (f : FILE_NAME)
    (fuel : Nat) (ns : List WString) (e : MFTFileNameWrapper)
    (hbuf : bufferOk w) (hroot : rootIsDot w.m_DirectoryNames w.USNRoot)
    (hloc : w.m_Locations.isEmpty = false) (hwf : rootsWellFormed w)
    (hch : parentChain w.m_DirectoryNames w.USNRoot fuel
      (NtfsFullSegmentNumber f.ParentDirectory) = some (ns, w.USNRoot))
    (hf : w.m_DirectoryNames.find (NtfsFullSegmentNumber f.ParentDirectory) = some e) :
    IsInLocation w f (fuel + 1) = Outcome.undefined
    ∨ ∃ w2, IsInLocation w f (fuel + 1)
          = Outcome.value (e.m_InLocation.getD (inSomeLocation w
              (assembledPath w.USNRoot w.USNRoot ns f.FileName [])), w2)
        ∧ decidedAt w2 (NtfsFullSegmentNumber f.ParentDirectory)
            (e.m_InLocation.getD (inSomeLocation w
              (assembledPath w.USNRoot w.USNRoot ns f.FileName []))) := by
  unfold IsInLocation
  simp only [hloc, Bool.false_eq_true, if_false, hf]
  cases hm : e.m_InLocation with
  | some v =>
    right
    cases v
    · exact ⟨w, rfl, e, hf, hm⟩
    · exact ⟨w, rfl, e, hf, hm⟩
  | none =>
    simp only []
    rcases GetFullName_flag w f none false fuel ns e hbuf hroot hloc hwf hch hf with
      hu | ⟨call, hc, hflag, hdec, -⟩
    · left
      rw [hu]
      rfl
    · right
      rw [hc]
      simp only [Outcome.value_bind]
      rw [hm] at hflag
      simp only [streamSuffix, Option.getD_none] at hflag
      rw [hflag]
      refine ⟨_, rfl, ?_⟩
      unfold decidedAt
      simp only [SegmentMap.find_assign, if_true, Option.getD_some, Option.getD_none]
      exact ⟨_, rfl, rfl⟩

theorem IsInLocation_defined (w : MFTWalker) (f : FILE_NAME)
    (fuel : Nat) (ns : List WString)
    (hbuf : bufferOk w) (hroot : rootIsDot w.m_DirectoryNames w.USNRoot)
    (hch : parentChain w.m_DirectoryNames w.USNRoot fuel
      (NtfsFullSegmentNumber f.ParentDirectory) = some (ns, w.USNRoot))
    (hfit : 2 * ((assembledPath w.USNRoot w.USNRoot ns f.FileName []).length + 1)
          ≤ bufferBytes w) :
    IsInLocation w f (fuel + 1) ≠ Outcome.undefined := by
  unfold IsInLocation
  split_ifs
  · exact fun h => nomatch h
  · simp only []
    cases hf : w.m_DirectoryNames.find (NtfsFullSegmentNumber f.ParentDirectory) with
    | none => exact fun h => nomatch h
    | some e =>
      simp only []
      cases hm : e.m_InLocation with
      | some v => cases v <;> exact fun h => nomatch h
      | none =>
        simp only []
        have hd := GetFullName_defined w f none (some false) fuel ns _ hbuf hroot hch hfit
        cases hg : GetFullNameAndIfInLocation w (some f) none (some false) (fuel + 1) with
        | undefined => exact absurd hg hd
        | noFuel => exact fun h => nomatch h
        | value call => exact fun h => nomatch h


theorem addLocation_wellFormed (expand : WString → Option WString)
    (hexp : ∀ s e, expand s = some e → NUL ∉ e) (locations : List WString)
    (location : WString)
    (h : ∀ root ∈ locations, root.getLast? = some '\\' ∧ NUL ∉ root) :
    ∀ root ∈ addLocation expand locations location,
      root.getLast? = some '\\' ∧ NUL ∉ root := by
  unfold addLocation
  cases he : expand location with
  | none => exact h
  | some e =>
    simp only []
    split_ifs with h1 h2 h3 h3
    · exact h
    · exact h
    · intro root hr
      rw [List.mem_append, List.mem_singleton] at hr
      rcases hr with hr | rfl
      · exact h root hr
      · refine ⟨by simp, ?_⟩
        intro hm
        rw [List.mem_append, List.mem_singleton] at hm
        rcases hm with hm | hm
        · exact hexp _ _ he hm
        · exact absurd hm (by decide)
    · exact h
    · intro root hr
      rw [List.mem_append, List.mem_singleton] at hr
      rcases hr with hr | rfl
      · exact h root hr
      · exact ⟨by simpa using h2, hexp _ _ he⟩

/-- The sub-tree roots that `Initialize` builds end with a backslash and hold
no terminator. -/
theorem Initialize_rootsWellFormed (expand : WString → Option WString)
    (hexp : ∀ s e, expand s = some e → NUL ∉ e) (w : MFTWalker) (subDirs : List WString)
    (b : Bool) (h : rootsWellFormed w) : rootsWellFormed (Initialize expand w subDirs b) := by
  have key : ∀ (subDirs : List WString) (locations : List WString),
      (∀ root ∈ locations, root.getLast? = some '\\' ∧ NUL ∉ root) →
      ∀ root ∈ subDirs.foldl (addLocation expand) locations,
        root.getLast? = some '\\' ∧ NUL ∉ root := by
    intro subDirs
    induction subDirs with
    | nil => intro locations hl; exact hl
    | cons s subDirs ih =>
      intro locations hl
      exact ih _ (addLocation_wellFormed expand hexp locations s hl)
  unfold Initialize rootsWellFormed
  simp only []
  split_ifs with h1 h2
  · intro root hr; exact absurd hr (List.not_mem_nil _)
  · exact key subDirs _ h
  · exact h


/-- The state that `IsInLocation` saves on the direct parent behind its call of
`GetFullNameAndIfInLocation` is the state that this call has decided, when it
has decided one. -/
theorem IsInLocation_saves_decided (w : MFTWalker) (f : FILE_NAME) (fuel : Nat)
    (call : NameCall) (it : MFTFileNameWrapper) (v : Bool)
    (hloc : w.m_Locations.isEmpty = false)
    (hf : w.m_DirectoryNames.find (NtfsFullSegmentNumber f.ParentDirectory) = some it)
    (hm : it.m_InLocation = none)
    (hc : GetFullNameAndIfInLocation w (some f) none (some false) fuel = Outcome.value call)
    (hd : decidedAt call.walker (NtfsFullSegmentNumber f.ParentDirectory) v) :
    call.bInSpecificLocation.getD false = v := by
  rcases GetFullName_shape w (some f) none (some false) fuel call hc with
    ⟨c2, flag, rfl, -⟩ | ⟨g, c2, hg, rfl⟩
  · obtain ⟨e, he, hv⟩ := hd
    have he2 : w.m_DirectoryNames.find (NtfsFullSegmentNumber f.ParentDirectory) = some e := he
    rw [hf] at he2
    cases he2
    rw [hm] at hv
    cases hv
  · cases hg
    simp only [hloc, Bool.false_eq_true, if_false] at hd ⊢
    unfold decideLocation at hd ⊢
    rw [hf] at hd ⊢
    simp only [hloc, Bool.not_false, Bool.true_and, hm, beq_self_eq_true, if_true,
      Bool.false_eq_true, if_false] at hd ⊢
    unfold decidedAt finish at hd
    simp only [SegmentMap.find_assign, if_true] at hd
    obtain ⟨e, he, hv⟩ := hd
    cases he
    simp only [Option.some.injEq] at hv
    unfold finish
    simp only []
    rw [hv]
    cases v <;> rfl

/-- C15, as amended: with sub-tree roots configured (each ending with a
backslash, as `Initialize` builds them), for a file name whose ancestors, from
its direct parent up to the volume root, are all in the directory-name map, the
answer of `IsInLocation` and the flag of `GetFullNameAndIfInLocation` are, when
the state of the direct parent is undecided, the test that some root is a
case-insensitive start of the assembled full path, and that answer is saved on
the direct parent; when the state of the direct parent is decided, they are the
saved state.  Both calls return when the path fits the name buffer.  The test
has the same result for all the names without a backslash of one directory. -/
theorem C15_in_location_answer (w : MFTWalker) (f : FILE_NAME)
    (d : Option MftRecordAttribute) (b0 : Bool) (fuel : Nat) (ns : List WString)
    (e : MFTFileNameWrapper)
    (hbuf : bufferOk w) (hroot : rootIsDot w.m_DirectoryNames w.USNRoot)
    (hloc : w.m_Locations.isEmpty = false) (hwf : rootsWellFormed w)
    (hslash : '\\' ∉ f.FileName ++ streamSuffix d)
    (hch : parentChain w.m_DirectoryNames w.USNRoot fuel
      (NtfsFullSegmentNumber f.ParentDirectory) = some (ns, w.USNRoot))
    (hf : w.m_DirectoryNames.find (NtfsFullSegmentNumber f.ParentDirectory) = some e) :
    (IsInLocation w f (fuel + 1) = Outcome.undefined
      ∨ ∃ w2, IsInLocation w f (fuel + 1)
            = Outcome.value (e.m_InLocation.getD (inSomeLocation w
                (assembledPath w.USNRoot w.USNRoot ns f.FileName [])), w2)
          ∧ decidedAt w2 (NtfsFullSegmentNumber f.ParentDirectory)
              (e.m_InLocation.getD (inSomeLocation w
                (assembledPath w.USNRoot w.USNRoot ns f.FileName []))))
    ∧ (GetFullNameAndIfInLocation w (some f) d (some b0) (fuel + 1) = Outcome.undefined
      ∨ ∃ call, GetFullNameAndIfInLocation w (some f) d (some b0) (fuel + 1)
            = Outcome.value call
          ∧ call.bInSpecificLocation = some (e.m_InLocation.getD (inSomeLocation w
              (assembledPath w.USNRoot w.USNRoot ns f.FileName (streamSuffix d))))
          ∧ decidedAt call.walker (NtfsFullSegmentNumber f.ParentDirectory)
              (e.m_InLocation.getD (inSomeLocation w
                (assembledPath w.USNRoot w.USNRoot ns f.FileName (streamSuffix d)))))
    ∧ (2 * ((assembledPath w.USNRoot w.USNRoot ns f.FileName (streamSuffix d)).length + 1)
          ≤ bufferBytes w →
        IsInLocation w f (fuel + 1) ≠ Outcome.undefined
        ∧ GetFullNameAndIfInLocation w (some f) d (some b0) (fuel + 1) ≠ Outcome.undefined)
    ∧ (∀ (g : FILE_NAME) (d2 : Option MftRecordAttribute),
        NtfsFullSegmentNumber g.ParentDirectory = NtfsFullSegmentNumber f.ParentDirectory →
        '\\' ∉ g.FileName ++ streamSuffix d2 →
        inSomeLocation w (assembledPath w.USNRoot w.USNRoot ns g.FileName (streamSuffix d2))
          = inSomeLocation w
              (assembledPath w.USNRoot w.USNRoot ns f.FileName (streamSuffix d))) := by
  refine ⟨IsInLocation_answer w f fuel ns e hbuf hroot hloc hwf hch hf, ?_, ?_, ?_⟩
  · rcases GetFullName_flag w f d b0 fuel ns e hbuf hroot hloc hwf hch hf with
      hu | ⟨call, hc, h1, h2, -⟩
    · exact Or.inl hu
    · exact Or.inr ⟨call, hc, h1, h2⟩
  · intro hfit
    constructor
    · apply IsInLocation_defined w f fuel ns hbuf hroot hch
      rw [assembledPath_root] at hfit ⊢
      simp only [List.length_append, List.length_cons, List.append_nil] at hfit ⊢
      omega
    · exact GetFullName_defined w f d (some b0) fuel ns _ hbuf hroot hch hfit
  · intro g d2 _ hg
    rw [assembledPath_root, assembledPath_root, inSomeLocation_dir w _ _ hwf hg,
      inSomeLocation_dir w _ _ hwf hslash]

/-- C16: a sequence of walker operations (`IsInLocation`,
`GetFullNameAndIfInLocation`, `AddDirectoryName`, in any order and with any
arguments) that returns leaves every in-location state that was decided before
it as it was. -/
theorem C16_decided_state_is_kept (ops : List WalkerOperation) (w w2 : MFTWalker)
    (key : Nat) (v : Bool) (hd : decidedAt w key v)
    (hrun : runOperations ops w = Outcome.value w2) : decidedAt w2 key v :=
  runOperations_decided ops w w2 hrun key v hd


/-- Witness of `C15_in_location_answer`: the file name `f.txt` in the directory
`\a\b`, with the sub-tree root `\a\`. -/
theorem C15_in_location_answer_witness :
    (IsInLocation sampleWalker sampleFileName (2 + 1) = Outcome.undefined
      ∨ ∃ w2, IsInLocation sampleWalker sampleFileName (2 + 1)
            = Outcome.value ((none : Option Bool).getD (inSomeLocation sampleWalker
                (assembledPath sampleWalker.USNRoot sampleWalker.USNRoot
                  ["b".toList, "a".toList] sampleFileName.FileName [])), w2)
          ∧ decidedAt w2 (NtfsFullSegmentNumber sampleFileName.ParentDirectory)
              ((none : Option Bool).getD (inSomeLocation sampleWalker
                (assembledPath sampleWalker.USNRoot sampleWalker.USNRoot
                  ["b".toList, "a".toList] sampleFileName.FileName []))))
    ∧ (GetFullNameAndIfInLocation sampleWalker (some sampleFileName) none (some false) (2 + 1)
          = Outcome.undefined
      ∨ ∃ call, GetFullNameAndIfInLocation sampleWalker (some sampleFileName) none
              (some false) (2 + 1) = Outcome.value call
          ∧ call.bInSpecificLocation = some ((none : Option Bool).getD
              (inSomeLocation sampleWalker
                (assembledPath sampleWalker.USNRoot sampleWalker.USNRoot
                  ["b".toList, "a".toList] sampleFileName.FileName (streamSuffix none))))
          ∧ decidedAt call.walker (NtfsFullSegmentNumber sampleFileName.ParentDirectory)
              ((none : Option Bool).getD (inSomeLocation sampleWalker
                (assembledPath sampleWalker.USNRoot sampleWalker.USNRoot
                  ["b".toList, "a".toList] sampleFileName.FileName (streamSuffix none)))))
    ∧ (2 * ((assembledPath sampleWalker.USNRoot sampleWalker.USNRoot
                ["b".toList, "a".toList] sampleFileName.FileName (streamSuffix none)).length + 1)
          ≤ bufferBytes sampleWalker →
        IsInLocation sampleWalker sampleFileName (2 + 1) ≠ Outcome.undefined
        ∧ GetFullNameAndIfInLocation sampleWalker (some sampleFileName) none (some false)
            (2 + 1) ≠ Outcome.undefined)
    ∧ (∀ (g : FILE_NAME) (d2 : Option MftRecordAttribute),
        NtfsFullSegmentNumber g.ParentDirectory
          = NtfsFullSegmentNumber sampleFileName.ParentDirectory →
        '\\' ∉ g.FileName ++ streamSuffix d2 →
        inSomeLocation sampleWalker (assembledPath sampleWalker.USNRoot sampleWalker.USNRoot
            ["b".toList, "a".toList] g.FileName (streamSuffix d2))
          = inSomeLocation sampleWalker
              (assembledPath sampleWalker.USNRoot sampleWalker.USNRoot
                ["b".toList, "a".toList] sampleFileName.FileName (streamSuffix none))) :=
  C15_in_location_answer sampleWalker sampleFileName none false 2 ["b".toList, "a".toList]
    { m_pFileName := { ParentDirectory := 10, FileName := "b".toList } }
    (by simp [bufferOk, sampleWalker])
    (by intro e he; simp [sampleWalker, SegmentMap.find, List.lookup] at he; subst he; decide)
    (by decide)
    (by intro root hr; simp [sampleWalker] at hr; subst hr; decide)
    (by decide) (by decide) (by decide)


set_option maxRecDepth 100000 in
/-- C15 fails for a state saved while an ancestor was missing: with the
sub-tree root `\a\` and the directory `b` of `\a\b` in the map but not yet `a`,
`IsInLocation` for `f.txt` in `\a\b` answers `false` and saves it on `b`; once
`AddDirectoryName` has added `a`, all the ancestors of the name are in the map
and the root `\a\` is a start of its path `\a\b\f.txt`, and `IsInLocation` and
the flag of `GetFullNameAndIfInLocation` are still `false`. -/
theorem C15_stale_state_counterexample :
    IsInLocation missingAncestorWalker sampleFileName 3 = Outcome.value (false, savedWalker)
    ∧ AddDirectoryName savedWalker directoryRecordA = Outcome.value staleWalker
    ∧ staleWalker.m_Locations.isEmpty = false
    ∧ parentChain staleWalker.m_DirectoryNames staleWalker.USNRoot 2
        (NtfsFullSegmentNumber sampleFileName.ParentDirectory)
        = some (["b".toList, "a".toList], staleWalker.USNRoot)
    ∧ inSomeLocation staleWalker
        (assembledPath staleWalker.USNRoot staleWalker.USNRoot ["b".toList, "a".toList]
          sampleFileName.FileName []) = true
    ∧ IsInLocation staleWalker sampleFileName 3 = Outcome.value (false, staleWalker)
    ∧ (GetFullNameAndIfInLocation staleWalker (some sampleFileName) none (some true) 3).bind
          (fun call => Outcome.value call.bInSpecificLocation)
        = Outcome.value (some false) := by
  refine ⟨by decide, by decide, by decide, by decide, by decide, by decide, by decide⟩

set_option maxRecDepth 100000 in
/-- Witness of `C16_decided_state_is_kept`: the state `false` saved on the
directory `b` is kept by `AddDirectoryName` for its parent and by the two
queries for a name in it. -/
theorem C16_decided_state_is_kept_witness :
    decidedAt savedWalker 11 false
    ∧ runOperations [.addDirectoryName directoryRecordA, .isInLocation sampleFileName 3]
        savedWalker = Outcome.value staleWalker
    ∧ decidedAt staleWalker 11 false :=
  ⟨⟨_, rfl, rfl⟩, by decide,
    C16_decided_state_is_kept
      [.addDirectoryName directoryRecordA, .isInLocation sampleFileName 3]
      savedWalker staleWalker 11 false ⟨_, rfl, rfl⟩ (by decide)⟩

end Orc

namespace Orc
open MFTWalker

/-! ## The record map of the walker -/

theorem parentsComplete_present (w : MFTWalker) :
    ∀ (fuel s : Nat) (e : MFTFileNameWrapper) (missing m2 : List Nat),
      w.m_DirectoryNames.find s = some e →
      parentsComplete w fuel e.FileName missing = Outcome.value (true, m2) →
      ancestorsPresent w.m_DirectoryNames w.USNRoot fuel s = true := by
  intro fuel
  induction fuel with
  | zero =>
    intro s e missing m2 hf h
    unfold parentsComplete at h
    simp only [] at h
    unfold ancestorsPresent
    simp only [hf]
    split_ifs at h with hc
    · simp only [hc, if_true]
    · cases hd : w.m_DirectoryNames.find (NtfsFullSegmentNumber e.FileName.ParentDirectory) with
      | none => rw [hd] at h; simp at h
      | some e2 => rw [hd] at h; simp at h
  | succ fuel ih =>
    intro s e missing m2 hf h
    unfold parentsComplete at h
    simp only [] at h
    unfold ancestorsPresent
    simp only [hf]
    split_ifs at h with hc
    · simp only [hc, if_true]
    · rw [if_neg hc]
      cases hd : w.m_DirectoryNames.find (NtfsFullSegmentNumber e.FileName.ParentDirectory) with
      | none => rw [hd] at h; simp at h
      | some e2 =>
        rw [hd] at h
        exact ih _ e2 missing m2 hd h

theorem namesComplete_present (w : MFTWalker) (fuel : Nat) :
    ∀ (names : List FILE_NAME) (b : Bool) (missing m2 : List Nat),
      namesComplete w fuel names b missing = Outcome.value (true, m2) →
      b = true ∧ ∀ name ∈ checkedNames w.USNRoot names,
        ancestorsPresent w.m_DirectoryNames w.USNRoot fuel
          (NtfsFullSegmentNumber name.ParentDirectory) = true := by
  intro names
  induction names with
  | nil =>
    intro b missing m2 h
    unfold namesComplete at h
    simp only [Outcome.value.injEq, Prod.mk.injEq] at h
    exact ⟨h.1, by intro name hn; simp [checkedNames] at hn⟩
  | cons n rest ih =>
    intro b missing m2 h
    unfold namesComplete at h
    unfold checkedNames
    by_cases hr : NtfsFullSegmentNumber n.ParentDirectory = w.USNRoot
    · have hb : (NtfsFullSegmentNumber n.ParentDirectory == w.USNRoot) = true := by
        simpa using hr
      rw [if_pos hb] at h
      simp only [Outcome.value.injEq, Prod.mk.injEq] at h
      refine ⟨h.1, ?_⟩
      intro name hn
      rw [List.takeWhile_cons] at hn
      simp [hr] at hn
    · have hb : ¬ (NtfsFullSegmentNumber n.ParentDirectory == w.USNRoot) = true := by
        simpa using hr
      rw [if_neg hb] at h
      cases hd : w.m_DirectoryNames.find (NtfsFullSegmentNumber n.ParentDirectory) with
      | none => rw [hd] at h; simp at h
      | some e =>
        rw [hd] at h
        rw [Outcome.bind_eq_value] at h
        obtain ⟨⟨ok, m1⟩, hp, h⟩ := h
        obtain ⟨hb2, hrest⟩ := ih _ _ _ h
        simp only [Bool.and_eq_true] at hb2
        obtain ⟨hb3, hok⟩ := hb2
        have hok2 : ok = true := hok
        subst hok2
        refine ⟨hb3, ?_⟩
        intro name hn
        rw [List.takeWhile_cons] at hn
        have hb4 : (NtfsFullSegmentNumber n.ParentDirectory != w.USNRoot) = true := by
          simpa using hr
        rw [hb4] at hn
        rcases List.mem_cons.1 hn with h1 | h1
        · rw [h1]
          exact parentsComplete_present w fuel _ e missing m1 hd hp
        · exact hrest name h1

/-- What `IsRecordComplete` has checked when it returns `true` with the
parents asked for, for a record that was not marked complete. -/
theorem IsRecordComplete_parents (w : MFTWalker) (pRecord pBaseRecord r2 : WalkerRecord)
    (missing m2 : List Nat) (bAttr : Bool) (fuel : Nat)
    (hnew : pRecord.m_bIsComplete = false)
    (hbase : baseRecord w pRecord = Outcome.value pBaseRecord)
    (h : IsRecordComplete w pRecord missing bAttr true fuel = Outcome.value (true, r2, m2)) :
    ∀ name ∈ checkedNames w.USNRoot pBaseRecord.m_FileNames,
      ancestorsPresent w.m_DirectoryNames w.USNRoot fuel
        (NtfsFullSegmentNumber name.ParentDirectory) = true := by
  unfold IsRecordComplete at h
  rw [if_neg (by simp [hnew]), Outcome.bind_eq_value] at h
  obtain ⟨⟨b3, m3⟩, hn, h⟩ := h
  simp only [Outcome.value.injEq, Prod.mk.injEq] at h
  obtain ⟨hb, -, -⟩ := h
  subst hb
  unfold recordCompleteness at hn
  simp only [hbase, Outcome.value_bind, if_true] at hn
  rw [Outcome.bind_eq_value] at hn
  obtain ⟨attrs, -, hn⟩ := hn
  exact (namesComplete_present w fuel _ _ _ _ hn).2


theorem Frame.refl (w : MFTWalker) : Frame w w where
  tomb := fun _ h => h
  live := fun _ r h => Or.inr ⟨r, h, rfl, rfl, fun h => h⟩
  fresh := fun k r2 h h2 => by rw [h] at h2; cases h2
  calls := ⟨[], by simp, List.nodup_nil, by simp⟩
  marks := fun k r2 h hc => Or.inr ⟨r2, h, hc⟩

theorem markedCalled_frame {w w2 : MFTWalker} (f : Frame w w2) (x : Nat)
    (h : markedCalled w x) : markedCalled w2 x := by
  rcases h with h | ⟨r, hr, hc⟩
  · exact Or.inl (f.tomb x h)
  · rcases f.live x r hr with h2 | ⟨r2, h2, -, -, h3⟩
    · exact Or.inl h2
    · exact Or.inr ⟨r2, h2, h3 hc⟩

theorem notYetCalled_frame {w w2 : MFTWalker} (f : Frame w w2) (x : Nat)
    (h : notYetCalled w2 x) : notYetCalled w x := by
  cases hw : w.m_MFTMap.find x with
  | none => exact Or.inl hw
  | some o =>
    cases o with
    | none =>
      have := f.tomb x hw
      rcases h with h | ⟨r, hr, -⟩
      · rw [this] at h; cases h
      · rw [this] at hr; cases hr
    | some r =>
      right
      refine ⟨r, hw, ?_⟩
      rcases f.live x r hw with h2 | ⟨r2, h2, -, -, h3⟩
      · rcases h with h | ⟨r3, hr, -⟩
        · rw [h2] at h; cases h
        · rw [h2] at hr; cases hr
      · rcases h with h | ⟨r3, hr, hc⟩
        · rw [h2] at h; cases h
        · rw [h2] at hr
          cases hr
          cases hcc : r.m_bCallbackCalled with
          | false => rfl
          | true => rw [h3 hcc] at hc; cases hc

theorem not_marked_and_notYet {w : MFTWalker} {x : Nat} (h1 : markedCalled w x)
    (h2 : notYetCalled w x) : False := by
  rcases h1 with h1 | ⟨r, hr, hc⟩
  · rcases h2 with h2 | ⟨r2, hr2, -⟩
    · rw [h1] at h2; cases h2
    · rw [h1] at hr2; cases hr2
  · rcases h2 with h2 | ⟨r2, hr2, hc2⟩
    · rw [hr] at h2; cases h2
    · rw [hr] at hr2
      cases hr2
      rw [hc] at hc2
      cases hc2

theorem Frame.trans {w w1 w2 : MFTWalker} (f : Frame w w1) (g : Frame w1 w2) : Frame w w2 where
  tomb := fun k h => g.tomb k (f.tomb k h)
  live := by
    intro k r h
    rcases f.live k r h with h1 | ⟨r1, h1, e1, e2, e3⟩
    · exact Or.inl (g.tomb k h1)
    · rcases g.live k r1 h1 with h2 | ⟨r2, h2, d1, d2, d3⟩
      · exact Or.inl h2
      · exact Or.inr ⟨r2, h2, d1.trans e1, d2.trans e2, fun hc => d3 (e3 hc)⟩
  fresh := by
    intro k r2 h h2
    cases h1 : w1.m_MFTMap.find k with
    | none => exact g.fresh k r2 h1 h2
    | some o =>
      cases o with
      | none => rw [g.tomb k h1] at h2; cases h2
      | some r1 =>
        rcases g.live k r1 h1 with h3 | ⟨r3, h3, d1, -, -⟩
        · rw [h3] at h2; cases h2
        · rw [h3] at h2
          cases h2
          rw [d1]
          exact f.fresh k r1 h h1
  calls := by
    obtain ⟨n1, e1, nd1, p1⟩ := f.calls
    obtain ⟨n2, e2, nd2, p2⟩ := g.calls
    refine ⟨n1 ++ n2, by rw [e2, e1, List.append_assoc], ?_, ?_⟩
    · rw [List.nodup_append]
      refine ⟨nd1, nd2, ?_⟩
      intro x hx1 hx2
      exact not_marked_and_notYet (p1 x hx1).2 (p2 x hx2).1
    · intro x hx
      rcases List.mem_append.1 hx with hx | hx
      · exact ⟨(p1 x hx).1, markedCalled_frame g x (p1 x hx).2⟩
      · exact ⟨notYetCalled_frame f x (p2 x hx).1, (p2 x hx).2⟩
  marks := by
    intro k r2 h hc
    rcases g.marks k r2 h hc with h1 | ⟨r1, h1, hc1⟩
    · exact Or.inl h1
    · rcases f.marks k r1 h1 hc1 with h0 | h0
      · obtain ⟨n2, e2, -, -⟩ := g.calls
        left
        rw [e2]
        exact List.mem_append_left _ h0
      · exact Or.inr h0

theorem Frame.consistent {w w2 : MFTWalker} (f : Frame w w2) (h : keysConsistent w) :
    keysConsistent w2 := by
  intro k r2 h2
  cases hw : w.m_MFTMap.find k with
  | none => exact f.fresh k r2 hw h2
  | some o =>
    cases o with
    | none => rw [f.tomb k hw] at h2; cases h2
    | some r =>
      rcases f.live k r hw with h3 | ⟨r3, h3, d1, -, -⟩
      · rw [h3] at h2; cases h2
      · rw [h3] at h2
        cases h2
        rw [d1]
        exact h k r hw

theorem Frame.calledOnce {w w2 : MFTWalker} (f : Frame w w2) (h : calledOnce w) :
    calledOnce w2 := by
  obtain ⟨n1, e1, nd1, p1⟩ := f.calls
  constructor
  · rw [e1, List.nodup_append]
    refine ⟨h.1, nd1, ?_⟩
    intro x hx1 hx2
    exact not_marked_and_notYet (h.2 x hx1) (p1 x hx2).1
  · intro sn hsn
    rw [e1] at hsn
    rcases List.mem_append.1 hsn with hx | hx
    · exact markedCalled_frame f sn (h.2 sn hx)
    · exact (p1 sn hx).2

/-- A change of the walker that leaves the map and the trace of the callback
as they are. -/
theorem Frame.of_eq {w w2 : MFTWalker} (hm : w2.m_MFTMap = w.m_MFTMap)
    (hc : w2.elementCalls = w.elementCalls) : Frame w w2 where
  tomb := fun k h => by rw [hm]; exact h
  live := fun k r h => Or.inr ⟨r, by rw [hm]; exact h, rfl, rfl, fun h => h⟩
  fresh := fun k r2 h h2 => by rw [hm, h] at h2; cases h2
  calls := ⟨[], by simp [hc], List.nodup_nil, by simp⟩
  marks := fun k r2 h hc2 => Or.inr ⟨r2, by rw [← hm]; exact h, hc2⟩

theorem Frame.write {w w1 : MFTWalker} (k : Nat) (r r2 : WalkerRecord)
    (hf : w.m_MFTMap.find k = some (some r))
    (e1 : r2.m_FileReferenceNumber = r.m_FileReferenceNumber)
    (e2 : r2.m_pRecord = r.m_pRecord)
    (e3 : r2.m_bCallbackCalled = r.m_bCallbackCalled)
    (hm : w1.m_MFTMap = w.m_MFTMap.assign k (some r2))
    (hc : w1.elementCalls = w.elementCalls) : Frame w w1 where
  tomb := by
    intro k2 h
    rw [hm, SegmentMap.find_assign]
    split_ifs with hk
    · subst hk; rw [hf] at h; cases h
    · exact h
  live := by
    intro k2 r3 h
    right
    rw [hm, SegmentMap.find_assign]
    split_ifs with hk
    · subst hk
      rw [hf] at h
      cases h
      exact ⟨r2, rfl, e1, e2, fun h => by rw [e3]; exact h⟩
    · exact ⟨r3, h, rfl, rfl, fun h => h⟩
  fresh := by
    intro k2 r3 h h2
    rw [hm, SegmentMap.find_assign] at h2
    split_ifs at h2 with hk
    · subst hk; rw [hf] at h; cases h
    · rw [h] at h2; cases h2
  calls := ⟨[], by simp [hc], List.nodup_nil, by simp⟩
  marks := by
    intro k2 r3 h hc3
    right
    rw [hm, SegmentMap.find_assign] at h
    split_ifs at h with hk
    · subst hk
      cases h
      exact ⟨r, hf, by rw [← e3]; exact hc3⟩
    · exact ⟨r3, h, hc3⟩

theorem Frame.tombstone {w w1 : MFTWalker} (k : Nat)
    (hm : w1.m_MFTMap = w.m_MFTMap.assign k none)
    (hc : w1.elementCalls = w.elementCalls) : Frame w w1 where
  tomb := by
    intro k2 h
    rw [hm, SegmentMap.find_assign]
    split_ifs with hk
    · rfl
    · exact h
  live := by
    intro k2 r3 h
    rw [hm, SegmentMap.find_assign]
    split_ifs with hk
    · exact Or.inl rfl
    · exact Or.inr ⟨r3, h, rfl, rfl, fun h => h⟩
  fresh := by
    intro k2 r3 h h2
    rw [hm, SegmentMap.find_assign] at h2
    split_ifs at h2 with hk
    · cases h2
    · rw [h] at h2; cases h2
  calls := ⟨[], by simp [hc], List.nodup_nil, by simp⟩
  marks := by
    intro k2 r3 h hc3
    right
    rw [hm, SegmentMap.find_assign] at h
    split_ifs at h with hk
    · cases h
    · exact ⟨r3, h, hc3⟩

theorem Frame.insert {w w1 : MFTWalker} (k : Nat) (r : WalkerRecord)
    (hk : NtfsFullSegmentNumber r.m_FileReferenceNumber = k)
    (hn : w.m_MFTMap.find k = none → r.m_bCallbackCalled = false)
    (hm : w1.m_MFTMap = w.m_MFTMap.insert k (some r))
    (hc : w1.elementCalls = w.elementCalls) : Frame w w1 where
  tomb := by
    intro k2 h
    rw [hm, SegmentMap.find_insert]
    split_ifs with h1 h2
    · exact h
    · subst h2; rw [h] at h1; simp at h1
    · exact h
  live := by
    intro k2 r3 h
    right
    rw [hm, SegmentMap.find_insert]
    split_ifs with h1 h2
    · exact ⟨r3, h, rfl, rfl, fun h => h⟩
    · subst h2; rw [h] at h1; simp at h1
    · exact ⟨r3, h, rfl, rfl, fun h => h⟩
  fresh := by
    intro k2 r3 h h2
    rw [hm, SegmentMap.find_insert] at h2
    split_ifs at h2 with h1 h3
    · rw [h] at h2; cases h2
    · cases h2
      rw [h3]
      exact hk
    · rw [h] at h2; cases h2
  calls := ⟨[], by simp [hc], List.nodup_nil, by simp⟩
  marks := by
    intro k2 r3 h hc3
    right
    rw [hm, SegmentMap.find_insert] at h
    split_ifs at h with h1 h3
    · exact ⟨r3, h, hc3⟩
    · cases h
      subst h3
      have h4 : w.m_MFTMap.find k2 = none := by
        cases hw : w.m_MFTMap.find k2 with
        | none => rfl
        | some o => rw [hw] at h1; simp at h1
      rw [hn h4] at hc3
      cases hc3
    · exact ⟨r3, h, hc3⟩

theorem Frame.call {w w1 : MFTWalker} (k : Nat) (r : WalkerRecord)
    (hf : w.m_MFTMap.find k = some (some r))
    (hn : r.m_bCallbackCalled = false)
    (hm : w1.m_MFTMap = w.m_MFTMap.assign k (some { r with m_bCallbackCalled := true }))
    (hc : w1.elementCalls = w.elementCalls ++ [k]) : Frame w w1 where
  tomb := by
    intro k2 h
    rw [hm, SegmentMap.find_assign]
    split_ifs with hk
    · subst hk; rw [hf] at h; cases h
    · exact h
  live := by
    intro k2 r3 h
    right
    rw [hm, SegmentMap.find_assign]
    split_ifs with hk
    · subst hk
      rw [hf] at h
      cases h
      exact ⟨_, rfl, rfl, rfl, fun _ => rfl⟩
    · exact ⟨r3, h, rfl, rfl, fun h => h⟩
  fresh := by
    intro k2 r3 h h2
    rw [hm, SegmentMap.find_assign] at h2
    split_ifs at h2 with hk
    · subst hk; rw [hf] at h; cases h
    · rw [h] at h2; cases h2
  calls := by
    refine ⟨[k], hc, List.nodup_singleton k, ?_⟩
    intro x hx
    rw [List.mem_singleton] at hx
    subst hx
    refine ⟨Or.inr ⟨r, hf, hn⟩, Or.inr ⟨{ r with m_bCallbackCalled := true }, ?_, rfl⟩⟩
    rw [hm, SegmentMap.find_assign, if_pos rfl]
  marks := by
    intro k2 r3 h hc3
    rw [hm, SegmentMap.find_assign] at h
    split_ifs at h with hk
    · left
      rw [hc, hk]
      simp
    · exact Or.inr ⟨r3, h, hc3⟩

theorem Sweep.sweepRefl (w : MFTWalker) : Sweep w w where
  frame := Frame.refl w
  absent := fun _ h => h
  parsed := ⟨[], by simp, by simp⟩
  called := ⟨[], by simp, by simp⟩
  notInUse := rfl

theorem Sweep.sweepTrans {w w1 w2 : MFTWalker} (f : Sweep w w1) (g : Sweep w1 w2) : Sweep w w2 where
  frame := f.frame.trans g.frame
  absent := fun k h => g.absent k (f.absent k h)
  parsed := by
    obtain ⟨n1, e1, p1⟩ := f.parsed
    obtain ⟨n2, e2, p2⟩ := g.parsed
    refine ⟨n1 ++ n2, by rw [e2, e1, List.append_assoc], ?_⟩
    intro x hx
    rcases List.mem_append.1 hx with h | h
    · exact p1 x h
    · exact fun hn => p2 x h (f.absent x hn)
  called := by
    obtain ⟨n1, e1, p1⟩ := f.called
    obtain ⟨n2, e2, p2⟩ := g.called
    refine ⟨n1 ++ n2, by rw [e2, e1, List.append_assoc], ?_⟩
    intro x hx
    rcases List.mem_append.1 hx with h | h
    · exact p1 x h
    · exact fun hn => p2 x h (f.absent x hn)
  notInUse := g.notInUse.trans f.notInUse

/-- A step that leaves the keys of the map as they are and adds nothing to the
traces is a step of a sweep. -/
theorem Sweep.of_frame {w w1 : MFTWalker} (f : Frame w w1)
    (ha : ∀ k, w.m_MFTMap.find k = none → w1.m_MFTMap.find k = none)
    (hp : w1.parseCalls = w.parseCalls) (hc : w1.elementCalls = w.elementCalls)
    (hi : w1.m_bIncludeNotInUse = w.m_bIncludeNotInUse) :
    Sweep w w1 where
  frame := f
  absent := ha
  parsed := ⟨[], by simp [hp], by simp⟩
  called := ⟨[], by simp [hc], by simp⟩
  notInUse := hi

theorem assign_absent {α : Type} (m : SegmentMap α) (k : Nat) (x : α)
    (hk : m.find k ≠ none) : ∀ k2, m.find k2 = none → (m.assign k x).find k2 = none := by
  intro k2 h
  rw [SegmentMap.find_assign]
  split_ifs with h2
  · subst h2; exact absurd h hk
  · exact h

theorem deref_eq_value (w : MFTWalker) (p : Nat) (r : WalkerRecord) :
    deref w p = Outcome.value r ↔ w.m_MFTMap.find p = some (some r) := by
  unfold deref
  cases h : w.m_MFTMap.find p with
  | none => simp
  | some o =>
    cases o with
    | none => simp
    | some r2 => simp

/-- `IsRecordComplete` changes nothing of the record but `m_bIsComplete`, which
it sets to what it returns. -/
theorem IsRecordComplete_record (w : MFTWalker) (r r2 : WalkerRecord) (missing m2 : List Nat)
    (ba bp b : Bool) (fuel : Nat)
    (h : IsRecordComplete w r missing ba bp fuel = Outcome.value (b, r2, m2)) :
    r2 = { r with m_bIsComplete := b } := by
  unfold IsRecordComplete at h
  by_cases hc : r.m_bIsComplete = true
  · rw [if_pos hc] at h
    simp only [Outcome.value.injEq, Prod.mk.injEq] at h
    obtain ⟨rfl, rfl, -⟩ := h
    cases r
    simp only at hc
    simp [hc]
  · rw [if_neg hc, Outcome.bind_eq_value] at h
    obtain ⟨c, -, h⟩ := h
    simp only [Outcome.value.injEq, Prod.mk.injEq] at h
    obtain ⟨rfl, rfl, -⟩ := h
    rfl

theorem setRecord_sweep {w w1 : MFTWalker} (k : Nat) (r r2 : WalkerRecord)
    (hf : w.m_MFTMap.find k = some (some r))
    (e1 : r2.m_FileReferenceNumber = r.m_FileReferenceNumber)
    (e2 : r2.m_pRecord = r.m_pRecord)
    (e3 : r2.m_bCallbackCalled = r.m_bCallbackCalled)
    (hm : w1.m_MFTMap = w.m_MFTMap.assign k (some r2))
    (hp : w1.parseCalls = w.parseCalls)
    (hc : w1.elementCalls = w.elementCalls)
    (hi : w1.m_bIncludeNotInUse = w.m_bIncludeNotInUse) : Sweep w w1 :=
  Sweep.of_frame (Frame.write k r r2 hf e1 e2 e3 hm hc)
    (by rw [hm]; exact assign_absent _ k _ (by rw [hf]; simp)) hp hc hi

theorem tombstone_sweep {w w1 : MFTWalker} (k : Nat)
    (hf : w.m_MFTMap.find k ≠ none)
    (hm : w1.m_MFTMap = w.m_MFTMap.assign k none)
    (hp : w1.parseCalls = w.parseCalls)
    (hc : w1.elementCalls = w.elementCalls)
    (hi : w1.m_bIncludeNotInUse = w.m_bIncludeNotInUse) : Sweep w w1 :=
  Sweep.of_frame (Frame.tombstone k hm hc) (by rw [hm]; exact assign_absent _ k _ hf) hp hc hi

theorem keptOrTomb.keptRefl (w : MFTWalker) : keptOrTomb w w := fun _ => Or.inl rfl

theorem keptOrTomb.keptTrans {w w1 w2 : MFTWalker} (f : keptOrTomb w w1) (g : keptOrTomb w1 w2) :
    keptOrTomb w w2 := by
  intro k
  rcases g k with h | h
  · rw [h]; exact f k
  · exact Or.inr h

theorem Frame.of_kept {w w1 : MFTWalker} (hk : keptOrTomb w w1)
    (hc : w1.elementCalls = w.elementCalls) : Frame w w1 where
  tomb := by
    intro k h
    rcases hk k with h1 | h1
    · rw [h1]; exact h
    · exact h1
  live := by
    intro k r h
    rcases hk k with h1 | h1
    · exact Or.inr ⟨r, by rw [h1]; exact h, rfl, rfl, fun h => h⟩
    · exact Or.inl h1
  fresh := by
    intro k r2 h h2
    rcases hk k with h1 | h1
    · rw [h1, h] at h2; cases h2
    · rw [h1] at h2; cases h2
  calls := ⟨[], by simp [hc], List.nodup_nil, by simp⟩
  marks := by
    intro k r2 h hc2
    rcases hk k with h1 | h1
    · exact Or.inr ⟨r2, by rw [← h1]; exact h, hc2⟩
    · rw [h1] at h; cases h

theorem freeAndTombstone_kept (w : MFTWalker) (k : Nat) :
    keptOrTomb w (freeAndTombstone w k) := by
  intro k2
  unfold freeAndTombstone
  simp only [SegmentMap.find_assign]
  split_ifs with h
  · exact Or.inr rfl
  · exact Or.inl rfl

theorem freeAndTombstone_absent (w : MFTWalker) (k : Nat) :
    ∀ k2, k2 ≠ k → w.m_MFTMap.find k2 = none → (freeAndTombstone w k).m_MFTMap.find k2 = none := by
  intro k2 hk h
  unfold freeAndTombstone
  simp only [SegmentMap.find_assign, if_neg hk]
  exact h

theorem Deleted.deletedRefl (key : Nat) (w : MFTWalker) : Deleted key w w :=
  ⟨keptOrTomb.keptRefl w, fun _ _ h => h, rfl, rfl, rfl⟩

theorem Deleted.deletedTrans {key : Nat} {w w1 w2 : MFTWalker} (f : Deleted key w w1)
    (g : Deleted key w1 w2) : Deleted key w w2 :=
  ⟨f.kept.keptTrans g.kept, fun k hk h => g.absent k hk (f.absent k hk h),
    g.parse.trans f.parse, g.calls.trans f.calls, g.notInUse.trans f.notInUse⟩

theorem deleteChild_deleted (key : Nat) (w w1 : MFTWalker) (a : Nat × Bool)
    (h : deleteChild key w a = Outcome.value w1) : Deleted key w w1 := by
  unfold deleteChild at h
  cases hf : w.m_MFTMap.find a.1 with
  | none =>
    rw [hf] at h
    simp only [] at h
    split_ifs at h
    cases h
    exact Deleted.deletedRefl key w
  | some o =>
    cases o with
    | none =>
      rw [hf] at h
      simp only [] at h
      split_ifs at h
      cases h
      exact Deleted.deletedRefl key w
    | some r =>
      rw [hf] at h
      simp only [] at h
      split_ifs at h with hk
      · cases h
        refine ⟨freeAndTombstone_kept w a.1, ?_, rfl, rfl, rfl⟩
        intro k2 _ h2
        apply freeAndTombstone_absent w a.1 k2 _ h2
        intro he
        rw [he, hf] at h2
        cases h2
      · cases h
        exact Deleted.deletedRefl key w

theorem deleteChildren_deleted (key : Nat) (cs : List (Nat × Bool)) :
    ∀ (o : Outcome MFTWalker) (w w1 : MFTWalker),
      (∀ w0, o = Outcome.value w0 → Deleted key w w0) →
      cs.foldl (fun acc aPair => acc.bind fun w => deleteChild key w aPair) o
        = Outcome.value w1 →
      Deleted key w w1 := by
  induction cs with
  | nil =>
    intro o w w1 ho h
    exact ho w1 h
  | cons c cs ih =>
    intro o w w1 ho h
    rw [List.foldl_cons] at h
    apply ih _ w w1 _ h
    intro w0 h0
    rw [Outcome.bind_eq_value] at h0
    obtain ⟨wa, ha, hb⟩ := h0
    exact (ho wa ha).deletedTrans (deleteChild_deleted key wa w0 c hb)

/-- `DeleteRecord` leaves a null pointer under the segment number of the
record, and the other entries of the map as they were or null pointers. -/
theorem DeleteRecord_deleted (w w1 : MFTWalker) (r : WalkerRecord)
    (h : DeleteRecord w r = Outcome.value w1) :
    Deleted (NtfsFullSegmentNumber r.m_FileReferenceNumber) w w1
    ∧ w1.m_MFTMap.find (NtfsFullSegmentNumber r.m_FileReferenceNumber) = some none := by
  unfold DeleteRecord at h
  simp only [] at h
  rw [Outcome.bind_eq_value] at h
  obtain ⟨wa, ha, hb⟩ := h
  cases hb
  have hd := deleteChildren_deleted (NtfsFullSegmentNumber r.m_FileReferenceNumber)
    r.m_ChildRecords (Outcome.value w) w wa
    (fun w0 h0 => by cases h0; exact Deleted.deletedRefl _ w) ha
  constructor
  · refine hd.deletedTrans ⟨freeAndTombstone_kept wa _, ?_, rfl, rfl, rfl⟩
    intro k2 hk h2
    exact freeAndTombstone_absent wa _ k2 hk h2
  · unfold freeAndTombstone
    simp only [SegmentMap.find_assign, if_true]

theorem Deleted.frame {key : Nat} {w w1 : MFTWalker} (d : Deleted key w w1) : Frame w w1 :=
  Frame.of_kept d.kept d.calls

theorem Deleted.sweep {key : Nat} {w w1 : MFTWalker} (d : Deleted key w w1)
    (hk : w.m_MFTMap.find key ≠ none) : Sweep w w1 where
  frame := d.frame
  absent := by
    intro k h
    apply d.absent k _ h
    intro he
    rw [he] at h
    exact hk h
  parsed := ⟨[], by simp [d.parse], by simp⟩
  called := ⟨[], by simp [d.calls], by simp⟩
  notInUse := d.notInUse

/-- What `SimpleCallCallbackForRecord` does: nothing, for a child record or a
record that is marked; else the record is handed to `ElementCallback` and is
marked. -/
theorem SimpleCall_spec (env : WalkerEnv) (w w1 : MFTWalker) (p : Nat) (b b1 : Bool)
    (hr : HRESULT) (h : SimpleCallCallbackForRecord env w p b = Outcome.value (hr, w1, b1)) :
    ∃ r, w.m_MFTMap.find p = some (some r)
      ∧ ((w1 = w ∧ (0 < NtfsSegmentNumber r.m_pRecord.BaseFileRecordSegment
            ∨ r.m_bCallbackCalled = true))
        ∨ (r.m_bCallbackCalled = false
            ∧ w1.m_MFTMap = w.m_MFTMap.assign p (some { r with m_bCallbackCalled := true })
            ∧ w1.elementCalls
                = w.elementCalls ++ [NtfsFullSegmentNumber r.m_FileReferenceNumber]
            ∧ w1.parseCalls = w.parseCalls
            ∧ w1.m_bIncludeNotInUse = w.m_bIncludeNotInUse)) := by
  unfold SimpleCallCallbackForRecord at h
  rw [Outcome.bind_eq_value] at h
  obtain ⟨r, hd, h⟩ := h
  refine ⟨r, (deref_eq_value w p r).1 hd, ?_⟩
  by_cases hc : NtfsSegmentNumber r.m_pRecord.BaseFileRecordSegment > 0
  · rw [if_pos hc] at h
    simp only [Outcome.value.injEq, Prod.mk.injEq] at h
    exact Or.inl ⟨h.2.1.symm, Or.inl hc⟩
  · rw [if_neg hc] at h
    cases hcc : r.m_bCallbackCalled with
    | true =>
      simp only [hcc, Bool.not_true, Bool.false_eq_true, if_false, Outcome.value.injEq,
        Prod.mk.injEq] at h
      exact Or.inl ⟨h.2.1.symm, Or.inr rfl⟩
    | false =>
      simp only [hcc, Bool.not_false, if_true] at h
      split_ifs at h
      simp only [Outcome.value.injEq, Prod.mk.injEq] at h
      obtain ⟨-, hw, -⟩ := h
      subst hw
      exact Or.inr ⟨rfl, rfl, rfl, rfl, rfl⟩

theorem SimpleCall_sweep (env : WalkerEnv) (w w1 : MFTWalker) (p : Nat) (b b1 : Bool)
    (hr : HRESULT) (hk : keysConsistent w)
    (h : SimpleCallCallbackForRecord env w p b = Outcome.value (hr, w1, b1)) :
    Sweep w w1 ∧ othersKept p w w1
    ∧ ∃ r r1, w.m_MFTMap.find p = some (some r) ∧ w1.m_MFTMap.find p = some (some r1)
        ∧ r1.m_FileReferenceNumber = r.m_FileReferenceNumber
        ∧ (NtfsSegmentNumber r.m_pRecord.BaseFileRecordSegment = 0 →
            r1.m_bCallbackCalled = true) := by
  obtain ⟨r, hf, hs⟩ := SimpleCall_spec env w w1 p b b1 hr h
  rcases hs with ⟨rfl, hc⟩ | ⟨hn, hm, hc, hp, hi⟩
  · refine ⟨Sweep.sweepRefl _, fun _ _ => Or.inl rfl, r, r, hf, hf, rfl, ?_⟩
    intro h0
    rcases hc with hc | hc
    · omega
    · exact hc
  · have hkey : NtfsFullSegmentNumber r.m_FileReferenceNumber = p := hk p r hf
    rw [hkey] at hc
    refine ⟨⟨Frame.call p r hf hn hm hc, ?_, ?_, ?_, hi⟩, ?_, r,
      { r with m_bCallbackCalled := true }, hf, ?_, rfl, fun _ => rfl⟩
    · rw [hm]
      exact assign_absent _ p _ (by rw [hf]; simp)
    · exact ⟨[], by simp [hp], by simp⟩
    · refine ⟨[p], hc, ?_⟩
      intro x hx
      rw [List.mem_singleton] at hx
      subst hx
      rw [hf]
      simp
    · intro k2 hk2
      left
      rw [hm, SegmentMap.find_assign, if_neg hk2]
    · rw [hm, SegmentMap.find_assign, if_pos rfl]

/-- The callback and the deletion behind it, for a record of the map. -/
theorem callAndFree_sweep (env : WalkerEnv) (w w1 : MFTWalker) (p : Nat)
    (hr : HRESULT) (hk : keysConsistent w)
    (h : callAndFree env w p = Outcome.value (hr, w1)) :
    Sweep w w1 ∧ othersKept p w w1
    ∧ ∀ r, w.m_MFTMap.find p = some (some r) →
        NtfsSegmentNumber r.m_pRecord.BaseFileRecordSegment = 0 → markedCalled w1 p := by
  unfold callAndFree at h
  rw [Outcome.bind_eq_value] at h
  obtain ⟨⟨hr0, w0, b0⟩, hcb, h⟩ := h
  obtain ⟨hs, ho, r, r1, hf, hf1, hfrn, hmark⟩ := SimpleCall_sweep env w w0 p false b0 hr0 hk hcb
  simp only [] at h
  by_cases hb : b0 = true
  · rw [if_pos hb, Outcome.bind_eq_value] at h
    obtain ⟨r2, hd, h⟩ := h
    rw [Outcome.bind_eq_value] at h
    obtain ⟨w2, hdel, h⟩ := h
    simp only [Outcome.value.injEq, Prod.mk.injEq] at h
    obtain ⟨-, rfl⟩ := h
    have hr2 : w0.m_MFTMap.find p = some (some r2) := (deref_eq_value w0 p r2).1 hd
    rw [hf1] at hr2
    cases hr2
    have hk0 : keysConsistent w0 := hs.frame.consistent hk
    have hkey : NtfsFullSegmentNumber r1.m_FileReferenceNumber = p := hk0 p r1 hf1
    obtain ⟨hd1, hd2⟩ := DeleteRecord_deleted w0 _ r1 hdel
    rw [hkey] at hd1 hd2
    refine ⟨hs.sweepTrans (hd1.sweep (by rw [hf1]; simp)), ?_, fun _ _ _ => Or.inl hd2⟩
    intro k2 hk2
    rcases hd1.kept k2 with h1 | h1
    · rw [h1]
      exact ho k2 hk2
    · exact Or.inr h1
  · rw [if_neg hb] at h
    simp only [Outcome.value.injEq, Prod.mk.injEq] at h
    obtain ⟨-, rfl⟩ := h
    refine ⟨hs, ho, ?_⟩
    intro r0 hr0f hbase
    rw [hf] at hr0f
    cases hr0f
    exact Or.inr ⟨r1, hf1, hmark hbase⟩

theorem parseUnparsed_spec (env : WalkerEnv) (hr : HRESULT) (w : MFTWalker) (k : Nat)
    (r : WalkerRecord) (hk : keysConsistent w) (hf : w.m_MFTMap.find k = some (some r)) :
    Sweep w (parseUnparsed env hr w k r).2.1
    ∧ othersKept k w (parseUnparsed env hr w k r).2.1
    ∧ (parseUnparsed env hr w k r).2.1.m_MFTMap.find k
        = some (some (parseUnparsed env hr w k r).2.2)
    ∧ (parseUnparsed env hr w k r).2.2.m_FileReferenceNumber = r.m_FileReferenceNumber
    ∧ (parseUnparsed env hr w k r).2.2.m_pRecord = r.m_pRecord
    ∧ (parseUnparsed env hr w k r).2.2.m_bCallbackCalled = r.m_bCallbackCalled
    ∧ (parseUnparsed env hr w k r).2.2.m_bIsComplete = r.m_bIsComplete := by
  unfold parseUnparsed
  by_cases hp : (!r.m_bParsed) = true
  · rw [if_pos hp]
    simp only []
    refine ⟨⟨Frame.write k r (parsed r _) hf rfl rfl rfl rfl rfl, ?_, ?_, ?_, rfl⟩,
      ?_, ?_, rfl, rfl, rfl, rfl⟩
    · intro k2 h2
      unfold setRecord
      simp only []
      exact assign_absent _ k _ (by rw [hf]; simp) k2 h2
    · refine ⟨[NtfsFullSegmentNumber r.m_FileReferenceNumber], rfl, ?_⟩
      intro x hx
      rw [List.mem_singleton] at hx
      rw [hx, hk k r hf, hf]
      simp
    · exact ⟨[], by simp [setRecord], by simp⟩
    · intro k2 hk2
      left
      unfold setRecord
      simp only [SegmentMap.find_assign, if_neg hk2]
    · unfold setRecord
      simp only [SegmentMap.find_assign, if_true]
  · rw [if_neg hp]
    exact ⟨Sweep.sweepRefl w, fun _ _ => Or.inl rfl, hf, rfl, rfl, rfl, rfl⟩

theorem childrenComplete_false (w : MFTWalker) (cs : List (Nat × Bool)) :
    ∀ (acc : Bool × List Nat),
      (cs.foldl
        (fun acc child =>
          match w.m_MFTMap.find child.1 with
          | none => (false, acc.2 ++ [child.1])
          | some _ => acc) acc).1 = false →
      acc.1 = false ∨ ∃ child ∈ cs, w.m_MFTMap.find child.1 = none := by
  induction cs with
  | nil => intro acc h; exact Or.inl h
  | cons c cs ih =>
    intro acc h
    rw [List.foldl_cons] at h
    rcases ih _ h with h1 | ⟨child, hc, hm⟩
    · cases hf : w.m_MFTMap.find c.1 with
      | none => exact Or.inr ⟨c, List.mem_cons_self _ _, hf⟩
      | some o =>
        rw [hf] at h1
        exact Or.inl h1
    · exact Or.inr ⟨child, List.mem_cons_of_mem _ hc, hm⟩

/-- In the final sweep a base record that `IsRecordComplete` finds incomplete
has a child record that is not in the map. -/
theorem relaxed_incomplete (w : MFTWalker) (r r2 : WalkerRecord) (m2 : List Nat) (fuel : Nat)
    (hb : isBaseRecord r)
    (h : IsRecordComplete w r [] false false fuel = Outcome.value (false, r2, m2)) :
    ∃ child ∈ r.m_ChildRecords, w.m_MFTMap.find child.1 = none := by
  unfold IsRecordComplete at h
  by_cases hc : r.m_bIsComplete = true
  · rw [if_pos hc] at h
    simp at h
  · rw [if_neg hc, Outcome.bind_eq_value] at h
    obtain ⟨c, hrc, h⟩ := h
    simp only [Outcome.value.injEq, Prod.mk.injEq] at h
    obtain ⟨hc1, -, -⟩ := h
    unfold recordCompleteness baseRecord at hrc
    simp only [hb.2, Outcome.value_bind, hb.1, bne_self_eq_false, Bool.false_and,
      Bool.false_eq_true, if_false, Outcome.value.injEq] at hrc
    rw [← hrc] at hc1
    unfold childrenComplete at hc1
    rcases childrenComplete_false w r.m_ChildRecords _ hc1 with h1 | h1
    · cases h1
    · exact h1

theorem othersKept.othersTrans {k : Nat} {w w1 w2 : MFTWalker} (f : othersKept k w w1)
    (g : othersKept k w1 w2) : othersKept k w w2 := by
  intro k2 hk2
  rcases g k2 hk2 with h | h
  · rw [h]; exact f k2 hk2
  · exact Or.inr h

theorem markedCalled_handed (w : MFTWalker) (k : Nat) (h : markedCalled w k) :
    handedOrChildMissing w k := by
  intro r hr _
  rcases h with h | ⟨r2, h2, hc⟩
  · rw [h] at hr; cases hr
  · rw [h2] at hr
    cases hr
    exact Or.inl hc

/-- The body of the loop of `WalkRecords` for the record that the map holds
under `k`. -/
theorem walkRecord_spec (env : WalkerEnv) (final : Bool) (fuel : Nat) (hr hr1 : HRESULT)
    (w w1 : MFTWalker) (k : Nat) (r : WalkerRecord) (hk : keysConsistent w)
    (hf : w.m_MFTMap.find k = some (some r))
    (h : walkRecord env final fuel hr w k r = Outcome.value (hr1, w1)) :
    Sweep w w1 ∧ othersKept k w w1
    ∧ (final = true → NtfsSegmentNumber r.m_pRecord.BaseFileRecordSegment = 0 →
        handedOrChildMissing w1 k) := by
  obtain ⟨hs, ho, hfs, e1, e2, e3, e4⟩ := parseUnparsed_spec env hr w k r hk hf
  unfold walkRecord at h
  simp only [] at h
  rw [Outcome.bind_eq_value] at h
  obtain ⟨⟨b, r2, m2⟩, hc, h⟩ := h
  have hr2 := IsRecordComplete_record _ _ _ _ _ _ _ _ _ hc
  simp only [] at h
  have hset : Sweep (parseUnparsed env hr w k r).2.1
      (setRecord (parseUnparsed env hr w k r).2.1 k r2) :=
    setRecord_sweep k _ r2 hfs (by rw [hr2]) (by rw [hr2]) (by rw [hr2])
      rfl rfl rfl rfl
  have hoth : othersKept k (parseUnparsed env hr w k r).2.1
      (setRecord (parseUnparsed env hr w k r).2.1 k r2) := by
    intro k2 hk2
    left
    unfold setRecord
    simp only [SegmentMap.find_assign, if_neg hk2]
  have hfind : (setRecord (parseUnparsed env hr w k r).2.1 k r2).m_MFTMap.find k
      = some (some r2) := by
    unfold setRecord
    simp only [SegmentMap.find_assign, if_true]
  cases b with
  | false =>
    simp only [Bool.not_false, if_true, Outcome.value.injEq, Prod.mk.injEq] at h
    obtain ⟨-, hw⟩ := h
    subst hw
    refine ⟨hs.sweepTrans hset, ho.othersTrans hoth, ?_⟩
    intro hfin _ r3 hr3 hb3
    rw [hfind] at hr3
    cases hr3
    right
    subst hfin
    have hb : isBaseRecord (parseUnparsed env hr w k r).2.2 := by
      rw [hr2] at hb3
      exact hb3
    obtain ⟨child, hcm, hcf⟩ := relaxed_incomplete _ _ _ _ _ hb hc
    refine ⟨child, by rw [hr2]; exact hcm, ?_⟩
    exact hset.absent _ hcf
  | true =>
    simp only [Bool.not_true, Bool.false_eq_true, if_false] at h
    have hk1 : keysConsistent (setRecord (parseUnparsed env hr w k r).2.1 k r2) :=
      (hs.sweepTrans hset).frame.consistent hk
    obtain ⟨hs2, ho2, hm⟩ := callAndFree_sweep env _ w1 k hr1 hk1 h
    refine ⟨(hs.sweepTrans hset).sweepTrans hs2, (ho.othersTrans hoth).othersTrans ho2, ?_⟩
    intro _ hbase
    apply markedCalled_handed
    apply hm r2 hfind
    rw [hr2]
    show NtfsSegmentNumber (parseUnparsed env hr w k r).2.2.m_pRecord.BaseFileRecordSegment = 0
    rw [e2]
    exact hbase

theorem handed_kept (k k2 : Nat) (w w1 : MFTWalker) (hs : Sweep w w1)
    (ho : othersKept k w w1) (hk : k2 ≠ k) (h : handedOrChildMissing w k2) :
    handedOrChildMissing w1 k2 := by
  intro r hr hb
  rcases ho k2 hk with h1 | h1
  · rw [h1] at hr
    rcases h r hr hb with hc | ⟨child, hm, hf⟩
    · exact Or.inl hc
    · exact Or.inr ⟨child, hm, hs.absent _ hf⟩
  · rw [h1] at hr
    cases hr

theorem walkLoop_sweep (env : WalkerEnv) (final : Bool) (fuel : Nat) :
    ∀ (ks : List Nat) (hr hr2 : HRESULT) (w w2 : MFTWalker), keysConsistent w →
      walkLoop env final fuel ks hr w = Outcome.value (hr2, w2) → Sweep w w2 := by
  intro ks
  induction ks with
  | nil =>
    intro hr hr2 w w2 _ h
    unfold walkLoop at h
    simp only [Outcome.value.injEq, Prod.mk.injEq] at h
    rw [← h.2]
    exact Sweep.sweepRefl w
  | cons k ks ih =>
    intro hr hr2 w w2 hk h
    unfold walkLoop at h
    cases hf : w.m_MFTMap.find k with
    | none =>
      rw [hf] at h
      exact ih _ _ _ _ hk h
    | some o =>
      cases o with
      | none =>
        rw [hf] at h
        exact ih _ _ _ _ hk h
      | some r =>
        rw [hf] at h
        simp only [] at h
        split_ifs at h with hc
        · exact ih _ _ _ _ hk h
        · rw [Outcome.bind_eq_value] at h
          obtain ⟨⟨hr1, w1⟩, hwr, h⟩ := h
          obtain ⟨hs, -, -⟩ := walkRecord_spec env final fuel hr hr1 w w1 k r hk hf hwr
          simp only [] at h
          split_ifs at h with hstop
          · simp only [Outcome.value.injEq, Prod.mk.injEq] at h
            rw [← h.2]
            exact hs
          · exact hs.sweepTrans (ih _ _ _ _ (hs.frame.consistent hk) h)

/-- `WalkRecords` is a sweep: no segment enters the map, and the records
parsed and handed to the callback are records of the map. -/
theorem WalkRecords_sweep (env : WalkerEnv) (w w2 : MFTWalker) (final : Bool) (fuel : Nat)
    (hr2 : HRESULT) (hk : keysConsistent w)
    (h : WalkRecords env w final fuel = Outcome.value (hr2, w2)) : Sweep w w2 :=
  walkLoop_sweep env final fuel _ _ _ _ _ hk h

theorem walkLoop_final (env : WalkerEnv) (fuel : Nat) :
    ∀ (ks : List Nat) (hr hr2 : HRESULT) (w w2 : MFTWalker), keysConsistent w →
      walkLoop env true fuel ks hr w = Outcome.value (hr2, w2) →
      hr2 ≠ ERROR_NO_MORE_FILES →
      ∀ k, (handedOrChildMissing w k ∨ k ∈ ks) → handedOrChildMissing w2 k := by
  intro ks
  induction ks with
  | nil =>
    intro hr hr2 w w2 _ h _ k hkk
    unfold walkLoop at h
    simp only [Outcome.value.injEq, Prod.mk.injEq] at h
    rw [← h.2]
    rcases hkk with h1 | h1
    · exact h1
    · cases h1
  | cons k0 ks ih =>
    intro hr hr2 w w2 hk h hne k hkk
    unfold walkLoop at h
    have skip : w.m_MFTMap.find k0 = none ∨ w.m_MFTMap.find k0 = some none
        ∨ (∃ r, w.m_MFTMap.find k0 = some (some r)
            ∧ NtfsSegmentNumber r.m_pRecord.BaseFileRecordSegment > 0) →
        handedOrChildMissing w k0 := by
      intro hs r hr0 hb
      rcases hs with hs | hs | ⟨r1, hs, hpos⟩
      · rw [hs] at hr0; cases hr0
      · rw [hs] at hr0; cases hr0
      · rw [hs] at hr0
        cases hr0
        have := hb.1
        omega
    have pass : handedOrChildMissing w k0 → handedOrChildMissing w k ∨ k ∈ ks := by
      intro h0
      rcases hkk with h1 | h1
      · exact Or.inl h1
      · rcases List.mem_cons.1 h1 with h2 | h2
        · rw [h2]; exact Or.inl h0
        · exact Or.inr h2
    cases hf : w.m_MFTMap.find k0 with
    | none =>
      rw [hf] at h
      exact ih _ _ _ _ hk h hne k (pass (skip (Or.inl hf)))
    | some o =>
      cases o with
      | none =>
        rw [hf] at h
        exact ih _ _ _ _ hk h hne k (pass (skip (Or.inr (Or.inl hf))))
      | some r =>
        rw [hf] at h
        simp only [] at h
        split_ifs at h with hc
        · exact ih _ _ _ _ hk h hne k (pass (skip (Or.inr (Or.inr ⟨r, hf, hc⟩))))
        · rw [Outcome.bind_eq_value] at h
          obtain ⟨⟨hr1, w1⟩, hwr, h⟩ := h
          obtain ⟨hs, ho, hv⟩ := walkRecord_spec env true fuel hr hr1 w w1 k0 r hk hf hwr
          have hv0 : handedOrChildMissing w1 k0 := hv rfl (by omega)
          simp only [] at h
          split_ifs at h with hstop
          · simp only [Outcome.value.injEq, Prod.mk.injEq] at h
            exfalso
            apply hne
            rw [← h.1]
            simpa using hstop
          · apply ih _ _ _ _ (hs.frame.consistent hk) h hne k
            by_cases hkk0 : k = k0
            · rw [hkk0]; exact Or.inl hv0
            · rcases hkk with h1 | h1
              · exact Or.inl (handed_kept k0 k w w1 hs ho hkk0 h1)
              · rcases List.mem_cons.1 h1 with h2 | h2
                · exact absurd h2 hkk0
                · exact Or.inr h2

theorem find_none_of_not_key {α : Type} (m : SegmentMap α) (k : Nat)
    (h : k ∉ m.map Prod.fst) : m.find k = none := by
  unfold SegmentMap.find
  induction m with
  | nil => rfl
  | cons e m ih =>
    obtain ⟨a, v⟩ := e
    simp only [List.map_cons, List.mem_cons, not_or] at h
    rw [lookup_cons_ite, if_neg h.1]
    exact ih h.2

/-- The final sweep, when it is not stopped: every base record that the map
still holds was handed to the callback, or misses a child record in the map. -/
theorem WalkRecords_final (env : WalkerEnv) (w w2 : MFTWalker) (fuel : Nat)
    (hr2 : HRESULT) (hk : keysConsistent w)
    (h : WalkRecords env w true fuel = Outcome.value (hr2, w2))
    (hne : hr2 ≠ ERROR_NO_MORE_FILES) : ∀ k, handedOrChildMissing w2 k := by
  intro k
  by_cases hm : k ∈ w.m_MFTMap.map Prod.fst
  · exact walkLoop_final env fuel _ _ _ _ _ hk h hne k (Or.inr hm)
  · have h1 := (WalkRecords_sweep env w w2 true fuel hr2 hk h).absent k
      (find_none_of_not_key _ k hm)
    intro r hr _
    rw [h1] at hr
    cases hr

/-- `AddDirectoryName` leaves the map of the records and the traces as they
are. -/
theorem AddDirectoryName_same (w w1 : MFTWalker) (r : WalkerRecord)
    (h : AddDirectoryName w r = Outcome.value w1) :
    w1.m_MFTMap = w.m_MFTMap ∧ w1.elementCalls = w.elementCalls
      ∧ w1.parseCalls = w.parseCalls := by
  unfold AddDirectoryName at h
  cases hb : r.m_pBaseFileRecord with
  | none =>
    rw [hb] at h
    simp only [] at h
    split_ifs at h
    · cases hm : r.Main_PFILE_NAME with
      | none => rw [hm] at h; cases h; exact ⟨rfl, rfl, rfl⟩
      | some n => rw [hm] at h; cases h; exact ⟨rfl, rfl, rfl⟩
    · cases h; exact ⟨rfl, rfl, rfl⟩
  | some p =>
    rw [hb] at h
    simp only [] at h
    rw [Outcome.bind_eq_value] at h
    obtain ⟨base, -, h⟩ := h
    split_ifs at h
    · cases hfd : w.m_DirectoryNames.find (NtfsFullSegmentNumber base.m_FileReferenceNumber) with
      | some e => rw [hfd] at h; cases h; exact ⟨rfl, rfl, rfl⟩
      | none =>
        rw [hfd] at h
        simp only [] at h
        cases hm : base.Main_PFILE_NAME with
        | none => rw [hm] at h; cases h; exact ⟨rfl, rfl, rfl⟩
        | some n => rw [hm] at h; cases h; exact ⟨rfl, rfl, rfl⟩
    · cases h; exact ⟨rfl, rfl, rfl⟩

theorem updateAttribute_same (st st1 : MFTWalker × WalkerRecord × List AttributeListEntry)
    (attr : AttributeListEntry) (h : updateAttribute st attr = Outcome.value st1) :
    st1.1.m_MFTMap = st.1.m_MFTMap ∧ st1.1.elementCalls = st.1.elementCalls
    ∧ st1.2.1.m_FileReferenceNumber = st.2.1.m_FileReferenceNumber
    ∧ st1.2.1.m_pRecord = st.2.1.m_pRecord
    ∧ st1.2.1.m_bCallbackCalled = st.2.1.m_bCallbackCalled := by
  unfold updateAttribute at h
  simp only [] at h
  cases ha : (resolveAttribute st.1 attr).m_Attribute with
  | none =>
    rw [ha] at h
    cases h
    exact ⟨rfl, rfl, rfl, rfl, rfl⟩
  | some a =>
    rw [ha] at h
    simp only [] at h
    split_ifs at h
    · rw [Outcome.bind_eq_value] at h
      obtain ⟨w2, hd, h⟩ := h
      cases h
      obtain ⟨h1, h2, -⟩ := AddDirectoryName_same _ _ _ hd
      exact ⟨h1, h2, rfl, rfl, rfl⟩
    · cases h
      exact ⟨rfl, rfl, rfl, rfl, rfl⟩

theorem updateAttributes_same (l : List AttributeListEntry) :
    ∀ (o : Outcome (MFTWalker × WalkerRecord × List AttributeListEntry))
      (w : MFTWalker) (r : WalkerRecord)
      (st1 : MFTWalker × WalkerRecord × List AttributeListEntry),
      (∀ st, o = Outcome.value st →
        st.1.m_MFTMap = w.m_MFTMap ∧ st.1.elementCalls = w.elementCalls
        ∧ st.2.1.m_FileReferenceNumber = r.m_FileReferenceNumber
        ∧ st.2.1.m_pRecord = r.m_pRecord
        ∧ st.2.1.m_bCallbackCalled = r.m_bCallbackCalled) →
      l.foldl (fun acc attr => acc.bind fun st => updateAttribute st attr) o
        = Outcome.value st1 →
      st1.1.m_MFTMap = w.m_MFTMap ∧ st1.1.elementCalls = w.elementCalls
        ∧ st1.2.1.m_FileReferenceNumber = r.m_FileReferenceNumber
        ∧ st1.2.1.m_pRecord = r.m_pRecord
        ∧ st1.2.1.m_bCallbackCalled = r.m_bCallbackCalled := by
  induction l with
  | nil =>
    intro o w r st1 ho h
    exact ho st1 h
  | cons a l ih =>
    intro o w r st1 ho h
    rw [List.foldl_cons] at h
    apply ih _ w r st1 _ h
    intro st hst
    rw [Outcome.bind_eq_value] at hst
    obtain ⟨st0, h0, h1⟩ := hst
    obtain ⟨a1, a2, a3, a4, a5⟩ := ho st0 h0
    obtain ⟨b1, b2, b3, b4, b5⟩ := updateAttribute_same st0 st a h1
    exact ⟨b1.trans a1, b2.trans a2, b3.trans a3, b4.trans a4, b5.trans a5⟩

/-- `UpdateAttributeList` writes to the record it is given, and leaves its
reference, its header and its mark. -/
theorem UpdateAttributeList_frame (w w1 : MFTWalker) (p : Nat)
    (h : UpdateAttributeList w p = Outcome.value w1) : Frame w w1 := by
  unfold UpdateAttributeList at h
  rw [Outcome.bind_eq_value] at h
  obtain ⟨r, hd, h⟩ := h
  have hf := (deref_eq_value w p r).1 hd
  cases hl : r.m_pAttributeList with
  | none => rw [hl] at h; cases h
  | some l =>
    rw [hl] at h
    simp only [] at h
    rw [Outcome.bind_eq_value] at h
    obtain ⟨s, hs, h⟩ := h
    have hfr : Frame w s.1 := by
      by_cases hp : l.IsPresent = true
      · rw [if_pos hp, Outcome.bind_eq_value] at hs
        obtain ⟨st, hst, hs⟩ := hs
        cases hs
        obtain ⟨a1, a2, a3, a4, a5⟩ := updateAttributes_same l.m_AttList _ w r st
          (fun st0 h0 => by cases h0; exact ⟨rfl, rfl, rfl, rfl, rfl⟩) hst
        refine Frame.write p r (withAttributes st.2.1 l st.2.2) hf a3 a4 ?_ ?_ a2
        · show st.2.1.m_bCallbackCalled = _
          exact a5
        · show (st.1.m_MFTMap.assign p _) = _
          rw [a1]
      · rw [if_neg hp] at hs
        cases hs
        exact Frame.refl w
    have hend : Frame s.1 w1 := by
      split_ifs at h
      · cases hd2 : s.1.m_DirectoryNames.find
            (NtfsFullSegmentNumber s.2.m_FileReferenceNumber) with
        | none =>
          rw [hd2] at h
          obtain ⟨h1, h2, -⟩ := AddDirectoryName_same _ _ _ h
          exact Frame.of_eq h1 h2
        | some e =>
          rw [hd2] at h
          cases h
          exact Frame.refl _
      · cases h
        exact Frame.refl _
    exact hfr.trans hend

theorem parseHostRecord_frame (env : WalkerEnv) (p : Nat) (st st1 : HRESULT × MFTWalker)
    (attr : AttributeListEntry) (h : parseHostRecord env p st attr = Outcome.value st1) :
    Frame st.2 st1.2 := by
  unfold parseHostRecord at h
  rw [Outcome.bind_eq_value] at h
  obtain ⟨r, -, h⟩ := h
  cases ha : attr.m_Attribute with
  | some a => rw [ha] at h; cases h; exact Frame.refl _
  | none =>
    rw [ha] at h
    simp only [] at h
    cases hl : attr.m_pListEntry with
    | none => rw [hl] at h; cases h
    | some le =>
      rw [hl] at h
      simp only [] at h
      split_ifs at h with hne
      · cases hf : st.2.m_MFTMap.find (NtfsFullSegmentNumber le.SegmentReference) with
        | none => rw [hf] at h; cases h; exact Frame.refl _
        | some o =>
          cases o with
          | none => rw [hf] at h; cases h; exact Frame.refl _
          | some host =>
            rw [hf] at h
            simp only [] at h
            split_ifs at h
            · cases h
              exact Frame.write _ host (parsed host _) hf rfl rfl rfl rfl rfl
            · cases h
              exact Frame.refl _
      · cases h
        exact Frame.refl _

theorem parseHostRecords_frame (env : WalkerEnv) (p : Nat) (l : List AttributeListEntry) :
    ∀ (o : Outcome (HRESULT × MFTWalker)) (w : MFTWalker) (st1 : HRESULT × MFTWalker),
      (∀ st, o = Outcome.value st → Frame w st.2) →
      l.foldl (fun acc attr => acc.bind fun st => parseHostRecord env p st attr) o
        = Outcome.value st1 →
      Frame w st1.2 := by
  induction l with
  | nil =>
    intro o w st1 ho h
    exact ho st1 h
  | cons a l ih =>
    intro o w st1 ho h
    rw [List.foldl_cons] at h
    apply ih _ w st1 _ h
    intro st hst
    rw [Outcome.bind_eq_value] at hst
    obtain ⟨st0, h0, h1⟩ := hst
    exact (ho st0 h0).trans (parseHostRecord_frame env p st0 st a h1)

theorem addParsedRecord_frame (env : WalkerEnv) (w : MFTWalker) (r : WalkerRecord)
    (res : HRESULT × MFTWalker)
    (hkey : w.m_MFTMap.find (NtfsFullSegmentNumber r.m_FileReferenceNumber) = none
      ∨ w.m_MFTMap.find (NtfsFullSegmentNumber r.m_FileReferenceNumber) = some (some r))
    (hnew : w.m_MFTMap.find (NtfsFullSegmentNumber r.m_FileReferenceNumber) = none →
      r.m_bCallbackCalled = false)
    (h : addParsedRecord env w r = Outcome.value res) : Frame w res.2 := by
  unfold addParsedRecord at h
  simp only [] at h
  rw [Outcome.bind_eq_value] at h
  obtain ⟨w1, hd, h⟩ := h
  rw [Outcome.bind_eq_value] at h
  obtain ⟨al, -, h⟩ := h
  obtain ⟨m1, c1, -⟩ := AddDirectoryName_same _ _ _ hd
  simp only [] at m1 c1
  have hf1 : w1.m_MFTMap.find (NtfsFullSegmentNumber r.m_FileReferenceNumber)
      = some (some r) := by
    rw [m1, SegmentMap.find_insert]
    rcases hkey with hk | hk
    · rw [hk]; simp
    · rw [hk]; simp
  have f1 : Frame w w1 :=
    Frame.insert (NtfsFullSegmentNumber r.m_FileReferenceNumber) r rfl hnew m1 c1
  have hwa : (withAttributeList r).m_FileReferenceNumber = r.m_FileReferenceNumber
      ∧ (withAttributeList r).m_pRecord = r.m_pRecord
      ∧ (withAttributeList r).m_bCallbackCalled = r.m_bCallbackCalled := by
    unfold withAttributeList
    cases r.m_pAttributeList <;> exact ⟨rfl, rfl, rfl⟩
  have f2 : Frame w1 (setRecord w1 (NtfsFullSegmentNumber r.m_FileReferenceNumber)
      (withAttributeList r)) :=
    Frame.write _ r _ hf1 hwa.1 hwa.2.1 hwa.2.2 rfl rfl
  cases al with
  | none =>
    cases h
    exact f1.trans f2
  | some l =>
    simp only [] at h
    exact (f1.trans f2).trans
      (parseHostRecords_frame env _ l.m_AttList _ _ res
        (fun st hst => by cases hst; exact Frame.refl _) h)

theorem parseLogged_frame (w : MFTWalker) (r : WalkerRecord) (pr : ParseResult)
    (inMap : Bool)
    (hkey : (inMap = false
          ∧ w.m_MFTMap.find (NtfsFullSegmentNumber r.m_FileReferenceNumber) = none
          ∧ r.m_bCallbackCalled = false)
      ∨ (inMap = true
          ∧ w.m_MFTMap.find (NtfsFullSegmentNumber r.m_FileReferenceNumber) = some (some r))) :
    Frame w (parseLogged w r pr inMap)
    ∧ ((parseLogged w r pr inMap).m_MFTMap.find
          (NtfsFullSegmentNumber (parsed r pr).m_FileReferenceNumber) = none
      ∨ (parseLogged w r pr inMap).m_MFTMap.find
          (NtfsFullSegmentNumber (parsed r pr).m_FileReferenceNumber)
            = some (some (parsed r pr)))
    ∧ ((parseLogged w r pr inMap).m_MFTMap.find
          (NtfsFullSegmentNumber (parsed r pr).m_FileReferenceNumber) = none →
        (parsed r pr).m_bCallbackCalled = false) := by
  unfold parseLogged
  rcases hkey with ⟨h1, h2, h3⟩ | ⟨h1, h2⟩
  · subst h1
    simp only [Bool.false_eq_true, if_false]
    exact ⟨Frame.of_eq rfl rfl, Or.inl h2, fun _ => h3⟩
  · subst h1
    simp only [if_true]
    have hfind : (SegmentMap.assign w.m_MFTMap
        (NtfsFullSegmentNumber r.m_FileReferenceNumber) (some (parsed r pr))).find
          (NtfsFullSegmentNumber (parsed r pr).m_FileReferenceNumber)
            = some (some (parsed r pr)) := by
      rw [SegmentMap.find_assign]
      simp [parsed]
    refine ⟨Frame.write _ r (parsed r pr) h2 rfl rfl rfl rfl rfl, Or.inr hfind, ?_⟩
    intro hnone
    have hnone2 : (SegmentMap.assign w.m_MFTMap
        (NtfsFullSegmentNumber r.m_FileReferenceNumber) (some (parsed r pr))).find
          (NtfsFullSegmentNumber (parsed r pr).m_FileReferenceNumber) = none := hnone
    rw [hfind] at hnone2
    cases hnone2

theorem deleteAndReturn_frame (w w0 : MFTWalker) (r0 : WalkerRecord) (hr : HRESULT)
    (idx0 : Nat) (a : AddRecordResult) (f0 : Frame w w0)
    (hd : ((DeleteRecord w0 r0).bind fun w =>
        Outcome.value (⟨hr, w, none, idx0⟩ : AddRecordResult)) = Outcome.value a) :
    Frame w a.walker := by
  rw [Outcome.bind_eq_value] at hd
  obtain ⟨w2, hd2, hd⟩ := hd
  cases hd
  exact f0.trans (DeleteRecord_deleted w0 w2 r0 hd2).1.frame

theorem parseAndAdd_frame (env : WalkerEnv) (w : MFTWalker) (idx : Nat) (r : WalkerRecord)
    (inMap : Bool) (pr : ParseResult) (a : AddRecordResult)
    (hkey : (inMap = false
          ∧ w.m_MFTMap.find (NtfsFullSegmentNumber r.m_FileReferenceNumber) = none
          ∧ r.m_bCallbackCalled = false)
      ∨ (inMap = true
          ∧ w.m_MFTMap.find (NtfsFullSegmentNumber r.m_FileReferenceNumber) = some (some r)))
    (h : parseAndAdd env w idx r inMap pr = Outcome.value a) : Frame w a.walker := by
  obtain ⟨f1, hk1, hn1⟩ := parseLogged_frame w r pr inMap hkey
  unfold parseAndAdd at h
  by_cases h1 : (pr.hr == S_FALSE) = true
  · rw [if_pos h1] at h
    exact deleteAndReturn_frame w _ _ _ _ a f1 h
  · rw [if_neg h1] at h
    by_cases h2 : (pr.hr == S_OK) = true
    · rw [if_pos h2, Outcome.bind_eq_value] at h
      obtain ⟨res, hres, h⟩ := h
      cases h
      exact f1.trans (addParsedRecord_frame env _ _ res hk1 hn1 hres)
    · rw [if_neg h2] at h
      exact deleteAndReturn_frame w _ _ _ _ a f1 h

/-- The part of `AddRecord` behind the look-up, for a record that the map holds
under its segment number, or for a new record whose segment number is not in
the map. -/
theorem addRecord_frame (env : WalkerEnv) (w : MFTWalker) (idx : Nat) (r : WalkerRecord)
    (inMap : Bool) (a : AddRecordResult)
    (hkey : (inMap = false
          ∧ w.m_MFTMap.find (NtfsFullSegmentNumber r.m_FileReferenceNumber) = none
          ∧ r.m_bCallbackCalled = false)
      ∨ (inMap = true
          ∧ w.m_MFTMap.find (NtfsFullSegmentNumber r.m_FileReferenceNumber) = some (some r)))
    (h : addRecord env w idx r inMap = Outcome.value a) : Frame w a.walker := by
  unfold addRecord at h
  by_cases h1 : (w.m_bIncludeNotInUse
      || (r.m_pRecord.Flags &&& FILE_RECORD_SEGMENT_IN_USE) != 0) = true
  · rw [if_pos h1] at h
    exact parseAndAdd_frame env w _ r inMap _ a hkey h
  · rw [if_neg h1] at h
    exact deleteAndReturn_frame w _ _ _ _ a (Frame.refl w) h

/-- `AddRecord`, from a state where the records are kept under their own
segment numbers. -/
theorem AddRecord_frame (env : WalkerEnv) (w : MFTWalker) (idx : Nat)
    (Data : FILE_RECORD_SEGMENT_HEADER) (fuel : Nat) (a : AddRecordResult)
    (hk : keysConsistent w)
    (h : AddRecord env w idx Data fuel = Outcome.value a) : Frame w a.walker := by
  unfold AddRecord at h
  by_cases hs : (Data.Signature != "FILE".toList) = true
  · rw [if_pos hs] at h
    cases h
    exact Frame.refl w
  · rw [if_neg hs] at h
    simp only [] at h
    cases hf : w.m_MFTMap.find (NtfsFullSegmentNumber (SafeReference idx Data)) with
    | none =>
      rw [hf] at h
      simp only [] at h
      rw [Outcome.bind_eq_value] at h
      obtain ⟨w1, hw1, h⟩ := h
      have hsw : Frame w w1
          ∧ w1.m_MFTMap.find (NtfsFullSegmentNumber (SafeReference idx Data)) = none := by
        by_cases ht : w.AllocatedCells ≥ w.m_CellStoreLastWalk + w.m_CellStoreThreshold
        · rw [if_pos ht, Outcome.bind_eq_value] at hw1
          obtain ⟨res, hres, hw1⟩ := hw1
          cases hw1
          have hsweep := WalkRecords_sweep env w res.2 false fuel res.1 hk hres
          exact ⟨hsweep.frame.trans (Frame.of_eq rfl rfl), hsweep.absent _ hf⟩
        · rw [if_neg ht] at hw1
          cases hw1
          exact ⟨Frame.refl w, hf⟩
      by_cases hcell : (!env.GetNewCell w1.AllocatedCells) = true
      · rw [if_pos hcell] at h
        cases h
        exact hsw.1
      · rw [if_neg hcell] at h
        have f2 : Frame w1 { w1 with AllocatedCells := w1.AllocatedCells + 1 } :=
          Frame.of_eq rfl rfl
        exact (hsw.1.trans f2).trans
          (addRecord_frame env _ idx _ false a (Or.inl ⟨rfl, hsw.2, rfl⟩) h)
    | some o =>
      cases o with
      | none =>
        rw [hf] at h
        cases h
        exact Frame.refl w
      | some r =>
        rw [hf] at h
        simp only [] at h
        have hkr := hk _ r hf
        exact addRecord_frame env w idx r true a (Or.inr ⟨rfl, by rw [hkr]; exact hf⟩) h

/-- The write of what `IsRecordComplete` leaves of a record of the map. -/
theorem completeness_write (w : MFTWalker) (p : Nat) (r r2 : WalkerRecord)
    (missing m2 : List Nat) (ba bp b : Bool) (fuel : Nat)
    (hd : deref w p = Outcome.value r)
    (hc : IsRecordComplete w r missing ba bp fuel = Outcome.value (b, r2, m2)) :
    Frame w (setRecord w p r2) := by
  have hr2 := IsRecordComplete_record _ _ _ _ _ _ _ _ _ hc
  exact Frame.write p r r2 ((deref_eq_value w p r).1 hd) (by rw [hr2]) (by rw [hr2])
    (by rw [hr2]) rfl rfl

theorem fetchedRecord_frame (env : WalkerEnv) (fuel : Nat) (w : MFTWalker)
    (missing : List Nat) (idx : Nat) (Data : FILE_RECORD_SEGMENT_HEADER)
    (res : HRESULT × MFTWalker × List Nat) (hk : keysConsistent w)
    (h : fetchedRecord env fuel w missing idx Data = Outcome.value res) : Frame w res.2.1 := by
  unfold fetchedRecord at h
  rw [Outcome.bind_eq_value] at h
  obtain ⟨a, ha, h⟩ := h
  have fa := AddRecord_frame env w idx Data fuel a hk ha
  by_cases hfail : FAILED a.hr = true
  · rw [if_pos hfail] at h
    cases h
    exact fa
  · rw [if_neg hfail] at h
    cases hp : a.pAddedRecord with
    | none =>
      rw [hp] at h
      cases h
      exact fa
    | some p =>
      rw [hp] at h
      simp only [] at h
      by_cases hsf : (a.hr != S_FALSE) = true
      · rw [if_pos hsf, Outcome.bind_eq_value] at h
        obtain ⟨r, hd, h⟩ := h
        rw [Outcome.bind_eq_value] at h
        obtain ⟨⟨b, r2, m2⟩, hc, h⟩ := h
        cases h
        exact fa.trans (completeness_write _ p r r2 _ _ _ _ _ _ hd hc)
      · rw [if_neg hsf] at h
        cases h
        exact fa

theorem fetchRecords_frame (env : WalkerEnv) (fuel : Nat) (hrFetch : HRESULT) :
    ∀ (bufs : List (Nat × FILE_RECORD_SEGMENT_HEADER)) (w : MFTWalker) (missing : List Nat)
      (res : HRESULT × MFTWalker × List Nat), keysConsistent w →
      fetchRecords env fuel hrFetch bufs w missing = Outcome.value res → Frame w res.2.1 := by
  intro bufs
  induction bufs with
  | nil =>
    intro w missing res _ h
    unfold fetchRecords at h
    cases h
    exact Frame.refl w
  | cons b bufs ih =>
    intro w missing res hk h
    obtain ⟨idx, Data⟩ := b
    unfold fetchRecords at h
    rw [Outcome.bind_eq_value] at h
    obtain ⟨r1, h1, h⟩ := h
    have f1 := fetchedRecord_frame env fuel w missing idx Data r1 hk h1
    by_cases hfail : FAILED r1.1 = true
    · rw [if_pos hfail] at h
      cases h
      exact f1
    · rw [if_neg hfail] at h
      exact f1.trans (ih _ _ _ (f1.consistent hk) h)

theorem updateAfterFetch_frame (w w1 : MFTWalker) (p : Nat)
    (h : updateAfterFetch w p = Outcome.value w1) : Frame w w1 := by
  unfold updateAfterFetch at h
  rw [Outcome.bind_eq_value] at h
  obtain ⟨w2, hu, h⟩ := h
  rw [Outcome.bind_eq_value] at h
  obtain ⟨r, hd, h⟩ := h
  simp only [] at h
  have f1 := UpdateAttributeList_frame w w2 p hu
  have hf := (deref_eq_value w2 p r).1 hd
  generalize hnew : (if (NtfsFullSegmentNumber r.m_pRecord.BaseFileRecordSegment != 0
        && r.m_pBaseFileRecord == none) = true then
      match w2.m_MFTMap.find (NtfsFullSegmentNumber r.m_pRecord.BaseFileRecordSegment) with
      | some (some _) =>
        { r with
          m_pBaseFileRecord :=
            (some (NtfsFullSegmentNumber r.m_pRecord.BaseFileRecordSegment)) }
      | _ => r
    else r) = r2 at h
  have hr2 : r2.m_FileReferenceNumber = r.m_FileReferenceNumber
      ∧ r2.m_pRecord = r.m_pRecord ∧ r2.m_bCallbackCalled = r.m_bCallbackCalled := by
    rw [← hnew]
    split_ifs
    · split <;> exact ⟨rfl, rfl, rfl⟩
    · exact ⟨rfl, rfl, rfl⟩
  have f2 : Frame w2 (setRecord w2 p r2) :=
    Frame.write p r r2 hf hr2.1 hr2.2.1 hr2.2.2 rfl rfl
  cases hb : r2.m_pBaseFileRecord with
  | none =>
    rw [hb] at h
    cases h
    exact f1.trans f2
  | some b =>
    rw [hb] at h
    exact (f1.trans f2).trans (UpdateAttributeList_frame _ w1 b h)

theorem completionLoop_frame (env : WalkerEnv) (fuel : Nat) (p : Nat) :
    ∀ (rounds : Nat) (w : MFTWalker) (missing fetched : List Nat) (hr : HRESULT)
      (n : Nat) (c : CompletionResult), keysConsistent w →
      completionLoop env fuel p rounds w missing fetched hr n = Outcome.value c →
      Frame w c.walker := by
  intro rounds
  induction rounds with
  | zero =>
    intro w missing fetched hr n c hk h
    unfold completionLoop at h
    rw [Outcome.bind_eq_value] at h
    obtain ⟨r, hd, h⟩ := h
    rw [Outcome.bind_eq_value] at h
    obtain ⟨⟨b, r2, m2⟩, hc, h⟩ := h
    have f1 := completeness_write _ p r r2 _ _ _ _ _ _ hd hc
    simp only [] at h
    by_cases hb : b = true
    · rw [if_pos hb] at h; cases h; exact f1
    · rw [if_neg hb] at h
      by_cases hm : m2.isEmpty = true
      · rw [if_pos hm] at h; cases h; exact f1
      · rw [if_neg hm] at h
        by_cases hm2 : (toFetch m2 fetched).isEmpty = true
        · rw [if_pos hm2] at h; cases h; exact f1
        · rw [if_neg hm2, Outcome.bind_eq_value] at h
          obtain ⟨f, hfe, h⟩ := h
          have f2 := fetchRecords_frame env fuel _ _ _ _ f (f1.consistent hk) hfe
          by_cases hfail : FAILED f.1 = true
          · rw [if_pos hfail] at h; cases h; exact f1.trans f2
          · rw [if_neg hfail, Outcome.bind_eq_value] at h
            obtain ⟨w3, -, h⟩ := h
            cases h
  | succ rounds ih =>
    intro w missing fetched hr n c hk h
    unfold completionLoop at h
    rw [Outcome.bind_eq_value] at h
    obtain ⟨r, hd, h⟩ := h
    rw [Outcome.bind_eq_value] at h
    obtain ⟨⟨b, r2, m2⟩, hc, h⟩ := h
    have f1 := completeness_write _ p r r2 _ _ _ _ _ _ hd hc
    simp only [] at h
    by_cases hb : b = true
    · rw [if_pos hb] at h; cases h; exact f1
    · rw [if_neg hb] at h
      by_cases hm : m2.isEmpty = true
      · rw [if_pos hm] at h; cases h; exact f1
      · rw [if_neg hm] at h
        by_cases hm2 : (toFetch m2 fetched).isEmpty = true
        · rw [if_pos hm2] at h; cases h; exact f1
        · rw [if_neg hm2, Outcome.bind_eq_value] at h
          obtain ⟨f, hfe, h⟩ := h
          have f2 := fetchRecords_frame env fuel _ _ _ _ f (f1.consistent hk) hfe
          by_cases hfail : FAILED f.1 = true
          · rw [if_pos hfail] at h; cases h; exact f1.trans f2
          · rw [if_neg hfail, Outcome.bind_eq_value] at h
            obtain ⟨w3, hu, h⟩ := h
            have f3 := updateAfterFetch_frame _ w3 p hu
            have f123 := (f1.trans f2).trans f3
            exact f123.trans (ih _ _ _ _ _ _ (f123.consistent hk) h)

/-- `AddRecordCallback`, from a state where the records are kept under their
own segment numbers. -/
theorem AddRecordCallback_frame (env : WalkerEnv) (w : MFTWalker) (idx : Nat)
    (Data : FILE_RECORD_SEGMENT_HEADER) (fuel : Nat) (res : HRESULT × MFTWalker)
    (hk : keysConsistent w)
    (h : AddRecordCallback env w idx Data fuel = Outcome.value res) : Frame w res.2 := by
  unfold AddRecordCallback at h
  rw [Outcome.bind_eq_value] at h
  obtain ⟨a, ha, h⟩ := h
  have fa := AddRecord_frame env w idx Data fuel a hk ha
  by_cases hfail : FAILED a.hr = true
  · rw [if_pos hfail] at h
    cases h
    exact fa
  · rw [if_neg hfail] at h
    cases hp : a.pAddedRecord with
    | none =>
      rw [hp] at h
      cases h
      exact fa
    | some p =>
      rw [hp] at h
      simp only [] at h
      rw [Outcome.bind_eq_value] at h
      obtain ⟨c, hc, h⟩ := h
      have fc := completionLoop_frame env fuel p _ _ _ _ _ _ c (fa.consistent hk) hc
      rw [Outcome.bind_eq_value] at h
      obtain ⟨r, hr, h⟩ := h
      cases h
      by_cases hcall : (c.bIsComplete || c.bProceed) = true
      · rw [if_pos hcall] at hr
        obtain ⟨hs, -, -⟩ := callAndFree_sweep env c.walker r.2 p r.1
          ((fa.trans fc).consistent hk) hr
        exact (fa.trans fc).trans hs.frame
      · rw [if_neg hcall] at hr
        cases hr
        exact fa.trans fc

theorem EnumMFTRecord_frame (env : WalkerEnv) (fuel : Nat) :
    ∀ (source : List (Nat × FILE_RECORD_SEGMENT_HEADER)) (w : MFTWalker)
      (res : HRESULT × MFTWalker), keysConsistent w →
      EnumMFTRecord env fuel source w = Outcome.value res → Frame w res.2 := by
  intro source
  induction source with
  | nil =>
    intro w res _ h
    unfold EnumMFTRecord at h
    cases h
    exact Frame.refl w
  | cons b source ih =>
    intro w res hk h
    obtain ⟨idx, Data⟩ := b
    unfold EnumMFTRecord at h
    rw [Outcome.bind_eq_value] at h
    obtain ⟨r1, h1, h⟩ := h
    have f1 := AddRecordCallback_frame env w idx Data fuel r1 hk h1
    by_cases hfail : FAILED r1.1 = true
    · rw [if_pos hfail] at h
      cases h
      exact f1
    · rw [if_neg hfail] at h
      exact f1.trans (ih _ _ (f1.consistent hk) h)

/-- The enumeration of `Walk`, in front of the final sweep. -/
theorem Walk_enumeration (env : WalkerEnv) (w : MFTWalker)
    (source : List (Nat × FILE_RECORD_SEGMENT_HEADER)) (count fuel : Nat)
    (res : HRESULT × MFTWalker) (hk : keysConsistent w)
    (h : (if count > 0 then
          EnumMFTRecord env fuel source { w with m_ulMFTRecordCount := count }
        else Outcome.value (E_FAIL, { w with m_ulMFTRecordCount := count }))
      = Outcome.value res) : Frame w res.2 := by
  have f0 : Frame w { w with m_ulMFTRecordCount := count } := Frame.of_eq rfl rfl
  by_cases hc : count > 0
  · rw [if_pos hc] at h
    exact f0.trans (EnumMFTRecord_frame env fuel source _ res (f0.consistent hk) h)
  · rw [if_neg hc] at h
    cases h
    exact f0

/-- `Walk`, from a state where the records are kept under their own segment
numbers. -/
theorem Walk_frame (env : WalkerEnv) (w : MFTWalker)
    (source : List (Nat × FILE_RECORD_SEGMENT_HEADER)) (count fuel : Nat)
    (res : HRESULT × MFTWalker) (hk : keysConsistent w)
    (h : Walk env w source count fuel = Outcome.value res) : Frame w res.2 := by
  unfold Walk at h
  rw [Outcome.bind_eq_value] at h
  obtain ⟨r1, h1, h⟩ := h
  have f1 := Walk_enumeration env w source count fuel r1 hk h1
  by_cases hstop : (r1.1 == ERROR_NO_MORE_FILES) = true
  · rw [if_pos hstop] at h
    cases h
    exact f1
  · rw [if_neg hstop] at h
    exact f1.trans (WalkRecords_sweep env r1.2 res.2 true fuel res.1 (f1.consistent hk) h).frame

theorem Frame.marksLogged {w w2 : MFTWalker} (f : Frame w w2) (h : marksLogged w) :
    marksLogged w2 := by
  intro k r2 h2 hc
  rcases f.marks k r2 h2 hc with h1 | ⟨r, h1, hc1⟩
  · exact h1
  · obtain ⟨n, e, -, -⟩ := f.calls
    rw [e]
    exact List.mem_append_left _ (h k r h1 hc1)

/-- One step of the enumeration: a record whose `AddRecordCallback` does not
fail. -/
theorem EnumMFTRecord_step (env : WalkerEnv) (fuel : Nat) (w w1 : MFTWalker) (idx : Nat)
    (Data : FILE_RECORD_SEGMENT_HEADER) (hr : HRESULT)
    (rest : List (Nat × FILE_RECORD_SEGMENT_HEADER))
    (h : AddRecordCallback env w idx Data fuel = Outcome.value (hr, w1))
    (hok : FAILED hr = false) :
    EnumMFTRecord env fuel ((idx, Data) :: rest) w = EnumMFTRecord env fuel rest w1 := by
  rw [EnumMFTRecord, h, Outcome.value_bind]
  simp only [hok, Bool.false_eq_true, if_false]

/-- `Walk` from its two parts: the enumeration and the final sweep. -/
theorem Walk_steps (env : WalkerEnv) (w w1 : MFTWalker)
    (source : List (Nat × FILE_RECORD_SEGMENT_HEADER)) (count fuel : Nat) (hr : HRESULT)
    (r : HRESULT × MFTWalker) (hc : count > 0)
    (h1 : EnumMFTRecord env fuel source { w with m_ulMFTRecordCount := count }
      = Outcome.value (hr, w1))
    (hne : (hr == ERROR_NO_MORE_FILES) = false)
    (h2 : WalkRecords env w1 true fuel = Outcome.value r) :
    Walk env w source count fuel = Outcome.value r := by
  rw [Walk, if_pos hc, h1, Outcome.value_bind]
  simp only [hne, Bool.false_eq_true, if_false]
  exact h2

/-- `AddRecord` for a segment whose entry in the map is a null pointer. -/
theorem AddRecord_tombstone (env : WalkerEnv) (w : MFTWalker) (idx : Nat)
    (Data : FILE_RECORD_SEGMENT_HEADER) (fuel : Nat)
    (h : w.m_MFTMap.find (NtfsFullSegmentNumber (SafeReference idx Data)) = some none) :
    AddRecord env w idx Data fuel
      = Outcome.value
          ⟨if Data.Signature != "FILE".toList then S_OK else S_FALSE, w, none, idx⟩ := by
  unfold AddRecord
  by_cases hs : (Data.Signature != "FILE".toList) = true
  · rw [if_pos hs, if_pos hs]
  · rw [if_neg hs, if_neg hs]
    simp only []
    rw [h]

/-- The branch of `AddRecord` for a record that is not in use, when these are
not included. -/
theorem addRecord_dropped (env : WalkerEnv) (w : MFTWalker) (idx : Nat) (r : WalkerRecord)
    (inMap : Bool) (a : AddRecordResult) (hinc : w.m_bIncludeNotInUse = false)
    (hflag : r.m_pRecord.Flags &&& FILE_RECORD_SEGMENT_IN_USE = 0)
    (h : addRecord env w idx r inMap = Outcome.value a) :
    a.pAddedRecord = none
    ∧ a.walker.m_MFTMap.find (NtfsFullSegmentNumber r.m_FileReferenceNumber) = some none
    ∧ a.walker.parseCalls = w.parseCalls ∧ a.walker.elementCalls = w.elementCalls := by
  unfold addRecord at h
  have hc : (w.m_bIncludeNotInUse
      || (r.m_pRecord.Flags &&& FILE_RECORD_SEGMENT_IN_USE) != 0) = false := by
    rw [hinc, hflag]
    rfl
  rw [hc] at h
  simp only [Bool.false_eq_true, if_false] at h
  rw [Outcome.bind_eq_value] at h
  obtain ⟨w2, hdel, h⟩ := h
  cases h
  obtain ⟨hd, hf⟩ := DeleteRecord_deleted w w2 r hdel
  exact ⟨rfl, hf, hd.parse, hd.calls⟩

/-- The same branch for a new record, which has no child record: it returns. -/
theorem addRecord_new_dropped (env : WalkerEnv) (w : MFTWalker) (idx : Nat)
    (r : WalkerRecord) (inMap : Bool) (hinc : w.m_bIncludeNotInUse = false)
    (hflag : r.m_pRecord.Flags &&& FILE_RECORD_SEGMENT_IN_USE = 0)
    (hchild : r.m_ChildRecords = []) :
    ∃ a, addRecord env w idx r inMap = Outcome.value a := by
  unfold addRecord
  have hc : (w.m_bIncludeNotInUse
      || (r.m_pRecord.Flags &&& FILE_RECORD_SEGMENT_IN_USE) != 0) = false := by
    rw [hinc, hflag]
    rfl
  rw [hc]
  simp only [Bool.false_eq_true, if_false]
  unfold DeleteRecord
  rw [hchild]
  exact ⟨_, rfl⟩

/-- C17, as amended: with parent checking enabled, `IsRecordComplete` returns
`true` for a record not yet marked complete only if, for every file name of its
base record in front of the first one whose parent is the volume root, the
direct parent and every ancestor directory reached by following the parent
references, up to one whose parent is the volume root or has the segment number
0, are in the directory-name map. -/
theorem C17_complete_only_if_ancestors (w : MFTWalker)
    (pRecord pBaseRecord r2 : WalkerRecord)
    (missing m2 : List Nat) (bAttr : Bool) (fuel : Nat)
    (hnew : pRecord.m_bIsComplete = false)
    (hbase : baseRecord w pRecord = Outcome.value pBaseRecord)
    (h : IsRecordComplete w pRecord missing bAttr true fuel = Outcome.value (true, r2, m2)) :
    ∀ name ∈ checkedNames w.USNRoot pBaseRecord.m_FileNames,
      ancestorsPresent w.m_DirectoryNames w.USNRoot fuel
        (NtfsFullSegmentNumber name.ParentDirectory) = true :=
  IsRecordComplete_parents w pRecord pBaseRecord r2 missing m2 bAttr fuel hnew hbase h

/-- Witness of `C17_complete_only_if_ancestors`: a record with the file name
`f.txt` in the directory `\a\b`, both directories being in the map. -/
theorem C17_complete_only_if_ancestors_witness :
    sampleRecord.m_bIsComplete = false
    ∧ baseRecord sampleWalker sampleRecord = Outcome.value sampleRecord
    ∧ IsRecordComplete sampleWalker sampleRecord [] true true 2
        = Outcome.value (true, { sampleRecord with m_bIsComplete := true }, [])
    ∧ ∀ name ∈ checkedNames sampleWalker.USNRoot sampleRecord.m_FileNames,
        ancestorsPresent sampleWalker.m_DirectoryNames sampleWalker.USNRoot 2
          (NtfsFullSegmentNumber name.ParentDirectory) = true :=
  ⟨rfl, rfl, by decide,
    C17_complete_only_if_ancestors sampleWalker sampleRecord sampleRecord
      { sampleRecord with m_bIsComplete := true } [] [] true 2 rfl rfl (by decide)⟩

/-- C17 fails for a directory whose parent reference has the segment number 0:
the record is not marked complete, `IsRecordComplete` returns `true` with the
parents asked for, and the parent of the directory of its file name is neither
the volume root nor in the directory-name map. -/
theorem C17_zero_parent_counterexample :
    orphanRecord.m_bIsComplete = false
    ∧ IsRecordComplete zeroParentWalker orphanRecord [] true true 5
        = Outcome.value (true, { orphanRecord with m_bIsComplete := true }, [])
    ∧ orphanRecord.m_FileNames
        = [{ ParentDirectory := 0x0001000000000030, FileName := "f.txt".toList }]
    ∧ ∀ fuel, claimedAncestorsPresent zeroParentWalker.m_DirectoryNames
        zeroParentWalker.USNRoot fuel (NtfsFullSegmentNumber 0x0001000000000030) = false := by
  refine ⟨rfl, by decide, rfl, ?_⟩
  intro fuel
  cases fuel with
  | zero => decide
  | succ fuel =>
    cases fuel with
    | zero => decide
    | succ fuel =>
      unfold claimedAncestorsPresent
      simp only [zeroParentWalker, NtfsFullSegmentNumber, SegmentMap.find, List.lookup,
        MFTFileNameWrapper.FileName]
      unfold claimedAncestorsPresent
      simp [SegmentMap.find, List.lookup]

/-- C18, as amended: when `Walk` returns and its result is not the stop request
`ERROR_NO_MORE_FILES`, every base record still held in the record map has been
handed to the callback, or one of its child records is not in the record map.
The walk starts from a state where the records are kept under their own segment
numbers and the marked ones were handed to the callback, as with an empty
map. -/
theorem C18_final_sweep_hands_base_records (env : WalkerEnv) (w w2 : MFTWalker)
    (source : List (Nat × FILE_RECORD_SEGMENT_HEADER)) (count fuel : Nat) (hr : HRESULT)
    (hk : keysConsistent w) (hm : marksLogged w)
    (h : Walk env w source count fuel = Outcome.value (hr, w2))
    (hne : hr ≠ ERROR_NO_MORE_FILES) :
    ∀ k r, w2.m_MFTMap.find k = some (some r) → isBaseRecord r →
      k ∈ w2.elementCalls ∨ ∃ child ∈ r.m_ChildRecords, w2.m_MFTMap.find child.1 = none := by
  intro k r hf hb
  have hframe := Walk_frame env w source count fuel (hr, w2) hk h
  have hlogged := hframe.marksLogged hm
  unfold Walk at h
  rw [Outcome.bind_eq_value] at h
  obtain ⟨r1, h1, h⟩ := h
  have f1 := Walk_enumeration env w source count fuel r1 hk h1
  by_cases hstop : (r1.1 == ERROR_NO_MORE_FILES) = true
  · rw [if_pos hstop] at h
    cases h
    exact absurd (by simpa using hstop) hne
  · rw [if_neg hstop] at h
    rcases WalkRecords_final env r1.2 w2 fuel hr (f1.consistent hk) h hne k r hf hb with hc | hc
    · exact Or.inl (hlogged k r hf hc)
    · exact Or.inr hc

set_option maxRecDepth 100000 in
/-- Witness of `C18_final_sweep_hands_base_records`: the walk of the records 32
and 34, which the callback keeps alive; both are in the map at the end and were
handed to the callback. -/
theorem C18_final_sweep_hands_base_records_witness :
    keysConsistent {} ∧ marksLogged {}
    ∧ Walk keepAliveEnv {}
        [(32, { SegmentNumberLowPart := 32 }), (34, { SegmentNumberLowPart := 34 })] 2 1
      = Outcome.value (S_OK, keptWalker)
    ∧ S_OK ≠ ERROR_NO_MORE_FILES
    ∧ ∀ k r, keptWalker.m_MFTMap.find k = some (some r) → isBaseRecord r →
        k ∈ keptWalker.elementCalls
          ∨ ∃ child ∈ r.m_ChildRecords, keptWalker.m_MFTMap.find child.1 = none :=
  have hk : keysConsistent {} := fun k r h => by cases h
  have hm : marksLogged {} := fun k r h => by cases h
  have s1 : AddRecordCallback keepAliveEnv { m_ulMFTRecordCount := 2 } 32
      { SegmentNumberLowPart := 32 } 1
      = Outcome.value (S_OK,
          { m_MFTMap := [(32, some (keptRecord 32))], m_dwWalkedItems := 1,
            m_ulMFTRecordCount := 2, AllocatedCells := 1, elementCalls := [32],
            parseCalls := [32] }) := by decide
  have s2 : AddRecordCallback keepAliveEnv
      { m_MFTMap := [(32, some (keptRecord 32))], m_dwWalkedItems := 1,
        m_ulMFTRecordCount := 2, AllocatedCells := 1, elementCalls := [32],
        parseCalls := [32] } 34 { SegmentNumberLowPart := 34 } 1
      = Outcome.value (S_OK, keptWalker) := by decide
  have s3 : WalkRecords keepAliveEnv keptWalker true 1 = Outcome.value (S_OK, keptWalker) := by
    decide
  have hw : Walk keepAliveEnv {}
        [(32, { SegmentNumberLowPart := 32 }), (34, { SegmentNumberLowPart := 34 })] 2 1
      = Outcome.value (S_OK, keptWalker) :=
    Walk_steps _ _ keptWalker _ _ _ S_OK _ (by decide)
      ((EnumMFTRecord_step _ _ _ _ _ _ _ _ s1 rfl).trans
        ((EnumMFTRecord_step _ _ _ _ _ _ _ _ s2 rfl).trans rfl))
      rfl s3
  ⟨hk, hm, hw, by decide,
    C18_final_sweep_hands_base_records keepAliveEnv {} keptWalker _ 2 1 S_OK hk hm hw
      (by decide)⟩

set_option maxRecDepth 100000 in
/-- C18 fails for a base record whose child record is not in the map: the
record 30 lists the child record 31, which the MFT source fails to fetch.
`Walk` returns `S_OK`, the record 30 is in the map, and it was not handed to the
callback. -/
theorem C18_lost_child_counterexample :
    Walk lostChildEnv {} lostChildSource 2 1 = Outcome.value (S_OK, lostChildWalker)
    ∧ S_OK ≠ ERROR_NO_MORE_FILES
    ∧ lostChildWalker.m_MFTMap.find 30 = some (some lostChildRecord)
    ∧ isBaseRecord lostChildRecord
    ∧ 30 ∉ lostChildWalker.elementCalls :=
  have s1 : AddRecordCallback lostChildEnv { m_ulMFTRecordCount := 2 } 30
      { SegmentNumberLowPart := 30 } 1
      = Outcome.value (S_OK,
          { m_MFTMap := [(30, some lostChildRecord)], m_ulMFTRecordCount := 2,
            AllocatedCells := 1, parseCalls := [30] }) := by decide
  have s2 : AddRecordCallback lostChildEnv
      { m_MFTMap := [(30, some lostChildRecord)], m_ulMFTRecordCount := 2,
        AllocatedCells := 1, parseCalls := [30] } 32 { SegmentNumberLowPart := 32 } 1
      = Outcome.value (S_OK, lostChildWalker) := by decide
  have s3 : WalkRecords lostChildEnv lostChildWalker true 1
      = Outcome.value (S_OK, lostChildWalker) := by decide
  ⟨Walk_steps _ _ lostChildWalker _ _ _ S_OK _ (by decide)
      ((EnumMFTRecord_step _ _ _ _ _ _ _ _ s1 rfl).trans
        ((EnumMFTRecord_step _ _ _ _ _ _ _ _ s2 rfl).trans rfl))
      rfl s3,
    by decide, by decide, ⟨by decide, rfl⟩, by decide⟩

/-- C19: within one walk, `ElementCallback` is called at most once for a safe
segment number, whatever the source delivers: the trace of its calls has no
repetition.  Every segment handed to it has a null pointer in the map (the
record was deleted) or a record that is marked as called, and `AddRecord`
returns for a segment with a null pointer without a change of the walker.  The
walk starts from a state where the records are kept under their own segment
numbers and no segment was handed twice, as with an empty map. -/
theorem C19_element_callback_once (env : WalkerEnv) (w w2 : MFTWalker)
    (source : List (Nat × FILE_RECORD_SEGMENT_HEADER)) (count fuel : Nat) (hr : HRESULT)
    (hk : keysConsistent w) (hc : calledOnce w)
    (h : Walk env w source count fuel = Outcome.value (hr, w2)) :
    w2.elementCalls.Nodup
    ∧ (∀ sn ∈ w2.elementCalls, markedCalled w2 sn)
    ∧ ∀ (w3 : MFTWalker) (idx : Nat) (Data : FILE_RECORD_SEGMENT_HEADER) (fuel3 : Nat),
        w3.m_MFTMap.find (NtfsFullSegmentNumber (SafeReference idx Data)) = some none →
        AddRecord env w3 idx Data fuel3
          = Outcome.value
              ⟨if Data.Signature != "FILE".toList then S_OK else S_FALSE, w3, none, idx⟩ := by
  have hc2 := (Walk_frame env w source count fuel (hr, w2) hk h).calledOnce hc
  exact ⟨hc2.1, hc2.2, fun w3 idx Data fuel3 h3 => AddRecord_tombstone env w3 idx Data fuel3 h3⟩

set_option maxRecDepth 100000 in
/-- Witness of `C19_element_callback_once`: the source delivers the record 32
twice, and the callback keeps it alive; it is handed to the callback once. -/
theorem C19_element_callback_once_witness :
    keysConsistent {} ∧ calledOnce {}
    ∧ Walk keepAliveEnv {} twiceSource 3 1 = Outcome.value (S_OK, twiceWalker)
    ∧ twiceWalker.elementCalls = [32]
    ∧ twiceWalker.elementCalls.Nodup
    ∧ (∀ sn ∈ twiceWalker.elementCalls, markedCalled twiceWalker sn)
    ∧ ∀ (w3 : MFTWalker) (idx : Nat) (Data : FILE_RECORD_SEGMENT_HEADER) (fuel3 : Nat),
        w3.m_MFTMap.find (NtfsFullSegmentNumber (SafeReference idx Data)) = some none →
        AddRecord keepAliveEnv w3 idx Data fuel3
          = Outcome.value
              ⟨if Data.Signature != "FILE".toList then S_OK else S_FALSE, w3, none, idx⟩ :=
  have hk : keysConsistent {} := fun k r h => by cases h
  have hc : calledOnce {} := ⟨List.nodup_nil, fun sn h => absurd h (List.not_mem_nil sn)⟩
  have s1 : AddRecordCallback keepAliveEnv { m_ulMFTRecordCount := 3 } 32
      { SegmentNumberLowPart := 32 } 1
      = Outcome.value (S_OK,
          { m_MFTMap := [(32, some (keptRecord 32))], m_dwWalkedItems := 1,
            m_ulMFTRecordCount := 3, AllocatedCells := 1, elementCalls := [32],
            parseCalls := [32] }) := by decide
  have s2 : AddRecordCallback keepAliveEnv
      { m_MFTMap := [(32, some (keptRecord 32))], m_dwWalkedItems := 1,
        m_ulMFTRecordCount := 3, AllocatedCells := 1, elementCalls := [32],
        parseCalls := [32] } 33 { SegmentNumberLowPart := 33, Flags := 0 } 1
      = Outcome.value (S_OK,
          { m_MFTMap := [(32, some (keptRecord 32)), (33, none)], m_dwWalkedItems := 1,
            m_ulMFTRecordCount := 3, AllocatedCells := 1, elementCalls := [32],
            parseCalls := [32] }) := by decide
  have s3 : AddRecordCallback keepAliveEnv
      { m_MFTMap := [(32, some (keptRecord 32)), (33, none)], m_dwWalkedItems := 1,
        m_ulMFTRecordCount := 3, AllocatedCells := 1, elementCalls := [32],
        parseCalls := [32] } 32 { SegmentNumberLowPart := 32 } 1
      = Outcome.value (S_OK, twiceWalker) := by decide
  have s4 : WalkRecords keepAliveEnv twiceWalker true 1 = Outcome.value (S_OK, twiceWalker) := by
    decide
  have hw : Walk keepAliveEnv {} twiceSource 3 1 = Outcome.value (S_OK, twiceWalker) :=
    Walk_steps _ _ twiceWalker _ _ _ S_OK _ (by decide)
      ((EnumMFTRecord_step _ _ _ _ _ _ _ _ s1 rfl).trans
        ((EnumMFTRecord_step _ _ _ _ _ _ _ _ s2 rfl).trans
          ((EnumMFTRecord_step _ _ _ _ _ _ _ _ s3 rfl).trans rfl)))
      rfl s4
  ⟨hk, hc, hw, rfl, C19_element_callback_once keepAliveEnv {} twiceWalker twiceSource 3 1 S_OK
    hk hc hw⟩

/-- C20, as amended: when the walker was initialised without including
not-in-use records, `AddRecord`, for a buffer with the signature `FILE` whose
flag `FILE_RECORD_SEGMENT_IN_USE` is clear, and clear as well in the record that
the map holds for the segment when it holds one, does not parse the record and
does not hand it to the callback: it reports no added record, and, unless it
returns `E_OUTOFMEMORY`, leaves a null pointer for the segment number of the
record in the map.  The call returns when the map holds no record for the
segment and no sweep of the map is due. -/
theorem C20_not_in_use_record_is_dropped (env : WalkerEnv) (w : MFTWalker) (idx : Nat)
    (Data : FILE_RECORD_SEGMENT_HEADER) (fuel : Nat)
    (hinc : w.m_bIncludeNotInUse = false)
    (hsig : Data.Signature = "FILE".toList)
    (hflag : Data.Flags &&& FILE_RECORD_SEGMENT_IN_USE = 0)
    (hstored : ∀ r,
      w.m_MFTMap.find (NtfsFullSegmentNumber (SafeReference idx Data)) = some (some r) →
      r.m_pRecord.Flags &&& FILE_RECORD_SEGMENT_IN_USE = 0)
    (hk : keysConsistent w) :
    (∀ a, AddRecord env w idx Data fuel = Outcome.value a →
      a.pAddedRecord = none
      ∧ (a.hr ≠ E_OUTOFMEMORY →
          a.walker.m_MFTMap.find (NtfsFullSegmentNumber (SafeReference idx Data)) = some none)
      ∧ (∃ new, a.walker.parseCalls = w.parseCalls ++ new
          ∧ NtfsFullSegmentNumber (SafeReference idx Data) ∉ new)
      ∧ ∃ new, a.walker.elementCalls = w.elementCalls ++ new
          ∧ NtfsFullSegmentNumber (SafeReference idx Data) ∉ new)
    ∧ ((∀ r, w.m_MFTMap.find (NtfsFullSegmentNumber (SafeReference idx Data))
          ≠ some (some r)) →
        w.AllocatedCells < w.m_CellStoreLastWalk + w.m_CellStoreThreshold →
        ∃ a, AddRecord env w idx Data fuel = Outcome.value a) := by
  have hs : ¬ (Data.Signature != "FILE".toList) = true := by
    rw [hsig]
    simp
  constructor
  · intro a h
    unfold AddRecord at h
    rw [if_neg hs] at h
    simp only [] at h
    cases hf : w.m_MFTMap.find (NtfsFullSegmentNumber (SafeReference idx Data)) with
    | none =>
      rw [hf] at h
      simp only [] at h
      rw [Outcome.bind_eq_value] at h
      obtain ⟨w1, hw1, h⟩ := h
      have hsw : Sweep w w1 := by
        by_cases ht : w.AllocatedCells ≥ w.m_CellStoreLastWalk + w.m_CellStoreThreshold
        · rw [if_pos ht, Outcome.bind_eq_value] at hw1
          obtain ⟨res, hres, hw1⟩ := hw1
          cases hw1
          have hsweep := WalkRecords_sweep env w res.2 false fuel res.1 hk hres
          exact hsweep.sweepTrans
            (Sweep.of_frame (Frame.of_eq rfl rfl) (fun _ h => h) rfl rfl rfl)
        · rw [if_neg ht] at hw1
          cases hw1
          exact Sweep.sweepRefl w
      obtain ⟨np, ep, hp⟩ := hsw.parsed
      obtain ⟨nc, ec, hc⟩ := hsw.called
      have hnp : NtfsFullSegmentNumber (SafeReference idx Data) ∉ np := fun hx => hp _ hx hf
      have hnc : NtfsFullSegmentNumber (SafeReference idx Data) ∉ nc := fun hx => hc _ hx hf
      by_cases hcell : (!env.GetNewCell w1.AllocatedCells) = true
      · rw [if_pos hcell] at h
        cases h
        exact ⟨rfl, fun hne => absurd rfl hne, ⟨np, ep, hnp⟩, ⟨nc, ec, hnc⟩⟩
      · rw [if_neg hcell] at h
        obtain ⟨h1, h2, h3, h4⟩ := addRecord_dropped env
          { w1 with AllocatedCells := w1.AllocatedCells + 1 } idx
          { m_FileReferenceNumber := SafeReference idx Data, m_pRecord := Data } false a
          (hsw.notInUse.trans hinc) hflag h
        exact ⟨h1, fun _ => h2, ⟨np, by rw [h3]; exact ep, hnp⟩,
          ⟨nc, by rw [h4]; exact ec, hnc⟩⟩
    | some o =>
      cases o with
      | none =>
        rw [hf] at h
        cases h
        exact ⟨rfl, fun _ => hf, ⟨[], by simp, by simp⟩, ⟨[], by simp, by simp⟩⟩
      | some r =>
        rw [hf] at h
        simp only [] at h
        obtain ⟨h1, h2, h3, h4⟩ := addRecord_dropped env w idx r true a hinc (hstored r hf) h
        rw [hk _ r hf] at h2
        exact ⟨h1, fun _ => h2, ⟨[], by simp [h3], by simp⟩, ⟨[], by simp [h4], by simp⟩⟩
  · intro hnone hdue
    unfold AddRecord
    rw [if_neg hs]
    simp only []
    cases hf : w.m_MFTMap.find (NtfsFullSegmentNumber (SafeReference idx Data)) with
    | none =>
      simp only []
      rw [if_neg (by omega), Outcome.value_bind]
      by_cases hcell : (!env.GetNewCell w.AllocatedCells) = true
      · rw [if_pos hcell]
        exact ⟨_, rfl⟩
      · rw [if_neg hcell]
        exact addRecord_new_dropped env _ idx _ false hinc hflag rfl
    | some o =>
      cases o with
      | none => exact ⟨_, rfl⟩
      | some r => exact absurd hf (hnone r)

set_option maxRecDepth 100000 in
/-- Witness of `C20_not_in_use_record_is_dropped`: the record 33, not in use,
is delivered to a walker that holds the record 32. -/
theorem C20_not_in_use_record_is_dropped_witness :
    keptWalker.m_bIncludeNotInUse = false
    ∧ notInUseHeader.Signature = "FILE".toList
    ∧ notInUseHeader.Flags &&& FILE_RECORD_SEGMENT_IN_USE = 0
    ∧ keysConsistent keptWalker
    ∧ AddRecord keepAliveEnv keptWalker 33 notInUseHeader 1
        = Outcome.value ⟨S_OK,
            { keptWalker with
              m_MFTMap := [(32, some (keptRecord 32)), (34, some (keptRecord 34)), (33, none)] },
            none, 33⟩
    ∧ (∀ a, AddRecord keepAliveEnv keptWalker 33 notInUseHeader 1 = Outcome.value a →
      a.pAddedRecord = none
      ∧ (a.hr ≠ E_OUTOFMEMORY →
          a.walker.m_MFTMap.find (NtfsFullSegmentNumber (SafeReference 33 notInUseHeader))
            = some none)
      ∧ (∃ new, a.walker.parseCalls = keptWalker.parseCalls ++ new
          ∧ NtfsFullSegmentNumber (SafeReference 33 notInUseHeader) ∉ new)
      ∧ ∃ new, a.walker.elementCalls = keptWalker.elementCalls ++ new
          ∧ NtfsFullSegmentNumber (SafeReference 33 notInUseHeader) ∉ new)
    ∧ ((∀ r, keptWalker.m_MFTMap.find (NtfsFullSegmentNumber (SafeReference 33 notInUseHeader))
          ≠ some (some r)) →
        keptWalker.AllocatedCells
          < keptWalker.m_CellStoreLastWalk + keptWalker.m_CellStoreThreshold →
        ∃ a, AddRecord keepAliveEnv keptWalker 33 notInUseHeader 1 = Outcome.value a) :=
  have hk : keysConsistent keptWalker := by
    intro k r h
    have h2 : (if k = 32 then some (some (keptRecord 32))
        else if k = 34 then some (some (keptRecord 34)) else none) = some (some r) := by
      simpa [keptWalker, SegmentMap.find, lookup_cons_ite] using h
    split_ifs at h2 with h32 h34
    · cases h2; rw [h32]; rfl
    · cases h2; rw [h34]; rfl
  have hn : keptWalker.m_MFTMap.find (NtfsFullSegmentNumber (SafeReference 33 notInUseHeader))
      = none := by decide
  ⟨rfl, rfl, by decide, hk, by decide,
    C20_not_in_use_record_is_dropped keepAliveEnv keptWalker 33 notInUseHeader 1 rfl rfl
      (by decide) (fun r h => Option.noConfusion (hn.symm.trans h)) hk⟩

set_option maxRecDepth 100000 in
/-- C20 fails in three ways.  A buffer whose signature is not `FILE` is left
aside before the look-up: no null pointer is left for its segment.  When the
segment store has no cell left the call returns `E_OUTOFMEMORY` and leaves no
null pointer either.  And when the map holds the record with the flag set, the
record delivered with the flag clear is not read: the record of the map is
parsed and reported as added. -/
theorem C20_no_tombstone_counterexample :
    (badSignatureHeader.Flags &&& FILE_RECORD_SEGMENT_IN_USE = 0
      ∧ AddRecord keepAliveEnv {} 33 badSignatureHeader 1 = Outcome.value ⟨S_OK, {}, none, 33⟩
      ∧ ({} : MFTWalker).m_bIncludeNotInUse = false
      ∧ ({} : MFTWalker).m_MFTMap.find (NtfsFullSegmentNumber (SafeReference 33 badSignatureHeader))
          = none)
    ∧ (notInUseHeader.Flags &&& FILE_RECORD_SEGMENT_IN_USE = 0
      ∧ AddRecord noCellEnv {} 33 notInUseHeader 1
          = Outcome.value ⟨E_OUTOFMEMORY, {}, none, 33⟩
      ∧ ({} : MFTWalker).m_MFTMap.find (NtfsFullSegmentNumber (SafeReference 33 notInUseHeader))
          = none)
    ∧ (deletedHeader.Flags &&& FILE_RECORD_SEGMENT_IN_USE = 0
      ∧ keptWalker.m_bIncludeNotInUse = false
      ∧ AddRecord keepAliveEnv keptWalker 32 deletedHeader 1
          = Outcome.value ⟨S_OK, { keptWalker with parseCalls := [32, 34, 32] }, some 32, 32⟩
      ∧ NtfsFullSegmentNumber (SafeReference 32 deletedHeader) = 32) := by
  refine ⟨⟨by decide, by decide, rfl, by decide⟩, ⟨by decide, by decide, by decide⟩,
    ⟨by decide, rfl, by decide, by decide⟩⟩

end Orc

namespace Orc
open MFTWalker Criteria

/-- `AddRecordCallback` for a record that `AddRecord` adds and the completion
loop lets through to the callbacks. -/
theorem AddRecordCallback_steps (env : WalkerEnv) (w : MFTWalker) (idx : Nat)
    (Data : FILE_RECORD_SEGMENT_HEADER) (fuel : Nat) (a : AddRecordResult) (p : Nat)
    (c : CompletionResult) (r : HRESULT × MFTWalker)
    (ha : AddRecord env w idx Data fuel = Outcome.value a) (hok : FAILED a.hr = false)
    (hp : a.pAddedRecord = some p)
    (hc : completionLoop env fuel p fuel a.walker [] [] a.hr 0 = Outcome.value c)
    (hgo : (c.bIsComplete || c.bProceed) = true)
    (hr : callAndFree env c.walker p = Outcome.value r) :
    AddRecordCallback env w idx Data fuel
      = Outcome.value (if r.1 == ERROR_NO_MORE_FILES then r.1 else S_OK, r.2) := by
  unfold AddRecordCallback
  rw [ha, Outcome.value_bind]
  simp only [hok, Bool.false_eq_true, if_false, hp]
  rw [hc, Outcome.value_bind]
  simp only [hgo, if_true]
  rw [hr, Outcome.value_bind]

/-- One round of the completion loop that fetches records and goes on. -/
theorem completionLoop_fetch_round (env : WalkerEnv) (fuel p rounds : Nat) (w : MFTWalker)
    (missing fetched : List Nat) (hr : HRESULT) (n : Nat) (pRecord : WalkerRecord)
    (c : Bool × WalkerRecord × List Nat) (f : HRESULT × MFTWalker × List Nat) (w3 : MFTWalker)
    (hd : deref w p = Outcome.value pRecord)
    (hi : IsRecordComplete w pRecord missing true true fuel = Outcome.value c)
    (hc1 : c.1 = false) (hm : c.2.2.isEmpty = false)
    (ht : (toFetch c.2.2 fetched).isEmpty = false)
    (hf : fetchRecords env fuel (env.FetchMFTRecord (toFetch c.2.2 fetched)).1
        (env.FetchMFTRecord (toFetch c.2.2 fetched)).2 (setRecord w p c.2.1) []
        = Outcome.value f)
    (hok : FAILED f.1 = false)
    (hu : updateAfterFetch f.2.1 p = Outcome.value w3) :
    completionLoop env fuel p (rounds + 1) w missing fetched hr n
      = completionLoop env fuel p rounds w3 f.2.2 (fetched ++ toFetch c.2.2 fetched) S_OK
          (n + 1) := by
  conv_lhs => unfold completionLoop
  rw [hd, Outcome.value_bind, hi, Outcome.value_bind]
  simp only [hc1, hm, ht, Bool.false_eq_true, if_false]
  rw [hf, Outcome.value_bind]
  simp only [hok, Bool.false_eq_true, if_false]
  rw [hu, Outcome.value_bind]


set_option maxRecDepth 100000 in
/-- The completion loop for the record 29 in the walk of the records 29 and
32: one call of `FetchMFTRecord`, for the directory 30. -/
theorem stopInSweep_completion :
    completionLoop stopInSweepEnv 2 29 2 addedWalker [] [] S_OK 0
      = Outcome.value ⟨completedWalker, true, false, S_OK, [30], 1⟩ :=
  have a2 : deref addedWalker 29 = Outcome.value pendingFileRecord := by decide
  have a3 : IsRecordComplete addedWalker pendingFileRecord [] true true 2
      = Outcome.value (false, pendingFileRecord, [30]) := by decide
  have a4 : fetchRecords stopInSweepEnv 2 (stopInSweepEnv.FetchMFTRecord (toFetch [30] [])).1
      (stopInSweepEnv.FetchMFTRecord (toFetch [30] [])).2
      (setRecord addedWalker 29 pendingFileRecord) []
      = Outcome.value (S_OK, fetchedWalker, []) := by decide
  have a5 : updateAfterFetch fetchedWalker 29 = Outcome.value fetchedWalker := by decide
  have a6 : completionLoop stopInSweepEnv 2 29 1 fetchedWalker [] ([] ++ toFetch [30] []) S_OK 1
      = Outcome.value ⟨completedWalker, true, false, S_OK, [30], 1⟩ := by decide
  (completionLoop_fetch_round stopInSweepEnv 2 29 1 addedWalker [] [] S_OK 0 _ _ _ _
    a2 a3 rfl rfl (by decide) a4 rfl a5).trans a6

set_option maxRecDepth 100000 in
/-- The arrival of the record 29 in the walk of the records 29 and 32: the
directory 30 is fetched for it, it is handed to the callback and kept. -/
theorem stopInSweep_arrival :
    AddRecordCallback stopInSweepEnv stopStartWalker 29 { SegmentNumberLowPart := 29 } 2
      = Outcome.value (S_OK, arrivedWalker) :=
  have a1 : AddRecord stopInSweepEnv stopStartWalker 29 { SegmentNumberLowPart := 29 } 2
      = Outcome.value ⟨S_OK, addedWalker, some 29, 29⟩ := by decide
  have a7 : callAndFree stopInSweepEnv completedWalker 29
      = Outcome.value (S_OK, arrivedWalker) := by decide
  AddRecordCallback_steps _ _ _ _ _ _ 29 _ _ a1 rfl rfl stopInSweep_completion rfl a7

set_option maxRecDepth 100000 in
/-- The arrival of the record 32 in the walk of the records 29 and 32: the
sweep that is due is run, and the record is handed to the callback. -/
theorem stopInSweep_late_arrival :
    AddRecordCallback stopInSweepEnv arrivedWalker 32 { SegmentNumberLowPart := 32 } 2
      = Outcome.value (S_OK, stoppedLateWalker) :=
  have b1 : AddRecord stopInSweepEnv arrivedWalker 32 { SegmentNumberLowPart := 32 } 2
      = Outcome.value ⟨S_OK, lateAddedWalker, some 32, 32⟩ := by decide
  have b2 : completionLoop stopInSweepEnv 2 32 2 lateAddedWalker [] [] S_OK 0
      = Outcome.value ⟨lateCompleteWalker, true, false, S_OK, [], 0⟩ := by decide
  have b3 : callAndFree stopInSweepEnv lateCompleteWalker 32
      = Outcome.value (S_OK, stoppedLateWalker) := by decide
  AddRecordCallback_steps _ _ _ _ _ _ 32 _ _ b1 rfl rfl b2 rfl b3

set_option maxRecDepth 100000 in
/-- C21 fails for a stop request made during an intermediate sweep.  The walk
of the records 29 and 32, with a sweep threshold of 1: when the record 32
arrives a sweep is due, the sweep hands the directory 30 to the callback, the
progress callback returns `ERROR_NO_MORE_FILES` and `WalkRecords` returns it;
`AddRecord` does not look at that result, the record 32 is handed to the
callback, and `Walk` returns `S_OK`. -/
theorem C21_stop_in_intermediate_sweep_is_lost :
    stopInSweepEnv.ProgressCallback 66 = ERROR_NO_MORE_FILES
    ∧ AddRecordCallback stopInSweepEnv stopStartWalker 29 { SegmentNumberLowPart := 29 } 2
        = Outcome.value (S_OK, arrivedWalker)
    ∧ arrivedWalker.AllocatedCells
        ≥ arrivedWalker.m_CellStoreLastWalk + arrivedWalker.m_CellStoreThreshold
    ∧ arrivedWalker.m_MFTMap.find 32 = none
    ∧ WalkRecords stopInSweepEnv arrivedWalker false 2
        = Outcome.value (ERROR_NO_MORE_FILES, sweptWalker)
    ∧ sweptWalker.elementCalls = [29, 30]
    ∧ Walk stopInSweepEnv { m_CellStoreThreshold := 1 } stopInSweepSource 3 2
        = Outcome.value (S_OK, stoppedLateWalker)
    ∧ stoppedLateWalker.elementCalls = [29, 30, 32] :=
  have s3 : WalkRecords stopInSweepEnv stoppedLateWalker true 2
      = Outcome.value (S_OK, stoppedLateWalker) := by decide
  ⟨by decide, stopInSweep_arrival, by decide, by decide, by decide, rfl,
    Walk_steps _ _ stoppedLateWalker _ _ _ S_OK _ (by decide)
      ((EnumMFTRecord_step _ _ _ _ _ _ _ _ stopInSweep_arrival rfl).trans
        ((EnumMFTRecord_step _ _ _ _ _ _ _ _ stopInSweep_late_arrival rfl).trans rfl))
      rfl s3,
    rfl⟩

/-- The walk of `IsRecordComplete` up the parents of a directory of `cycleWalker`
that lies on the cycle does not end. -/
theorem parentsComplete_cycle (missing : List Nat) :
    ∀ (fuel : Nat) (name : FILE_NAME),
      name = { ParentDirectory := 11, FileName := "a".toList }
        ∨ name = { ParentDirectory := 10, FileName := "b".toList } →
      parentsComplete cycleWalker fuel name missing = Outcome.noFuel := by
  intro fuel
  induction fuel with
  | zero =>
    intro name h
    rcases h with rfl | rfl <;> rfl
  | succ fuel ih =>
    intro name h
    rcases h with rfl | rfl
    · have h2 := ih { ParentDirectory := 10, FileName := "b".toList } (Or.inr rfl)
      rw [parentsComplete]
      exact h2
    · have h2 := ih { ParentDirectory := 11, FileName := "a".toList } (Or.inl rfl)
      rw [parentsComplete]
      exact h2

/-- The completeness check of `cycleRecord` does not end. -/
theorem IsRecordComplete_cycle (fuel : Nat) :
    IsRecordComplete cycleWalker cycleRecord [] false true fuel = Outcome.noFuel := by
  have h := parentsComplete_cycle [] fuel { ParentDirectory := 10, FileName := "b".toList }
    (Or.inr rfl)
  have hn : namesComplete cycleWalker fuel cycleRecord.m_FileNames true [] = Outcome.noFuel := by
    show namesComplete cycleWalker fuel [{ ParentDirectory := 11, FileName := "f.txt".toList }]
      true [] = Outcome.noFuel
    rw [namesComplete]
    show (parentsComplete cycleWalker fuel { ParentDirectory := 10, FileName := "b".toList }
      []).bind _ = Outcome.noFuel
    rw [h]
    rfl
  unfold IsRecordComplete
  rw [if_neg (by decide)]
  unfold recordCompleteness
  show (namesComplete cycleWalker fuel cycleRecord.m_FileNames true []).bind _ = Outcome.noFuel
  rw [hn]
  rfl

/-- The loop of `GetFullNameAndIfInLocation` over the parents does not end
once it is on the cycle of `dotCycleWalker`. -/
theorem parentLoop_dotCycle (mcl : Nat) :
    ∀ (fuel : Nat) (c : NameCursor) (s : Nat), c.returnedNull = false → s = 10 ∨ s = 11 →
      parentLoop dotCycleWalker.m_DirectoryNames mcl 5 fuel c s = Outcome.noFuel := by
  intro fuel
  induction fuel with
  | zero =>
    intro c s _ hs
    rcases hs with rfl | rfl <;> rfl
  | succ fuel ih =>
    intro c s hc hs
    rcases hs with rfl | rfl
    · have h2 := ih c 11 hc (Or.inr rfl)
      rw [parentLoop]
      show (Outcome.value c).bind (fun c =>
        if (c.returnedNull || (11 == 5)) = true then Outcome.value (c, 11)
        else parentLoop dotCycleWalker.m_DirectoryNames mcl 5 fuel c 11) = Outcome.noFuel
      rw [Outcome.value_bind]
      simp only [hc, Bool.false_or]
      exact h2
    · have h2 := ih c 10 hc (Or.inl rfl)
      rw [parentLoop]
      show (Outcome.value c).bind (fun c =>
        if (c.returnedNull || (10 == 5)) = true then Outcome.value (c, 10)
        else parentLoop dotCycleWalker.m_DirectoryNames mcl 5 fuel c 10) = Outcome.noFuel
      rw [Outcome.value_bind]
      simp only [hc, Bool.false_or]
      exact h2


set_option maxRecDepth 100000 in
/-- The call of `GetFullNameAndIfInLocation` for `cycleFileName` reaches the
loop over the parents with the cursor `cycleCursor`. -/
theorem GetFullName_dotCycle_loop (fuel : Nat) :
    GetFullNameAndIfInLocation dotCycleWalker (some cycleFileName) none none fuel
      = (parentLoop dotCycleWalker.m_DirectoryNames 255 5 fuel cycleCursor 11).bind
          fun (c, ulLastSegmentNumber) =>
            rootOrPlaceholder dotCycleWalker 11 none c ulLastSegmentNumber := by
  rfl

/-- C30 fails: on a directory-name map with a cycle of parent references that
does not pass through the root (10 is the parent of 11 and 11 the parent of
10), `IsRecordComplete` does not return for a record with a name in the
directory 11, whatever the number of steps it is given; neither does
`GetFullNameAndIfInLocation` when the two directories are named `.`. -/
theorem C30_parent_cycle_does_not_terminate :
    parentOf cycleWalker.m_DirectoryNames 11 = some 10
    ∧ parentOf cycleWalker.m_DirectoryNames 10 = some 11
    ∧ parentOf cycleWalker.m_DirectoryNames 5 = some 5
    ∧ cycleWalker.USNRoot = 5
    ∧ (∀ fuel : Nat,
        IsRecordComplete cycleWalker cycleRecord [] false true fuel = Outcome.noFuel)
    ∧ parentOf dotCycleWalker.m_DirectoryNames 11 = some 10
    ∧ parentOf dotCycleWalker.m_DirectoryNames 10 = some 11
    ∧ (∀ fuel : Nat,
        GetFullNameAndIfInLocation dotCycleWalker (some cycleFileName) none none fuel
          = Outcome.noFuel) := by
  refine ⟨by decide, by decide, by decide, rfl, IsRecordComplete_cycle, by decide, by decide, ?_⟩
  intro fuel
  rw [GetFullName_dotCycle_loop, parentLoop_dotCycle 255 fuel cycleCursor 11 rfl (Or.inr rfl)]
  rfl

/-- C27 fails for a free-form name with a stream part.  `AddTerm` files the term
`foo.txt:stream` in the `$I30` exact-name index when its `Required` holds
`NAME_EXACT` alone, and ors the criterion of the stream name into `Required`
afterwards: once `AddTerm` has returned, the term of the `$I30` index requires
`ADS_EXACT`. -/
theorem C27_stream_term_in_I30_index :
    (FileFind.AddTerm {} streamTerm).1 = S_OK
    ∧ (FileFind.AddTerm {} streamTerm).2.2.Required = NAME_EXACT ||| ADS_EXACT
    ∧ (FileFind.AddTerm {} streamTerm).2.1.m_I30ExactNameTerms
        = [("foo.txt".toList, (FileFind.AddTerm {} streamTerm).2.2)]
    ∧ (FileFind.AddTerm {} streamTerm).2.2 ∈ I30Stored (FileFind.AddTerm {} streamTerm).2.1
    ∧ onlyNameAndPathCriteria (FileFind.AddTerm {} streamTerm).2.2.Required = false
    ∧ (FileFind.AddTerm {} streamTerm).2.2.DependsOnlyOnNameOrPath = false := by
  decide

/-- The order given to `std::sort` is the order of the keys. -/
theorem referenceLess_iff (a b : Nat) :
    referenceLess a b = true ↔ referenceKey a < referenceKey b := by
  have ha : SegmentNumberLowPart a < 4294967296 := Nat.mod_lt _ (by norm_num)
  have hb : SegmentNumberLowPart b < 4294967296 := Nat.mod_lt _ (by norm_num)
  have h2 : (2 : Nat) ^ 32 = 4294967296 := by norm_num
  unfold referenceLess referenceKey
  rw [h2]
  by_cases h : SegmentNumberHighPart a = SegmentNumberHighPart b
  · simp only [h, bne_self_eq_false, Bool.false_eq_true, if_false, decide_eq_true_eq]
    omega
  · have hne : (SegmentNumberHighPart a != SegmentNumberHighPart b) = true := by
      simpa using h
    simp only [hne, if_true, decide_eq_true_eq]
    omega

/-- The equality given to `std::unique` is the equality of the keys. -/
theorem sameReference_iff (a b : Nat) :
    (SegmentNumberHighPart a == SegmentNumberHighPart b
        && SegmentNumberLowPart a == SegmentNumberLowPart b) = true
      ↔ referenceKey a = referenceKey b := by
  have ha : SegmentNumberLowPart a < 4294967296 := Nat.mod_lt _ (by norm_num)
  have hb : SegmentNumberLowPart b < 4294967296 := Nat.mod_lt _ (by norm_num)
  have h2 : (2 : Nat) ^ 32 = 4294967296 := by norm_num
  unfold referenceKey
  rw [h2]
  simp only [Bool.and_eq_true, beq_iff_eq]
  omega

/-- `std::unique` on a sorted run leaves references in strictly ascending
order of their keys. -/
theorem uniqueFrom_ascending :
    ∀ (rest : List Nat) (a : Nat),
      List.Sorted (fun x y => referenceKey x ≤ referenceKey y) (a :: rest) →
      List.Pairwise (fun x y => referenceKey x < referenceKey y) (uniqueFrom a rest)
        ∧ ∀ y ∈ uniqueFrom a rest, referenceKey a ≤ referenceKey y := by
  intro rest
  induction rest with
  | nil =>
    intro a _
    simp [uniqueFrom]
  | cons b rest ih =>
    intro a hs
    have hab : referenceKey a ≤ referenceKey b := List.rel_of_sorted_cons hs b (by simp)
    have hsb : List.Sorted (fun x y => referenceKey x ≤ referenceKey y) (b :: rest) :=
      List.Sorted.of_cons hs
    unfold uniqueFrom
    by_cases hk : (SegmentNumberHighPart a == SegmentNumberHighPart b
        && SegmentNumberLowPart a == SegmentNumberLowPart b) = true
    · rw [if_pos hk]
      have hsa : List.Sorted (fun x y => referenceKey x ≤ referenceKey y) (a :: rest) := by
        have hsub : List.Sublist (a :: rest) (a :: b :: rest) :=
          List.Sublist.cons₂ a (List.sublist_cons_self b rest)
        exact List.Pairwise.sublist hsub hs
      exact ih a hsa
    · rw [if_neg hk]
      have hne : referenceKey a ≠ referenceKey b := fun h => hk ((sameReference_iff a b).2 h)
      obtain ⟨hp, hle⟩ := ih b hsb
      refine ⟨List.pairwise_cons.2 ⟨fun y hy => ?_, hp⟩, fun y hy => ?_⟩
      · have := hle y hy
        omega
      · rcases List.mem_cons.1 hy with rfl | hy
        · exact le_refl _
        · have := hle y hy
          omega

/-- The references to fetch are distinct and none of them was fetched before. -/
theorem toFetch_new (missingRecords fetchedRecords : List Nat) :
    (toFetch missingRecords fetchedRecords).Nodup
      ∧ ∀ x ∈ toFetch missingRecords fetchedRecords, x ∉ fetchedRecords := by
  unfold toFetch
  constructor
  · apply List.Nodup.filter
    have hs : List.Sorted (fun x y => referenceKey x ≤ referenceKey y)
        (missingRecords.insertionSort fun a b => !referenceLess b a) := by
      have heq : (fun a b : Nat => (!referenceLess b a) = true)
          = fun x y => referenceKey x ≤ referenceKey y := by
        funext a b
        apply propext
        rw [Bool.not_eq_true', ← Bool.not_eq_true, referenceLess_iff]
        omega
      have hsorted := @List.sorted_insertionSort Nat
        (fun x y => referenceKey x ≤ referenceKey y) _
        ⟨fun a b => le_total _ _⟩ ⟨fun a b c => le_trans⟩ missingRecords
      convert hsorted using 2
    cases hl : missingRecords.insertionSort fun a b => !referenceLess b a with
    | nil => simp [uniqueReferences]
    | cons a rest =>
      rw [hl] at hs
      have hp := (uniqueFrom_ascending rest a hs).1
      show (uniqueFrom a rest).Nodup
      exact List.Pairwise.imp (fun h heq => by rw [heq] at h; exact lt_irrefl _ h) hp
  · intro x hx
    have h := (List.mem_filter.1 hx).2
    simpa using h

/-- One more round of fetches keeps the set of the fetched references and the
count of the rounds in step. -/
theorem fetched_round (fetched tf final : List Nat) (n m : Nat)
    (ht : tf.isEmpty ≠ true) (hnd : tf.Nodup) (hnew : ∀ x ∈ tf, x ∉ fetched)
    (h : final.Nodup ∧ (fetched ++ tf) <+: final
      ∧ m + (fetched ++ tf).length ≤ final.length + (n + 1) ∧ n + 1 ≤ m) :
    final.Nodup ∧ fetched <+: final ∧ m + fetched.length ≤ final.length + n ∧ n ≤ m := by
  have hlen : 0 < tf.length := by
    cases tf with
    | nil => exact absurd rfl ht
    | cons a l => simp
  obtain ⟨h1, h2, h3, h4⟩ := h
  rw [List.length_append] at h3
  exact ⟨h1, (List.prefix_append fetched tf).trans h2, by omega, by omega⟩

/-- The completion loop, from any of its states: the set of the fetched
references only grows, by references that are new to it, and by at least one
for each call of `FetchMFTRecord`. -/
theorem completionLoop_rounds (env : WalkerEnv) (fuel : Nat) (p : Nat) :
    ∀ (rounds : Nat) (w : MFTWalker) (missing fetched : List Nat) (hr : HRESULT)
      (n : Nat) (c : CompletionResult), fetched.Nodup →
      completionLoop env fuel p rounds w missing fetched hr n = Outcome.value c →
      c.fetchedRecords.Nodup ∧ fetched <+: c.fetchedRecords
        ∧ c.fetchRounds + fetched.length ≤ c.fetchedRecords.length + n
        ∧ n ≤ c.fetchRounds := by
  intro rounds
  induction rounds with
  | zero =>
    intro w missing fetched hr n c hn h
    unfold completionLoop at h
    rw [Outcome.bind_eq_value] at h
    obtain ⟨r, hd, h⟩ := h
    rw [Outcome.bind_eq_value] at h
    obtain ⟨⟨b, r2, m2⟩, hc, h⟩ := h
    simp only [] at h
    have hstay : fetched.Nodup ∧ fetched <+: fetched
        ∧ n + fetched.length ≤ fetched.length + n ∧ n ≤ n :=
      ⟨hn, List.prefix_refl _, by omega, le_refl _⟩
    by_cases hb : b = true
    · rw [if_pos hb] at h; cases h; exact hstay
    · rw [if_neg hb] at h
      by_cases hm : m2.isEmpty = true
      · rw [if_pos hm] at h; cases h; exact hstay
      · rw [if_neg hm] at h
        by_cases hm2 : (toFetch m2 fetched).isEmpty = true
        · rw [if_pos hm2] at h; cases h; exact hstay
        · rw [if_neg hm2, Outcome.bind_eq_value] at h
          obtain ⟨f, hfe, h⟩ := h
          have hnew := toFetch_new m2 fetched
          have hn2 : (fetched ++ toFetch m2 fetched).Nodup :=
            List.Nodup.append hn hnew.1 (fun x hx hx2 => hnew.2 x hx2 hx)
          by_cases hfail : FAILED f.1 = true
          · rw [if_pos hfail] at h; cases h
            exact fetched_round fetched _ _ n (n + 1) hm2 hnew.1 hnew.2
              ⟨hn2, List.prefix_refl _, le_of_eq (Nat.add_comm _ _), le_refl _⟩
          · rw [if_neg hfail, Outcome.bind_eq_value] at h
            obtain ⟨w3, -, h⟩ := h
            cases h
  | succ rounds ih =>
    intro w missing fetched hr n c hn h
    unfold completionLoop at h
    rw [Outcome.bind_eq_value] at h
    obtain ⟨r, hd, h⟩ := h
    rw [Outcome.bind_eq_value] at h
    obtain ⟨⟨b, r2, m2⟩, hc, h⟩ := h
    simp only [] at h
    have hstay : fetched.Nodup ∧ fetched <+: fetched
        ∧ n + fetched.length ≤ fetched.length + n ∧ n ≤ n :=
      ⟨hn, List.prefix_refl _, by omega, le_refl _⟩
    by_cases hb : b = true
    · rw [if_pos hb] at h; cases h; exact hstay
    · rw [if_neg hb] at h
      by_cases hm : m2.isEmpty = true
      · rw [if_pos hm] at h; cases h; exact hstay
      · rw [if_neg hm] at h
        by_cases hm2 : (toFetch m2 fetched).isEmpty = true
        · rw [if_pos hm2] at h; cases h; exact hstay
        · rw [if_neg hm2, Outcome.bind_eq_value] at h
          obtain ⟨f, hfe, h⟩ := h
          have hnew := toFetch_new m2 fetched
          have hn2 : (fetched ++ toFetch m2 fetched).Nodup :=
            List.Nodup.append hn hnew.1 (fun x hx hx2 => hnew.2 x hx2 hx)
          by_cases hfail : FAILED f.1 = true
          · rw [if_pos hfail] at h; cases h
            exact fetched_round fetched _ _ n (n + 1) hm2 hnew.1 hnew.2
              ⟨hn2, List.prefix_refl _, le_of_eq (Nat.add_comm _ _), le_refl _⟩
          · rw [if_neg hfail, Outcome.bind_eq_value] at h
            obtain ⟨w3, hu, h⟩ := h
            exact fetched_round fetched _ _ n c.fetchRounds hm2 hnew.1 hnew.2
              (ih _ _ _ _ _ _ hn2 h)

/-- One iteration of the completion loop: either the loop is left in it (what
the loop gives does not depend on the iterations that would follow), or the
references handed to `FetchMFTRecord` are distinct, at least one, none of them
in the set of the fetched references, they are added to the set and the loop
goes on. -/
theorem completionLoop_iteration (env : WalkerEnv) (fuel p rounds : Nat) (w : MFTWalker)
    (missing fetched : List Nat) (hr : HRESULT) (n : Nat) :
    completionLoop env fuel p (rounds + 1) w missing fetched hr n
        = completionLoop env fuel p 0 w missing fetched hr n
      ∨ ∃ (w3 : MFTWalker) (missing3 new : List Nat),
          new ≠ [] ∧ new.Nodup ∧ (∀ x ∈ new, x ∉ fetched)
          ∧ completionLoop env fuel p (rounds + 1) w missing fetched hr n
              = completionLoop env fuel p rounds w3 missing3 (fetched ++ new) S_OK (n + 1) := by
  cases hd : deref w p with
  | undefined => left; unfold completionLoop; simp only [hd]; rfl
  | noFuel => left; unfold completionLoop; simp only [hd]; rfl
  | value r =>
    cases hi : IsRecordComplete w r missing true true fuel with
    | undefined => left; unfold completionLoop; simp only [hd, hi, Outcome.value_bind]; rfl
    | noFuel => left; unfold completionLoop; simp only [hd, hi, Outcome.value_bind]; rfl
    | value c =>
      by_cases hb : c.1 = true
      · left; unfold completionLoop
        simp only [hd, hi, Outcome.value_bind, hb, if_true]
      · by_cases hm : c.2.2.isEmpty = true
        · left; unfold completionLoop
          simp only [hd, hi, Outcome.value_bind, hb, hm, if_true, if_false]
        · by_cases hm2 : (toFetch c.2.2 fetched).isEmpty = true
          · left; unfold completionLoop
            simp only [hd, hi, Outcome.value_bind, hb, hm, hm2, if_true, if_false]
          · cases hf : fetchRecords env fuel (env.FetchMFTRecord (toFetch c.2.2 fetched)).1
                (env.FetchMFTRecord (toFetch c.2.2 fetched)).2 (setRecord w p c.2.1) [] with
            | undefined =>
              left; unfold completionLoop
              simp only [hd, hi, Outcome.value_bind, hb, hm, hm2, if_false, hf]
              rfl
            | noFuel =>
              left; unfold completionLoop
              simp only [hd, hi, Outcome.value_bind, hb, hm, hm2, if_false, hf]
              rfl
            | value f =>
              by_cases hfail : FAILED f.1 = true
              · left; unfold completionLoop
                simp only [hd, hi, Outcome.value_bind, hb, hm, hm2, if_false, hf, hfail, if_true]
              · cases hu : updateAfterFetch f.2.1 p with
                | undefined =>
                  left; unfold completionLoop
                  simp only [hd, hi, Outcome.value_bind, hb, hm, hm2, if_false, hf, hfail, hu]
                  rfl
                | noFuel =>
                  left; unfold completionLoop
                  simp only [hd, hi, Outcome.value_bind, hb, hm, hm2, if_false, hf, hfail, hu]
                  rfl
                | value w3 =>
                  right
                  have hnew := toFetch_new c.2.2 fetched
                  refine ⟨w3, f.2.2, toFetch c.2.2 fetched, ?_, hnew.1, hnew.2, ?_⟩
                  · intro he
                    rw [he] at hm2
                    exact hm2 rfl
                  · exact completionLoop_fetch_round env fuel p rounds w missing fetched hr n r c
                      f w3 hd hi (by simpa using hb) (by simpa using hm) (by simpa using hm2)
                      hf (by simpa using hfail) hu

/-- C28: from any state of the completion loop of `AddRecordCallback`, an
iteration either leaves the loop or hands to `FetchMFTRecord` at least one
reference, all of them distinct and none in the set of the fetched references,
and adds them to the set; so when the loop is left the set still has no
repetition, it has grown from what it was, and the calls of `FetchMFTRecord`
made are at most the references added. -/
theorem C28_fetch_rounds_bounded (env : WalkerEnv) (fuel p rounds : Nat) (w : MFTWalker)
    (missing fetched : List Nat) (hr : HRESULT) (n : Nat) (c : CompletionResult)
    (hset : fetched.Nodup)
    (h : completionLoop env fuel p rounds w missing fetched hr n = Outcome.value c) :
    (completionLoop env fuel p (rounds + 1) w missing fetched hr n
          = completionLoop env fuel p 0 w missing fetched hr n
        ∨ ∃ (w3 : MFTWalker) (missing3 new : List Nat),
            new ≠ [] ∧ new.Nodup ∧ (∀ x ∈ new, x ∉ fetched)
            ∧ completionLoop env fuel p (rounds + 1) w missing fetched hr n
                = completionLoop env fuel p rounds w3 missing3 (fetched ++ new) S_OK (n + 1))
      ∧ c.fetchedRecords.Nodup ∧ fetched <+: c.fetchedRecords
      ∧ c.fetchRounds + fetched.length ≤ c.fetchedRecords.length + n
      ∧ n ≤ c.fetchRounds :=
  ⟨completionLoop_iteration env fuel p rounds w missing fetched hr n,
    completionLoop_rounds env fuel p rounds w missing fetched hr n c hset h⟩

/-- C28 at the record 29 of the walk of the records 29 and 32: one call of
`FetchMFTRecord`, and one reference in the set. -/
theorem C28_fetch_rounds_bounded_witness :
    completionLoop stopInSweepEnv 2 29 2 addedWalker [] [] S_OK 0
        = Outcome.value ⟨completedWalker, true, false, S_OK, [30], 1⟩
      ∧ ([30] : List Nat).Nodup ∧ ([] : List Nat) <+: [30] ∧ 1 + 0 ≤ 1 + 0 ∧ 0 ≤ 1 :=
  ⟨stopInSweep_completion,
    (C28_fetch_rounds_bounded stopInSweepEnv 2 29 2 addedWalker [] [] S_OK 0
      ⟨completedWalker, true, false, S_OK, [30], 1⟩ List.nodup_nil stopInSweep_completion).2⟩

end Orc

namespace Orc
open Criteria SearchTerm FileFind

/-! ## A term written to the configuration and read back -/

/-- The sub item `CONFIG_FILEFIND_NAME` that `AddTermToConfig` leaves in a fresh item. -/
theorem AddTermToConfig_NAME (tw : Writers) (t : SearchTerm) :
    (AddTermToConfig tw t {}).CONFIG_FILEFIND_NAME
      = if test t.Required NAME_EXACT then some (t.FileName) else none := by
  simp only [AddTermToConfig, writeIf, apply_ite ConfigItem.CONFIG_FILEFIND_NAME, ite_self]

/-- The sub item `CONFIG_FILEFIND_NAME_MATCH` that `AddTermToConfig` leaves in a fresh item. -/
theorem AddTermToConfig_NAME_MATCH (tw : Writers) (t : SearchTerm) :
    (AddTermToConfig tw t {}).CONFIG_FILEFIND_NAME_MATCH
      = if test t.Required NAME_MATCH then some (t.FileName) else none := by
  simp only [AddTermToConfig, writeIf, apply_ite ConfigItem.CONFIG_FILEFIND_NAME_MATCH, ite_self]

/-- The sub item `CONFIG_FILEFIND_NAME_REGEX` that `AddTermToConfig` leaves in a fresh item. -/
theorem AddTermToConfig_NAME_REGEX (tw : Writers) (t : SearchTerm) :
    (AddTermToConfig tw t {}).CONFIG_FILEFIND_NAME_REGEX
      = if test t.Required NAME_REGEX then some (t.FileName) else none := by
  simp only [AddTermToConfig, writeIf, apply_ite ConfigItem.CONFIG_FILEFIND_NAME_REGEX, ite_self]

/-- The sub item `CONFIG_FILEFIND_PATH` that `AddTermToConfig` leaves in a fresh item. -/
theorem AddTermToConfig_PATH (tw : Writers) (t : SearchTerm) :
    (AddTermToConfig tw t {}).CONFIG_FILEFIND_PATH
      = if test t.Required PATH_EXACT then some (t.Path) else none := by
  simp only [AddTermToConfig, writeIf, apply_ite ConfigItem.CONFIG_FILEFIND_PATH, ite_self]

/-- The sub item `CONFIG_FILEFIND_PATH_MATCH` that `AddTermToConfig` leaves in a fresh item. -/
theorem AddTermToConfig_PATH_MATCH (tw : Writers) (t : SearchTerm) :
    (AddTermToConfig tw t {}).CONFIG_FILEFIND_PATH_MATCH
      = if test t.Required PATH_MATCH then some (t.Path) else none := by
  simp only [AddTermToConfig, writeIf, apply_ite ConfigItem.CONFIG_FILEFIND_PATH_MATCH, ite_self]

/-- The sub item `CONFIG_FILEFIND_PATH_REGEX` that `AddTermToConfig` leaves in a fresh item. -/
theorem AddTermToConfig_PATH_REGEX (tw : Writers) (t : SearchTerm) :
    (AddTermToConfig tw t {}).CONFIG_FILEFIND_PATH_REGEX
      = if test t.Required PATH_REGEX then some (t.Path) else none := by
  simp only [AddTermToConfig, writeIf, apply_ite ConfigItem.CONFIG_FILEFIND_PATH_REGEX, ite_self]

/-- The sub item `CONFIG_FILEFIND_EA` that `AddTermToConfig` leaves in a fresh item. -/
theorem AddTermToConfig_EA (tw : Writers) (t : SearchTerm) :
    (AddTermToConfig tw t {}).CONFIG_FILEFIND_EA
      = if test t.Required EA_EXACT then some (t.EAName) else none := by
  simp only [AddTermToConfig, writeIf, apply_ite ConfigItem.CONFIG_FILEFIND_EA, ite_self]

/-- The sub item `CONFIG_FILEFIND_EA_MATCH` that `AddTermToConfig` leaves in a fresh item. -/
theorem AddTermToConfig_EA_MATCH (tw : Writers) (t : SearchTerm) :
    (AddTermToConfig tw t {}).CONFIG_FILEFIND_EA_MATCH
      = if test t.Required EA_MATCH then some (t.EAName) else none := by
  simp only [AddTermToConfig, writeIf, apply_ite ConfigItem.CONFIG_FILEFIND_EA_MATCH, ite_self]

/-- The sub item `CONFIG_FILEFIND_EA_REGEX` that `AddTermToConfig` leaves in a fresh item. -/
theorem AddTermToConfig_EA_REGEX (tw : Writers) (t : SearchTerm) :
    (AddTermToConfig tw t {}).CONFIG_FILEFIND_EA_REGEX
      = if test t.Required EA_REGEX then some (t.EAName) else none := by
  simp only [AddTermToConfig, writeIf, apply_ite ConfigItem.CONFIG_FILEFIND_EA_REGEX, ite_self]

/-- The sub item `CONFIG_FILEFIND_ADS` that `AddTermToConfig` leaves in a fresh item. -/
theorem AddTermToConfig_ADS (tw : Writers) (t : SearchTerm) :
    (AddTermToConfig tw t {}).CONFIG_FILEFIND_ADS
      = if test t.Required ADS_EXACT then some (t.ADSName) else none := by
  simp only [AddTermToConfig, writeIf, apply_ite ConfigItem.CONFIG_FILEFIND_ADS, ite_self]

/-- The sub item `CONFIG_FILEFIND_ADS_MATCH` that `AddTermToConfig` leaves in a fresh item. -/
theorem AddTermToConfig_ADS_MATCH (tw : Writers) (t : SearchTerm) :
    (AddTermToConfig tw t {}).CONFIG_FILEFIND_ADS_MATCH
      = if test t.Required ADS_MATCH then some (t.ADSName) else none := by
  simp only [AddTermToConfig, writeIf, apply_ite ConfigItem.CONFIG_FILEFIND_ADS_MATCH, ite_self]

/-- The sub item `CONFIG_FILEFIND_ADS_REGEX` that `AddTermToConfig` leaves in a fresh item. -/
theorem AddTermToConfig_ADS_REGEX (tw : Writers) (t : SearchTerm) :
    (AddTermToConfig tw t {}).CONFIG_FILEFIND_ADS_REGEX
      = if test t.Required ADS_REGEX then some (t.ADSName) else none := by
  simp only [AddTermToConfig, writeIf, apply_ite ConfigItem.CONFIG_FILEFIND_ADS_REGEX, ite_self]

/-- The sub item `CONFIG_FILEFIND_ATTR_NAME` that `AddTermToConfig` leaves in a fresh item. -/
theorem AddTermToConfig_ATTR_NAME (tw : Writers) (t : SearchTerm) :
    (AddTermToConfig tw t {}).CONFIG_FILEFIND_ATTR_NAME
      = if test t.Required ATTR_NAME_EXACT then some (t.AttrName) else none := by
  simp only [AddTermToConfig, writeIf, apply_ite ConfigItem.CONFIG_FILEFIND_ATTR_NAME, ite_self]

/-- The sub item `CONFIG_FILEFIND_ATTR_MATCH` that `AddTermToConfig` leaves in a fresh item. -/
theorem AddTermToConfig_ATTR_MATCH (tw : Writers) (t : SearchTerm) :
    (AddTermToConfig tw t {}).CONFIG_FILEFIND_ATTR_MATCH
      = if test t.Required ATTR_NAME_MATCH then some (t.AttrName) else none := by
  simp only [AddTermToConfig, writeIf, apply_ite ConfigItem.CONFIG_FILEFIND_ATTR_MATCH, ite_self]

/-- The sub item `CONFIG_FILEFIND_ATTR_REGEX` that `AddTermToConfig` leaves in a fresh item. -/
theorem AddTermToConfig_ATTR_REGEX (tw : Writers) (t : SearchTerm) :
    (AddTermToConfig tw t {}).CONFIG_FILEFIND_ATTR_REGEX
      = if test t.Required ATTR_NAME_REGEX then some (t.AttrName) else none := by
  simp only [AddTermToConfig, writeIf, apply_ite ConfigItem.CONFIG_FILEFIND_ATTR_REGEX, ite_self]

/-- The sub item `CONFIG_FILEFIND_ATTR_TYPE` that `AddTermToConfig` leaves in a fresh item. -/
theorem AddTermToConfig_ATTR_TYPE (tw : Writers) (t : SearchTerm) :
    (AddTermToConfig tw t {}).CONFIG_FILEFIND_ATTR_TYPE
      = if test t.Required ATTR_TYPE then some (attrTypeText tw t.dwAttrType) else none := by
  simp only [AddTermToConfig, writeIf, apply_ite ConfigItem.CONFIG_FILEFIND_ATTR_TYPE, ite_self]

/-- The sub item `CONFIG_FILEFIND_SIZE` that `AddTermToConfig` leaves in a fresh item. -/
theorem AddTermToConfig_SIZE (tw : Writers) (t : SearchTerm) :
    (AddTermToConfig tw t {}).CONFIG_FILEFIND_SIZE
      = if test t.Required SIZE_EQ then some (tw.to_wstring t.SizeEQ) else none := by
  simp only [AddTermToConfig, writeIf, apply_ite ConfigItem.CONFIG_FILEFIND_SIZE, ite_self]

/-- The sub item `CONFIG_FILEFIND_SIZE_GT` that `AddTermToConfig` leaves in a fresh item. -/
theorem AddTermToConfig_SIZE_GT (tw : Writers) (t : SearchTerm) :
    (AddTermToConfig tw t {}).CONFIG_FILEFIND_SIZE_GT
      = if test t.Required SIZE_GT then some (tw.to_wstring t.SizeG) else none := by
  simp only [AddTermToConfig, writeIf, apply_ite ConfigItem.CONFIG_FILEFIND_SIZE_GT, ite_self]

/-- The sub item `CONFIG_FILEFIND_SIZE_GE` that `AddTermToConfig` leaves in a fresh item. -/
theorem AddTermToConfig_SIZE_GE (tw : Writers) (t : SearchTerm) :
    (AddTermToConfig tw t {}).CONFIG_FILEFIND_SIZE_GE
      = if test t.Required SIZE_GE then some (tw.to_wstring t.SizeG) else none := by
  simp only [AddTermToConfig, writeIf, apply_ite ConfigItem.CONFIG_FILEFIND_SIZE_GE, ite_self]

/-- The sub item `CONFIG_FILEFIND_SIZE_LT` that `AddTermToConfig` leaves in a fresh item. -/
theorem AddTermToConfig_SIZE_LT (tw : Writers) (t : SearchTerm) :
    (AddTermToConfig tw t {}).CONFIG_FILEFIND_SIZE_LT
      = if test t.Required SIZE_LT then some (tw.to_wstring t.SizeL) else none := by
  simp only [AddTermToConfig, writeIf, apply_ite ConfigItem.CONFIG_FILEFIND_SIZE_LT, ite_self]

/-- The sub item `CONFIG_FILEFIND_SIZE_LE` that `AddTermToConfig` leaves in a fresh item. -/
theorem AddTermToConfig_SIZE_LE (tw : Writers) (t : SearchTerm) :
    (AddTermToConfig tw t {}).CONFIG_FILEFIND_SIZE_LE
      = if test t.Required SIZE_LE then some (tw.to_wstring t.SizeL) else none := by
  simp only [AddTermToConfig, writeIf, apply_ite ConfigItem.CONFIG_FILEFIND_SIZE_LE, ite_self]

/-- The sub item `CONFIG_FILEFIND_MD5` that `AddTermToConfig` leaves in a fresh item. -/
theorem AddTermToConfig_MD5 (tw : Writers) (t : SearchTerm) :
    (AddTermToConfig tw t {}).CONFIG_FILEFIND_MD5
      = if test t.Required DATA_MD5 then some (tw.ToHex t.MD5) else none := by
  simp only [AddTermToConfig, writeIf, apply_ite ConfigItem.CONFIG_FILEFIND_MD5, ite_self]

/-- The sub item `CONFIG_FILEFIND_SHA1` that `AddTermToConfig` leaves in a fresh item. -/
theorem AddTermToConfig_SHA1 (tw : Writers) (t : SearchTerm) :
    (AddTermToConfig tw t {}).CONFIG_FILEFIND_SHA1
      = if test t.Required DATA_SHA1 then some (tw.ToHex t.SHA1) else none := by
  simp only [AddTermToConfig, writeIf, apply_ite ConfigItem.CONFIG_FILEFIND_SHA1, ite_self]

/-- The sub item `CONFIG_FILEFIND_SHA256` that `AddTermToConfig` leaves in a fresh item. -/
theorem AddTermToConfig_SHA256 (tw : Writers) (t : SearchTerm) :
    (AddTermToConfig tw t {}).CONFIG_FILEFIND_SHA256
      = if test t.Required DATA_SHA256 then some (tw.ToHex t.SHA256) else none := by
  simp only [AddTermToConfig, writeIf, apply_ite ConfigItem.CONFIG_FILEFIND_SHA256, ite_self]

/-- The sub item `CONFIG_FILEFIND_CONTAINS_HEX` that `AddTermToConfig` leaves in a fresh item. -/
theorem AddTermToConfig_CONTAINS_HEX (tw : Writers) (t : SearchTerm) :
    (AddTermToConfig tw t {}).CONFIG_FILEFIND_CONTAINS_HEX
      = if test t.Required CONTAINS then some (tw.ToHex t.Contains) else none := by
  simp only [AddTermToConfig, writeIf, apply_ite ConfigItem.CONFIG_FILEFIND_CONTAINS_HEX, ite_self]

/-- `AddTermToConfig` does not write the sub item `CONFIG_FILEFIND_CONTAINS`. -/
theorem AddTermToConfig_CONTAINS_absent (tw : Writers) (t : SearchTerm) :
    (AddTermToConfig tw t {}).CONFIG_FILEFIND_CONTAINS = none := by
  simp only [AddTermToConfig, writeIf, apply_ite ConfigItem.CONFIG_FILEFIND_CONTAINS, ite_self]

/-- `AddTermToConfig` does not write the sub item `CONFIG_FILEFIND_HEADER`. -/
theorem AddTermToConfig_HEADER_absent (tw : Writers) (t : SearchTerm) :
    (AddTermToConfig tw t {}).CONFIG_FILEFIND_HEADER = none := by
  simp only [AddTermToConfig, writeIf, apply_ite ConfigItem.CONFIG_FILEFIND_HEADER, ite_self]

/-- `AddTermToConfig` does not write the sub item `CONFIG_FILEFIND_HEADER_REGEX`. -/
theorem AddTermToConfig_HEADER_REGEX_absent (tw : Writers) (t : SearchTerm) :
    (AddTermToConfig tw t {}).CONFIG_FILEFIND_HEADER_REGEX = none := by
  simp only [AddTermToConfig, writeIf, apply_ite ConfigItem.CONFIG_FILEFIND_HEADER_REGEX, ite_self]

/-- The sub item `CONFIG_FILEFIND_HEADER_HEX` that `AddTermToConfig` leaves in a
fresh item. -/
theorem AddTermToConfig_HEADER_HEX (tw : Writers) (t : SearchTerm) :
    (AddTermToConfig tw t {}).CONFIG_FILEFIND_HEADER_HEX
      = if test t.Required HEADER_REGEX then some t.strHeaderRegEx
        else if test t.Required HEADER || test t.Required HEADER_HEX then
          some (tw.ToHex t.Header)
        else none := by
  simp only [AddTermToConfig, writeIf, apply_ite ConfigItem.CONFIG_FILEFIND_HEADER_HEX, ite_self]

/-- The sub item `CONFIG_FILEFIND_YARA_RULE` that `AddTermToConfig` leaves in a
fresh item. -/
theorem AddTermToConfig_YARA_RULE (tw : Writers) (t : SearchTerm) :
    (AddTermToConfig tw t {}).CONFIG_FILEFIND_YARA_RULE
      = if test t.Required YARA then
          (if !t.YaraRulesSpec.isEmpty then some t.YaraRulesSpec else none)
        else none := by
  simp only [AddTermToConfig, writeIf, apply_ite ConfigItem.CONFIG_FILEFIND_YARA_RULE, ite_self]

/-- One block of `GetSearchTermFromConfig` on a sub item that is present when
`c` holds: what it adds to `Required`. -/
theorem read_step (i : Option WString) (f : SearchTerm → WString → SearchTerm)
    (fs : SearchTerm) (c : Bool) (v : WString) (F acc rhs : Nat)
    (hi : i = if c then some v else none)
    (hf : c = true → (f fs v).Required = fs.Required ||| F)
    (hnext : fs.Required ||| ((if c then F else 0) ||| acc) = rhs) :
    (whenPresent i f fs).Required ||| acc = rhs := by
  cases c with
  | false =>
    rw [hi]
    simpa [whenPresent] using hnext
  | true =>
    rw [hi]
    simp only [whenPresent, if_true]
    rw [hf rfl]
    simpa [Nat.lor_assoc] using hnext

/-- One block of `GetSearchTermFromConfig` on a sub item that is absent. -/
theorem read_absent (i : Option WString) (f : SearchTerm → WString → SearchTerm)
    (fs : SearchTerm) (acc rhs : Nat) (hi : i = none)
    (hnext : fs.Required ||| acc = rhs) :
    (whenPresent i f fs).Required ||| acc = rhs := by
  rw [hi]
  exact hnext

/-- One block of `GetSearchTermFromConfig` that leaves `Required` as it is. -/
theorem read_skip (i : Option WString) (f : SearchTerm → WString → SearchTerm)
    (fs : SearchTerm) (acc rhs : Nat) (hf : ∀ s, (f fs s).Required = fs.Required)
    (hnext : fs.Required ||| acc = rhs) :
    (whenPresent i f fs).Required ||| acc = rhs := by
  cases i with
  | none => exact hnext
  | some s =>
    show (f fs s).Required ||| acc = rhs
    rw [hf s]
    exact hnext

/-- The `CONFIG_FILEFIND_ATTR_TYPE` block on a text that is a name of the table
or a number that is not zero. -/
theorem attrTypeFromConfig_Required (cv : Conversions) (fs : SearchTerm) (s : WString)
    (h : ((attributeTypeCodes.lookup s).isSome || cv.wtoi s != 0) = true) :
    (attrTypeFromConfig cv fs s).Required = fs.Required ||| ATTR_TYPE := by
  unfold attrTypeFromConfig
  cases hl : attributeTypeCodes.lookup s with
  | some code => rfl
  | none =>
    rw [hl] at h
    have hw : (cv.wtoi s == 0) = false := by simpa using h
    simp only [hw, Bool.false_eq_true, if_false]

/-- A criterion that is read back when it is required, bit by bit. -/
theorem testBit_selected (r k j : Nat) :
    (if test r (flag k) = true then flag k else 0).testBit j
      = (r.testBit j && decide (k = j)) := by
  by_cases hkj : k = j
  · subst hkj
    cases h : r.testBit k <;> simp [h]
  · cases h : r.testBit k <;> simp [h, hkj]

end Orc

namespace Orc
open TableCall Match

/-! ## The rows of a match in a table -/

/-- The calls of rows written one after the other. -/
theorem tableCalls_append (r1 r2 : List (List TableCall)) :
    tableCalls (r1 ++ r2) = tableCalls r1 ++ tableCalls r2 := by
  simp [tableCalls]

/-- A loop whose body writes given rows at each iteration writes these rows, in
the order of the iterations. -/
theorem writeEach_rows {α : Type} (body : α → Outcome (List TableCall))
    (rows : α → List (List TableCall)) :
    ∀ l : List α,
      (∀ a ∈ l, body a = Outcome.value (tableCalls (rows a))) →
      writeEach body l = Outcome.value (tableCalls (l.flatMap rows)) := by
  intro l
  induction l with
  | nil =>
    intro _
    rfl
  | cons a rest ih =>
    intro h
    have h1 := h a (List.mem_cons_self a rest)
    have h2 := ih fun b hb => h b (List.mem_cons_of_mem a hb)
    show (body a).bind _ = _
    rw [h1, Outcome.value_bind, h2, Outcome.value_bind, List.flatMap_cons, tableCalls_append]

/-- The row written for a name of a match without attributes is the row of the
specification. -/
theorem writeName_row (src : WriteSource) (m : Match) (n : NameMatch)
    (hfn : (src.FILENAME n).isSome = true) :
    writeName src m n = Outcome.value (tableCalls [specifiedRow src m n none]) := by
  unfold writeName
  cases hF : src.FILENAME n with
  | none => rw [hF] at hfn; cases hfn
  | some Info =>
    cases hS : src.StandardInformation with
    | none => simp [tableCalls, specifiedRow, writeTimes, timeCell, hashCell, snapshotOf, hF, hS]
    | some si =>
      simp [tableCalls, specifiedRow, writeTimes, timeCell, hashCell, snapshotOf, hF, hS]

/-- The row written for a name and an attribute of a match is the row of the
specification. -/
theorem writeNameAndData_row (src : WriteSource) (m : Match) (a : AttributeMatch)
    (n : NameMatch) (hfn : (src.FILENAME n).isSome = true)
    (hsi : src.StandardInformation.isSome = true) :
    writeNameAndData src m a n
      = Outcome.value (tableCalls [specifiedRow src m n (some a)]) := by
  unfold writeNameAndData
  cases hF : src.FILENAME n with
  | none => rw [hF] at hfn; cases hfn
  | some Info =>
    cases hS : src.StandardInformation with
    | none => rw [hS] at hsi; cases hsi
    | some si =>
      simp [tableCalls, specifiedRow, writeTimes, timeCell, hashCell, snapshotOf, hF, hS]

/-- The rows of a list of names, one for each. -/
theorem flatMap_singleton_row {α : Type} (row : α → List TableCall) (l : List α) :
    (l.flatMap fun a => [row a]) = l.map row := by
  induction l with
  | nil => rfl
  | cons a rest ih => simp [List.flatMap_cons, ih]

end Orc

namespace Orc
open MFTWalker CallbackEvent Dispatch

/-! ## The `$I30` index and the `$Secure` record -/

set_option maxRecDepth 100000 in
/-- C24 fails behind a block that is not in use and whose fixup fails: the
handler returns before it counts the block, and the next block is tested on the
same bit.  For an index of two blocks whose bit 0 is clear and whose bit 1 is
set, the first block leaves the counter at 0, and the second block, tested on
bit 0, is carved as a block that is not in use: its entry 70 is handed over as
carved. -/
theorem C24_block_tested_on_stale_bit :
    staleBitIndex.pBM.map (fun bits => (bits 0, bits 1)) = some (false, true)
    ∧ I30Block staleBitIndex.pBM (0, []) unusedBlock = Outcome.value (S_OK, 0, [])
    ∧ I30Block staleBitIndex.pBM (0, []) usedBlock
        = Outcome.value (S_OK, 1, [I30Callback 70 true])
    ∧ I30Block staleBitIndex.pBM (1, []) usedBlock
        = Outcome.value (S_OK, 2, [I30Callback 70 false])
    ∧ ParseI30AndCallback { I30Callback := true } true staleBitIndex
        = Outcome.value (S_OK, [I30Callback 70 true]) := by
  decide

/-- The blocks of `$SII` when bit 0 of `$BITMAP` is set and every fixup
succeeds: the entries of every block are handed over. -/
theorem EnumData_SecureBlock (cb : Callbacks) (bits : Nat → Bool) (hcb : cb.SecDescCallback = true)
    (h0 : bits 0 = true) :
    ∀ (blocks : List IndexBuffer) (events : List CallbackEvent),
      (∀ b ∈ blocks, FAILED b.MultiSectorFixup = false) →
      EnumData (SecureBlock cb (some bits)) blocks (0, events)
        = Outcome.value (S_OK, 0,
            events ++ (blocks.flatMap fun b => b.entries).map SecDescCallback) := by
  intro blocks
  induction blocks with
  | nil =>
    intro events _
    simp [EnumData]
  | cons b rest ih =>
    intro events hfix
    have hb : FAILED b.MultiSectorFixup = false := hfix b (List.mem_cons_self b rest)
    have hs : SecureBlock cb (some bits) (0, events) b
        = Outcome.value (S_OK, 0, events ++ b.entries.map SecDescCallback) := by
      simp [SecureBlock, h0, hb, hcb]
    rw [EnumData, hs, Outcome.value_bind]
    have hok : FAILED S_OK = false := by decide
    simp only [hok, Bool.false_eq_true, if_false]
    rw [ih _ fun x hx => hfix x (List.mem_cons_of_mem b hx)]
    simp [List.flatMap_cons, List.append_assoc]

/-- What `Parse$SecureAndCallback` hands over when bit 0 of `$BITMAP` is set and
every block passes its fixup: the entries of every block of the
`$INDEX_ALLOCATION`, whatever the bit of the block, and no entry of
`$INDEX_ROOT`. -/
theorem ParseSecure_tests_bit_zero (cb : Callbacks) (SDS : List Nat) (SII : IndexAttributes)
    (root : List Nat) (hrDataSize : HRESULT) (blocks : List IndexBuffer) (bits : Nat → Bool)
    (hcb : cb.SecDescCallback = true) (hhr : FAILED SII.hr = false)
    (hir : SII.pIR = some root) (hia : SII.pIA = some (hrDataSize, blocks))
    (hsize : FAILED hrDataSize = false) (hbm : SII.pBM = some bits)
    (hbits : bits 0 = true)
    (hfix : ∀ b ∈ blocks, FAILED b.MultiSectorFixup = false) :
    ParseSecureAndCallback cb (some SDS) SII
      = Outcome.value (S_OK, (blocks.flatMap fun b => b.entries).map SecDescCallback) := by
  unfold ParseSecureAndCallback
  simp only [hhr, Bool.false_eq_true, if_false, hia, hsize, hir, hbm]
  rw [EnumData_SecureBlock cb bits hcb hbits blocks [] hfix, Outcome.value_bind]
  simp [FAILED, S_OK]

/-- C25 fails for the entries resident in `$INDEX_ROOT`, and for the blocks
behind the first.  The loop over the entries of `$INDEX_ROOT` makes no call: for
a `$SII` index whose two entries are in `$INDEX_ROOT`, `Parse$SecureAndCallback`
returns `S_OK` and has handed nothing to the callback, where the same loop of
`ParseI30AndCallback` hands over both entries.  The handler of the blocks does
not count them: for an index of two blocks whose bit 0 is clear and whose bit 1
is set, the second block is tested on bit 0 and its entry is not handed over;
with the bits the other way round it is. -/
theorem C25_resident_entries_not_delivered :
    residentIndex.pIR = some [0x100, 0x1A0]
    ∧ ParseSecureAndCallback { SecDescCallback := true } (some []) residentIndex
        = Outcome.value (S_OK, [])
    ∧ ParseI30AndCallback { I30Callback := true } true residentIndex
        = Outcome.value (S_OK, [I30Callback 0x100 false, I30Callback 0x1A0 false])
    ∧ secondBlockIndex.pBM.map (fun bits => (bits 0, bits 1)) = some (false, true)
    ∧ ParseSecureAndCallback { SecDescCallback := true } (some []) secondBlockIndex
        = Outcome.value (S_OK, [])
    ∧ firstBlockIndex.pBM.map (fun bits => (bits 0, bits 1)) = some (true, false)
    ∧ ParseSecureAndCallback { SecDescCallback := true } (some []) firstBlockIndex
        = Outcome.value (S_OK, [SecDescCallback 0x100, SecDescCallback 0x240]) := by
  decide

/-! ## The callbacks of one dispatch -/

set_option maxRecDepth 100000 in
/-- C22 fails for the data callback of a record with a file name: the loop over
the data attributes that follows the loop over the names does not look at the
location.  With the sub-tree root `\a\`, the record whose one name is
`\c\f.txt` is found outside the location, its name is not handed to
`FileNameCallback`, and its data attribute is handed to `DataCallback`. -/
theorem C22_data_callback_outside_location :
    outsideWalker.m_Locations = ["\\a\\".toList]
    ∧ outsideRecord.record.m_FileNames = [outsideFileName]
    ∧ (GetFullNameAndIfInLocation outsideWalker (some outsideFileName) none (some false) 5).bind
        (fun call => Outcome.value (call.bInSpecificLocation, call.text))
        = Outcome.value (some false, some (("\\c\\f.txt".toList ++ [NUL]).map some))
    ∧ (FullCallCallbackForRecord { DataCallback := true, FileNameCallback := true }
          outsideWalker outsideRecord false 5).bind
        (fun d => Outcome.value (d.hr, d.events))
        = Outcome.value (S_OK,
            [ElementCallback, DataCallback outsideData, KeepAliveCallback,
              ProgressCallback 1]) := by
  decide

/-- The handler of `ParseI30AndCallback` calls `I30Callback` only. -/
theorem I30Block_events (pBM : Option (Nat → Bool)) (st : Nat × List CallbackEvent)
    (Data : IndexBuffer) (r : HRESULT × Nat × List CallbackEvent)
    (hst : ∀ e ∈ st.2, isRecordCallback e = true)
    (h : I30Block pBM st Data = Outcome.value r) :
    ∀ e ∈ r.2.2, isRecordCallback e = true := by
  unfold I30Block at h
  cases pBM with
  | none => cases h
  | some bits =>
    simp only [] at h
    split at h
    · split at h
      · split at h
        · cases h; exact hst
        · cases h; exact hst
      · cases h
        intro e he
        simp only [List.mem_append, List.mem_map] at he
        rcases he with (he | ⟨x, _, rfl⟩) | ⟨x, _, rfl⟩
        · exact hst e he
        · rfl
        · rfl
    · split at h
      · cases h; exact hst
      · cases h
        intro e he
        simp only [List.mem_append, List.mem_map] at he
        rcases he with he | ⟨x, _, rfl⟩
        · exact hst e he
        · rfl

/-- The enumeration of the blocks of `$I30` calls `I30Callback` only. -/
theorem EnumData_I30Block_events (pBM : Option (Nat → Bool)) :
    ∀ (blocks : List IndexBuffer) (st : Nat × List CallbackEvent)
      (r : HRESULT × Nat × List CallbackEvent),
      (∀ e ∈ st.2, isRecordCallback e = true) →
      EnumData (I30Block pBM) blocks st = Outcome.value r →
      ∀ e ∈ r.2.2, isRecordCallback e = true := by
  intro blocks
  induction blocks with
  | nil =>
    intro st r hst h
    cases h
    exact hst
  | cons b rest ih =>
    intro st r hst h
    rw [EnumData, Outcome.bind_eq_value] at h
    obtain ⟨r1, h1, h⟩ := h
    have hr1 := I30Block_events pBM st b r1 hst h1
    split at h
    · cases h; exact hr1
    · exact ih r1.2 r hr1 h

/-- `ParseI30AndCallback` calls `I30Callback` only. -/
theorem ParseI30AndCallback_events (cb : Callbacks) (IsDirectory : Bool) (I30 : IndexAttributes)
    (r : HRESULT × List CallbackEvent)
    (h : ParseI30AndCallback cb IsDirectory I30 = Outcome.value r) :
    ∀ e ∈ r.2, isRecordCallback e = true := by
  unfold ParseI30AndCallback at h
  have hroot : ∀ e ∈ rootEntries cb I30, isRecordCallback e = true := by
    intro e he
    unfold rootEntries at he
    cases hp : I30.pIR with
    | none => rw [hp] at he; cases he
    | some entries =>
      rw [hp] at he
      simp only [] at he
      split at he
      · obtain ⟨x, _, rfl⟩ := List.mem_map.1 he
        rfl
      · cases he
  split at h
  · cases h; intro e he; cases he
  · split at h
    · cases h; intro e he; cases he
    · simp only [] at h
      split at h
      · split at h
        · split at h
          · cases h; exact hroot
          · split at h
            · cases h
            · rw [Outcome.bind_eq_value] at h
              obtain ⟨r1, h1, h⟩ := h
              have hr1 := EnumData_I30Block_events I30.pBM _ _ r1 hroot h1
              split at h <;> (cases h; exact hr1)
        · cases h; exact hroot
      · cases h; exact hroot

/-- The call of `ParseI30AndCallback` in a dispatch calls `I30Callback` only. -/
theorem parseI30_events (cb : Callbacks) (pRecord : DispatchRecord) (ev : List CallbackEvent)
    (h : parseI30 cb pRecord = Outcome.value ev) : ∀ e ∈ ev, isRecordCallback e = true := by
  unfold parseI30 at h
  rw [Outcome.bind_eq_value] at h
  obtain ⟨r, hr, h⟩ := h
  cases h
  exact ParseI30AndCallback_events cb _ _ r hr

/-- The optional call of `ParseI30AndCallback` in a dispatch. -/
theorem optional_parseI30_events (c : Bool) (cb : Callbacks) (pRecord : DispatchRecord)
    (ev : List CallbackEvent)
    (h : (if c = true then parseI30 cb pRecord else Outcome.value []) = Outcome.value ev) :
    ∀ e ∈ ev, isRecordCallback e = true := by
  split at h
  · exact parseI30_events cb pRecord ev h
  · cases h
    intro e he
    cases he

/-- The callbacks for the data attributes of a name are record callbacks. -/
theorem nameAndData_events (name : FILE_NAME) (l : List MftRecordAttribute) :
    ∀ e ∈ l.map (FileNameAndDataCallback name), isRecordCallback e = true := by
  intro e he
  obtain ⟨x, _, rfl⟩ := List.mem_map.1 he
  rfl

/-- The body of the loop over the file names calls record callbacks only. -/
theorem nameCallbacks_events (cb : Callbacks) (pRecord : DispatchRecord) (fuel : Nat)
    (w : MFTWalker) (name : FILE_NAME) (r : MFTWalker × List CallbackEvent)
    (h : nameCallbacks cb pRecord fuel w name = Outcome.value r) :
    ∀ e ∈ r.2, isRecordCallback e = true := by
  unfold nameCallbacks at h
  rw [Outcome.bind_eq_value] at h
  obtain ⟨call, -, h⟩ := h
  simp only [] at h
  have hfn : ∀ e ∈ (if (cb.FileNameCallback && call.bInSpecificLocation.getD false) = true
      then [FileNameCallback name] else []), isRecordCallback e = true := by
    intro e he
    split at he
    · rw [List.mem_singleton] at he
      subst he
      rfl
    · cases he
  have hdir : ∀ e ∈ (if cb.DirectoryCallback = true then [DirectoryCallback name] else []),
      isRecordCallback e = true := by
    intro e he
    split at he
    · rw [List.mem_singleton] at he
      subst he
      rfl
    · cases he
  split at h
  · rw [Outcome.bind_eq_value] at h
    obtain ⟨i30, hi, h⟩ := h
    have h30 := optional_parseI30_events _ cb pRecord i30 hi
    cases h
    intro e he
    simp only [List.mem_append] at he
    rcases he with ((he | he) | he) | he
    · exact hfn e he
    · exact hdir e he
    · split at he
      · exact nameAndData_events name _ e he
      · cases he
    · exact h30 e he
  · split at h
    · cases h
      intro e he
      simp only [List.mem_append] at he
      rcases he with he | he
      · exact hfn e he
      · split at he
        · exact nameAndData_events name _ e he
        · cases he
    · cases h
      exact hfn

/-- The loop over the file names calls record callbacks only. -/
theorem namesLoop_events (cb : Callbacks) (pRecord : DispatchRecord) (fuel : Nat) :
    ∀ (names : List FILE_NAME) (w : MFTWalker) (events : List CallbackEvent)
      (r : MFTWalker × List CallbackEvent),
      (∀ e ∈ events, isRecordCallback e = true) →
      namesLoop cb pRecord fuel names w events = Outcome.value r →
      ∀ e ∈ r.2, isRecordCallback e = true := by
  intro names
  induction names with
  | nil =>
    intro w events r hev h
    cases h
    exact hev
  | cons name rest ih =>
    intro w events r hev h
    rw [namesLoop, Outcome.bind_eq_value] at h
    obtain ⟨r1, h1, h⟩ := h
    have hr1 := nameCallbacks_events cb pRecord fuel w name r1 h1
    refine ih r1.1 (events ++ r1.2) r ?_ h
    intro e he
    rcases List.mem_append.1 he with he | he
    · exact hev e he
    · exact hr1 e he

/-- The loop over the data attributes of a record without name calls
`DataCallback` only. -/
theorem dataOfUnnamed_events (fuel : Nat) :
    ∀ (l : List MftRecordAttribute) (w : MFTWalker) (events : List CallbackEvent)
      (r : MFTWalker × List CallbackEvent),
      (∀ e ∈ events, isRecordCallback e = true) →
      dataOfUnnamed fuel l w events = Outcome.value r →
      ∀ e ∈ r.2, isRecordCallback e = true := by
  intro l
  induction l with
  | nil =>
    intro w events r hev h
    cases h
    exact hev
  | cons a rest ih =>
    intro w events r hev h
    rw [dataOfUnnamed, Outcome.bind_eq_value] at h
    obtain ⟨call, -, h⟩ := h
    refine ih call.walker _ r ?_ h
    intro e he
    split at he
    · rcases List.mem_append.1 he with he | he
      · exact hev e he
      · rw [List.mem_singleton] at he
        subst he
        rfl
    · exact hev e he

/-- The block between the attribute callbacks and the keep-alive query calls
record callbacks only. -/
theorem namesAndData_events (cb : Callbacks) (pRecord : DispatchRecord) (fuel : Nat)
    (w : MFTWalker) (r : MFTWalker × List CallbackEvent)
    (h : namesAndData cb pRecord fuel w = Outcome.value r) :
    ∀ e ∈ r.2, isRecordCallback e = true := by
  unfold namesAndData at h
  split at h
  · exact dataOfUnnamed_events fuel _ w [] r (fun e he => by cases he) h
  · split at h
    · rw [Outcome.bind_eq_value] at h
      obtain ⟨r1, h1, h⟩ := h
      have hr1 := namesLoop_events cb pRecord fuel _ w [] r1 (fun e he => by cases he) h1
      cases h
      intro e he
      rcases List.mem_append.1 he with he | he
      · exact hr1 e he
      · split at he
        · obtain ⟨x, _, rfl⟩ := List.mem_map.1 he
          rfl
        · cases he
    · cases h
      intro e he
      cases he

/-- The end of a dispatch: the keep-alive query and the progress report come
last. -/
theorem keepAliveAndProgress_events (cb : Callbacks) (w : MFTWalker) (pRecord : DispatchRecord)
    (events : List CallbackEvent) (d : Dispatch)
    (h : keepAliveAndProgress cb w pRecord events = Outcome.value d) :
    ∃ percent, d.events = events ++ [KeepAliveCallback, ProgressCallback percent] := by
  unfold keepAliveAndProgress at h
  split at h
  · cases h
  · cases h
    exact ⟨_, rfl⟩

/-- The two models of `SimpleCallCallbackForRecord` agree: without `$I30`
callback, the one that traces every callback returns the result, the
`bFreeRecord` and the count of walked items of the one of the record map. -/
theorem SimpleCall_models_agree (env : WalkerEnv) (cb : Callbacks) (w : MFTWalker) (p : Nat)
    (pRecord : DispatchRecord) (bFreeRecord : Bool)
    (hd : deref w p = Outcome.value pRecord.record) (hi : cb.I30Callback = false)
    (hk : cb.KeepAliveCallback = env.KeepAliveCallback)
    (hp : cb.ProgressCallback = env.ProgressCallback) :
    (MFTWalker.SimpleCallCallbackForRecord env w p bFreeRecord).bind
        (fun r => Outcome.value (r.1, r.2.2, r.2.1.m_dwWalkedItems))
      = (Dispatch.SimpleCallCallbackForRecord cb w pRecord bFreeRecord).bind
          (fun d => Outcome.value (d.hr, d.bFreeRecord, d.walker.m_dwWalkedItems)) := by
  unfold MFTWalker.SimpleCallCallbackForRecord Dispatch.SimpleCallCallbackForRecord
  rw [hd, Outcome.value_bind]
  by_cases hchild : NtfsSegmentNumber pRecord.record.m_pRecord.BaseFileRecordSegment > 0
  · simp only [hchild, if_true, Outcome.value_bind]
  · simp only [hchild, if_false]
    by_cases hcalled : pRecord.record.m_bCallbackCalled = true
    · simp only [hcalled, Bool.not_true, Bool.false_eq_true, if_false, Outcome.value_bind]
    · have hc : pRecord.record.m_bCallbackCalled = false := by simpa using hcalled
      simp only [hc, Bool.not_false, if_true, hi, Bool.false_and, Bool.false_eq_true, if_false,
        Outcome.value_bind, keepAliveAndProgress]
      by_cases h0 : w.m_ulMFTRecordCount = 0
      · simp only [h0, if_true]
        rfl
      · simp only [h0, if_false, Outcome.value_bind, hk, hp]
        rfl

/-- A call of `SimpleCallCallbackForRecord` or of `FullCallCallbackForRecord`
that returns, for a record that it hands to the callbacks (a base record not
handed to them before), has queried `KeepAliveCallback` once, behind all the
element, attribute, file-name, directory, data and `$I30` callbacks for the
record, and has reported the progress behind it; for a record that it does not
hand over it has called nothing. -/
theorem dispatch_events_shape (cb : Callbacks) (w : MFTWalker)
    (pRecord : DispatchRecord) (bFreeRecord : Bool) (fuel : Nat) (full : Bool) (d : Dispatch)
    (h : (if full then FullCallCallbackForRecord cb w pRecord bFreeRecord fuel
          else Dispatch.SimpleCallCallbackForRecord cb w pRecord bFreeRecord)
        = Outcome.value d) :
    if isDispatched pRecord then
      ∃ (pre : List CallbackEvent) (percent : Nat),
        d.events = pre ++ [KeepAliveCallback, ProgressCallback percent]
          ∧ ∀ e ∈ pre, isRecordCallback e = true
    else d.events = [] := by
  unfold isDispatched
  cases full with
  | true =>
    simp only [if_true] at h
    unfold FullCallCallbackForRecord at h
    by_cases hchild : NtfsSegmentNumber pRecord.record.m_pRecord.BaseFileRecordSegment > 0
    · rw [if_pos hchild] at h
      cases h
      simp [hchild]
    · rw [if_neg hchild] at h
      by_cases hcalled : pRecord.record.m_bCallbackCalled = true
      · simp only [hcalled, Bool.not_true, Bool.false_eq_true, if_false] at h
        cases h
        simp [hcalled]
      · have hc : pRecord.record.m_bCallbackCalled = false := by simpa using hcalled
        simp only [hc, Bool.not_false, if_true] at h
        rw [Outcome.bind_eq_value] at h
        obtain ⟨r, hr, h⟩ := h
        obtain ⟨percent, hd⟩ := keepAliveAndProgress_events cb _ pRecord _ d h
        have hnd := namesAndData_events cb pRecord fuel _ r hr
        rw [if_pos (by simp [hchild, hc])]
        refine ⟨_, percent, hd, ?_⟩
        intro e he
        simp only [List.mem_append] at he
        rcases he with (he | he) | he
        · split at he
          · rw [List.mem_singleton] at he
            subst he
            rfl
          · cases he
        · split at he
          · obtain ⟨x, _, rfl⟩ := List.mem_map.1 he
            rfl
          · cases he
        · exact hnd e he
  | false =>
    simp only [Bool.false_eq_true, if_false] at h
    unfold Dispatch.SimpleCallCallbackForRecord at h
    by_cases hchild : NtfsSegmentNumber pRecord.record.m_pRecord.BaseFileRecordSegment > 0
    · rw [if_pos hchild] at h
      cases h
      simp [hchild]
    · rw [if_neg hchild] at h
      by_cases hcalled : pRecord.record.m_bCallbackCalled = true
      · simp only [hcalled, Bool.not_true, Bool.false_eq_true, if_false] at h
        cases h
        simp [hcalled]
      · have hc : pRecord.record.m_bCallbackCalled = false := by simpa using hcalled
        simp only [hc, Bool.not_false, if_true] at h
        rw [Outcome.bind_eq_value] at h
        obtain ⟨i30, hi, h⟩ := h
        obtain ⟨percent, hd⟩ := keepAliveAndProgress_events cb _ pRecord _ d h
        have h30 := optional_parseI30_events _ cb pRecord i30 hi
        rw [if_pos (by simp [hchild, hc])]
        refine ⟨_, percent, hd, ?_⟩
        intro e he
        rcases List.mem_append.1 he with he | he
        · rw [List.mem_singleton] at he
          subst he
          rfl
        · exact h30 e he

/-! ## A dispatch returns -/

/-- The place holder is written without extending a buffer that it fits. -/
theorem placeHolder_flush_len (w : MFTWalker) (pb : Option Bool) (c : NameCursor) (last : Nat)
    (acc : WString) (h : c.Holds acc) (hfl : c.Flush)
    (hfit : c.dwCount + 22 * 2 ≤ c.m_dwFullNameBufferLen) :
    ∃ c2, placeHolder w pb c last = Outcome.value (finish w c2 pb)
        ∧ c2.Holds ('\\' :: (("__".toList ++ hex16 last ++ "__".toList) ++ '\\' :: acc))
        ∧ c2.m_dwFullNameBufferLen = c.m_dwFullNameBufferLen := by
  have hs := placeHolder_format_length last
  have hc0 := h.count
  unfold placeHolder
  obtain ⟨c1, hc1, hh1, hf1, hl1⟩ := prepend_flush w.MaxComponentLength ['\\'] c acc h hfl
    (by simp only [List.length_singleton]; omega)
  rw [hc1]
  simp only [Outcome.bind]
  have hcnt1 := hh1.count
  simp only [List.singleton_append, List.length_cons] at hcnt1
  obtain ⟨hr, hp⟩ := reserve_flush w.MaxComponentLength 20 c1 _ hh1 hf1 (by rw [hl1]; omega)
  rcases reserve_holds w.MaxComponentLength 20 c1 _ hh1 with hu | ⟨c2, hc2, g1, g2, g3, g4, g5⟩
  · rw [hr] at hu; cases hu
  rw [hc2]
  simp only []
  have hc2e : c2 = { c1 with dwCount := c1.dwCount + 20 * 2, pCurrent := c1.pCurrent - 20 } := by
    rw [hr] at hc2
    cases hc2
    rfl
  obtain ⟨c3, hc3, hh3, hp3, hl3, hd3⟩ := format_block ("__".toList ++ hex16 last ++ "__".toList)
    '\\' acc c2 g1 g2 (by rw [hs]; simpa using g3) (by rw [hs]; simpa using g4)
    (by rw [hs]; simpa using g5)
  rw [hs] at hc3
  simp only [Outcome.bind] at hc3
  generalize hq : putAt c2.pCurrent ("__".toList ++ hex16 last ++ "__".toList ++ [NUL]) c2 = q
    at hc3 ⊢
  cases q with
  | undefined => simp at hc3
  | noFuel => simp at hc3
  | value c2b =>
    simp only [] at hc3 ⊢
    rw [hc3]
    simp only []
    have hf3 : c3.Flush := by
      unfold NameCursor.Flush at hf1 ⊢
      rw [hp3, hl3, hd3, hc2e]
      simp only []
      omega
    obtain ⟨c4, hc4, hh4, -, hl4⟩ := prepend_flush w.MaxComponentLength ['\\'] c3 _ hh3 hf3
      (by
        simp only [List.length_singleton]
        rw [hl3, hd3, hc2e]
        simp only []
        rw [hl1]
        omega)
    rw [hc4]
    refine ⟨c4, rfl, by simpa using hh4, ?_⟩
    rw [hl4, hl3, hc2e]
    exact hl1

/-- The chain of parent references reads the names and the parents of the
directory-name map only. -/
theorem parentChain_congr (d1 d2 : SegmentMap MFTFileNameWrapper) (root : Nat)
    (h : ∀ k, (d2.find k).map (fun e => e.m_pFileName)
      = (d1.find k).map (fun e => e.m_pFileName)) :
    ∀ (fuel s : Nat), parentChain d2 root fuel s = parentChain d1 root fuel s := by
  intro fuel
  induction fuel with
  | zero =>
    intro s
    have hk := h s
    unfold parentChain
    cases h1 : d1.find s <;> cases h2 : d2.find s <;> simp [h1, h2] at hk ⊢
  | succ fuel ih =>
    intro s
    have hk := h s
    unfold parentChain
    cases h1 : d1.find s with
    | none =>
      cases h2 : d2.find s with
      | none => rfl
      | some e2 => simp [h1, h2] at hk
    | some e1 =>
      cases h2 : d2.find s with
      | none => simp [h1, h2] at hk
      | some e2 =>
        simp only [h1, h2, Option.map_some', Option.some.injEq] at hk
        simp only [MFTFileNameWrapper.FileName, hk, ih]

/-- The walker a call leaves when its cursor has the cells of a buffer of the
size that the buffer of the walker had. -/
theorem finish_kept (w : MFTWalker) (c : NameCursor) (flag : Option Bool) (hbuf : bufferOk w)
    (hcells : c.m_pFullNameBuffer.length = c.m_dwFullNameBufferLen / 2)
    (hlen : c.m_dwFullNameBufferLen = bufferBytes w) :
    NamesKept w (finish w c flag).walker := by
  obtain ⟨buffer, len, -, -, h2, hbytes⟩ := bufferOk_cells w hbuf
  refine ⟨?_, ?_, rfl, rfl, rfl, rfl, fun _ => rfl⟩
  · show c.m_pFullNameBuffer.length = c.m_dwFullNameBufferLen / 2 ∧ 2 ≤ c.m_dwFullNameBufferLen
    exact ⟨hcells, by omega⟩
  · exact hlen

/-- The same for a call that decides the in-location state of the direct
parent. -/
theorem decideLocation_kept (w : MFTWalker) (key : Nat) (pb : Option Bool) (c : NameCursor)
    (hbuf : bufferOk w)
    (hcells : c.m_pFullNameBuffer.length = c.m_dwFullNameBufferLen / 2)
    (hlen : c.m_dwFullNameBufferLen = bufferBytes w) :
    NamesKept w (decideLocation w key pb c).walker := by
  obtain ⟨buffer, len, -, -, h2, hbytes⟩ := bufferOk_cells w hbuf
  unfold decideLocation
  cases hf : w.m_DirectoryNames.find key with
  | none => exact finish_kept w c pb hbuf hcells hlen
  | some e =>
    refine ⟨?_, ?_, rfl, rfl, rfl, rfl, ?_⟩
    · show c.m_pFullNameBuffer.length = c.m_dwFullNameBufferLen / 2
        ∧ 2 ≤ c.m_dwFullNameBufferLen
      exact ⟨hcells, by omega⟩
    · exact hlen
    · intro k
      show ((w.m_DirectoryNames.assign key _).find k).map _ = _
      rw [SegmentMap.find_assign]
      by_cases hk : k = key
      · subst hk
        rw [if_pos rfl, hf]
        simp only [Option.map_some', Option.some.injEq]
        split <;> rfl
      · rw [if_neg hk]

/-- The two branches behind the loop over the parents return, and keep the
names, when the path fits the buffer. -/
theorem rootOrPlaceholder_kept (w : MFTWalker) (key : Nat) (pb : Option Bool)
    (c : NameCursor) (last : Nat) (ns : List WString) (file suffix : WString)
    (hbuf : bufferOk w)
    (h : c.Holds (dirPath ns ++ (file ++ suffix))) (hfl : c.Flush)
    (hlen : c.m_dwFullNameBufferLen = bufferBytes w)
    (hfit : 2 * ((assembledPath w.USNRoot last ns file suffix).length + 1)
      ≤ c.m_dwFullNameBufferLen) :
    ∃ call, rootOrPlaceholder w key pb c last = Outcome.value call
      ∧ NamesKept w call.walker := by
  have hcnt := h.count
  unfold assembledPath at hfit
  unfold rootOrPlaceholder
  simp only [h.notNull, Bool.false_eq_true, if_false]
  by_cases hr : last = w.USNRoot
  · have hb : (last == w.USNRoot) = true := by simpa using hr
    rw [if_pos hb]
    rw [if_pos hr] at hfit
    simp only [List.length_cons] at hfit
    obtain ⟨c2, hc2, hh2, -, hl2⟩ := prepend_flush w.MaxComponentLength ['\\'] c _ h hfl
      (by simp only [List.length_singleton]; omega)
    rw [hc2]
    simp only [Outcome.value_bind, hh2.notNull, Bool.false_eq_true, if_false]
    exact ⟨_, rfl, decideLocation_kept w key pb c2 hbuf hh2.cells (by rw [hl2, hlen])⟩
  · have hb : ¬ (last == w.USNRoot) = true := by simpa using hr
    rw [if_neg hb]
    rw [if_neg hr] at hfit
    have hs := placeHolder_format_length last
    simp only [List.cons_append, List.length_cons, List.length_append] at hfit hs hcnt
    obtain ⟨c2, hc2, hh2, hl2⟩ := placeHolder_flush_len w pb c last _ h hfl (by omega)
    rw [hc2]
    exact ⟨_, rfl, finish_kept w c2 pb hbuf hh2.cells (by rw [hl2, hlen])⟩

/-- A call of `GetFullNameAndIfInLocation` for a file name whose path fits the
name buffer returns, and keeps the names. -/
theorem GetFullName_kept (w : MFTWalker) (f : FILE_NAME) (d : Option MftRecordAttribute)
    (pb : Option Bool) (fuel : Nat) (ns : List WString) (last : Nat)
    (hbuf : bufferOk w) (hroot : rootIsDot w.m_DirectoryNames w.USNRoot)
    (hch : parentChain w.m_DirectoryNames w.USNRoot fuel
      (NtfsFullSegmentNumber f.ParentDirectory) = some (ns, last))
    (hfit : 2 * ((assembledPath w.USNRoot last ns f.FileName (streamSuffix d)).length + 1)
          ≤ bufferBytes w) :
    ∃ call, GetFullNameAndIfInLocation w (some f) d pb (fuel + 1) = Outcome.value call
      ∧ NamesKept w call.walker := by
  have hfit2 : 2 * ((dirPath ns ++ (f.FileName ++ streamSuffix d)).length + 1)
      ≤ bufferBytes w := by
    unfold assembledPath at hfit
    split_ifs at hfit
    · simp only [List.length_cons] at hfit
      omega
    · have hs := placeHolder_format_length last
      simp only [List.cons_append, List.length_cons, List.length_append] at hfit hs ⊢
      omega
  obtain ⟨c, hh, hfl, hl, hc⟩ :=
    GetFullName_front_flush w f d pb fuel ns last hbuf hroot hch hfit2
  rw [hc]
  exact rootOrPlaceholder_kept w _ _ c last ns f.FileName (streamSuffix d) hbuf hh hfl hl
    (by rw [hl]; exact hfit)

/-- A call of `GetFullNameAndIfInLocation` without file name returns, and keeps
the names, when `<NoName>` and the name of the stream fit the name buffer. -/
theorem GetFullName_noName_kept (w : MFTWalker) (d : Option MftRecordAttribute)
    (pb : Option Bool) (fuel : Nat) (hbuf : bufferOk w)
    (hfit : 2 * (("<NoName>".toList ++ streamSuffix d).length + 1) ≤ bufferBytes w) :
    ∃ call, GetFullNameAndIfInLocation w none d pb fuel = Outcome.value call
      ∧ NamesKept w call.walker := by
  obtain ⟨buffer, len, hbl, hcells, hlen, hbytes⟩ := bufferOk_cells w hbuf
  obtain ⟨c0, hc0, hh0, hf0, hl0⟩ := initial_cursor buffer len hcells hlen
  simp only [List.length_append] at hfit
  have hcnt0 := hh0.count
  simp only [List.length_nil] at hcnt0
  unfold GetFullNameAndIfInLocation
  simp only [hbl]
  rw [if_neg (by omega), hc0]
  simp only [Outcome.value_bind]
  obtain ⟨c1, hc1, hh1, hf1, hl1⟩ := streamName_flush w.MaxComponentLength d c0 hh0 hf0
    (by rw [hl0, hbytes]; omega)
  rw [hc1]
  simp only [Outcome.value_bind]
  have hcnt1 := hh1.count
  obtain ⟨c2, hc2, hh2, hf2, hl2⟩ := prepend_flush w.MaxComponentLength "<NoName>".toList c1 _
    hh1 hf1 (by rw [hl1, hl0, hbytes]; omega)
  rw [hc2]
  simp only [Outcome.value_bind]
  exact ⟨_, rfl, finish_kept w c2 _ hbuf hh2.cells (by rw [hl2, hl1, hl0, hbytes])⟩

/-- A walker whose name buffer is in order keeps its own names. -/
theorem NamesKept.same (w : MFTWalker) (hbuf : bufferOk w) : NamesKept w w :=
  ⟨hbuf, rfl, rfl, rfl, rfl, rfl, fun _ => rfl⟩

/-- Names kept twice are kept. -/
theorem NamesKept.twice {w w2 w3 : MFTWalker} (h1 : NamesKept w w2) (h2 : NamesKept w2 w3) :
    NamesKept w w3 :=
  ⟨h2.buffer, h2.bytes.trans h1.bytes, h2.root.trans h1.root, h2.mcl.trans h1.mcl,
    h2.locations.trans h1.locations, h2.count.trans h1.count,
    fun k => (h2.names k).trans (h1.names k)⟩

/-- The root stays `.` when the names are kept. -/
theorem NamesKept.rootIsDot {w w2 : MFTWalker} (h : NamesKept w w2)
    (hroot : rootIsDot w.m_DirectoryNames w.USNRoot) :
    rootIsDot w2.m_DirectoryNames w2.USNRoot := by
  intro e he
  rw [h.root] at he ⊢
  have hk := h.names w.USNRoot
  rw [he] at hk
  cases h1 : w.m_DirectoryNames.find w.USNRoot with
  | none => rw [h1] at hk; cases hk
  | some e1 =>
    rw [h1] at hk
    simp only [Option.map_some', Option.some.injEq] at hk
    have := hroot e1 h1
    simpa [MFTFileNameWrapper.FileName, hk] using this

/-- A path that fits keeps fitting when the names are kept. -/
theorem NamesKept.pathFits {w w2 : MFTWalker} (h : NamesKept w w2) (fuel : Nat) (f : FILE_NAME)
    (hf : pathFits w fuel f) : pathFits w2 fuel f := by
  obtain ⟨ns, last, hch, hfit⟩ := hf
  refine ⟨ns, last, ?_, ?_⟩
  · rw [h.root, parentChain_congr w.m_DirectoryNames w2.m_DirectoryNames w.USNRoot h.names]
    exact hch
  · rw [h.root, h.bytes]
    exact hfit

/-- The enumeration of the blocks of `$I30` returns when `$BITMAP` is there. -/
theorem EnumData_I30Block_returns (bits : Nat → Bool) :
    ∀ (blocks : List IndexBuffer) (st : Nat × List CallbackEvent),
      ∃ r, EnumData (I30Block (some bits)) blocks st = Outcome.value r := by
  intro blocks
  induction blocks with
  | nil => exact fun st => ⟨_, rfl⟩
  | cons b rest ih =>
    intro st
    have hb : ∃ r1, I30Block (some bits) st b = Outcome.value r1 := by
      unfold I30Block
      simp only []
      split
      · split
        · split <;> exact ⟨_, rfl⟩
        · exact ⟨_, rfl⟩
      · split <;> exact ⟨_, rfl⟩
    obtain ⟨r1, h1⟩ := hb
    rw [EnumData, h1, Outcome.value_bind]
    split
    · exact ⟨_, rfl⟩
    · exact ih r1.2

/-- `ParseI30AndCallback` returns when the pointers it reads without a test are
set. -/
theorem ParseI30AndCallback_returns (cb : Callbacks) (IsDirectory : Bool) (I30 : IndexAttributes)
    (h : indexPointersSet I30 = true) :
    ∃ r, ParseI30AndCallback cb IsDirectory I30 = Outcome.value r := by
  unfold indexPointersSet at h
  unfold ParseI30AndCallback
  split
  · exact ⟨_, rfl⟩
  · split
    · exact ⟨_, rfl⟩
    · simp only []
      cases hia : I30.pIA with
      | none => exact ⟨_, rfl⟩
      | some p =>
        obtain ⟨hrDataSize, blocks⟩ := p
        rw [hia] at h
        simp only [Bool.and_eq_true, Bool.or_eq_true] at h
        obtain ⟨hir, hbm⟩ := h
        simp only []
        split
        · split
          · exact ⟨_, rfl⟩
          · cases hr : I30.pIR with
            | none => rw [hr] at hir; cases hir
            | some root =>
              simp only []
              cases hb : I30.pBM with
              | some bits =>
                obtain ⟨r, hr2⟩ := EnumData_I30Block_returns bits blocks (0, rootEntries cb I30)
                rw [hr2, Outcome.value_bind]
                split <;> exact ⟨_, rfl⟩
              | none =>
                rw [hb] at hbm
                rcases hbm with hbm | hbm
                · cases hbm
                · have hnil : blocks = [] := by simpa using hbm
                  subst hnil
                  simp only [EnumData, Outcome.value_bind]
                  split <;> exact ⟨_, rfl⟩
        · exact ⟨_, rfl⟩

/-- The optional call of `ParseI30AndCallback` in a dispatch returns. -/
theorem optional_parseI30_returns (c : Bool) (cb : Callbacks) (pRecord : DispatchRecord)
    (h : indexPointersSet pRecord.I30 = true) :
    ∃ ev, (if c = true then parseI30 cb pRecord else Outcome.value []) = Outcome.value ev := by
  split
  · obtain ⟨r, hr⟩ := ParseI30AndCallback_returns cb pRecord.record.m_bIsDirectory pRecord.I30 h
    unfold parseI30
    rw [hr, Outcome.value_bind]
    exact ⟨_, rfl⟩
  · exact ⟨_, rfl⟩

/-- The body of the loop over the file names returns, and keeps the names, for
a name whose path fits the name buffer. -/
theorem nameCallbacks_returns (cb : Callbacks) (pRecord : DispatchRecord) (fuel : Nat)
    (w : MFTWalker) (name : FILE_NAME) (hidx : indexPointersSet pRecord.I30 = true)
    (hbuf : bufferOk w) (hroot : rootIsDot w.m_DirectoryNames w.USNRoot)
    (hfit : pathFits w fuel name) :
    ∃ r, nameCallbacks cb pRecord (fuel + 1) w name = Outcome.value r ∧ NamesKept w r.1 := by
  obtain ⟨ns, last, hch, hf⟩ := hfit
  obtain ⟨call, hcall, hk⟩ := GetFullName_kept w name none (some false) fuel ns last hbuf hroot
    hch (by simpa [streamSuffix] using hf)
  unfold nameCallbacks
  rw [hcall, Outcome.value_bind]
  simp only []
  split
  · obtain ⟨ev, hev⟩ := optional_parseI30_returns cb.I30Callback cb pRecord hidx
    rw [hev, Outcome.value_bind]
    exact ⟨_, rfl, hk⟩
  · split
    · exact ⟨_, rfl, hk⟩
    · exact ⟨_, rfl, hk⟩

/-- The loop over the file names returns, and keeps the names, when the path of
every name fits the name buffer. -/
theorem namesLoop_returns (cb : Callbacks) (pRecord : DispatchRecord) (fuel : Nat)
    (hidx : indexPointersSet pRecord.I30 = true) :
    ∀ (names : List FILE_NAME) (w : MFTWalker) (events : List CallbackEvent),
      bufferOk w → rootIsDot w.m_DirectoryNames w.USNRoot →
      (∀ f ∈ names, pathFits w fuel f) →
      ∃ r, namesLoop cb pRecord (fuel + 1) names w events = Outcome.value r
        ∧ NamesKept w r.1 := by
  intro names
  induction names with
  | nil =>
    intro w events hbuf _ _
    exact ⟨_, rfl, NamesKept.same w hbuf⟩
  | cons name rest ih =>
    intro w events hbuf hroot hfit
    obtain ⟨r1, h1, hk1⟩ := nameCallbacks_returns cb pRecord fuel w name hidx hbuf hroot
      (hfit name (List.mem_cons_self name rest))
    obtain ⟨r, hr, hk⟩ := ih r1.1 (events ++ r1.2) hk1.buffer (hk1.rootIsDot hroot)
      (fun f hf => hk1.pathFits fuel f (hfit f (List.mem_cons_of_mem name hf)))
    rw [namesLoop, h1, Outcome.value_bind]
    exact ⟨r, hr, hk1.twice hk⟩

/-- The loop over the data attributes of a record without file name returns,
and keeps the names, when the name of every stream fits the name buffer. -/
theorem dataOfUnnamed_returns (fuel : Nat) :
    ∀ (l : List MftRecordAttribute) (w : MFTWalker) (events : List CallbackEvent),
      bufferOk w → (∀ d ∈ l, streamFits w d) →
      ∃ r, dataOfUnnamed fuel l w events = Outcome.value r ∧ NamesKept w r.1 := by
  intro l
  induction l with
  | nil =>
    intro w events hbuf _
    exact ⟨_, rfl, NamesKept.same w hbuf⟩
  | cons a rest ih =>
    intro w events hbuf hfit
    obtain ⟨call, hcall, hk1⟩ := GetFullName_noName_kept w (some a) (some false) fuel hbuf
      (hfit a (List.mem_cons_self a rest))
    obtain ⟨r, hr, hk⟩ := ih call.walker
      (if (call.pFullName.isSome && call.bInSpecificLocation.getD false) = true then
        events ++ [DataCallback a] else events)
      hk1.buffer
      (fun d hd => by
        have := hfit d (List.mem_cons_of_mem a hd)
        unfold streamFits at this ⊢
        rw [hk1.bytes]
        exact this)
    rw [dataOfUnnamed, hcall, Outcome.value_bind]
    exact ⟨r, hr, hk1.twice hk⟩

/-- The block between the attribute callbacks and the keep-alive query
returns, and keeps the names. -/
theorem namesAndData_returns (cb : Callbacks) (pRecord : DispatchRecord) (fuel : Nat)
    (w : MFTWalker) (hidx : indexPointersSet pRecord.I30 = true)
    (hbuf : bufferOk w) (hroot : rootIsDot w.m_DirectoryNames w.USNRoot)
    (hnames : ∀ f ∈ pRecord.record.m_FileNames, pathFits w fuel f)
    (hdata : ∀ d ∈ pRecord.m_DataAttrList, streamFits w d) :
    ∃ r, namesAndData cb pRecord (fuel + 1) w = Outcome.value r ∧ NamesKept w r.1 := by
  unfold namesAndData
  split
  · exact dataOfUnnamed_returns (fuel + 1) _ w [] hbuf hdata
  · split
    · obtain ⟨r, hr, hk⟩ := namesLoop_returns cb pRecord fuel hidx _ w [] hbuf hroot hnames
      rw [hr, Outcome.value_bind]
      exact ⟨_, rfl, hk⟩
    · exact ⟨_, rfl, NamesKept.same w hbuf⟩

/-- The end of a dispatch returns when the number of records is not 0. -/
theorem keepAliveAndProgress_returns (cb : Callbacks) (w : MFTWalker) (pRecord : DispatchRecord)
    (events : List CallbackEvent) (hcount : w.m_ulMFTRecordCount ≠ 0) :
    ∃ d, keepAliveAndProgress cb w pRecord events = Outcome.value d := by
  unfold keepAliveAndProgress
  rw [if_neg hcount]
  exact ⟨_, rfl⟩

/-- A dispatch returns when the number of records is not 0, the index pointers
are set and the paths of the names of the record fit the name buffer. -/
theorem dispatch_returns (cb : Callbacks) (w : MFTWalker) (pRecord : DispatchRecord)
    (bFreeRecord : Bool) (fuel : Nat) (full : Bool)
    (hcount : w.m_ulMFTRecordCount ≠ 0) (hidx : indexPointersSet pRecord.I30 = true)
    (hbuf : bufferOk w) (hroot : rootIsDot w.m_DirectoryNames w.USNRoot)
    (hnames : ∀ f ∈ pRecord.record.m_FileNames, pathFits w fuel f)
    (hdata : ∀ d ∈ pRecord.m_DataAttrList, streamFits w d) :
    ∃ d, (if full then FullCallCallbackForRecord cb w pRecord bFreeRecord (fuel + 1)
          else Dispatch.SimpleCallCallbackForRecord cb w pRecord bFreeRecord)
        = Outcome.value d := by
  cases full with
  | true =>
    simp only [if_true]
    unfold FullCallCallbackForRecord
    split
    · exact ⟨_, rfl⟩
    · split
      · simp only []
        obtain ⟨r, hr, hk⟩ := namesAndData_returns cb pRecord fuel
          { w with m_dwWalkedItems := (w.m_dwWalkedItems + 1) % 2 ^ 32 } hidx hbuf hroot
          hnames hdata
        rw [hr, Outcome.value_bind]
        exact keepAliveAndProgress_returns cb r.1 pRecord _ (by rw [hk.count]; exact hcount)
      · exact ⟨_, rfl⟩
  | false =>
    simp only [Bool.false_eq_true, if_false]
    unfold Dispatch.SimpleCallCallbackForRecord
    split
    · exact ⟨_, rfl⟩
    · split
      · simp only []
        obtain ⟨ev, hev⟩ := optional_parseI30_returns
          (cb.I30Callback && pRecord.record.m_bIsDirectory) cb pRecord hidx
        simp only [Bool.and_eq_true] at hev ⊢
        rw [hev, Outcome.value_bind]
        exact keepAliveAndProgress_returns cb _ pRecord _ hcount
      · exact ⟨_, rfl⟩

/-- C23: a call of `SimpleCallCallbackForRecord` or of
`FullCallCallbackForRecord` returns when the number of records of the volume is
not 0, the index pointers of the record are set and the paths of its names fit
the name buffer; for a record that it hands to the callbacks (a base record not
handed to them before) it has then queried `KeepAliveCallback` once, behind
all the element, attribute, file-name, directory, data and `$I30` callbacks for
the record, and has reported the progress behind it, and for a record that it
does not hand over it has called nothing.  Every call that returns has made its
calls in that order. -/
theorem C23_callbacks_precede_keep_alive (cb : Callbacks) (w : MFTWalker)
    (pRecord : DispatchRecord) (bFreeRecord : Bool) (fuel : Nat) (full : Bool)
    (hcount : w.m_ulMFTRecordCount ≠ 0) (hidx : indexPointersSet pRecord.I30 = true)
    (hbuf : bufferOk w) (hroot : rootIsDot w.m_DirectoryNames w.USNRoot)
    (hnames : ∀ f ∈ pRecord.record.m_FileNames, pathFits w fuel f)
    (hdata : ∀ d ∈ pRecord.m_DataAttrList, streamFits w d) :
    (∃ d, (if full then FullCallCallbackForRecord cb w pRecord bFreeRecord (fuel + 1)
            else Dispatch.SimpleCallCallbackForRecord cb w pRecord bFreeRecord)
          = Outcome.value d
        ∧ if isDispatched pRecord then
            ∃ (pre : List CallbackEvent) (percent : Nat),
              d.events = pre ++ [KeepAliveCallback, ProgressCallback percent]
                ∧ ∀ e ∈ pre, isRecordCallback e = true
          else d.events = [])
    ∧ ∀ (n : Nat) (d : Dispatch),
        (if full then FullCallCallbackForRecord cb w pRecord bFreeRecord n
            else Dispatch.SimpleCallCallbackForRecord cb w pRecord bFreeRecord)
          = Outcome.value d →
        if isDispatched pRecord then
          ∃ (pre : List CallbackEvent) (percent : Nat),
            d.events = pre ++ [KeepAliveCallback, ProgressCallback percent]
              ∧ ∀ e ∈ pre, isRecordCallback e = true
        else d.events = [] := by
  obtain ⟨d, hd⟩ := dispatch_returns cb w pRecord bFreeRecord fuel full hcount hidx hbuf hroot
    hnames hdata
  exact ⟨⟨d, hd, dispatch_events_shape cb w pRecord bFreeRecord (fuel + 1) full d hd⟩,
    fun n d2 h2 => dispatch_events_shape cb w pRecord bFreeRecord n full d2 h2⟩

set_option maxRecDepth 100000 in
/-- C23 at the record with the name `\c\f.txt` and one data attribute, handed
to `FullCallCallbackForRecord` with a file-name and a data callback. -/
theorem C23_callbacks_precede_keep_alive_witness :
    (∃ d, FullCallCallbackForRecord { DataCallback := true, FileNameCallback := true }
            outsideWalker outsideRecord false (1 + 1) = Outcome.value d
        ∧ ∃ (pre : List CallbackEvent) (percent : Nat),
            d.events = pre ++ [KeepAliveCallback, ProgressCallback percent]
              ∧ ∀ e ∈ pre, isRecordCallback e = true)
    ∧ (FullCallCallbackForRecord { DataCallback := true, FileNameCallback := true }
          outsideWalker outsideRecord false (1 + 1)).bind
        (fun d => Outcome.value d.events)
        = Outcome.value
            [ElementCallback, DataCallback outsideData, KeepAliveCallback,
              ProgressCallback 1] :=
  ⟨(C23_callbacks_precede_keep_alive { DataCallback := true, FileNameCallback := true }
      outsideWalker outsideRecord false 1 true (by decide) rfl
      (by simp [bufferOk, outsideWalker])
      (by intro e he; simp [outsideWalker, SegmentMap.find, List.lookup] at he; subst he; decide)
      (by
        intro f hf
        have hf2 : f = outsideFileName := by simpa [outsideRecord] using hf
        subst hf2
        exact ⟨["c".toList], 5, by decide, by decide⟩)
      (by
        intro d hd
        have hd2 : d = outsideData := by simpa [outsideRecord] using hd
        subst hd2
        show 2 * (("<NoName>".toList ++ streamSuffix (some outsideData)).length + 1)
          ≤ bufferBytes outsideWalker
        decide)).1,
    by decide⟩

end Orc
